import Mathlib

/-!
# Page-level FTL of bdbm_drv (`ftl/algo/page_ftl.c`)

A shallow embedding of the page-mapping FTL: the mapping table, the
round-robin allocator over the active blocks and the facade operations.
Unsigned 64-bit arithmetic is carried out on `Nat` with an explicit
reduction modulo `2^64`.  A run that hits `bdbm_bug_on`, dereferences a
NULL block pointer or indexes an array out of range yields `none`.
-/

namespace PageFtl

/-! ## Machine integers -/

/-- Reduction of a natural number to an unsigned 64-bit value. -/
def u64 (x : Nat) : Nat := x % 2 ^ 64

/-! ## Device parameters and addresses -/

/-- The fields of `nand_params_t` read by `page_ftl.c`. -/
structure nand_params_t where
  nr_channels : Nat
  nr_chips_per_channel : Nat
  nr_blocks_per_chip : Nat
  nr_pages_per_block : Nat
  nr_pages_per_ssd : Nat
deriving DecidableEq, Repr

/-- The fields of `bdbm_phyaddr_t` written and read by `page_ftl.c`. -/
structure bdbm_phyaddr_t where
  channel_no : Nat
  chip_no : Nat
  block_no : Nat
  page_no : Nat
  punit_id : Nat
deriving DecidableEq, Repr

/-- Modelled from the spec: the macro `GET_PUNIT_ID` is not part of the
sources at hand; section 3 defines the parallel-unit id of a physical
address as `chip * C + channel`. -/
def GET_PUNIT_ID (np : nand_params_t) (ppa : bdbm_phyaddr_t) : Nat :=
  ppa.chip_no * np.nr_channels + ppa.channel_no

/-! ## Mapping table -/

def PFTL_PAGE_NOT_ALLOCATED : Nat := 0
def PFTL_PAGE_VALID : Nat := 1
def PFTL_PAGE_INVALID : Nat := 2
def PFTL_PAGE_INVALID_ADDR : Nat := 2 ^ 64 - 1

/-- One entry of the page-level mapping table (`struct bdbm_page_mapping_entry`). -/
structure bdbm_page_mapping_entry where
  status : Nat
  phyaddr : bdbm_phyaddr_t
deriving DecidableEq, Repr

/-- The entry written by `__bdbm_page_ftl_create_mapping_table` into every
slot of the zero-filled table. -/
def fresh_mapping_entry : bdbm_page_mapping_entry :=
  { status := PFTL_PAGE_NOT_ALLOCATED,
    phyaddr := { channel_no := PFTL_PAGE_INVALID_ADDR, chip_no := PFTL_PAGE_INVALID_ADDR,
                 block_no := PFTL_PAGE_INVALID_ADDR, page_no := PFTL_PAGE_INVALID_ADDR,
                 punit_id := 0 } }

def __bdbm_page_ftl_create_mapping_table (np : nand_params_t) : List bdbm_page_mapping_entry :=
  List.replicate np.nr_pages_per_ssd fresh_mapping_entry

/-! ## Active block manager

`algo/abm.c` is not among the sources; the definitions of this section
follow sections 3 and 4.2 of the specification. -/

/-- Modelled from the spec: the state of a block (section 3, Block). -/
inductive bdbm_abm_blk_state where
  | FREE | ACTIVE | DIRTY | BAD
deriving DecidableEq, Repr

/-- Modelled from the spec: the state of a page in the per-block table `pst`
(section 3, Block). -/
inductive bdbm_abm_page_state where
  | FREE | VALID | INVALID
deriving DecidableEq, Repr

/-- Modelled from the spec: the block descriptor `bdbm_abm_block_t`
(section 3, Block); the field names are those used by `page_ftl.c`. -/
structure bdbm_abm_block_t where
  channel_no : Nat
  chip_no : Nat
  block_no : Nat
  state : bdbm_abm_blk_state
  pst : List bdbm_abm_page_state
  nr_invalid_pages : Nat
  nr_valid_pages : Nat
  erase_count : Nat
deriving DecidableEq, Repr

/-- Modelled from the spec: the ABM `bdbm_abm_info_t` (sections 3 and 4.2).
`blocks` holds the descriptors in (channel, chip, block) row-major order; a
block pointer is an index into `blocks`.  Each of the four lists is kept per
(channel, chip), at position `channel * K + chip`, head first. -/
structure bdbm_abm_info_t where
  np : nand_params_t
  blocks : List bdbm_abm_block_t
  list_free : List (List Nat)
  list_active : List (List Nat)
  list_dirty : List (List Nat)
  list_bad : List (List Nat)
deriving DecidableEq, Repr

/-- Position of the lists of (channel, chip) in the per-unit tables of the ABM. -/
def abm_unit (np : nand_params_t) (channel_no chip_no : Nat) : Nat :=
  channel_no * np.nr_chips_per_channel + chip_no

/-- Modelled from the spec: `create(G)` of section 4.2 allocates `B*C*K`
descriptors, all FREE, all linked on the free list of their (channel, chip).
The order inside a free list is not fixed by the specification; ascending
block number is used. -/
def bdbm_abm_create (np : nand_params_t) : bdbm_abm_info_t :=
  let nr_units := np.nr_channels * np.nr_chips_per_channel
  { np := np,
    blocks := (List.range (nr_units * np.nr_blocks_per_chip)).map fun r =>
      { channel_no := r / np.nr_blocks_per_chip / np.nr_chips_per_channel,
        chip_no := r / np.nr_blocks_per_chip % np.nr_chips_per_channel,
        block_no := r % np.nr_blocks_per_chip,
        state := bdbm_abm_blk_state.FREE,
        pst := List.replicate np.nr_pages_per_block bdbm_abm_page_state.FREE,
        nr_invalid_pages := 0, nr_valid_pages := 0, erase_count := 0 },
    list_free := (List.range nr_units).map fun u =>
      (List.range np.nr_blocks_per_chip).map fun b => u * np.nr_blocks_per_chip + b,
    list_active := List.replicate nr_units [],
    list_dirty := List.replicate nr_units [],
    list_bad := List.replicate nr_units [] }

/-- Modelled from the spec: `bdbm_abm_get_block`, the pointer to the
descriptor of (channel, chip, block), NULL when a coordinate is out of range. -/
def bdbm_abm_get_block (bai : bdbm_abm_info_t) (channel_no chip_no block_no : Nat) : Option Nat :=
  if channel_no < bai.np.nr_channels ∧ chip_no < bai.np.nr_chips_per_channel
      ∧ block_no < bai.np.nr_blocks_per_chip then
    some (abm_unit bai.np channel_no chip_no * bai.np.nr_blocks_per_chip + block_no)
  else none

/-- Modelled from the spec: `get_free_block_prepare(ch, chip)` of section 4.2
peeks at the head of the free list of (ch, chip) and fails on an empty list. -/
def bdbm_abm_get_free_block_prepare (bai : bdbm_abm_info_t) (channel_no chip_no : Nat) :
    Option Nat :=
  (bai.list_free.getD (abm_unit bai.np channel_no chip_no) []).head?

/-- Modelled from the spec: `get_free_block_commit(block)` of section 4.2
turns the prepared block from FREE to ACTIVE and moves it from the free list
to the active list of its (channel, chip). -/
def bdbm_abm_get_free_block_commit (bai : bdbm_abm_info_t) (r : Nat) : bdbm_abm_info_t :=
  match bai.blocks[r]? with
  | none => bai
  | some b =>
    let u := abm_unit bai.np b.channel_no b.chip_no
    { bai with
      blocks := bai.blocks.set r { b with state := bdbm_abm_blk_state.ACTIVE },
      list_free := bai.list_free.set u ((bai.list_free.getD u []).erase r),
      list_active := bai.list_active.set u (bai.list_active.getD u [] ++ [r]) }

/-- Modelled from the spec: `invalidate_page(ch, chip, block, page)` of
section 4.2: a page whose `pst` entry is VALID becomes INVALID and
`nr_invalid_pages` grows by one; the state of the block is left as it is; a
second invalidation is ignored.  The call on a FREE block is an error; the
caller in `page_ftl.c` receives no result, and the ABM is left as it was.
Coordinates outside the geometry name no block and change nothing. -/
def bdbm_abm_invalidate_page (bai : bdbm_abm_info_t)
    (channel_no chip_no block_no page_no : Nat) : bdbm_abm_info_t :=
  match bdbm_abm_get_block bai channel_no chip_no block_no with
  | none => bai
  | some r =>
    match bai.blocks[r]? with
    | none => bai
    | some b =>
      if b.state ≠ bdbm_abm_blk_state.FREE ∧ b.pst[page_no]? = some bdbm_abm_page_state.VALID then
        { bai with
          blocks := bai.blocks.set r
            { b with pst := b.pst.set page_no bdbm_abm_page_state.INVALID,
                     nr_invalid_pages := b.nr_invalid_pages + 1 } }
      else bai

/-! ## Private state of the page-level FTL -/

/-- The fields of `struct bdbm_page_ftl_private` that carry FTL state.  The
entries of `ac_bab` and `gc_bab` are block pointers, `none` for NULL. -/
structure bdbm_page_ftl_private where
  bai : bdbm_abm_info_t
  ptr_mapping_table : List bdbm_page_mapping_entry
  nr_punits : Nat
  curr_puid : Nat
  curr_page_ofs : Nat
  ac_bab : List (Option Nat)
  gc_bab : List (Option Nat)
deriving DecidableEq, Repr

/-- The channel-major list of (channel, chip) pairs visited by the two
nested `for` loops of `__bdbm_page_ftl_get_active_blocks`. -/
def punit_pairs (np : nand_params_t) : List (Nat × Nat) :=
  (List.range np.nr_channels).flatMap fun i =>
    (List.range np.nr_chips_per_channel).map fun j => (i, j)

/-- The body of the loops of `__bdbm_page_ftl_get_active_blocks`: `pos` is the
distance of the moving pointer `bab` from the start of the array.  The result
is the return code, the ABM and the array. -/
def get_active_blocks_loop (bai : bdbm_abm_info_t) (bab : List (Option Nat)) (pos : Nat) :
    List (Nat × Nat) → Option (Nat × bdbm_abm_info_t × List (Option Nat))
  | [] => some (0, bai, bab)
  | (i, j) :: rest =>
    if pos < bab.length then
      match bdbm_abm_get_free_block_prepare bai i j with
      | some r =>
        get_active_blocks_loop (bdbm_abm_get_free_block_commit bai r)
          (bab.set pos (some r)) (pos + 1) rest
      | none => some (1, bai, bab.set pos none)
    else none

def __bdbm_page_ftl_get_active_blocks (np : nand_params_t) (bai : bdbm_abm_info_t)
    (bab : List (Option Nat)) : Option (Nat × bdbm_abm_info_t × List (Option Nat)) :=
  get_active_blocks_loop bai bab 0 (punit_pairs np)

/-- The array of `nr_punits` NULL pointers filled by
`__bdbm_page_ftl_get_active_blocks`; `none` stands for the NULL result. -/
def __bdbm_page_ftl_create_active_blocks (np : nand_params_t) (bai : bdbm_abm_info_t) :
    Option (bdbm_abm_info_t × List (Option Nat)) :=
  let nr_punits := u64 (np.nr_chips_per_channel * np.nr_channels)
  match __bdbm_page_ftl_get_active_blocks np bai (List.replicate nr_punits none) with
  | some (0, bai1, bab) => some (bai1, bab)
  | _ => none

/-- The function `bdbm_page_ftl_create`; `none` stands for the return code 1,
after which the private state is destroyed.  Memory allocation is taken to
succeed. -/
def bdbm_page_ftl_create (np : nand_params_t) : Option bdbm_page_ftl_private :=
  let nr_punits := u64 (np.nr_chips_per_channel * np.nr_channels)
  match __bdbm_page_ftl_create_active_blocks np (bdbm_abm_create np) with
  | none => none
  | some (bai, ac_bab) =>
    some { bai := bai,
           ptr_mapping_table := __bdbm_page_ftl_create_mapping_table np,
           nr_punits := nr_punits,
           curr_puid := 0,
           curr_page_ofs := 0,
           ac_bab := ac_bab,
           gc_bab := List.replicate nr_punits none }

/-! ## Facade operations -/

/-- The function `bdbm_page_ftl_get_free_ppa`.  The result is the return code,
the private state and the contents of `*ppa`.  The call aborts on a division
by a zero `nr_channels`, on a slot of `ac_bab` that is out of range or NULL,
and when one of the three `bdbm_bug_on` checks fires. -/
def bdbm_page_ftl_get_free_ppa (np : nand_params_t) (p : bdbm_page_ftl_private)
    (_lpa : Nat) (ppa : bdbm_phyaddr_t) :
    Option (Nat × bdbm_page_ftl_private × bdbm_phyaddr_t) :=
  if np.nr_channels = 0 then none else
  let curr_channel := p.curr_puid % np.nr_channels
  let curr_chip := p.curr_puid / np.nr_channels
  match p.ac_bab[u64 (curr_channel * np.nr_chips_per_channel + curr_chip)]? with
  | none => none
  | some none => none
  | some (some r) =>
    match p.bai.blocks[r]? with
    | none => none
    | some b =>
      let ppa0 := { ppa with channel_no := b.channel_no, chip_no := b.chip_no,
                             block_no := b.block_no, page_no := p.curr_page_ofs }
      let ppa1 := { ppa0 with punit_id := GET_PUNIT_ID np ppa0 }
      if ppa1.channel_no ≠ curr_channel ∨ ppa1.chip_no ≠ curr_chip
          ∨ ppa1.page_no ≥ np.nr_pages_per_block then none
      else if u64 (p.curr_puid + 1) = p.nr_punits then
        let p1 := { p with curr_puid := 0, curr_page_ofs := u64 (p.curr_page_ofs + 1) }
        if p1.curr_page_ofs = np.nr_pages_per_block then
          match __bdbm_page_ftl_get_active_blocks np p1.bai p1.ac_bab with
          | none => none
          | some (ret, bai1, bab) =>
            let p2 := { p1 with bai := bai1, ac_bab := bab }
            if ret ≠ 0 then some (1, p2, ppa1)
            else some (0, { p2 with curr_page_ofs := 0 }, ppa1)
        else some (0, p1, ppa1)
      else some (0, { p with curr_puid := u64 (p.curr_puid + 1) }, ppa1)

/-- The function `bdbm_page_ftl_map_lpa_to_ppa`. -/
def bdbm_page_ftl_map_lpa_to_ppa (np : nand_params_t) (p : bdbm_page_ftl_private)
    (lpa : Nat) (ptr_phyaddr : bdbm_phyaddr_t) : Option (Nat × bdbm_page_ftl_private) :=
  if lpa ≥ np.nr_pages_per_ssd then some (1, p)
  else
    match p.ptr_mapping_table[lpa]? with
    | none => none
    | some me =>
      let bai1 :=
        if me.status = PFTL_PAGE_VALID then
          bdbm_abm_invalidate_page p.bai me.phyaddr.channel_no me.phyaddr.chip_no
            me.phyaddr.block_no me.phyaddr.page_no
        else p.bai
      let me1 : bdbm_page_mapping_entry :=
        { status := PFTL_PAGE_VALID,
          phyaddr := { me.phyaddr with channel_no := ptr_phyaddr.channel_no,
                                       chip_no := ptr_phyaddr.chip_no,
                                       block_no := ptr_phyaddr.block_no,
                                       page_no := ptr_phyaddr.page_no } }
      some (0, { p with bai := bai1, ptr_mapping_table := p.ptr_mapping_table.set lpa me1 })

/-- The function `bdbm_page_ftl_get_ppa`.  The result is the return code, the
private state and the contents of `*ppa`. -/
def bdbm_page_ftl_get_ppa (np : nand_params_t) (p : bdbm_page_ftl_private)
    (lpa : Nat) (ppa : bdbm_phyaddr_t) :
    Option (Nat × bdbm_page_ftl_private × bdbm_phyaddr_t) :=
  if lpa ≥ np.nr_pages_per_ssd then some (1, p, ppa)
  else
    match p.ptr_mapping_table[lpa]? with
    | none => none
    | some me =>
      if me.status ≠ PFTL_PAGE_VALID then
        some (1, p, { channel_no := 0, chip_no := 0, block_no := 0, page_no := 0, punit_id := 0 })
      else
        let ppa0 := { ppa with channel_no := me.phyaddr.channel_no, chip_no := me.phyaddr.chip_no,
                               block_no := me.phyaddr.block_no, page_no := me.phyaddr.page_no }
        some (0, p, { ppa0 with punit_id := GET_PUNIT_ID np ppa0 })

/-- One pass of the body of the `for` loop of `bdbm_page_ftl_invalidate_lpa`
at index `loop`. -/
def invalidate_lpa_body (p : bdbm_page_ftl_private) (loop : Nat) : Option bdbm_page_ftl_private :=
  match p.ptr_mapping_table[loop]? with
  | none => none
  | some me =>
    if me.status = PFTL_PAGE_VALID then
      some { p with
        bai := bdbm_abm_invalidate_page p.bai me.phyaddr.channel_no me.phyaddr.chip_no
                 me.phyaddr.block_no me.phyaddr.page_no,
        ptr_mapping_table := p.ptr_mapping_table.set loop { me with status := PFTL_PAGE_INVALID } }
    else some p

/-- The `for` loop of `bdbm_page_ftl_invalidate_lpa`: `n` passes remain, the
next one at index `loop`. -/
def invalidate_lpa_loop : Nat → Nat → bdbm_page_ftl_private → Option bdbm_page_ftl_private
  | 0, _, p => some p
  | n + 1, loop, p =>
    match invalidate_lpa_body p loop with
    | none => none
    | some p1 => invalidate_lpa_loop n (loop + 1) p1

/-- The function `bdbm_page_ftl_invalidate_lpa`.  The loop runs from `lpa` up
to the 64-bit sum `lpa + len`, hence `u64 (lpa + len) - lpa` times. -/
def bdbm_page_ftl_invalidate_lpa (np : nand_params_t) (p : bdbm_page_ftl_private)
    (lpa len : Nat) : Option (Nat × bdbm_page_ftl_private) :=
  if u64 (lpa + len) > np.nr_pages_per_ssd then some (1, p)
  else
    match invalidate_lpa_loop (u64 (lpa + len) - lpa) lpa p with
    | none => none
    | some p1 => some (0, p1)

/-! ## Sequences of facade calls -/

/-- A call of one of the four facade operations on the mapping and the allocator. -/
inductive ftl_op where
  | get_free_ppa (lpa : Nat)
  | get_ppa (lpa : Nat)
  | map_lpa_to_ppa (lpa : Nat) (ppa : bdbm_phyaddr_t)
  | invalidate_lpa (lpa len : Nat)
deriving DecidableEq, Repr

/-- The buffer handed to the operations that write a physical address. -/
def zero_ppa : bdbm_phyaddr_t :=
  { channel_no := 0, chip_no := 0, block_no := 0, page_no := 0, punit_id := 0 }

/-- One facade call: the return code, the state after the call and, for the
two operations that produce one, the physical address written. -/
def ftl_step (np : nand_params_t) (p : bdbm_page_ftl_private) :
    ftl_op → Option (Nat × bdbm_page_ftl_private × Option bdbm_phyaddr_t)
  | ftl_op.get_free_ppa lpa =>
    (bdbm_page_ftl_get_free_ppa np p lpa zero_ppa).map fun x => (x.1, x.2.1, some x.2.2)
  | ftl_op.get_ppa lpa =>
    (bdbm_page_ftl_get_ppa np p lpa zero_ppa).map fun x => (x.1, x.2.1, some x.2.2)
  | ftl_op.map_lpa_to_ppa lpa ppa =>
    (bdbm_page_ftl_map_lpa_to_ppa np p lpa ppa).map fun x => (x.1, x.2, none)
  | ftl_op.invalidate_lpa lpa len =>
    (bdbm_page_ftl_invalidate_lpa np p lpa len).map fun x => (x.1, x.2, none)

/-- The state after a sequence of facade calls, `none` when a call aborts. -/
def ftl_run (np : nand_params_t) : bdbm_page_ftl_private → List ftl_op → Option bdbm_page_ftl_private
  | p, [] => some p
  | p, op :: ops =>
    match ftl_step np p op with
    | none => none
    | some x => ftl_run np x.2.1 ops

/-- A call that maps or invalidates logical pages other than `lpa`. -/
def on_other_lpa (lpa : Nat) : ftl_op → Bool
  | ftl_op.map_lpa_to_ppa l _ => decide (l ≠ lpa)
  | ftl_op.invalidate_lpa l len => decide (¬ (l ≤ lpa ∧ lpa < l + len))
  | _ => false

/-- The physical addresses of the VALID entries among the `n` entries of the
table that start at index `start`, in ascending order of the index. -/
def valid_ppas (tbl : List bdbm_page_mapping_entry) (start n : Nat) : List bdbm_phyaddr_t :=
  (List.range' start n).filterMap fun i =>
    match tbl[i]? with
    | some me => if me.status = PFTL_PAGE_VALID then some me.phyaddr else none
    | none => none

/-- The ABM after one call of `bdbm_abm_invalidate_page` for each address of a list. -/
def abm_invalidate_pages (bai : bdbm_abm_info_t) (l : List bdbm_phyaddr_t) : bdbm_abm_info_t :=
  l.foldl (fun b a => bdbm_abm_invalidate_page b a.channel_no a.chip_no a.block_no a.page_no) bai

/-! ## Concrete geometries and states -/

/-- The geometry of scenario S1: C = 2, K = 2, B = 4, P = 4. -/
def S1_np : nand_params_t :=
  { nr_channels := 2, nr_chips_per_channel := 2, nr_blocks_per_chip := 4,
    nr_pages_per_block := 4, nr_pages_per_ssd := 64 }

/-- The FTL of scenario S1 right after `bdbm_page_ftl_create`. -/
def S1_fresh : bdbm_page_ftl_private :=
  (bdbm_page_ftl_create S1_np).get (by decide)

/-- A physical address with the given coordinates. -/
def mk_ppa (channel_no chip_no block_no page_no : Nat) : bdbm_phyaddr_t :=
  { channel_no := channel_no, chip_no := chip_no, block_no := block_no, page_no := page_no,
    punit_id := 0 }

/-- The host write path: a successful `get_free_ppa` followed by
`map_lpa_to_ppa` of `lpa` to the address obtained. -/
def ftl_write (np : nand_params_t) (p : bdbm_page_ftl_private) (lpa : Nat) :
    Option bdbm_page_ftl_private :=
  match bdbm_page_ftl_get_free_ppa np p lpa zero_ppa with
  | some (0, p1, out) => (bdbm_page_ftl_map_lpa_to_ppa np p1 lpa out).map fun x => x.2
  | _ => none

/-- The host write path applied to a list of logical pages in turn. -/
def ftl_writes (np : nand_params_t) : bdbm_page_ftl_private → List Nat → Option bdbm_page_ftl_private
  | p, [] => some p
  | p, lpa :: rest =>
    match ftl_write np p lpa with
    | none => none
    | some p1 => ftl_writes np p1 rest

/-- Scenario S1: logical pages 0..7 written in order on the fresh FTL. -/
def S1_written : bdbm_page_ftl_private :=
  (ftl_writes S1_np S1_fresh [0, 1, 2, 3, 4, 5, 6, 7]).get (by decide)

/-- Scenario S2: logical page 0 written once more after scenario S1. -/
def S2_overwritten : bdbm_page_ftl_private :=
  (ftl_write S1_np S1_written 0).get (by decide)

/-! ## Well-formed states -/

/-- The coordinates (channel, chip, block) of a block descriptor. -/
def blk_coords (b : bdbm_abm_block_t) : Nat × Nat × Nat :=
  (b.channel_no, b.chip_no, b.block_no)

/-- The coordinates of the block descriptors of the ABM, by block pointer. -/
def abm_coords (bai : bdbm_abm_info_t) : List (Nat × Nat × Nat) :=
  bai.blocks.map blk_coords

/-- The free list kept at position `u` of the per-unit table of the ABM. -/
def free_list (bai : bdbm_abm_info_t) (u : Nat) : List Nat :=
  bai.list_free.getD u []

/-- The number of parallel units `C * K`. -/
def nr_units (np : nand_params_t) : Nat :=
  np.nr_channels * np.nr_chips_per_channel

/-- The geometry has at least one channel, chip and page per block, and the
number of parallel units and of pages per block fit in 64 bits. -/
def geometry_ok (np : nand_params_t) : Prop :=
  0 < np.nr_channels ∧ 0 < np.nr_chips_per_channel ∧ 0 < np.nr_pages_per_block ∧
  nr_units np < 2 ^ 64 ∧ np.nr_pages_per_block < 2 ^ 64

/-- The part of the ABM contract that the allocator relies on: every block on
the free list of a unit is a descriptor of that unit, no free list holds a
block twice, and no two descriptors have the same coordinates. -/
def abm_ok (np : nand_params_t) (bai : bdbm_abm_info_t) : Prop :=
  bai.np = np ∧ bai.list_free.length = nr_units np ∧
  (∀ u, u < nr_units np → ∀ r ∈ free_list bai u,
    ∃ c, (abm_coords bai)[r]? = some c ∧ abm_unit np c.1 c.2.1 = u ∧
      c.2.1 < np.nr_chips_per_channel) ∧
  (∀ u, u < nr_units np → (free_list bai u).Nodup) ∧
  (abm_coords bai).Nodup

/-- The allocator invariant: the cursor is inside the geometry, every slot of
`ac_bab` points to a descriptor of its unit that is on no free list, and the
mapping table has `nr_pages_per_ssd` entries. -/
def alloc_ok (np : nand_params_t) (p : bdbm_page_ftl_private) : Prop :=
  p.nr_punits = nr_units np ∧ p.curr_puid < nr_units np ∧
  p.curr_page_ofs < np.nr_pages_per_block ∧ p.ac_bab.length = nr_units np ∧
  (∀ u, u < nr_units np →
    ∃ r c, p.ac_bab[u]? = some (some r) ∧ (abm_coords p.bai)[r]? = some c ∧
      abm_unit np c.1 c.2.1 = u ∧ c.2.1 < np.nr_chips_per_channel ∧
      ∀ v, v < nr_units np → r ∉ free_list p.bai v) ∧
  p.ptr_mapping_table.length = np.nr_pages_per_ssd ∧
  abm_ok np p.bai

/-- The call is a `get_free_ppa`. -/
def is_alloc : ftl_op → Bool
  | ftl_op.get_free_ppa _ => true
  | _ => false

/-- The number of `get_free_ppa` calls in a sequence. -/
def nr_allocs (ops : List ftl_op) : Nat :=
  (ops.filter is_alloc).length

/-- The (channel, chip, block, page) of a physical address. -/
def ppa_tuple (a : bdbm_phyaddr_t) : Nat × Nat × Nat × Nat :=
  (a.channel_no, a.chip_no, a.block_no, a.page_no)

/-- The addresses handed out by the `get_free_ppa` calls of a sequence that
returned 0, in call order.  The sequence ends at the first call that aborts. -/
def alloc_trace (np : nand_params_t) :
    bdbm_page_ftl_private → List ftl_op → List (Nat × Nat × Nat × Nat)
  | _, [] => []
  | p, op :: ops =>
    match ftl_step np p op with
    | none => []
    | some (ret, p1, out) =>
      match op, out with
      | ftl_op.get_free_ppa _, some a =>
        if ret = 0 then ppa_tuple a :: alloc_trace np p1 ops else alloc_trace np p1 ops
      | _, _ => alloc_trace np p1 ops

/-- The geometry of scenario S4: C = 1, K = 1, B = 4, P = 2. -/
def S4_np : nand_params_t :=
  { nr_channels := 1, nr_chips_per_channel := 1, nr_blocks_per_chip := 4,
    nr_pages_per_block := 2, nr_pages_per_ssd := 8 }

/-- The FTL of scenario S4 right after `bdbm_page_ftl_create`. -/
def S4_fresh : bdbm_page_ftl_private :=
  (bdbm_page_ftl_create S4_np).get (by decide)

instance (np : nand_params_t) : Decidable (geometry_ok np) := by
  unfold geometry_ok; infer_instance

/-- The FTL state after `n` successive `get_free_ppa` calls, together with the
return codes of the calls; `none` when a call aborts. -/
def alloc_n (np : nand_params_t) :
    Nat → bdbm_page_ftl_private → Option (List Nat × bdbm_page_ftl_private)
  | 0, p => some ([], p)
  | n + 1, p =>
    match bdbm_page_ftl_get_free_ppa np p 0 zero_ppa with
    | none => none
    | some (ret, p1, _) => (alloc_n np n p1).map fun x => (ret :: x.1, x.2)

/-- Scenario S4 after seven allocations: the cursor is on the last page of
the last unit. -/
def S4_last_page : bdbm_page_ftl_private :=
  ((alloc_n S4_np 7 S4_fresh).get (by decide)).2

/-- The geometry with a single block of a single page: C = K = B = P = 1. -/
def T1_np : nand_params_t :=
  { nr_channels := 1, nr_chips_per_channel := 1, nr_blocks_per_chip := 1,
    nr_pages_per_block := 1, nr_pages_per_ssd := 1 }

/-- The FTL of geometry `T1_np` right after `bdbm_page_ftl_create`. -/
def T1_fresh : bdbm_page_ftl_private :=
  (bdbm_page_ftl_create T1_np).get (by decide)

/-- The addresses handed out so far: each one lies in a block that is on no
free list, and an address in a block that is still active lies before the cursor. -/
def hist_ok (np : nand_params_t) (p : bdbm_page_ftl_private)
    (H : List (Nat × Nat × Nat × Nat)) : Prop :=
  ∀ a ∈ H, a.1 < np.nr_channels ∧ a.2.1 < np.nr_chips_per_channel ∧
    ∃ r, (abm_coords p.bai)[r]? = some (a.1, a.2.1, a.2.2.1) ∧
      (∀ v, v < nr_units np → r ∉ free_list p.bai v) ∧
      (p.ac_bab[abm_unit np a.1 a.2.1]? = some (some r) →
        a.2.2.2 < p.curr_page_ofs ∨
        (a.2.2.2 = p.curr_page_ofs ∧ a.2.1 * np.nr_channels + a.1 < p.curr_puid))

/-- A sequence of calls on the FTL of scenario S1 that holds five allocations
among lookups, maps and trims. -/
def S1_ops : List ftl_op :=
  [ftl_op.get_free_ppa 0, ftl_op.map_lpa_to_ppa 0 (mk_ppa 0 0 0 0), ftl_op.get_free_ppa 1,
   ftl_op.get_ppa 0, ftl_op.get_free_ppa 2, ftl_op.invalidate_lpa 0 1,
   ftl_op.map_lpa_to_ppa 70 (mk_ppa 9 9 9 9), ftl_op.get_free_ppa 3, ftl_op.get_free_ppa 4]

/-- A sequence of calls on the FTL of scenario S4 that allocates until no free
block is left and goes on. -/
def S4_ops : List ftl_op :=
  [ftl_op.get_free_ppa 0, ftl_op.map_lpa_to_ppa 0 (mk_ppa 0 0 0 0), ftl_op.get_free_ppa 1,
   ftl_op.get_free_ppa 2, ftl_op.get_free_ppa 3, ftl_op.map_lpa_to_ppa 0 (mk_ppa 0 0 1 1),
   ftl_op.get_free_ppa 4, ftl_op.get_free_ppa 5, ftl_op.get_free_ppa 6,
   ftl_op.get_free_ppa 7, ftl_op.invalidate_lpa 0 8, ftl_op.get_free_ppa 0]


/-! ## Garbage collection: trigger and victim selection -/

/-- The function `bdbm_page_ftl_is_gc_needed`.  The two arguments are the
results of the ABM queries `bdbm_abm_get_nr_total_blocks` and
`bdbm_abm_get_nr_free_blocks`; the product `nr_free_blks * 100` is a 64-bit
product, and a division by a zero total aborts. -/
def bdbm_page_ftl_is_gc_needed (nr_total_blks nr_free_blks : Nat) : Option Nat :=
  if nr_total_blks = 0 then none
  else if u64 (nr_free_blks * 100) / nr_total_blks ≤ 1 then some 1
  else some 0

/-- Modelled from the spec: `for_each_dirty_block(ch, chip, visitor)` of section
4.2, the dirty list of (channel, chip) in list order, as walked by the macro
`bdbm_abm_list_for_each_dirty_block` with `bdbm_abm_fetch_dirty_block`. -/
def bdbm_abm_dirty_blocks (bai : bdbm_abm_info_t) (channel_no chip_no : Nat) : List Nat :=
  bai.list_dirty.getD (abm_unit bai.np channel_no chip_no) []

/-- The loop of `__bdbm_page_ftl_victim_selection_greedy` over the blocks `b`
of the dirty list: `a` is the active block of the unit and `v` the victim so
far.  Reading a field through a NULL or dangling pointer aborts. -/
def victim_selection_greedy_loop (np : nand_params_t) (bai : bdbm_abm_info_t) (a : Option Nat) :
    Option Nat → List Nat → Option (Option Nat)
  | v, [] => some v
  | v, b :: rest =>
    if a = some b then victim_selection_greedy_loop np bai a v rest
    else
      match bai.blocks[b]? with
      | none => none
      | some bb =>
        if bb.nr_invalid_pages = np.nr_pages_per_block then some (some b)
        else
          match v with
          | none => victim_selection_greedy_loop np bai a (some b) rest
          | some vr =>
            match a.bind (fun ar => bai.blocks[ar]?), bai.blocks[vr]? with
            | some ab, some vb =>
              if ab.nr_invalid_pages > vb.nr_invalid_pages then
                victim_selection_greedy_loop np bai a (some b) rest
              else victim_selection_greedy_loop np bai a v rest
            | _, _ => none

/-- The function `__bdbm_page_ftl_victim_selection_greedy`: the victim of
(channel, chip), `some none` for the NULL result. -/
def __bdbm_page_ftl_victim_selection_greedy (np : nand_params_t) (p : bdbm_page_ftl_private)
    (channel_no chip_no : Nat) : Option (Option Nat) :=
  match p.ac_bab[u64 (channel_no * np.nr_chips_per_channel + chip_no)]? with
  | none => none
  | some a =>
    victim_selection_greedy_loop np p.bai a none (bdbm_abm_dirty_blocks p.bai channel_no chip_no)

/-- A geometry with one unit of three blocks of four pages. -/
def V_np : nand_params_t :=
  { nr_channels := 1, nr_chips_per_channel := 1, nr_blocks_per_chip := 3,
    nr_pages_per_block := 4, nr_pages_per_ssd := 12 }

/-- A state of geometry `V_np`: block 0 is the active block, the dirty list
holds block 1 with one invalid page and block 2 with three invalid pages. -/
def V_state : bdbm_page_ftl_private :=
  { bai :=
      { np := V_np,
        blocks :=
          [{ channel_no := 0, chip_no := 0, block_no := 0, state := bdbm_abm_blk_state.ACTIVE,
             pst := [bdbm_abm_page_state.VALID, bdbm_abm_page_state.FREE,
                     bdbm_abm_page_state.FREE, bdbm_abm_page_state.FREE],
             nr_invalid_pages := 0, nr_valid_pages := 1, erase_count := 0 },
           { channel_no := 0, chip_no := 0, block_no := 1, state := bdbm_abm_blk_state.DIRTY,
             pst := [bdbm_abm_page_state.INVALID, bdbm_abm_page_state.VALID,
                     bdbm_abm_page_state.VALID, bdbm_abm_page_state.VALID],
             nr_invalid_pages := 1, nr_valid_pages := 3, erase_count := 0 },
           { channel_no := 0, chip_no := 0, block_no := 2, state := bdbm_abm_blk_state.DIRTY,
             pst := [bdbm_abm_page_state.INVALID, bdbm_abm_page_state.INVALID,
                     bdbm_abm_page_state.INVALID, bdbm_abm_page_state.VALID],
             nr_invalid_pages := 3, nr_valid_pages := 1, erase_count := 0 }],
        list_free := [[]], list_active := [[0]], list_dirty := [[1, 2]], list_bad := [[]] },
    ptr_mapping_table := __bdbm_page_ftl_create_mapping_table V_np,
    nr_punits := 1, curr_puid := 0, curr_page_ofs := 1,
    ac_bab := [some 0], gc_bab := [none] }


/-! ## Block states under the allocator -/

/-- Every slot of `ac_bab` points to a block in state ACTIVE. -/
def slots_active (np : nand_params_t) (p : bdbm_page_ftl_private) : Prop :=
  ∀ u, u < nr_units np →
    ∃ (r : Nat) (b : bdbm_abm_block_t), p.ac_bab[u]? = some (some r) ∧
      p.bai.blocks[r]? = some b ∧ b.state = bdbm_abm_blk_state.ACTIVE


/-! ## Host writes and trims -/

/-- A host request: the write of a logical page, or the trim of a range. -/
inductive host_op where
  | write (lpa : Nat)
  | trim (lpa len : Nat)
deriving DecidableEq, Repr

/-- The state after a sequence of host requests: a write is a `get_free_ppa`
that returns 0 followed by `map_lpa_to_ppa` to the address obtained, a trim is
`invalidate_lpa`.  The result is `none` when an allocation does not return 0. -/
def host_run (np : nand_params_t) :
    bdbm_page_ftl_private → List host_op → Option bdbm_page_ftl_private
  | p, [] => some p
  | p, host_op.write lpa :: ops =>
    match ftl_write np p lpa with
    | none => none
    | some p1 => host_run np p1 ops
  | p, host_op.trim lpa len :: ops =>
    match bdbm_page_ftl_invalidate_lpa np p lpa len with
    | none => none
    | some x => host_run np x.2 ops

/-- The addresses `H` cover the VALID entries of the mapping table, and no two
VALID entries hold the same (channel, chip, block, page). -/
def mapping_ok (p : bdbm_page_ftl_private) (H : List (Nat × Nat × Nat × Nat)) : Prop :=
  (∀ (l : Nat) (m : bdbm_page_mapping_entry), p.ptr_mapping_table[l]? = some m →
    m.status = PFTL_PAGE_VALID → ppa_tuple m.phyaddr ∈ H) ∧
  (∀ (l1 l2 : Nat) (m1 m2 : bdbm_page_mapping_entry), l1 ≠ l2 →
    p.ptr_mapping_table[l1]? = some m1 → p.ptr_mapping_table[l2]? = some m2 →
    m1.status = PFTL_PAGE_VALID → m2.status = PFTL_PAGE_VALID →
    ppa_tuple m1.phyaddr ≠ ppa_tuple m2.phyaddr)

/-- A sequence of host requests on the FTL of scenario S1: eight writes, a
trim, and two writes of pages written before. -/
def S1_host_ops : List host_op :=
  [host_op.write 0, host_op.write 1, host_op.write 2, host_op.write 3, host_op.write 4,
   host_op.write 5, host_op.write 6, host_op.write 7, host_op.trim 2 3, host_op.write 0,
   host_op.write 3]

/-- The state after the requests `S1_host_ops`. -/
def S1_host_state : bdbm_page_ftl_private :=
  (host_run S1_np S1_fresh S1_host_ops).get (by decide)


/-! ## Snapshot: store and load

The two snapshot files are held as lists of records.  `bdbm_abm_store` and
`bdbm_abm_load` belong to `algo/abm.c`, which is not among the sources. -/

/-- Modelled from the spec: one record of the ABM file (section 6): the state,
the erase count, the two page counters and the page status table of a block. -/
structure bdbm_abm_record where
  state : bdbm_abm_blk_state
  erase_count : Nat
  nr_invalid_pages : Nat
  nr_valid_pages : Nat
  pst : List bdbm_abm_page_state
deriving DecidableEq, Repr

/-- Modelled from the spec: the ABM file record of a block descriptor. -/
def abm_record_of (b : bdbm_abm_block_t) : bdbm_abm_record :=
  { state := b.state, erase_count := b.erase_count, nr_invalid_pages := b.nr_invalid_pages,
    nr_valid_pages := b.nr_valid_pages, pst := b.pst }

/-- Modelled from the spec: `store(path)` of section 4.2 writes the record of
every block in (channel, chip, block) row-major order.  `file_ok` tells whether
the file can be written; the result is the return code and the file. -/
def bdbm_abm_store (bai : bdbm_abm_info_t) (file_ok : Bool) :
    Nat × Option (List bdbm_abm_record) :=
  if file_ok then (0, some (bai.blocks.map abm_record_of)) else (1, none)

/-- Modelled from the spec: the descriptors after the records of the ABM file
are read back in order; the coordinates of a block are not part of its record. -/
def abm_load_blocks : List bdbm_abm_block_t → List bdbm_abm_record → List bdbm_abm_block_t
  | b :: bs, r :: rs =>
    { b with state := r.state, erase_count := r.erase_count,
             nr_invalid_pages := r.nr_invalid_pages, nr_valid_pages := r.nr_valid_pages,
             pst := r.pst } :: abm_load_blocks bs rs
  | bs, [] => bs
  | [], _ => []

/-- Modelled from the spec: the per-unit lists of the blocks in state `st`,
rebuilt from the descriptors; ascending block number inside a list, as in
`bdbm_abm_create`. -/
def abm_lists_of_state (np : nand_params_t) (blocks : List bdbm_abm_block_t)
    (st : bdbm_abm_blk_state) : List (List Nat) :=
  (List.range (np.nr_channels * np.nr_chips_per_channel)).map fun u =>
    ((List.range np.nr_blocks_per_chip).map fun b => u * np.nr_blocks_per_chip + b).filter
      fun r => decide ((blocks[r]?).map (fun b => b.state) = some st)

/-- Modelled from the spec: `load(path)` of section 4.2 reads the records of
the ABM file into the descriptors, in the order of the file, and links every
block on the list of its state.  The call fails, and leaves the ABM as it was,
when the file is absent (`none`) or does not hold one record per block. -/
def bdbm_abm_load (bai : bdbm_abm_info_t) (file : Option (List bdbm_abm_record)) :
    Nat × bdbm_abm_info_t :=
  match file with
  | none => (1, bai)
  | some recs =>
    if recs.length ≠ bai.blocks.length then (1, bai)
    else
      let blocks := abm_load_blocks bai.blocks recs
      (0, { bai with
            blocks := blocks,
            list_free := abm_lists_of_state bai.np blocks bdbm_abm_blk_state.FREE,
            list_active := abm_lists_of_state bai.np blocks bdbm_abm_blk_state.ACTIVE,
            list_dirty := abm_lists_of_state bai.np blocks bdbm_abm_blk_state.DIRTY,
            list_bad := abm_lists_of_state bai.np blocks bdbm_abm_blk_state.BAD })

/-- The `while (1)` loop of `bdbm_page_ftl_store`, which walks the cursor to
the end of the active blocks; `fuel` bounds the number of passes.  A pass
aborts on a division by a zero `nr_channels`, on a slot of `ac_bab` that is out
of range or NULL, and when one of the two `bdbm_bug_on` checks fires. -/
def store_loop (np : nand_params_t) : Nat → bdbm_page_ftl_private → Option bdbm_page_ftl_private
  | 0, _ => none
  | fuel + 1, p =>
    if np.nr_channels = 0 then none else
    let i := p.curr_puid % np.nr_channels
    let j := p.curr_puid / np.nr_channels
    match p.ac_bab[u64 (i * np.nr_chips_per_channel + j)]? with
    | none => none
    | some none => none
    | some (some r) =>
      match p.bai.blocks[r]? with
      | none => none
      | some b =>
        let p1 := { p with bai := bdbm_abm_invalidate_page p.bai b.channel_no b.chip_no
                                    b.block_no p.curr_page_ofs }
        if b.channel_no ≠ i ∨ b.chip_no ≠ j then none
        else if u64 (p1.curr_puid + 1) = p1.nr_punits then
          let p2 := { p1 with curr_puid := 0, curr_page_ofs := u64 (p1.curr_page_ofs + 1) }
          if p2.curr_page_ofs = np.nr_pages_per_block then some { p2 with curr_page_ofs := 0 }
          else store_loop np fuel p2
        else store_loop np fuel { p1 with curr_puid := u64 (p1.curr_puid + 1) }

/-- The function `bdbm_page_ftl_store`.  `fn_ok` tells whether `bdbm_fopen`
opens the mapping file and `abm_file_ok` whether the ABM file can be written;
the writes to an open file are taken to succeed.  The result is the return
code, the private state, the mapping file (one record per entry, in LPA order)
and the ABM file.  The call aborts when the loop aborts and when the mapping
table is shorter than `nr_pages_per_ssd`. -/
def bdbm_page_ftl_store (np : nand_params_t) (p : bdbm_page_ftl_private) (fuel : Nat)
    (fn_ok abm_file_ok : Bool) :
    Option (Nat × bdbm_page_ftl_private × Option (List bdbm_page_mapping_entry)
      × Option (List bdbm_abm_record)) :=
  if fn_ok = false then some (1, p, none, none)
  else
    match store_loop np fuel p with
    | none => none
    | some p1 =>
      if p1.ptr_mapping_table.length < np.nr_pages_per_ssd then none
      else
        let file := p1.ptr_mapping_table.take np.nr_pages_per_ssd
        let r := bdbm_abm_store p1.bai abm_file_ok
        some (r.1, p1, some file, r.2)

/-- The status byte is one of the four values that `bdbm_page_ftl_load`
accepts without a message. -/
def snapshot_status_known (status : Nat) : Bool :=
  status = PFTL_PAGE_NOT_ALLOCATED || status = PFTL_PAGE_VALID || status = PFTL_PAGE_INVALID
    || status = PFTL_PAGE_INVALID_ADDR

/-- The `for` loop of `bdbm_page_ftl_load` over the entries `i` of the mapping
table.  `pos` counts the records read so far; a read past the end of the file
returns no bytes and leaves the entry as it is.  `msgs` collects the status
bytes reported by `bdbm_msg`.  The loop aborts on an entry outside the table. -/
def load_mapping_loop (file : List bdbm_page_mapping_entry) :
    List Nat → Nat → List bdbm_page_mapping_entry → List Nat →
    Option (List bdbm_page_mapping_entry × List Nat)
  | [], _, me, msgs => some (me, msgs)
  | i :: rest, pos, me, msgs =>
    match me[i]? with
    | none => none
    | some old =>
      let new := (file[pos]?).getD old
      let pos1 := if pos < file.length then pos + 1 else pos
      let msgs1 := if snapshot_status_known new.status then msgs else msgs ++ [new.status]
      load_mapping_loop file rest pos1 (me.set i new) msgs1

/-- The function `bdbm_page_ftl_load`.  `abm_file` is the content of the ABM
file at the fixed path and `fn` the content of the mapping file, `none` when
the file cannot be opened.  The result is the return code, the private state
and the status bytes reported by `bdbm_msg`. -/
def bdbm_page_ftl_load (np : nand_params_t) (p : bdbm_page_ftl_private)
    (abm_file : Option (List bdbm_abm_record)) (fn : Option (List bdbm_page_mapping_entry)) :
    Option (Nat × bdbm_page_ftl_private × List Nat) :=
  let r := bdbm_abm_load p.bai abm_file
  let p1 := { p with bai := r.2 }
  if r.1 ≠ 0 then some (1, p1, [])
  else
    match fn with
    | none => some (1, p1, [])
    | some file =>
      match load_mapping_loop file (List.range np.nr_pages_per_ssd) 0 p1.ptr_mapping_table [] with
      | none => none
      | some (me, msgs) =>
        let p2 := { p1 with ptr_mapping_table := me }
        match __bdbm_page_ftl_get_active_blocks np p2.bai p2.ac_bab with
        | none => none
        | some (ret, bai2, bab) =>
          let p3 := { p2 with bai := bai2, ac_bab := bab }
          if ret ≠ 0 then some (1, p3, msgs)
          else some (0, { p3 with curr_puid := 0, curr_page_ofs := 0 }, msgs)

/-- The state after the store of scenario S1 (pages 0..7 written), with its
two files. -/
def S1_stored : Nat × bdbm_page_ftl_private × Option (List bdbm_page_mapping_entry)
    × Option (List bdbm_abm_record) :=
  (bdbm_page_ftl_store S1_np S1_written 16 true true).get (by decide)

/-- The state after the files of `S1_stored` are loaded into a freshly created
FTL. -/
def S1_loaded : Nat × bdbm_page_ftl_private × List Nat :=
  (bdbm_page_ftl_load S1_np S1_fresh S1_stored.2.2.2 S1_stored.2.2.1).get (by decide)

/-- The mapping file of `S1_stored` with the status byte of entry 0 replaced
by 7, a value outside the four known ones. -/
def S1_corrupt_file : List bdbm_page_mapping_entry :=
  (S1_stored.2.2.1.getD []).set 0 { status := 7, phyaddr := mk_ppa 0 0 0 0 }

/-- The result of the load of `S1_corrupt_file` into a freshly created FTL. -/
def S1_corrupt_loaded : Nat × bdbm_page_ftl_private × List Nat :=
  (bdbm_page_ftl_load S1_np S1_fresh S1_stored.2.2.2 (some S1_corrupt_file)).get (by decide)


/-! ## Garbage collection

The request descriptor `bdbm_llm_req_t`, the request types and the low-level
memory manager (LLM) are declared outside the sources at hand.  A request keeps
the fields that `page_ftl.c` reads or writes; the LLM is a pair of functions
that give what the device returns for the `i`-th request of a batch. -/

/-- Modelled from the spec: `erase_block(ch, chip, block, bad_flag)` of section
4.2.  With the flag set the block becomes BAD and moves to the bad list; else it
becomes FREE, its `pst` is reset to FREE, its counters are cleared, its erase
count grows by one and it moves to the free list (at the tail).  The block
leaves the list it was on.  Coordinates outside the geometry name no block. -/
def bdbm_abm_erase_block (bai : bdbm_abm_info_t) (channel_no chip_no block_no is_bad : Nat) :
    bdbm_abm_info_t :=
  match bdbm_abm_get_block bai channel_no chip_no block_no with
  | none => bai
  | some r =>
    match bai.blocks[r]? with
    | none => bai
    | some b =>
      let u := abm_unit bai.np channel_no chip_no
      let drop := fun (l : List (List Nat)) => l.set u ((l.getD u []).erase r)
      let add := fun (l : List (List Nat)) => l.set u ((l.getD u []).erase r ++ [r])
      if is_bad ≠ 0 then
        { bai with
          blocks := bai.blocks.set r { b with state := bdbm_abm_blk_state.BAD },
          list_free := drop bai.list_free, list_active := drop bai.list_active,
          list_dirty := drop bai.list_dirty, list_bad := add bai.list_bad }
      else
        { bai with
          blocks := bai.blocks.set r
            { b with state := bdbm_abm_blk_state.FREE,
                     pst := List.replicate bai.np.nr_pages_per_block bdbm_abm_page_state.FREE,
                     nr_invalid_pages := 0, nr_valid_pages := 0,
                     erase_count := b.erase_count + 1 },
          list_free := add bai.list_free, list_active := drop bai.list_active,
          list_dirty := drop bai.list_dirty, list_bad := drop bai.list_bad }

/-- The request types of section 6 of the specification. -/
inductive bdbm_req_type where
  | REQTYPE_READ | REQTYPE_WRITE | REQTYPE_GC_READ | REQTYPE_GC_WRITE | REQTYPE_GC_ERASE
  | REQTYPE_TRIM
deriving DecidableEq, Repr

/-- The target of the pointer `phyaddr` of a request: NULL, or one of the two
addresses `phyaddr_r` and `phyaddr_w` embedded in the request. -/
inductive phyaddr_ptr where
  | null | r | w
deriving DecidableEq, Repr

/-- The fields of `bdbm_llm_req_t` used by `page_ftl.c`; `ptr_oob` holds the
first 64-bit word of the OOB buffer. -/
structure bdbm_llm_req_t where
  req_type : bdbm_req_type
  lpa : Nat
  phyaddr : phyaddr_ptr
  phyaddr_r : bdbm_phyaddr_t
  phyaddr_w : bdbm_phyaddr_t
  ret : Nat
  ptr_oob : Nat
deriving DecidableEq, Repr

/-- The device behind `ptr_llm_inf`: `oob i` is the first OOB word that the
`i`-th GC read of a batch returns, `done_ret t i` the completion code of the
`i`-th request of a batch of type `t`.  `make_req` is taken to accept every
request. -/
structure llm_inf_t where
  oob : Nat → Nat
  done_ret : bdbm_req_type → Nat → Nat

/-- What a GC pass or a bad-block scan does outside the FTL state, in order:
the flush of the LLM, a request handed to `make_req` together with the code it
completes with, and a call of `bdbm_abm_erase_block`. -/
inductive gc_event where
  | flush
  | make_req (r : bdbm_llm_req_t) (done_ret : Nat)
  | erase_block (channel_no chip_no block_no is_bad : Nat)
deriving DecidableEq, Repr

/-- The address a request points to through `phyaddr`, `none` for NULL. -/
def req_phyaddr (r : bdbm_llm_req_t) : Option bdbm_phyaddr_t :=
  match r.phyaddr with
  | phyaddr_ptr.null => none
  | phyaddr_ptr.r => some r.phyaddr_r
  | phyaddr_ptr.w => some r.phyaddr_w

/-- The request after a store through its pointer `phyaddr`. -/
def req_set_phyaddr (r : bdbm_llm_req_t) (a : bdbm_phyaddr_t) : bdbm_llm_req_t :=
  match r.phyaddr with
  | phyaddr_ptr.null => r
  | phyaddr_ptr.r => { r with phyaddr_r := a }
  | phyaddr_ptr.w => { r with phyaddr_w := a }

/-- The victim loops of `bdbm_page_ftl_do_gc` over the (channel, chip) pairs:
a victim found is stored at `gc_bab[nr_gc_blks]`.  The result is the array and
the count. -/
def gc_select_victims (np : nand_params_t) (p : bdbm_page_ftl_private) :
    List (Nat × Nat) → List (Option Nat) → Nat → Option (List (Option Nat) × Nat)
  | [], bab, nr_gc_blks => some (bab, nr_gc_blks)
  | (i, j) :: rest, bab, nr_gc_blks =>
    match __bdbm_page_ftl_victim_selection_greedy np p i j with
    | none => none
    | some none => gc_select_victims np p rest bab nr_gc_blks
    | some (some b) =>
      if nr_gc_blks < bab.length then
        gc_select_victims np p rest (bab.set nr_gc_blks (some b)) (nr_gc_blks + 1)
      else none

/-- The inner loop of the read phase over the pages `j` of a victim: a page
whose `pst` entry is not INVALID gets the next request of the pool. -/
def gc_build_reads_block (b : bdbm_abm_block_t) :
    List Nat → List bdbm_llm_req_t → Nat → Option (List bdbm_llm_req_t × Nat)
  | [], hlm, nr_llm_reqs => some (hlm, nr_llm_reqs)
  | j :: rest, hlm, nr_llm_reqs =>
    match b.pst[j]? with
    | none => none
    | some s =>
      if s ≠ bdbm_abm_page_state.INVALID then
        match hlm[nr_llm_reqs]? with
        | none => none
        | some r =>
          let r1 : bdbm_llm_req_t :=
            { r with req_type := bdbm_req_type.REQTYPE_GC_READ, lpa := 2 ^ 64 - 1,
                     phyaddr := phyaddr_ptr.r,
                     phyaddr_r := { r.phyaddr_r with channel_no := b.channel_no,
                                                     chip_no := b.chip_no,
                                                     block_no := b.block_no, page_no := j },
                     ret := 0 }
          gc_build_reads_block b rest (hlm.set nr_llm_reqs r1) (nr_llm_reqs + 1)
      else gc_build_reads_block b rest hlm nr_llm_reqs

/-- The outer loop of the read phase over the victims `gc_bab[i]`; a NULL slot
ends the loop. -/
def gc_build_reads (np : nand_params_t) (p : bdbm_page_ftl_private) :
    List Nat → List bdbm_llm_req_t → Nat → Option (List bdbm_llm_req_t × Nat)
  | [], hlm, nr_llm_reqs => some (hlm, nr_llm_reqs)
  | i :: rest, hlm, nr_llm_reqs =>
    match p.gc_bab[i]? with
    | none => none
    | some none => some (hlm, nr_llm_reqs)
    | some (some v) =>
      match p.bai.blocks[v]? with
      | none => none
      | some b =>
        match gc_build_reads_block b (List.range np.nr_pages_per_block) hlm nr_llm_reqs with
        | none => none
        | some (hlm1, n1) => gc_build_reads np p rest hlm1 n1

/-- A batch of requests handed to `make_req` in index order and waited for: the
device writes the completion code into `ret` and, for a GC read, the OOB word
into `ptr_oob`. -/
def gc_send (llm : llm_inf_t) (t : bdbm_req_type) :
    List Nat → List bdbm_llm_req_t → List gc_event → Option (List bdbm_llm_req_t × List gc_event)
  | [], hlm, ev => some (hlm, ev)
  | i :: rest, hlm, ev =>
    match hlm[i]? with
    | none => none
    | some r =>
      let r1 : bdbm_llm_req_t :=
        { r with ret := llm.done_ret t i,
                 ptr_oob := if t = bdbm_req_type.REQTYPE_GC_READ then llm.oob i else r.ptr_oob }
      gc_send llm t rest (hlm.set i r1) (ev ++ [gc_event.make_req r (llm.done_ret t i)])

/-- The write phase: request `i` becomes a GC write of the LPA found in its
OOB word, to a fresh address that is then entered in the mapping table.  A
failing `get_free_ppa` or `map_lpa_to_ppa` is a `bdbm_bug_on`. -/
def gc_build_writes (np : nand_params_t) :
    List Nat → bdbm_page_ftl_private → List bdbm_llm_req_t →
    Option (bdbm_page_ftl_private × List bdbm_llm_req_t)
  | [], p, hlm => some (p, hlm)
  | i :: rest, p, hlm =>
    match hlm[i]? with
    | none => none
    | some r =>
      let r1 : bdbm_llm_req_t :=
        { r with req_type := bdbm_req_type.REQTYPE_GC_WRITE, lpa := r.ptr_oob }
      match req_phyaddr r1 with
      | none => none
      | some a =>
        match bdbm_page_ftl_get_free_ppa np p r1.lpa a with
        | none => none
        | some (ret, p1, out) =>
          if ret ≠ 0 then none
          else
            match bdbm_page_ftl_map_lpa_to_ppa np p1 r1.lpa out with
            | none => none
            | some (ret2, p2) =>
              if ret2 ≠ 0 then none
              else gc_build_writes np rest p2 (hlm.set i (req_set_phyaddr r1 out))

/-- The loop that turns request `i` into the erase request of victim
`gc_bab[i]`. -/
def gc_build_erases (p : bdbm_page_ftl_private) :
    List Nat → List bdbm_llm_req_t → Option (List bdbm_llm_req_t)
  | [], hlm => some hlm
  | i :: rest, hlm =>
    match p.gc_bab[i]? with
    | none => none
    | some none => none
    | some (some v) =>
      match p.bai.blocks[v]?, hlm[i]? with
      | some b, some r =>
        let r1 : bdbm_llm_req_t :=
          { r with req_type := bdbm_req_type.REQTYPE_GC_ERASE, lpa := 2 ^ 64 - 1,
                   phyaddr := phyaddr_ptr.w,
                   phyaddr_w := { r.phyaddr_w with channel_no := b.channel_no,
                                                   chip_no := b.chip_no,
                                                   block_no := b.block_no, page_no := 0 },
                   ret := 0 }
        gc_build_erases p rest (hlm.set i r1)
      | _, _ => none

/-- The last loop of a pass: `bdbm_abm_erase_block` on victim `gc_bab[i]`, with
the bad flag 1 when request `i` completed with a non-zero `ret`. -/
def gc_erase_blocks (hlm : List bdbm_llm_req_t) :
    List Nat → bdbm_page_ftl_private → List gc_event →
    Option (bdbm_page_ftl_private × List gc_event)
  | [], p, ev => some (p, ev)
  | i :: rest, p, ev =>
    match p.gc_bab[i]? with
    | none => none
    | some none => none
    | some (some v) =>
      match p.bai.blocks[v]?, hlm[i]? with
      | some b, some r =>
        let ret := if r.ret ≠ 0 then 1 else 0
        gc_erase_blocks hlm rest
          { p with bai := bdbm_abm_erase_block p.bai b.channel_no b.chip_no b.block_no ret }
          (ev ++ [gc_event.erase_block b.channel_no b.chip_no b.block_no ret])
      | _, _ => none

/-- The part of `bdbm_page_ftl_do_gc` from the label `erase_blks` on: the
erase requests are built, sent and waited for, and the ABM is told the
outcome. -/
def gc_erase_phase (llm : llm_inf_t) (p : bdbm_page_ftl_private) (hlm : List bdbm_llm_req_t)
    (ev : List gc_event) (nr_gc_blks : Nat) :
    Option (bdbm_page_ftl_private × List bdbm_llm_req_t × List gc_event) :=
  match gc_build_erases p (List.range nr_gc_blks) hlm with
  | none => none
  | some hlm1 =>
    match gc_send llm bdbm_req_type.REQTYPE_GC_ERASE (List.range nr_gc_blks) hlm1 ev with
    | none => none
    | some (hlm2, ev2) =>
      match gc_erase_blocks hlm2 (List.range nr_gc_blks) p ev2 with
      | none => none
      | some (p1, ev3) => some (p1, hlm2, ev3)

/-- The part of `bdbm_page_ftl_do_gc` between the flush and the label
`erase_blks`, skipped when there is no page to move: the reads are sent, the
writes are built and sent. -/
def gc_move_phase (np : nand_params_t) (llm : llm_inf_t) (p : bdbm_page_ftl_private)
    (hlm : List bdbm_llm_req_t) (ev : List gc_event) (nr_llm_reqs : Nat) :
    Option (bdbm_page_ftl_private × List bdbm_llm_req_t × List gc_event) :=
  if nr_llm_reqs = 0 then some (p, hlm, ev)
  else
    match gc_send llm bdbm_req_type.REQTYPE_GC_READ (List.range nr_llm_reqs) hlm ev with
    | none => none
    | some (hlm1, ev1) =>
      match gc_build_writes np (List.range nr_llm_reqs) p hlm1 with
      | none => none
      | some (p1, hlm2) =>
        match gc_send llm bdbm_req_type.REQTYPE_GC_WRITE (List.range nr_llm_reqs) hlm2 ev1 with
        | none => none
        | some (hlm3, ev3) => some (p1, hlm3, ev3)

/-- The array `gc_bab` after the `memset` of its first `nr_punits` slots and
the victim loops, with the number of victims; `none` when the array is shorter
than `nr_punits` or a victim selection aborts. -/
def gc_victims (np : nand_params_t) (p : bdbm_page_ftl_private) :
    Option (List (Option Nat) × Nat) :=
  let nr_punits := u64 (np.nr_channels * np.nr_chips_per_channel)
  if p.gc_bab.length < nr_punits then none
  else
    gc_select_victims np p (punit_pairs np)
      (List.replicate nr_punits none ++ p.gc_bab.drop nr_punits) 0

/-- The function `bdbm_page_ftl_do_gc`, on the private state, the request pool
`gc_hlm.llm_reqs` and the device.  The result is the return code, the private
state, the pool and the events of the pass. -/
def bdbm_page_ftl_do_gc (np : nand_params_t) (llm : llm_inf_t) (p : bdbm_page_ftl_private)
    (hlm : List bdbm_llm_req_t) :
    Option (Nat × bdbm_page_ftl_private × List bdbm_llm_req_t × List gc_event) :=
  let nr_punits := u64 (np.nr_channels * np.nr_chips_per_channel)
  match gc_victims np p with
  | none => none
  | some (bab, nr_gc_blks) =>
    let p1 := { p with gc_bab := bab }
    if nr_gc_blks < nr_punits then some (0, p1, hlm, [])
    else
      match gc_build_reads np p1 (List.range nr_gc_blks) hlm 0 with
      | none => none
      | some (hlm1, nr_llm_reqs) =>
        match gc_move_phase np llm p1 hlm1 [gc_event.flush] nr_llm_reqs with
        | none => none
        | some (p2, hlm2, ev2) =>
          match gc_erase_phase llm p2 hlm2 ev2 nr_gc_blks with
          | none => none
          | some (p3, hlm3, ev3) => some (0, p3, hlm3, ev3)

/-- The first loops of `__bdbm_page_badblock_scan_eraseblks` over the (channel,
chip) pairs: block `block_no` of the unit is stored at `gc_bab[punit_id]` and
request `punit_id` becomes its erase request.  A block that
`bdbm_abm_get_block` does not find is a `bdbm_bug_on`. -/
def scan_build_erases (np : nand_params_t) (block_no : Nat) :
    List (Nat × Nat) → bdbm_page_ftl_private → List bdbm_llm_req_t →
    Option (bdbm_page_ftl_private × List bdbm_llm_req_t)
  | [], p, hlm => some (p, hlm)
  | (i, j) :: rest, p, hlm =>
    let punit_id := u64 (i * np.nr_chips_per_channel + j)
    match bdbm_abm_get_block p.bai i j block_no with
    | none => none
    | some v =>
      if punit_id < p.gc_bab.length then
        match p.bai.blocks[v]?, hlm[punit_id]? with
        | some b, some r =>
          let r1 : bdbm_llm_req_t :=
            { r with req_type := bdbm_req_type.REQTYPE_GC_ERASE, lpa := 2 ^ 64 - 1,
                     phyaddr := phyaddr_ptr.w,
                     phyaddr_w := { r.phyaddr_w with channel_no := b.channel_no,
                                                     chip_no := b.chip_no,
                                                     block_no := b.block_no, page_no := 0 },
                     ret := 0 }
          scan_build_erases np block_no rest
            { p with gc_bab := p.gc_bab.set punit_id (some v) } (hlm.set punit_id r1)
        | _, _ => none
      else none

/-- The function `__bdbm_page_badblock_scan_eraseblks`: one round of the
bad-block scan, which erases block `block_no` of every unit.  The result is the
private state, the request pool and the events of the round. -/
def __bdbm_page_badblock_scan_eraseblks (np : nand_params_t) (llm : llm_inf_t)
    (p : bdbm_page_ftl_private) (hlm : List bdbm_llm_req_t) (block_no : Nat) :
    Option (bdbm_page_ftl_private × List bdbm_llm_req_t × List gc_event) :=
  if p.gc_bab.length < p.nr_punits then none
  else
    let p0 := { p with gc_bab := List.replicate p.nr_punits none ++ p.gc_bab.drop p.nr_punits }
    match scan_build_erases np block_no (punit_pairs np) p0 hlm with
    | none => none
    | some (p1, hlm1) =>
      match gc_send llm bdbm_req_type.REQTYPE_GC_ERASE (List.range p.nr_punits) hlm1 [] with
      | none => none
      | some (hlm2, ev2) =>
        match gc_erase_blocks hlm2 (List.range p.nr_punits) p1 ev2 with
        | none => none
        | some (p2, ev3) => some (p2, hlm2, ev3)

/-- The block an erase request is addressed to through `phyaddr` and the code
the request completes with; `none` for an event that is no erase request. -/
def event_erase_request : gc_event → Option (Nat × Nat × Nat × Nat)
  | gc_event.make_req r done_ret =>
    if r.req_type = bdbm_req_type.REQTYPE_GC_ERASE then
      (req_phyaddr r).map fun a => (a.channel_no, a.chip_no, a.block_no, done_ret)
    else none
  | _ => none

/-- The block and the bad flag of a call of `bdbm_abm_erase_block`; `none` for
an event that is no such call. -/
def event_erase_call : gc_event → Option (Nat × Nat × Nat × Nat)
  | gc_event.erase_block ch chip blk is_bad => some (ch, chip, blk, is_bad)
  | _ => none

/-- The erase requests among the events, in order. -/
def erase_requests (ev : List gc_event) : List (Nat × Nat × Nat × Nat) :=
  ev.filterMap event_erase_request

/-- The calls of `bdbm_abm_erase_block` among the events, in order. -/
def erase_calls (ev : List gc_event) : List (Nat × Nat × Nat × Nat) :=
  ev.filterMap event_erase_call

/-- The bad flag that goes with a completion code: 1 for a non-zero code. -/
def bad_flag (x : Nat × Nat × Nat × Nat) : Nat × Nat × Nat × Nat :=
  (x.1, x.2.1, x.2.2.1, if x.2.2.2 ≠ 0 then 1 else 0)

/-- The event of the `make_req` of request `i` of the pool in a batch of type
`t`. -/
def sent_event (llm : llm_inf_t) (t : bdbm_req_type) (hlm : List bdbm_llm_req_t) (i : Nat) :
    Option gc_event :=
  (hlm[i]?).map fun r => gc_event.make_req r (llm.done_ret t i)

/-- The event of the call of `bdbm_abm_erase_block` for victim `gc_bab[i]`,
given the coordinates of the blocks and the request pool. -/
def call_event (gc_bab : List (Option Nat)) (coords : List (Nat × Nat × Nat))
    (hlm : List bdbm_llm_req_t) (i : Nat) : Option gc_event :=
  match gc_bab[i]?, hlm[i]? with
  | some (some v), some r =>
    (coords[v]?).map fun c => gc_event.erase_block c.1 c.2.1 c.2.2 (if r.ret ≠ 0 then 1 else 0)
  | _, _ => none

/-- Every pointer on a dirty list of the ABM points to a block descriptor. -/
def dirty_ptrs_ok (bai : bdbm_abm_info_t) : Prop :=
  ∀ (i j b : Nat), b ∈ bdbm_abm_dirty_blocks bai i j → b < bai.blocks.length

/-- A request pool of `n` requests that have not been used yet: the pointer
`phyaddr` is NULL and the addresses and codes are zero. -/
def fresh_llm_reqs (n : Nat) : List bdbm_llm_req_t :=
  List.replicate n
    { req_type := bdbm_req_type.REQTYPE_READ, lpa := 0, phyaddr := phyaddr_ptr.null,
      phyaddr_r := zero_ppa, phyaddr_w := zero_ppa, ret := 0, ptr_oob := 0 }

/-- A device that returns the LPA `i` for the `i`-th read and completes every
request with code 0. -/
def llm_ok : llm_inf_t :=
  { oob := fun i => i, done_ret := fun _ _ => 0 }

/-- None of the blocks `V` is an active block or on a free list. -/
def victims_out (np : nand_params_t) (p : bdbm_page_ftl_private) (V : List Nat) : Prop :=
  ∀ v ∈ V, ∀ u, u < nr_units np →
    p.ac_bab[u]? ≠ some (some v) ∧ v ∉ free_list p.bai u

/-- A geometry with two channels of one chip, three blocks per chip and two
pages per block. -/
def G_np : nand_params_t :=
  { nr_channels := 2, nr_chips_per_channel := 1, nr_blocks_per_chip := 3,
    nr_pages_per_block := 2, nr_pages_per_ssd := 12 }

/-- The mapping entry VALID at (channel, chip, block, page). -/
def valid_entry (channel_no chip_no block_no page_no : Nat) : bdbm_page_mapping_entry :=
  { status := PFTL_PAGE_VALID, phyaddr := mk_ppa channel_no chip_no block_no page_no }

/-- A block descriptor of geometry `G_np`. -/
def G_block (channel_no block_no : Nat) (state : bdbm_abm_blk_state)
    (pst : List bdbm_abm_page_state) (nr_invalid_pages nr_valid_pages : Nat) : bdbm_abm_block_t :=
  { channel_no := channel_no, chip_no := 0, block_no := block_no, state := state, pst := pst,
    nr_invalid_pages := nr_invalid_pages, nr_valid_pages := nr_valid_pages, erase_count := 0 }

/-- A state of geometry `G_np` ready for a GC pass.  In each unit block 0 is
DIRTY with one live page, block 1 is the active block with its page 0 written,
and block 2 is FREE.  LPA 5 lives at (0,0,0,0), LPA 7 at (1,0,0,1), LPA 3 at
(0,0,1,0) and LPA 4 at (1,0,1,0); the cursor is at page 1 of unit 0. -/
def G_state : bdbm_page_ftl_private :=
  { bai :=
      { np := G_np,
        blocks :=
          [G_block 0 0 bdbm_abm_blk_state.DIRTY
             [bdbm_abm_page_state.VALID, bdbm_abm_page_state.INVALID] 1 1,
           G_block 0 1 bdbm_abm_blk_state.ACTIVE
             [bdbm_abm_page_state.VALID, bdbm_abm_page_state.FREE] 0 1,
           G_block 0 2 bdbm_abm_blk_state.FREE
             [bdbm_abm_page_state.FREE, bdbm_abm_page_state.FREE] 0 0,
           G_block 1 0 bdbm_abm_blk_state.DIRTY
             [bdbm_abm_page_state.INVALID, bdbm_abm_page_state.VALID] 1 1,
           G_block 1 1 bdbm_abm_blk_state.ACTIVE
             [bdbm_abm_page_state.VALID, bdbm_abm_page_state.FREE] 0 1,
           G_block 1 2 bdbm_abm_blk_state.FREE
             [bdbm_abm_page_state.FREE, bdbm_abm_page_state.FREE] 0 0],
        list_free := [[2], [5]], list_active := [[1], [4]], list_dirty := [[0], [3]],
        list_bad := [[], []] },
    ptr_mapping_table :=
      ((((__bdbm_page_ftl_create_mapping_table G_np).set 5 (valid_entry 0 0 0 0)).set 7
        (valid_entry 1 0 0 1)).set 3 (valid_entry 0 0 1 0)).set 4 (valid_entry 1 0 1 0),
    nr_punits := 2, curr_puid := 0, curr_page_ofs := 1,
    ac_bab := [some 1, some 4], gc_bab := [none, none] }

/-- A device for the pass on `G_state`: the two GC reads return the LPAs 5 and
7 in their OOB words, and the erase of the second victim fails. -/
def G_llm : llm_inf_t :=
  { oob := fun i => if i = 0 then 5 else 7,
    done_ret := fun t i => if t = bdbm_req_type.REQTYPE_GC_ERASE ∧ i = 1 then 1 else 0 }

/-- The result of the GC pass on `G_state`. -/
def G_gc : Nat × bdbm_page_ftl_private × List bdbm_llm_req_t × List gc_event :=
  (bdbm_page_ftl_do_gc G_np G_llm G_state (fresh_llm_reqs 4)).get (by decide)

/-- The result of the round of the bad-block scan on block 2 of `G_state`. -/
def G_scan : bdbm_page_ftl_private × List bdbm_llm_req_t × List gc_event :=
  (__bdbm_page_badblock_scan_eraseblks G_np G_llm G_state (fresh_llm_reqs 4) 2).get (by decide)

/-- The part of the ABM contract that a GC pass relies on: every block on the
dirty list of a unit is a descriptor of that unit and is on no free list. -/
def dirty_ok (np : nand_params_t) (bai : bdbm_abm_info_t) : Prop :=
  ∀ (i j b : Nat), i < np.nr_channels → j < np.nr_chips_per_channel →
    b ∈ bdbm_abm_dirty_blocks bai i j →
    ∃ c, (abm_coords bai)[b]? = some c ∧ c.1 = i ∧ c.2.1 = j ∧
      ∀ u, u < nr_units np → b ∉ free_list bai u

/-- The victims of a pass: the blocks in the first `n` slots of `gc_bab`. -/
def gc_victim_list (gc_bab : List (Option Nat)) (n : Nat) : List Nat :=
  (gc_bab.take n).filterMap id

/-- The mapping entry refers to a page of one of the first `n` victims in
`gc_bab`. -/
def in_victim (bai : bdbm_abm_info_t) (gc_bab : List (Option Nat)) (n : Nat)
    (m : bdbm_page_mapping_entry) : Prop :=
  ∃ (k v : Nat) (b : bdbm_abm_block_t), k < n ∧ gc_bab[k]? = some (some v) ∧
    bai.blocks[v]? = some b ∧
    blk_coords b = (m.phyaddr.channel_no, m.phyaddr.chip_no, m.phyaddr.block_no)


/-- The request pool and the number of read requests after the read phase of
the pass on `G_state`. -/
def G_reads : List bdbm_llm_req_t × Nat :=
  (gc_build_reads G_np { G_state with gc_bab := [some 0, some 3] } (List.range 2)
    (fresh_llm_reqs 4) 0).get (by decide)


/-! ## Indices walked by the facade loops -/

/-- The indices at which the `for` loop of `bdbm_page_ftl_invalidate_lpa`
reads and writes `ptr_mapping_table`: none when the range check fails, else
`lpa`, `lpa + 1`, ... below the 64-bit sum `lpa + len`. -/
def invalidate_lpa_indices (np : nand_params_t) (lpa len : Nat) : List Nat :=
  if u64 (lpa + len) > np.nr_pages_per_ssd then []
  else List.range' lpa (u64 (lpa + len) - lpa)

/-- A state of geometry `V_np` for the tie-break of the victim selection: the
active block 0 has two invalid pages, the dirty list holds the blocks 1 and 2
with one invalid page each. -/
def T_state : bdbm_page_ftl_private :=
  { bai :=
      { np := V_np,
        blocks :=
          [{ channel_no := 0, chip_no := 0, block_no := 0, state := bdbm_abm_blk_state.ACTIVE,
             pst := [bdbm_abm_page_state.INVALID, bdbm_abm_page_state.INVALID,
                     bdbm_abm_page_state.VALID, bdbm_abm_page_state.FREE],
             nr_invalid_pages := 2, nr_valid_pages := 1, erase_count := 0 },
           { channel_no := 0, chip_no := 0, block_no := 1, state := bdbm_abm_blk_state.DIRTY,
             pst := [bdbm_abm_page_state.INVALID, bdbm_abm_page_state.VALID,
                     bdbm_abm_page_state.VALID, bdbm_abm_page_state.VALID],
             nr_invalid_pages := 1, nr_valid_pages := 3, erase_count := 0 },
           { channel_no := 0, chip_no := 0, block_no := 2, state := bdbm_abm_blk_state.DIRTY,
             pst := [bdbm_abm_page_state.VALID, bdbm_abm_page_state.INVALID,
                     bdbm_abm_page_state.VALID, bdbm_abm_page_state.VALID],
             nr_invalid_pages := 1, nr_valid_pages := 3, erase_count := 0 }],
        list_free := [[]], list_active := [[0]], list_dirty := [[1, 2]], list_bad := [[]] },
    ptr_mapping_table := __bdbm_page_ftl_create_mapping_table V_np,
    nr_punits := 1, curr_puid := 0, curr_page_ofs := 3,
    ac_bab := [some 0], gc_bab := [none] }

/-- A state of geometry `V_np` in which every page of the dirty blocks 1 and 2
is invalid; block 0 is the active block. -/
def F_state : bdbm_page_ftl_private :=
  { bai :=
      { np := V_np,
        blocks :=
          [{ channel_no := 0, chip_no := 0, block_no := 0, state := bdbm_abm_blk_state.ACTIVE,
             pst := [bdbm_abm_page_state.VALID, bdbm_abm_page_state.FREE,
                     bdbm_abm_page_state.FREE, bdbm_abm_page_state.FREE],
             nr_invalid_pages := 0, nr_valid_pages := 1, erase_count := 0 },
           { channel_no := 0, chip_no := 0, block_no := 1, state := bdbm_abm_blk_state.DIRTY,
             pst := List.replicate 4 bdbm_abm_page_state.INVALID,
             nr_invalid_pages := 4, nr_valid_pages := 0, erase_count := 0 },
           { channel_no := 0, chip_no := 0, block_no := 2, state := bdbm_abm_blk_state.DIRTY,
             pst := List.replicate 4 bdbm_abm_page_state.INVALID,
             nr_invalid_pages := 4, nr_valid_pages := 0, erase_count := 0 }],
        list_free := [[]], list_active := [[0]], list_dirty := [[1, 2]], list_bad := [[]] },
    ptr_mapping_table := __bdbm_page_ftl_create_mapping_table V_np,
    nr_punits := 1, curr_puid := 0, curr_page_ofs := 1,
    ac_bab := [some 0], gc_bab := [none] }

/-! ## The pages read by a GC pass -/

/-- The loop `store_loop` of `bdbm_page_ftl_store` with a record of its passes:
the result carries, in order, the arguments (channel, chip, block, page) of the
call to `bdbm_abm_invalidate_page` made by each pass. -/
def store_loop_calls (np : nand_params_t) :
    Nat → bdbm_page_ftl_private → Option (bdbm_page_ftl_private × List (Nat × Nat × Nat × Nat))
  | 0, _ => none
  | fuel + 1, p =>
    if np.nr_channels = 0 then none else
    let i := p.curr_puid % np.nr_channels
    let j := p.curr_puid / np.nr_channels
    match p.ac_bab[u64 (i * np.nr_chips_per_channel + j)]? with
    | none => none
    | some none => none
    | some (some r) =>
      match p.bai.blocks[r]? with
      | none => none
      | some b =>
        let call := (b.channel_no, b.chip_no, b.block_no, p.curr_page_ofs)
        let p1 := { p with bai := bdbm_abm_invalidate_page p.bai b.channel_no b.chip_no
                                    b.block_no p.curr_page_ofs }
        if b.channel_no ≠ i ∨ b.chip_no ≠ j then none
        else if u64 (p1.curr_puid + 1) = p1.nr_punits then
          let p2 := { p1 with curr_puid := 0, curr_page_ofs := u64 (p1.curr_page_ofs + 1) }
          if p2.curr_page_ofs = np.nr_pages_per_block then
            some ({ p2 with curr_page_ofs := 0 }, [call])
          else (store_loop_calls np fuel p2).map fun x => (x.1, call :: x.2)
        else (store_loop_calls np fuel { p1 with curr_puid := u64 (p1.curr_puid + 1) }).map
          fun x => (x.1, call :: x.2)

/-- The ABM after the calls `calls` to `bdbm_abm_invalidate_page`, made in
order. -/
def abm_after_calls (bai : bdbm_abm_info_t) (calls : List (Nat × Nat × Nat × Nat)) :
    bdbm_abm_info_t :=
  calls.foldl (fun a c => bdbm_abm_invalidate_page a c.1 c.2.1 c.2.2.1 c.2.2.2) bai

/-! ## The allocator after `store` -/

/-- The facade calls of scenario S1: the eight writes as `get_free_ppa` calls,
each followed by the `map_lpa_to_ppa` of the address returned. -/
def S1_write_ops : List ftl_op :=
  [ftl_op.get_free_ppa 0,
   ftl_op.map_lpa_to_ppa 0 { channel_no := 0, chip_no := 0, block_no := 0, page_no := 0, punit_id := 0 },
   ftl_op.get_free_ppa 1,
   ftl_op.map_lpa_to_ppa 1 { channel_no := 1, chip_no := 0, block_no := 0, page_no := 0, punit_id := 1 },
   ftl_op.get_free_ppa 2,
   ftl_op.map_lpa_to_ppa 2 { channel_no := 0, chip_no := 1, block_no := 0, page_no := 0, punit_id := 2 },
   ftl_op.get_free_ppa 3,
   ftl_op.map_lpa_to_ppa 3 { channel_no := 1, chip_no := 1, block_no := 0, page_no := 0, punit_id := 3 },
   ftl_op.get_free_ppa 4,
   ftl_op.map_lpa_to_ppa 4 { channel_no := 0, chip_no := 0, block_no := 0, page_no := 1, punit_id := 0 },
   ftl_op.get_free_ppa 5,
   ftl_op.map_lpa_to_ppa 5 { channel_no := 1, chip_no := 0, block_no := 0, page_no := 1, punit_id := 1 },
   ftl_op.get_free_ppa 6,
   ftl_op.map_lpa_to_ppa 6 { channel_no := 0, chip_no := 1, block_no := 0, page_no := 1, punit_id := 2 },
   ftl_op.get_free_ppa 7,
   ftl_op.map_lpa_to_ppa 7 { channel_no := 1, chip_no := 1, block_no := 0, page_no := 1, punit_id := 3 }]

/-- The result of a `get_free_ppa` call made right after the store of
scenario S1. -/
def S1_alloc_after_store : Nat × bdbm_page_ftl_private × bdbm_phyaddr_t :=
  (bdbm_page_ftl_get_free_ppa S1_np S1_stored.2.1 8 zero_ppa).get (by decide)

/-! ## Scenario S2 with the ABM holding the written pages -/

theorem u64_le (x : Nat) : u64 x ≤ x := Nat.mod_le _ _

theorem u64_of_lt {x : Nat} (h : x < 2 ^ 64) : u64 x = x := Nat.mod_eq_of_lt h

/-- The lookup of an in-range VALID entry. -/
theorem get_ppa_valid (np : nand_params_t) (p : bdbm_page_ftl_private) (lpa : Nat)
    (ppa : bdbm_phyaddr_t) (me : bdbm_page_mapping_entry) (hlpa : lpa < np.nr_pages_per_ssd)
    (hme : p.ptr_mapping_table[lpa]? = some me) (hv : me.status = PFTL_PAGE_VALID) :
    ∃ out, bdbm_page_ftl_get_ppa np p lpa ppa = some (0, p, out) ∧
      out.channel_no = me.phyaddr.channel_no ∧ out.chip_no = me.phyaddr.chip_no ∧
      out.block_no = me.phyaddr.block_no ∧ out.page_no = me.phyaddr.page_no := by
  have hr : ¬ lpa ≥ np.nr_pages_per_ssd := by omega
  have hrun : bdbm_page_ftl_get_ppa np p lpa ppa = some (0, p,
      { channel_no := me.phyaddr.channel_no, chip_no := me.phyaddr.chip_no,
        block_no := me.phyaddr.block_no, page_no := me.phyaddr.page_no,
        punit_id := GET_PUNIT_ID np
          { ppa with channel_no := me.phyaddr.channel_no, chip_no := me.phyaddr.chip_no,
                     block_no := me.phyaddr.block_no, page_no := me.phyaddr.page_no } }) := by
    simp only [bdbm_page_ftl_get_ppa, hr, if_false, hme, hv, ne_eq, not_true_eq_false]
  exact ⟨_, hrun, rfl, rfl, rfl, rfl⟩

/-- C2: `get_ppa` returns 0 exactly for an in-range VALID entry and then
yields the stored address; an in-range entry that is not VALID gives a
non-zero code with the all-zero address; an out-of-range `lpa` gives a
non-zero code and leaves `*ppa` as it was; the FTL state never changes. -/
theorem get_ppa_spec (np : nand_params_t) (p : bdbm_page_ftl_private) (lpa : Nat)
    (ppa : bdbm_phyaddr_t) (hlen : p.ptr_mapping_table.length = np.nr_pages_per_ssd) :
    ∃ ret out, bdbm_page_ftl_get_ppa np p lpa ppa = some (ret, p, out) ∧
      (ret = 0 ↔ lpa < np.nr_pages_per_ssd ∧
        ∃ me, p.ptr_mapping_table[lpa]? = some me ∧ me.status = PFTL_PAGE_VALID) ∧
      (∀ me, p.ptr_mapping_table[lpa]? = some me → me.status = PFTL_PAGE_VALID →
        lpa < np.nr_pages_per_ssd →
        out.channel_no = me.phyaddr.channel_no ∧ out.chip_no = me.phyaddr.chip_no ∧
        out.block_no = me.phyaddr.block_no ∧ out.page_no = me.phyaddr.page_no ∧
        out.punit_id = GET_PUNIT_ID np out) ∧
      (∀ me, p.ptr_mapping_table[lpa]? = some me → me.status ≠ PFTL_PAGE_VALID →
        lpa < np.nr_pages_per_ssd →
        ret ≠ 0 ∧ out = { channel_no := 0, chip_no := 0, block_no := 0, page_no := 0,
                          punit_id := 0 }) ∧
      (np.nr_pages_per_ssd ≤ lpa → ret ≠ 0 ∧ out = ppa) := by
  unfold bdbm_page_ftl_get_ppa
  by_cases hr : lpa ≥ np.nr_pages_per_ssd
  · refine ⟨1, ppa, by simp [hr], ?_, ?_, ?_, ?_⟩
    · constructor
      · intro h; simp at h
      · rintro ⟨h, _⟩; omega
    · intro me _ _ h; omega
    · intro me _ _ h; omega
    · intro _; simp
  · have hlt : lpa < p.ptr_mapping_table.length := by omega
    have hget : p.ptr_mapping_table[lpa]? = some p.ptr_mapping_table[lpa] :=
      List.getElem?_eq_getElem hlt
    by_cases hv : p.ptr_mapping_table[lpa].status = PFTL_PAGE_VALID
    · refine ⟨0, _, by simp [hr, hget, hv]; rfl, ?_, ?_, ?_, ?_⟩
      · simp only [true_iff]
        exact ⟨by omega, _, hget, hv⟩
      · intro me hme _ _
        rw [hget] at hme
        cases hme
        simp [GET_PUNIT_ID]
      · intro me hme hnv _
        rw [hget] at hme
        cases hme
        exact absurd hv hnv
      · intro h; omega
    · refine ⟨1, _, by simp [hr, hget, hv]; rfl, ?_, ?_, ?_, ?_⟩
      · constructor
        · intro h; simp at h
        · rintro ⟨_, me, hme, hs⟩
          rw [hget] at hme
          cases hme
          exact absurd hs hv
      · intro me hme hs _
        rw [hget] at hme
        cases hme
        exact absurd hs hv
      · intro me _ _ _
        simp
      · intro h; omega

/-- C2 at scenario S1: the lookup of page 3 after the pages 0..7 are written. -/
theorem get_ppa_spec_witness :
    S1_written.ptr_mapping_table.length = S1_np.nr_pages_per_ssd ∧
    ∃ ret out, bdbm_page_ftl_get_ppa S1_np S1_written 3 zero_ppa = some (ret, S1_written, out) ∧
      (ret = 0 ↔ 3 < S1_np.nr_pages_per_ssd ∧
        ∃ me, S1_written.ptr_mapping_table[3]? = some me ∧ me.status = PFTL_PAGE_VALID) := by
  refine ⟨by decide, ?_⟩
  obtain ⟨ret, out, h1, h2, _⟩ := get_ppa_spec S1_np S1_written 3 zero_ppa (by decide)
  exact ⟨ret, out, h1, h2⟩

/-! ## `map_lpa_to_ppa` -/

/-- The result of `map_lpa_to_ppa` for an in-range `lpa`. -/
theorem map_lpa_to_ppa_in_range (np : nand_params_t) (p : bdbm_page_ftl_private) (lpa : Nat)
    (ppa : bdbm_phyaddr_t) (me : bdbm_page_mapping_entry) (hlpa : lpa < np.nr_pages_per_ssd)
    (hme : p.ptr_mapping_table[lpa]? = some me) :
    bdbm_page_ftl_map_lpa_to_ppa np p lpa ppa = some (0,
      { p with
        bai := (if me.status = PFTL_PAGE_VALID then
                  bdbm_abm_invalidate_page p.bai me.phyaddr.channel_no me.phyaddr.chip_no
                    me.phyaddr.block_no me.phyaddr.page_no
                else p.bai),
        ptr_mapping_table := p.ptr_mapping_table.set lpa
          { status := PFTL_PAGE_VALID,
            phyaddr := { me.phyaddr with channel_no := ppa.channel_no, chip_no := ppa.chip_no,
                                         block_no := ppa.block_no, page_no := ppa.page_no } } }) := by
  have hr : ¬ lpa ≥ np.nr_pages_per_ssd := by omega
  simp only [bdbm_page_ftl_map_lpa_to_ppa, hr, if_false, hme]

/-- The result of `map_lpa_to_ppa` for an out-of-range `lpa`. -/
theorem map_lpa_to_ppa_out_of_range (np : nand_params_t) (p : bdbm_page_ftl_private) (lpa : Nat)
    (ppa : bdbm_phyaddr_t) (hlpa : np.nr_pages_per_ssd ≤ lpa) :
    bdbm_page_ftl_map_lpa_to_ppa np p lpa ppa = some (1, p) := by
  simp [bdbm_page_ftl_map_lpa_to_ppa, hlpa]

/-- An index inside a list has an entry. -/
theorem getElem?_of_lt {α : Type} (l : List α) (i : Nat) (h : i < l.length) :
    ∃ a, l[i]? = some a :=
  ⟨l[i], List.getElem?_eq_getElem h⟩

theorem valid_ppas_congr (t1 t2 : List bdbm_page_mapping_entry) (start n : Nat)
    (h : ∀ i, start ≤ i → i < start + n → t1[i]? = t2[i]?) :
    valid_ppas t1 start n = valid_ppas t2 start n := by
  unfold valid_ppas
  apply List.filterMap_congr
  intro i hi
  rw [List.mem_range'_1] at hi
  rw [h i hi.1 hi.2]

theorem valid_ppas_succ (t : List bdbm_page_mapping_entry) (start n : Nat)
    (me : bdbm_page_mapping_entry) (h : t[start]? = some me) :
    valid_ppas t start (n + 1) =
      (if me.status = PFTL_PAGE_VALID then [me.phyaddr] else []) ++ valid_ppas t (start + 1) n := by
  unfold valid_ppas
  rw [List.range'_succ, List.filterMap_cons, h]
  by_cases hv : me.status = PFTL_PAGE_VALID <;> simp [hv]

theorem invalidate_lpa_body_spec (p : bdbm_page_ftl_private) (i : Nat)
    (me : bdbm_page_mapping_entry) (h : p.ptr_mapping_table[i]? = some me) :
    invalidate_lpa_body p i = some
      (if me.status = PFTL_PAGE_VALID then
        { p with
          bai := bdbm_abm_invalidate_page p.bai me.phyaddr.channel_no me.phyaddr.chip_no
                   me.phyaddr.block_no me.phyaddr.page_no,
          ptr_mapping_table :=
            p.ptr_mapping_table.set i { me with status := PFTL_PAGE_INVALID } }
       else p) := by
  unfold invalidate_lpa_body
  rw [h]
  by_cases hv : me.status = PFTL_PAGE_VALID <;> simp [hv]

/-- The loop of `invalidate_lpa` over `n` entries from `start`, all inside the table. -/
theorem invalidate_lpa_loop_spec (n : Nat) : ∀ (start : Nat) (p : bdbm_page_ftl_private),
    start + n ≤ p.ptr_mapping_table.length →
    ∃ p1, invalidate_lpa_loop n start p = some p1 ∧
      p1.ptr_mapping_table.length = p.ptr_mapping_table.length ∧
      (∀ i, (i < start ∨ start + n ≤ i) → p1.ptr_mapping_table[i]? = p.ptr_mapping_table[i]?) ∧
      (∀ i me, start ≤ i → i < start + n → p.ptr_mapping_table[i]? = some me →
        p1.ptr_mapping_table[i]? =
          some (if me.status = PFTL_PAGE_VALID then { me with status := PFTL_PAGE_INVALID }
                else me)) ∧
      p1.bai = abm_invalidate_pages p.bai (valid_ppas p.ptr_mapping_table start n) ∧
      p1.curr_puid = p.curr_puid ∧ p1.curr_page_ofs = p.curr_page_ofs ∧
      p1.ac_bab = p.ac_bab ∧ p1.nr_punits = p.nr_punits ∧ p1.gc_bab = p.gc_bab := by
  induction n with
  | zero =>
    intro start p _
    refine ⟨p, rfl, rfl, fun _ _ => rfl, ?_, ?_, rfl, rfl, rfl, rfl, rfl⟩
    · intro i me h1 h2; omega
    · simp [valid_ppas, abm_invalidate_pages]
  | succ n ih =>
    intro start p hle
    have hlt : start < p.ptr_mapping_table.length := by omega
    have hget : p.ptr_mapping_table[start]? = some p.ptr_mapping_table[start] :=
      List.getElem?_eq_getElem hlt
    have hbody := invalidate_lpa_body_spec p start _ hget
    generalize hme : p.ptr_mapping_table[start] = me at hget hbody
    generalize hq : (if me.status = PFTL_PAGE_VALID then
        { p with
          bai := bdbm_abm_invalidate_page p.bai me.phyaddr.channel_no me.phyaddr.chip_no
                   me.phyaddr.block_no me.phyaddr.page_no,
          ptr_mapping_table :=
            p.ptr_mapping_table.set start { me with status := PFTL_PAGE_INVALID } }
       else p) = q at hbody
    have hqlen : q.ptr_mapping_table.length = p.ptr_mapping_table.length := by
      rw [← hq]; split <;> simp
    have hqne : ∀ i, i ≠ start → q.ptr_mapping_table[i]? = p.ptr_mapping_table[i]? := by
      intro i hi
      rw [← hq]; split
      · exact List.getElem?_set_ne (Ne.symm hi)
      · rfl
    have hqat : q.ptr_mapping_table[start]? =
        some (if me.status = PFTL_PAGE_VALID then { me with status := PFTL_PAGE_INVALID }
              else me) := by
      rw [← hq]; split
      · exact List.getElem?_set_self hlt
      · exact hget
    have hqbai : q.bai = abm_invalidate_pages p.bai
        (if me.status = PFTL_PAGE_VALID then [me.phyaddr] else []) := by
      rw [← hq]; split <;> simp [abm_invalidate_pages]
    have hqrest : q.curr_puid = p.curr_puid ∧ q.curr_page_ofs = p.curr_page_ofs ∧
        q.ac_bab = p.ac_bab ∧ q.nr_punits = p.nr_punits ∧ q.gc_bab = p.gc_bab := by
      rw [← hq]; split <;> simp
    obtain ⟨p1, hrun, hl1, hout, hin, hbai, h1, h2, h3, h4, h5⟩ := ih (start + 1) q (by omega)
    refine ⟨p1, ?_, by omega, ?_, ?_, ?_, ?_, ?_, ?_, ?_, ?_⟩
    · simp only [invalidate_lpa_loop, hbody, hrun]
    · intro i hi
      rw [hout i (by omega), hqne i (by omega)]
    · intro i me1 hi1 hi2 hme1
      rcases Nat.eq_or_lt_of_le hi1 with heq | hgt
      · subst heq
        rw [hget] at hme1
        cases hme1
        rw [hout start (by omega), hqat]
      · rw [hin i me1 (by omega) (by omega) (by rw [hqne i (by omega)]; exact hme1)]
    · rw [hbai, hqbai, valid_ppas_succ _ _ _ _ hget,
        valid_ppas_congr q.ptr_mapping_table p.ptr_mapping_table (start + 1) n
          (fun i hi _ => hqne i (by omega))]
      simp [abm_invalidate_pages, List.foldl_append]
    · rw [h1, hqrest.1]
    · rw [h2, hqrest.2.1]
    · rw [h3, hqrest.2.2.1]
    · rw [h4, hqrest.2.2.2.1]
    · rw [h5, hqrest.2.2.2.2]

/-- The loop of `invalidate_lpa` changes nothing where no entry is VALID. -/
theorem invalidate_lpa_loop_no_valid (n : Nat) : ∀ (start : Nat) (p : bdbm_page_ftl_private),
    (∀ i, start ≤ i → i < start + n →
      ∃ me, p.ptr_mapping_table[i]? = some me ∧ me.status ≠ PFTL_PAGE_VALID) →
    invalidate_lpa_loop n start p = some p := by
  induction n with
  | zero => intro start p _; rfl
  | succ n ih =>
    intro start p h
    obtain ⟨me, hme, hnv⟩ := h start (by omega) (by omega)
    have hbody := invalidate_lpa_body_spec p start me hme
    simp only [hnv, if_false] at hbody
    simp only [invalidate_lpa_loop, hbody]
    exact ih (start + 1) p (fun i h1 h2 => h i (by omega) (by omega))

/-- The function `invalidate_lpa` on a table of `nr_pages_per_ssd` entries, for
every pair of arguments. -/
theorem invalidate_lpa_general (np : nand_params_t) (p : bdbm_page_ftl_private)
    (lpa len : Nat) (hlen : p.ptr_mapping_table.length = np.nr_pages_per_ssd) :
    ∃ ret p1, bdbm_page_ftl_invalidate_lpa np p lpa len = some (ret, p1) ∧
      p1.ptr_mapping_table.length = p.ptr_mapping_table.length ∧
      (∀ i, ¬ (lpa ≤ i ∧ i < lpa + len) → p1.ptr_mapping_table[i]? = p.ptr_mapping_table[i]?) ∧
      (ret = 0 → ∀ i, lpa ≤ i → i < lpa + (u64 (lpa + len) - lpa) →
        ∃ me, p1.ptr_mapping_table[i]? = some me ∧ me.status ≠ PFTL_PAGE_VALID) ∧
      (ret = 0 ↔ u64 (lpa + len) ≤ np.nr_pages_per_ssd) ∧
      (ret ≠ 0 → p1 = p) ∧
      p1.bai = abm_invalidate_pages p.bai
        (valid_ppas p.ptr_mapping_table lpa (if ret = 0 then u64 (lpa + len) - lpa else 0)) ∧
      p1.curr_puid = p.curr_puid ∧ p1.curr_page_ofs = p.curr_page_ofs ∧
      p1.ac_bab = p.ac_bab ∧ p1.nr_punits = p.nr_punits ∧ p1.gc_bab = p.gc_bab := by
  unfold bdbm_page_ftl_invalidate_lpa
  have hu := u64_le (lpa + len)
  by_cases hr : u64 (lpa + len) > np.nr_pages_per_ssd
  · refine ⟨1, p, by simp [hr], rfl, fun _ _ => rfl, ?_, ?_, fun _ => rfl, ?_,
      rfl, rfl, rfl, rfl, rfl⟩
    · intro h; simp at h
    · constructor
      · intro h; simp at h
      · intro h; omega
    · simp [valid_ppas, abm_invalidate_pages]
  · rcases Nat.eq_zero_or_pos (u64 (lpa + len) - lpa) with hz | hpos
    · refine ⟨0, p, by simp [hr, hz, invalidate_lpa_loop], rfl, fun _ _ => rfl, ?_, ?_, ?_, ?_,
        rfl, rfl, rfl, rfl, rfl⟩
      · intro _ i h1 h2; omega
      · simp only [true_iff]; omega
      · intro h; exact absurd rfl h
      · simp [hz, valid_ppas, abm_invalidate_pages]
    · obtain ⟨p1, hrun, hl1, hout, hin, hbai, h1, h2, h3, h4, h5⟩ :=
        invalidate_lpa_loop_spec (u64 (lpa + len) - lpa) lpa p (by omega)
      refine ⟨0, p1, by simp [hr, hrun], hl1, ?_, ?_, ?_, ?_, ?_, h1, h2, h3, h4, h5⟩
      · intro i hi
        apply hout
        omega
      · intro _ i hi1 hi2
        have hlt : i < p.ptr_mapping_table.length := by omega
        have hget : p.ptr_mapping_table[i]? = some p.ptr_mapping_table[i] :=
          List.getElem?_eq_getElem hlt
        refine ⟨_, hin i _ hi1 hi2 hget, ?_⟩
        split
        · simp [PFTL_PAGE_INVALID, PFTL_PAGE_VALID]
        · assumption
      · simp only [true_iff]; omega
      · intro h; exact absurd rfl h
      · simpa using hbai

/-- C4: for a range inside the table whose end does not wrap, `invalidate_lpa`
returns 0; every VALID entry of the range becomes INVALID with its address
kept; the ABM has received one `invalidate_page` call for the stored address of
each such entry, in ascending order; every other entry, the cursor and the
active blocks are unchanged. -/
theorem invalidate_lpa_in_range (np : nand_params_t) (p : bdbm_page_ftl_private)
    (lpa len : Nat) (hlen : p.ptr_mapping_table.length = np.nr_pages_per_ssd)
    (hwrap : lpa + len < 2 ^ 64) (hrange : lpa + len ≤ np.nr_pages_per_ssd) :
    ∃ p1, bdbm_page_ftl_invalidate_lpa np p lpa len = some (0, p1) ∧
      (∀ i me, lpa ≤ i → i < lpa + len → p.ptr_mapping_table[i]? = some me →
        me.status = PFTL_PAGE_VALID →
        p1.ptr_mapping_table[i]? = some { me with status := PFTL_PAGE_INVALID }) ∧
      (∀ i me, lpa ≤ i → i < lpa + len → p.ptr_mapping_table[i]? = some me →
        me.status ≠ PFTL_PAGE_VALID → p1.ptr_mapping_table[i]? = some me) ∧
      (∀ i, (i < lpa ∨ lpa + len ≤ i) → p1.ptr_mapping_table[i]? = p.ptr_mapping_table[i]?) ∧
      p1.ptr_mapping_table.length = p.ptr_mapping_table.length ∧
      p1.bai = abm_invalidate_pages p.bai (valid_ppas p.ptr_mapping_table lpa len) ∧
      p1.curr_puid = p.curr_puid ∧ p1.curr_page_ofs = p.curr_page_ofs ∧
      p1.ac_bab = p.ac_bab ∧ p1.nr_punits = p.nr_punits := by
  have hu : u64 (lpa + len) = lpa + len := u64_of_lt hwrap
  have hcnt : u64 (lpa + len) - lpa = len := by omega
  obtain ⟨p1, hrun, hl1, hout, hin, hbai, h1, h2, h3, h4, _⟩ :=
    invalidate_lpa_loop_spec len lpa p (by omega)
  refine ⟨p1, ?_, ?_, ?_, hout, hl1, hbai, h1, h2, h3, h4⟩
  · unfold bdbm_page_ftl_invalidate_lpa
    have hr : ¬ u64 (lpa + len) > np.nr_pages_per_ssd := by omega
    simp only [hr, if_false, hcnt, hrun]
  · intro i me hi1 hi2 hme hv
    rw [hin i me hi1 hi2 hme, if_pos hv]
  · intro i me hi1 hi2 hme hv
    rw [hin i me hi1 hi2 hme, if_neg hv]

/-- C4 at scenario S3: `invalidate_lpa(2, 3)` after the pages 0..7 are written. -/
theorem invalidate_lpa_in_range_witness :
    S1_written.ptr_mapping_table.length = S1_np.nr_pages_per_ssd ∧ 2 + 3 < 2 ^ 64 ∧
    2 + 3 ≤ S1_np.nr_pages_per_ssd ∧
    ∃ p1, bdbm_page_ftl_invalidate_lpa S1_np S1_written 2 3 = some (0, p1) ∧
      p1.ptr_mapping_table[3]? =
        some { status := PFTL_PAGE_INVALID, phyaddr := mk_ppa 1 1 0 0 } ∧
      p1.ac_bab = S1_written.ac_bab := by
  refine ⟨by decide, by decide, by decide, ?_⟩
  obtain ⟨p1, hrun, hv, _, _, _, _, _, _, hab, _⟩ :=
    invalidate_lpa_in_range S1_np S1_written 2 3 (by decide) (by decide) (by decide)
  exact ⟨p1, hrun, hv 3 { status := PFTL_PAGE_VALID, phyaddr := mk_ppa 1 1 0 0 }
    (by decide) (by decide) (by decide) rfl, hab⟩

/-- C5 (failing input): with `lpa = 1` and `len = 2^64 - 1` the 64-bit sum wraps
to 0, so `invalidate_lpa` returns 0 and touches nothing although the true sum
`2^64` exceeds `nr_pages_per_ssd = 64`. -/
theorem invalidate_lpa_wrapped_sum_accepted :
    S1_np.nr_pages_per_ssd < 1 + (2 ^ 64 - 1) ∧
    bdbm_page_ftl_invalidate_lpa S1_np S1_written 1 (2 ^ 64 - 1) = some (0, S1_written) := by
  constructor
  · decide
  · rfl

/-- C6: calling `invalidate_lpa` twice with the same range leaves the state that
one call leaves, and both calls return the same code. -/
theorem invalidate_lpa_idempotent (np : nand_params_t) (p : bdbm_page_ftl_private)
    (lpa len : Nat) (hlen : p.ptr_mapping_table.length = np.nr_pages_per_ssd) :
    ∃ ret p1, bdbm_page_ftl_invalidate_lpa np p lpa len = some (ret, p1) ∧
      bdbm_page_ftl_invalidate_lpa np p1 lpa len = some (ret, p1) := by
  obtain ⟨ret, p1, hrun, _, _, hnv, hret, hsame, _⟩ := invalidate_lpa_general np p lpa len hlen
  refine ⟨ret, p1, hrun, ?_⟩
  by_cases h0 : ret = 0
  · subst h0
    have hr : ¬ u64 (lpa + len) > np.nr_pages_per_ssd := by
      have := hret.1 rfl
      omega
    unfold bdbm_page_ftl_invalidate_lpa
    simp only [hr, if_false]
    rw [invalidate_lpa_loop_no_valid _ _ _ (hnv rfl)]
  · have hp := hsame h0
    subst hp
    exact hrun

/-- C6 at scenario S3: `invalidate_lpa(2, 3)` twice after the pages 0..7 are written. -/
theorem invalidate_lpa_idempotent_witness :
    S1_written.ptr_mapping_table.length = S1_np.nr_pages_per_ssd ∧
    ∃ ret p1, bdbm_page_ftl_invalidate_lpa S1_np S1_written 2 3 = some (ret, p1) ∧
      bdbm_page_ftl_invalidate_lpa S1_np p1 2 3 = some (ret, p1) :=
  ⟨by decide, invalidate_lpa_idempotent S1_np S1_written 2 3 (by decide)⟩

/-! ## Last write wins -/

/-- Calls that map or invalidate other logical pages keep the entry of `lpa`. -/
theorem ftl_run_on_other_lpa (np : nand_params_t) (lpa : Nat) :
    ∀ (ops : List ftl_op) (p : bdbm_page_ftl_private),
      p.ptr_mapping_table.length = np.nr_pages_per_ssd →
      (∀ op ∈ ops, on_other_lpa lpa op = true) →
      ∃ p1, ftl_run np p ops = some p1 ∧
        p1.ptr_mapping_table.length = p.ptr_mapping_table.length ∧
        p1.ptr_mapping_table[lpa]? = p.ptr_mapping_table[lpa]? := by
  intro ops
  induction ops with
  | nil => intro p _ _; exact ⟨p, rfl, rfl, rfl⟩
  | cons op ops ih =>
    intro p hlen hops
    have hop := hops op (List.mem_cons_self _ _)
    have hrest : ∀ o ∈ ops, on_other_lpa lpa o = true :=
      fun o ho => hops o (List.mem_cons_of_mem _ ho)
    cases op with
    | get_free_ppa l => simp [on_other_lpa] at hop
    | get_ppa l => simp [on_other_lpa] at hop
    | map_lpa_to_ppa l x =>
      simp only [on_other_lpa, decide_eq_true_eq] at hop
      rcases Nat.lt_or_ge l np.nr_pages_per_ssd with hl | hl
      · obtain ⟨me, hme⟩ := getElem?_of_lt p.ptr_mapping_table l (by omega)
        have hmap := map_lpa_to_ppa_in_range np p l x me hl hme
        generalize hq : ({ p with
            bai := (if me.status = PFTL_PAGE_VALID then
                      bdbm_abm_invalidate_page p.bai me.phyaddr.channel_no me.phyaddr.chip_no
                        me.phyaddr.block_no me.phyaddr.page_no
                    else p.bai),
            ptr_mapping_table := p.ptr_mapping_table.set l
              { status := PFTL_PAGE_VALID,
                phyaddr := { me.phyaddr with channel_no := x.channel_no, chip_no := x.chip_no,
                                             block_no := x.block_no, page_no := x.page_no } } }
          : bdbm_page_ftl_private) = q at hmap
        have hql : q.ptr_mapping_table.length = p.ptr_mapping_table.length := by
          rw [← hq]; simp
        have hqat : q.ptr_mapping_table[lpa]? = p.ptr_mapping_table[lpa]? := by
          rw [← hq]; exact List.getElem?_set_ne hop
        obtain ⟨p1, hrun, hl1, hat⟩ := ih q (by omega) hrest
        refine ⟨p1, ?_, by omega, ?_⟩
        · simp only [ftl_run, ftl_step, hmap, Option.map_some']
          exact hrun
        · rw [hat, hqat]
      · obtain ⟨p1, hrun, hl1, hat⟩ := ih p hlen hrest
        refine ⟨p1, ?_, hl1, hat⟩
        simp only [ftl_run, ftl_step, map_lpa_to_ppa_out_of_range np p l x hl, Option.map_some']
        exact hrun
    | invalidate_lpa l len =>
      simp only [on_other_lpa, decide_eq_true_eq] at hop
      obtain ⟨ret, q, hinv, hql, hout, _⟩ := invalidate_lpa_general np p l len hlen
      obtain ⟨p1, hrun, hl1, hat⟩ := ih q (by omega) hrest
      refine ⟨p1, ?_, by omega, ?_⟩
      · simp only [ftl_run, ftl_step, hinv, Option.map_some']
        exact hrun
      · rw [hat, hout lpa hop]

/-- C1: after `map_lpa_to_ppa(lpa, p1)` and `map_lpa_to_ppa(lpa, p2)`, both
returning 0, and any further map and invalidate calls on other logical pages,
`get_ppa(lpa)` returns 0 with the channel, chip, block and page of `p2`. -/
theorem last_write_wins (np : nand_params_t) (p : bdbm_page_ftl_private) (lpa : Nat)
    (p1 p2 out0 : bdbm_phyaddr_t) (ops : List ftl_op)
    (hlen : p.ptr_mapping_table.length = np.nr_pages_per_ssd)
    (hlpa : lpa < np.nr_pages_per_ssd)
    (hops : ∀ op ∈ ops, on_other_lpa lpa op = true) :
    ∃ s1 s2 s3 out,
      bdbm_page_ftl_map_lpa_to_ppa np p lpa p1 = some (0, s1) ∧
      bdbm_page_ftl_map_lpa_to_ppa np s1 lpa p2 = some (0, s2) ∧
      ftl_run np s2 ops = some s3 ∧
      bdbm_page_ftl_get_ppa np s3 lpa out0 = some (0, s3, out) ∧
      out.channel_no = p2.channel_no ∧ out.chip_no = p2.chip_no ∧
      out.block_no = p2.block_no ∧ out.page_no = p2.page_no := by
  have hlt : lpa < p.ptr_mapping_table.length := by omega
  obtain ⟨me0, hme0⟩ := getElem?_of_lt p.ptr_mapping_table lpa hlt
  have hm1 := map_lpa_to_ppa_in_range np p lpa p1 me0 hlpa hme0
  generalize hs1 : ({ p with
        bai := (if me0.status = PFTL_PAGE_VALID then
                  bdbm_abm_invalidate_page p.bai me0.phyaddr.channel_no me0.phyaddr.chip_no
                    me0.phyaddr.block_no me0.phyaddr.page_no
                else p.bai),
        ptr_mapping_table := p.ptr_mapping_table.set lpa
          { status := PFTL_PAGE_VALID,
            phyaddr := { me0.phyaddr with channel_no := p1.channel_no, chip_no := p1.chip_no,
                                          block_no := p1.block_no, page_no := p1.page_no } } }
      : bdbm_page_ftl_private) = s1 at hm1
  have hl1 : s1.ptr_mapping_table.length = np.nr_pages_per_ssd := by
    rw [← hs1]; simpa using hlen
  obtain ⟨me1, hme1⟩ := getElem?_of_lt s1.ptr_mapping_table lpa (by omega)
  have hm2 := map_lpa_to_ppa_in_range np s1 lpa p2 me1 hlpa hme1
  generalize hs2 : ({ s1 with
        bai := (if me1.status = PFTL_PAGE_VALID then
                  bdbm_abm_invalidate_page s1.bai me1.phyaddr.channel_no me1.phyaddr.chip_no
                    me1.phyaddr.block_no me1.phyaddr.page_no
                else s1.bai),
        ptr_mapping_table := s1.ptr_mapping_table.set lpa
          { status := PFTL_PAGE_VALID,
            phyaddr := { me1.phyaddr with channel_no := p2.channel_no, chip_no := p2.chip_no,
                                          block_no := p2.block_no, page_no := p2.page_no } } }
      : bdbm_page_ftl_private) = s2 at hm2
  have hl2 : s2.ptr_mapping_table.length = np.nr_pages_per_ssd := by
    rw [← hs2]; simpa using hl1
  have hat2 : s2.ptr_mapping_table[lpa]? = some
      { status := PFTL_PAGE_VALID,
        phyaddr := { me1.phyaddr with channel_no := p2.channel_no, chip_no := p2.chip_no,
                                      block_no := p2.block_no, page_no := p2.page_no } } := by
    rw [← hs2]
    exact List.getElem?_set_self (by omega)
  obtain ⟨s3, hrun, hl3, hat⟩ := ftl_run_on_other_lpa np lpa ops s2 hl2 hops
  obtain ⟨out, hget, o1, o2, o3, o4⟩ :=
    get_ppa_valid np s3 lpa out0 _ hlpa (by rw [hat, hat2]) rfl
  exact ⟨s1, s2, s3, out, hm1, hm2, hrun, hget, o1, o2, o3, o4⟩

/-- C1 at the geometry of scenario S1, with a map of page 1 and a trim of pages
5..7 after the two maps of page 3. -/
theorem last_write_wins_witness :
    S1_fresh.ptr_mapping_table.length = S1_np.nr_pages_per_ssd ∧
    3 < S1_np.nr_pages_per_ssd ∧
    ∃ s1 s2 s3 out,
      bdbm_page_ftl_map_lpa_to_ppa S1_np S1_fresh 3 (mk_ppa 1 1 0 0) = some (0, s1) ∧
      bdbm_page_ftl_map_lpa_to_ppa S1_np s1 3 (mk_ppa 0 1 0 2) = some (0, s2) ∧
      ftl_run S1_np s2 [ftl_op.map_lpa_to_ppa 1 (mk_ppa 0 1 0 2), ftl_op.invalidate_lpa 5 3]
        = some s3 ∧
      bdbm_page_ftl_get_ppa S1_np s3 3 zero_ppa = some (0, s3, out) ∧
      out.channel_no = 0 ∧ out.chip_no = 1 ∧ out.block_no = 0 ∧ out.page_no = 2 :=
  ⟨by decide, by decide,
    last_write_wins S1_np S1_fresh 3 (mk_ppa 1 1 0 0) (mk_ppa 0 1 0 2) zero_ppa
      [ftl_op.map_lpa_to_ppa 1 (mk_ppa 0 1 0 2), ftl_op.invalidate_lpa 5 3]
      (by decide) (by decide) (by decide)⟩

/-! ## Arithmetic of unit indices -/

theorem abm_unit_div_mod (np : nand_params_t) (u : Nat) :
    abm_unit np (u / np.nr_chips_per_channel) (u % np.nr_chips_per_channel) = u := by
  unfold abm_unit
  rw [Nat.mul_comm]
  exact Nat.div_add_mod u np.nr_chips_per_channel

theorem mul_add_inj (K a b a1 b1 : Nat) (hb : b < K) (hb1 : b1 < K)
    (h : a * K + b = a1 * K + b1) : a = a1 ∧ b = b1 := by
  have hK : 0 < K := by omega
  have h1 : (a * K + b) / K = a := by
    rw [Nat.mul_comm, Nat.mul_add_div hK, Nat.div_eq_of_lt hb]; rfl
  have h2 : (a1 * K + b1) / K = a1 := by
    rw [Nat.mul_comm, Nat.mul_add_div hK, Nat.div_eq_of_lt hb1]; rfl
  have ha : a = a1 := by rw [← h1, ← h2, h]
  subst ha
  exact ⟨rfl, by omega⟩

theorem abm_unit_inj (np : nand_params_t) (a b a1 b1 : Nat)
    (hb : b < np.nr_chips_per_channel) (hb1 : b1 < np.nr_chips_per_channel)
    (h : abm_unit np a b = abm_unit np a1 b1) : a = a1 ∧ b = b1 :=
  mul_add_inj _ a b a1 b1 hb hb1 h

theorem mul_add_lt (C K a b : Nat) (ha : a < C) (hb : b < K) : a * K + b < C * K := by
  have h1 : (a + 1) * K ≤ C * K := Nat.mul_le_mul_right K ha
  rw [Nat.add_mul, Nat.one_mul] at h1
  omega

/-- The slot of `ac_bab` read by `get_free_ppa` for the cursor `u`. -/
theorem slot_lt (np : nand_params_t) (u : Nat) (hC : 0 < np.nr_channels)
    (hu : u < nr_units np) :
    abm_unit np (u % np.nr_channels) (u / np.nr_channels) < nr_units np ∧
    u / np.nr_channels < np.nr_chips_per_channel := by
  unfold nr_units at hu
  have h2 : u / np.nr_channels < np.nr_chips_per_channel :=
    (Nat.div_lt_iff_lt_mul hC).2 (by rw [Nat.mul_comm]; exact hu)
  exact ⟨mul_add_lt _ _ _ _ (Nat.mod_lt _ hC) h2, h2⟩

theorem punit_pairs_eq (np : nand_params_t) :
    punit_pairs np = (List.range (nr_units np)).map
      fun u => (u / np.nr_chips_per_channel, u % np.nr_chips_per_channel) := by
  unfold punit_pairs nr_units
  generalize np.nr_channels = C
  generalize np.nr_chips_per_channel = K
  induction C with
  | zero => simp
  | succ C ih =>
    rw [List.range_succ, List.flatMap_append, ih, Nat.succ_mul, List.range_add,
      List.map_append]
    congr 1
    simp only [List.flatMap_cons, List.flatMap_nil, List.append_nil, List.map_map]
    apply List.map_congr_left
    intro j hj
    rw [List.mem_range] at hj
    have hK : 0 < K := by omega
    simp only [Function.comp]
    rw [Nat.mul_comm C K, Nat.mul_add_div hK, Nat.div_eq_of_lt hj, Nat.mul_add_mod,
      Nat.mod_eq_of_lt hj]
    rfl

/-! ## The ABM operations keep the ABM well formed -/

theorem getD_set (l : List (List Nat)) (u v : Nat) (x : List Nat) (hu : u < l.length) :
    (l.set u x).getD v [] = if u = v then x else l.getD v [] := by
  simp only [List.getD_eq_getElem?_getD, List.getElem?_set]
  by_cases h : u = v
  · subst h
    simp only [if_true, if_pos hu, Option.getD_some]
  · simp only [if_neg h]

theorem abm_invalidate_page_frame (bai : bdbm_abm_info_t) (ch chip blk pg : Nat) :
    (bdbm_abm_invalidate_page bai ch chip blk pg).np = bai.np ∧
    (bdbm_abm_invalidate_page bai ch chip blk pg).list_free = bai.list_free ∧
    abm_coords (bdbm_abm_invalidate_page bai ch chip blk pg) = abm_coords bai := by
  unfold bdbm_abm_invalidate_page
  cases bdbm_abm_get_block bai ch chip blk with
  | none => exact ⟨rfl, rfl, rfl⟩
  | some r =>
    simp only
    cases hb : bai.blocks[r]? with
    | none => exact ⟨rfl, rfl, rfl⟩
    | some b =>
      simp only
      split
      · refine ⟨rfl, rfl, ?_⟩
        unfold abm_coords
        apply List.ext_getElem?
        intro i
        simp only [List.getElem?_map, List.getElem?_set]
        by_cases hi : r = i
        · subst hi
          simp only [if_true]
          split
          · simp [hb, blk_coords]
          · rw [hb] ; rename_i h; exact absurd (by
              rcases Nat.lt_or_ge r bai.blocks.length with h1 | h1
              · exact h1
              · rw [List.getElem?_eq_none h1] at hb; cases hb) h
        · simp [hi]
      · exact ⟨rfl, rfl, rfl⟩

theorem abm_invalidate_pages_frame (l : List bdbm_phyaddr_t) : ∀ (bai : bdbm_abm_info_t),
    (abm_invalidate_pages bai l).np = bai.np ∧
    (abm_invalidate_pages bai l).list_free = bai.list_free ∧
    abm_coords (abm_invalidate_pages bai l) = abm_coords bai := by
  induction l with
  | nil => intro bai; exact ⟨rfl, rfl, rfl⟩
  | cons a l ih =>
    intro bai
    obtain ⟨h1, h2, h3⟩ := ih (bdbm_abm_invalidate_page bai a.channel_no a.chip_no a.block_no a.page_no)
    obtain ⟨g1, g2, g3⟩ := abm_invalidate_page_frame bai a.channel_no a.chip_no a.block_no a.page_no
    simp only [abm_invalidate_pages, List.foldl_cons] at h1 h2 h3 ⊢
    exact ⟨h1.trans g1, h2.trans g2, h3.trans g3⟩

/-- The ABM invariant depends on the geometry, the free lists and the coordinates only. -/
theorem abm_ok_of_frame (np : nand_params_t) (bai bai1 : bdbm_abm_info_t)
    (h1 : bai1.np = bai.np) (h2 : bai1.list_free = bai.list_free)
    (h3 : abm_coords bai1 = abm_coords bai) (h : abm_ok np bai) : abm_ok np bai1 := by
  unfold abm_ok free_list at *
  rw [h1, h2, h3]
  exact h

theorem map_set_same {α β : Type} (f : α → β) (l : List α) (r : Nat) (b b1 : α)
    (hb : l[r]? = some b) (hf : f b1 = f b) : (l.set r b1).map f = l.map f := by
  apply List.ext_getElem?
  intro i
  simp only [List.getElem?_map, List.getElem?_set]
  by_cases hi : r = i
  · subst hi
    have hr : r < l.length := by
      rcases Nat.lt_or_ge r l.length with h1 | h1
      · exact h1
      · rw [List.getElem?_eq_none h1] at hb; cases hb
    simp only [if_true, if_pos hr, hb, Option.map_some', hf]
  · simp only [if_neg hi]

theorem coords_block (bai : bdbm_abm_info_t) (r : Nat) (c : Nat × Nat × Nat)
    (h : (abm_coords bai)[r]? = some c) :
    ∃ b, bai.blocks[r]? = some b ∧ blk_coords b = c := by
  unfold abm_coords at h
  rw [List.getElem?_map] at h
  cases hb : bai.blocks[r]? with
  | none => rw [hb] at h; cases h
  | some b =>
    rw [hb] at h
    exact ⟨b, rfl, by simpa using h⟩

/-- The commit of the head of the free list of unit `u`. -/
theorem commit_spec (np : nand_params_t) (bai : bdbm_abm_info_t) (u r : Nat) (t : List Nat)
    (hok : abm_ok np bai) (hu : u < nr_units np) (hfl : free_list bai u = r :: t) :
    abm_coords (bdbm_abm_get_free_block_commit bai r) = abm_coords bai ∧
    free_list (bdbm_abm_get_free_block_commit bai r) u = t ∧
    (∀ v, v ≠ u → free_list (bdbm_abm_get_free_block_commit bai r) v = free_list bai v) ∧
    abm_ok np (bdbm_abm_get_free_block_commit bai r) := by
  obtain ⟨hnp, hlen, hmem, hnd, hco⟩ := hok
  obtain ⟨c, hc, hcu, hck⟩ := hmem u hu r (by rw [hfl]; exact List.mem_cons_self _ _)
  obtain ⟨b, hb, hbc⟩ := coords_block bai r c hc
  have hunit : abm_unit bai.np b.channel_no b.chip_no = u := by
    rw [hnp, ← hcu, ← hbc]; rfl
  have hcommit : bdbm_abm_get_free_block_commit bai r =
      { bai with
        blocks := bai.blocks.set r { b with state := bdbm_abm_blk_state.ACTIVE },
        list_free := bai.list_free.set u t,
        list_active := bai.list_active.set u (bai.list_active.getD u [] ++ [r]) } := by
    unfold bdbm_abm_get_free_block_commit
    simp only [hb, hunit]
    have : (bai.list_free.getD u []).erase r = t := by
      have := hfl
      unfold free_list at this
      rw [this, List.erase_cons_head]
    rw [this]
  have hcoords : abm_coords (bdbm_abm_get_free_block_commit bai r) = abm_coords bai := by
    rw [hcommit]
    exact map_set_same blk_coords bai.blocks r b _ hb rfl
  have hfree : ∀ v, free_list (bdbm_abm_get_free_block_commit bai r) v =
      if u = v then t else free_list bai v := by
    intro v
    rw [hcommit]
    exact getD_set bai.list_free u v t (by omega)
  have hu1 : free_list (bdbm_abm_get_free_block_commit bai r) u = t := by
    rw [hfree u, if_pos rfl]
  have hv1 : ∀ v, v ≠ u → free_list (bdbm_abm_get_free_block_commit bai r) v = free_list bai v := by
    intro v hv
    rw [hfree v, if_neg (Ne.symm hv)]
  refine ⟨hcoords, hu1, hv1, ?_, ?_, ?_, ?_, ?_⟩
  · rw [hcommit]; exact hnp
  · rw [hcommit]; simpa using hlen
  · intro v hv x hx
    rw [hcoords]
    by_cases hvu : v = u
    · subst hvu
      rw [hu1] at hx
      exact hmem v hv x (by rw [hfl]; exact List.mem_cons_of_mem _ hx)
    · rw [hv1 v hvu] at hx
      exact hmem v hv x hx
  · intro v hv
    by_cases hvu : v = u
    · subst hvu
      rw [hu1]
      have := hnd v hv
      rw [hfl] at this
      exact (List.nodup_cons.1 this).2
    · rw [hv1 v hvu]
      exact hnd v hv
  · rw [hcoords]; exact hco

/-- The loops of `__bdbm_page_ftl_get_active_blocks` from unit `pos` on. -/
theorem get_active_blocks_loop_spec (np : nand_params_t) (m : Nat) : ∀ (pos : Nat) (bai : bdbm_abm_info_t) (bab : List (Option Nat)),
    pos + m = nr_units np → abm_ok np bai → bab.length = nr_units np →
    ∃ ret bai1 bab1,
      get_active_blocks_loop bai bab pos
        ((List.range' pos m).map
          fun u => (u / np.nr_chips_per_channel, u % np.nr_chips_per_channel))
        = some (ret, bai1, bab1) ∧
      (ret = 0 ∨ ret = 1) ∧
      (ret = 0 ↔ ∀ u, pos ≤ u → u < nr_units np → free_list bai u ≠ []) ∧
      bab1.length = nr_units np ∧ abm_ok np bai1 ∧ abm_coords bai1 = abm_coords bai ∧
      (∀ u, u < pos → bab1[u]? = bab[u]? ∧ free_list bai1 u = free_list bai u) ∧
      (ret = 0 → ∀ u, pos ≤ u → u < nr_units np →
        ∃ r, (free_list bai u).head? = some r ∧ bab1[u]? = some (some r) ∧
          free_list bai1 u = (free_list bai u).tail) := by
  induction m with
  | zero =>
    intro pos bai bab hpos hok hlen
    refine ⟨0, bai, bab, rfl, Or.inl rfl, ?_, hlen, hok, rfl, fun _ _ => ⟨rfl, rfl⟩, ?_⟩
    · simp only [true_iff]
      intro u h1 h2; omega
    · intro _ u h1 h2; omega
  | succ m ih =>
    intro pos bai bab hpos hok hlen
    have hposlt : pos < nr_units np := by omega
    have hprep : bdbm_abm_get_free_block_prepare bai (pos / np.nr_chips_per_channel)
        (pos % np.nr_chips_per_channel) = (free_list bai pos).head? := by
      unfold bdbm_abm_get_free_block_prepare free_list
      rw [hok.1, abm_unit_div_mod]
    rw [List.range'_succ, List.map_cons]
    cases hfl : free_list bai pos with
    | nil =>
      refine ⟨1, bai, bab.set pos none, ?_, Or.inr rfl, ?_, by simpa using hlen, hok, rfl, ?_, ?_⟩
      · simp only [get_active_blocks_loop, hlen, hposlt, if_true, hprep, hfl, List.head?_nil]
      · constructor
        · intro h; cases h
        · intro h; exact absurd hfl (h pos (Nat.le_refl _) hposlt)
      · intro u hu
        exact ⟨List.getElem?_set_ne (by omega), rfl⟩
      · intro h; cases h
    | cons r t =>
      obtain ⟨hco, hfu, hfv, hok1⟩ := commit_spec np bai pos r t hok hposlt hfl
      obtain ⟨ret, bai1, bab1, hrun, hret, hiff, hl1, hok2, hco2, hlow, hhigh⟩ :=
        ih (pos + 1) (bdbm_abm_get_free_block_commit bai r) (bab.set pos (some r))
          (by omega) hok1 (by simpa using hlen)
      refine ⟨ret, bai1, bab1, ?_, hret, ?_, hl1, hok2, hco2.trans hco, ?_, ?_⟩
      · simp only [get_active_blocks_loop, hlen, hposlt, if_true, hprep, hfl, List.head?_cons]
        exact hrun
      · rw [hiff]
        constructor
        · intro h u h1 h2
          rcases Nat.eq_or_lt_of_le h1 with heq | hgt
          · subst heq; rw [hfl]; simp
          · have := h u (by omega) h2
            rwa [hfv u (by omega)] at this
        · intro h u h1 h2
          rw [hfv u (by omega)]
          exact h u (by omega) h2
      · intro u hu
        obtain ⟨h1, h2⟩ := hlow u (by omega)
        exact ⟨h1.trans (List.getElem?_set_ne (by omega)), h2.trans (hfv u (by omega))⟩
      · intro h0 u h1 h2
        rcases Nat.eq_or_lt_of_le h1 with heq | hgt
        · subst heq
          obtain ⟨g1, g2⟩ := hlow pos (by omega)
          refine ⟨r, by rw [hfl]; rfl, ?_, ?_⟩
          · rw [g1]; exact List.getElem?_set_self (by omega)
          · rw [g2, hfu, hfl]; rfl
        · obtain ⟨x, hx1, hx2, hx3⟩ := hhigh h0 u (by omega) h2
          rw [hfv u (by omega)] at hx1 hx3
          exact ⟨x, hx1, hx2, hx3⟩

/-- The function `__bdbm_page_ftl_get_active_blocks` on a well-formed ABM. -/
theorem get_active_blocks_spec (np : nand_params_t)
    (bai : bdbm_abm_info_t) (bab : List (Option Nat))
    (hok : abm_ok np bai) (hlen : bab.length = nr_units np) :
    ∃ ret bai1 bab1,
      __bdbm_page_ftl_get_active_blocks np bai bab = some (ret, bai1, bab1) ∧
      (ret = 0 ∨ ret = 1) ∧
      (ret = 0 ↔ ∀ u, u < nr_units np → free_list bai u ≠ []) ∧
      bab1.length = nr_units np ∧ abm_ok np bai1 ∧ abm_coords bai1 = abm_coords bai ∧
      (ret = 0 → ∀ u, u < nr_units np →
        ∃ r, (free_list bai u).head? = some r ∧ bab1[u]? = some (some r) ∧
          free_list bai1 u = (free_list bai u).tail) := by
  obtain ⟨ret, bai1, bab1, hrun, hret, hiff, hl1, hok1, hco, _, hhigh⟩ :=
    get_active_blocks_loop_spec np (nr_units np) 0 bai bab (by omega) hok hlen
  refine ⟨ret, bai1, bab1, ?_, hret, ?_, hl1, hok1, hco, ?_⟩
  · unfold __bdbm_page_ftl_get_active_blocks
    rw [punit_pairs_eq, List.range_eq_range']
    exact hrun
  · rw [hiff]
    exact ⟨fun h u hu => h u (Nat.zero_le _) hu, fun h u _ hu => h u hu⟩
  · intro h0 u hu
    exact hhigh h0 u (Nat.zero_le _) hu

/-! ## One call of `get_free_ppa` on a well-formed state -/

/-- The active block read by `get_free_ppa` at cursor `u`. -/
theorem active_block_at (np : nand_params_t) (p : bdbm_page_ftl_private)
    (hg : geometry_ok np) (hok : alloc_ok np p) (u : Nat) (hu : u < nr_units np) :
    ∃ r b, p.ac_bab[abm_unit np (u % np.nr_channels) (u / np.nr_channels)]? = some (some r) ∧
      p.bai.blocks[r]? = some b ∧ b.channel_no = u % np.nr_channels ∧
      b.chip_no = u / np.nr_channels ∧ ∀ v, v < nr_units np → r ∉ free_list p.bai v := by
  obtain ⟨hslot, hchip⟩ := slot_lt np u hg.1 hu
  obtain ⟨r, c, hr, hc, hcu, hck, hnf⟩ := hok.2.2.2.2.1 _ hslot
  obtain ⟨b, hb, hbc⟩ := coords_block p.bai r c hc
  obtain ⟨h1, h2⟩ := abm_unit_inj np _ _ _ _ hck hchip hcu
  refine ⟨r, b, hr, hb, ?_, ?_, hnf⟩
  · rw [← h1, ← hbc]; rfl
  · rw [← h2, ← hbc]; rfl

/-- The three ways through `get_free_ppa`: the next unit, the next page, and
the replacement of the active blocks. -/
theorem get_free_ppa_cases (np : nand_params_t) (p : bdbm_page_ftl_private)
    (lpa : Nat) (ppa : bdbm_phyaddr_t) (hg : geometry_ok np) (hok : alloc_ok np p) :
    ∃ r b, p.ac_bab[abm_unit np (p.curr_puid % np.nr_channels)
        (p.curr_puid / np.nr_channels)]? = some (some r) ∧
      p.bai.blocks[r]? = some b ∧ b.channel_no = p.curr_puid % np.nr_channels ∧
      b.chip_no = p.curr_puid / np.nr_channels ∧
      (∀ v, v < nr_units np → r ∉ free_list p.bai v) ∧
      (p.curr_puid + 1 < nr_units np →
        bdbm_page_ftl_get_free_ppa np p lpa ppa = some (0,
          { p with curr_puid := p.curr_puid + 1 },
          { channel_no := p.curr_puid % np.nr_channels,
            chip_no := p.curr_puid / np.nr_channels, block_no := b.block_no,
            page_no := p.curr_page_ofs, punit_id := p.curr_puid })) ∧
      (p.curr_puid + 1 = nr_units np → p.curr_page_ofs + 1 < np.nr_pages_per_block →
        bdbm_page_ftl_get_free_ppa np p lpa ppa = some (0,
          { p with curr_puid := 0, curr_page_ofs := p.curr_page_ofs + 1 },
          { channel_no := p.curr_puid % np.nr_channels,
            chip_no := p.curr_puid / np.nr_channels, block_no := b.block_no,
            page_no := p.curr_page_ofs, punit_id := p.curr_puid })) ∧
      (p.curr_puid + 1 = nr_units np → p.curr_page_ofs + 1 = np.nr_pages_per_block →
        ∀ ret bai1 bab1,
          __bdbm_page_ftl_get_active_blocks np p.bai p.ac_bab = some (ret, bai1, bab1) →
          bdbm_page_ftl_get_free_ppa np p lpa ppa = some (if ret = 0 then 0 else 1,
            { p with curr_puid := 0,
                     curr_page_ofs := if ret = 0 then 0 else np.nr_pages_per_block,
                     bai := bai1, ac_bab := bab1 },
            { channel_no := p.curr_puid % np.nr_channels,
              chip_no := p.curr_puid / np.nr_channels, block_no := b.block_no,
              page_no := p.curr_page_ofs, punit_id := p.curr_puid })) := by
  obtain ⟨hC, hK, hP, hN, hP64⟩ := hg
  obtain ⟨hnp, hpu, hofs, hlen, hslots, htbl, habm⟩ := hok
  obtain ⟨r, b, hr, hb, hbch, hbchip, hnf⟩ :=
    active_block_at np p ⟨hC, hK, hP, hN, hP64⟩ ⟨hnp, hpu, hofs, hlen, hslots, htbl, habm⟩
      p.curr_puid hpu
  obtain ⟨hslot, _⟩ := slot_lt np p.curr_puid hC hpu
  have hC0 : ¬ np.nr_channels = 0 := by omega
  have hidx : u64 (p.curr_puid % np.nr_channels * np.nr_chips_per_channel
      + p.curr_puid / np.nr_channels)
      = abm_unit np (p.curr_puid % np.nr_channels) (p.curr_puid / np.nr_channels) :=
    u64_of_lt (by unfold abm_unit at hslot; omega)
  have hpid : GET_PUNIT_ID np
      { ppa with channel_no := p.curr_puid % np.nr_channels,
                 chip_no := p.curr_puid / np.nr_channels, block_no := b.block_no,
                 page_no := p.curr_page_ofs } = p.curr_puid := by
    simp only [GET_PUNIT_ID]
    exact Nat.div_add_mod' _ _
  have hbug : ¬ (p.curr_puid % np.nr_channels ≠ p.curr_puid % np.nr_channels
      ∨ p.curr_puid / np.nr_channels ≠ p.curr_puid / np.nr_channels
      ∨ p.curr_page_ofs ≥ np.nr_pages_per_block) := by
    omega
  have hu1 : u64 (p.curr_puid + 1) = p.curr_puid + 1 := u64_of_lt (by omega)
  have hu2 : u64 (p.curr_page_ofs + 1) = p.curr_page_ofs + 1 := u64_of_lt (by omega)
  refine ⟨r, b, hr, hb, hbch, hbchip, hnf, ?_, ?_, ?_⟩
  · intro hlt
    have hne : ¬ p.curr_puid + 1 = p.nr_punits := by omega
    simp only [bdbm_page_ftl_get_free_ppa, hC0, if_false, hidx, hr, hb, hu1, hne,
      hbch, hbchip, hbug, hpid]
  · intro heq hlt
    have he : u64 (p.curr_puid + 1) = p.nr_punits := by rw [hu1]; omega
    have hne : ¬ p.curr_page_ofs + 1 = np.nr_pages_per_block := by omega
    simp only [bdbm_page_ftl_get_free_ppa, hC0, if_false, hidx, hr, hb, hu2, he,
      hne, if_true, hbch, hbchip, hbug, hpid]
  · intro heq heq2 ret bai1 bab1 hgab
    have he : u64 (p.curr_puid + 1) = p.nr_punits := by rw [hu1]; omega
    have he2 : u64 (p.curr_page_ofs + 1) = np.nr_pages_per_block := by rw [hu2]; omega
    simp only [bdbm_page_ftl_get_free_ppa, hC0, if_false, hidx, hr, hb, hbch, hbchip, hbug, hpid,
      he, he2, if_true, hgab]
    by_cases h0 : ret = 0
    · simp [h0]
    · simp [h0]

/-- A block is on the free list of at most one unit. -/
theorem free_list_unit (np : nand_params_t) (bai : bdbm_abm_info_t) (hok : abm_ok np bai)
    (u v r : Nat) (hu : u < nr_units np) (hv : v < nr_units np)
    (hru : r ∈ free_list bai u) (hrv : r ∈ free_list bai v) : u = v := by
  obtain ⟨c, hc, hcu, _⟩ := hok.2.2.1 u hu r hru
  obtain ⟨c1, hc1, hcv, _⟩ := hok.2.2.1 v hv r hrv
  rw [hc] at hc1
  cases hc1
  rw [← hcu, ← hcv]

theorem mem_of_head? {l : List Nat} {r : Nat} (h : l.head? = some r) : r ∈ l := by
  cases l with
  | nil => cases h
  | cons a t =>
    simp only [List.head?_cons, Option.some.injEq] at h
    subst h
    exact List.mem_cons_self _ _

theorem not_mem_tail_of_head? {l : List Nat} {r : Nat} (h : l.head? = some r) (hnd : l.Nodup) :
    r ∉ l.tail := by
  cases l with
  | nil => cases h
  | cons a t =>
    simp only [List.head?_cons, Option.some.injEq] at h
    subst h
    exact (List.nodup_cons.1 hnd).1

/-- The state after a successful replacement of the active blocks is well formed. -/
theorem rollover_ok (np : nand_params_t) (p : bdbm_page_ftl_private)
    (hg : geometry_ok np) (hok : alloc_ok np p)
    (bai1 : bdbm_abm_info_t) (bab1 : List (Option Nat))
    (hlen : bab1.length = nr_units np) (hok1 : abm_ok np bai1)
    (hco : abm_coords bai1 = abm_coords p.bai)
    (hnew : ∀ u, u < nr_units np →
      ∃ r, (free_list p.bai u).head? = some r ∧ bab1[u]? = some (some r) ∧
        free_list bai1 u = (free_list p.bai u).tail) :
    alloc_ok np { p with curr_puid := 0, curr_page_ofs := 0, bai := bai1, ac_bab := bab1 } := by
  obtain ⟨hC, hK, hP, hN, hP64⟩ := hg
  obtain ⟨hnp, hpu, hofs, _, _, htbl, habm⟩ := hok
  refine ⟨hnp, by show 0 < nr_units np; omega, hP, hlen, ?_, htbl, hok1⟩
  intro u hu
  obtain ⟨r, hhead, hslot, _⟩ := hnew u hu
  have hmem := mem_of_head? hhead
  obtain ⟨c, hc, hcu, hck⟩ := habm.2.2.1 u hu r hmem
  refine ⟨r, c, hslot, ?_, hcu, hck, ?_⟩
  · show (abm_coords bai1)[r]? = some c
    rw [hco]; exact hc
  · intro v hv hin
    obtain ⟨_, _, _, htail⟩ := hnew v hv
    have hin1 : r ∈ (free_list p.bai v).tail := by
      have : r ∈ free_list bai1 v := hin
      rwa [htail] at this
    have hin2 : r ∈ free_list p.bai v := List.mem_of_mem_tail hin1
    have huv := free_list_unit np p.bai habm u v r hu hv hmem hin2
    subst huv
    exact not_mem_tail_of_head? hhead (habm.2.2.2.1 u hu) hin1

/-- One call of `get_free_ppa` on a well-formed state: the call returns, the
address is that of the active block of the cursor unit at the cursor page, and
the state stays well formed when the code is 0. -/
theorem get_free_ppa_step (np : nand_params_t) (p : bdbm_page_ftl_private)
    (lpa : Nat) (ppa : bdbm_phyaddr_t) (hg : geometry_ok np) (hok : alloc_ok np p) :
    ∃ ret p1 out r b, bdbm_page_ftl_get_free_ppa np p lpa ppa = some (ret, p1, out) ∧
      p.ac_bab[abm_unit np (p.curr_puid % np.nr_channels)
        (p.curr_puid / np.nr_channels)]? = some (some r) ∧
      p.bai.blocks[r]? = some b ∧
      (∀ v, v < nr_units np → r ∉ free_list p.bai v) ∧
      out = { channel_no := p.curr_puid % np.nr_channels,
              chip_no := p.curr_puid / np.nr_channels, block_no := b.block_no,
              page_no := p.curr_page_ofs, punit_id := p.curr_puid } ∧
      b.channel_no = out.channel_no ∧ b.chip_no = out.chip_no ∧
      (ret = 0 ∨ ret = 1) ∧
      (ret ≠ 0 ↔ p.curr_puid + 1 = nr_units np ∧ p.curr_page_ofs + 1 = np.nr_pages_per_block ∧
        ∃ u, u < nr_units np ∧ free_list p.bai u = []) ∧
      (ret = 0 → alloc_ok np p1) ∧
      (ret ≠ 0 → p1.curr_page_ofs = np.nr_pages_per_block) ∧
      p1.ptr_mapping_table = p.ptr_mapping_table ∧
      abm_coords p1.bai = abm_coords p.bai ∧
      (¬ (p.curr_puid + 1 = nr_units np ∧ p.curr_page_ofs + 1 = np.nr_pages_per_block) →
        p1.bai = p.bai ∧ p1.ac_bab = p.ac_bab ∧
        ((p1.curr_puid = p.curr_puid + 1 ∧ p1.curr_page_ofs = p.curr_page_ofs) ∨
         (p.curr_puid + 1 = nr_units np ∧ p1.curr_puid = 0 ∧
          p1.curr_page_ofs = p.curr_page_ofs + 1))) ∧
      (ret = 0 → p.curr_puid + 1 = nr_units np → p.curr_page_ofs + 1 = np.nr_pages_per_block →
        p1.curr_puid = 0 ∧ p1.curr_page_ofs = 0 ∧
        ∀ u, u < nr_units np →
          ∃ x, (free_list p.bai u).head? = some x ∧ p1.ac_bab[u]? = some (some x) ∧
            free_list p1.bai u = (free_list p.bai u).tail) := by
  obtain ⟨r, b, hr, hb, hbch, hbchip, hnf, hA, hB, hC⟩ := get_free_ppa_cases np p lpa ppa hg hok
  have hg' := hg
  obtain ⟨hC0, hK, hP, hN, hP64⟩ := hg
  have hok' := hok
  obtain ⟨hnp, hpu, hofs, hlen, hslots, htbl, habm⟩ := hok
  rcases Nat.lt_or_ge (p.curr_puid + 1) (nr_units np) with h1 | h1
  · refine ⟨0, _, _, r, b, hA h1, hr, hb, hnf, rfl, hbch, hbchip, Or.inl rfl, ?_, ?_, ?_, rfl, rfl,
      ?_, ?_⟩
    · constructor
      · intro h; exact absurd rfl h
      · rintro ⟨h, _⟩; omega
    · intro _
      exact ⟨hnp, h1, hofs, hlen, hslots, htbl, habm⟩
    · intro h; exact absurd rfl h
    · intro _
      exact ⟨rfl, rfl, Or.inl ⟨rfl, rfl⟩⟩
    · intro _ h; omega
  · have he : p.curr_puid + 1 = nr_units np := by omega
    rcases Nat.lt_or_ge (p.curr_page_ofs + 1) np.nr_pages_per_block with h2 | h2
    · refine ⟨0, _, _, r, b, hB he h2, hr, hb, hnf, rfl, hbch, hbchip, Or.inl rfl, ?_, ?_, ?_,
        rfl, rfl, ?_, ?_⟩
      · constructor
        · intro h; exact absurd rfl h
        · rintro ⟨_, h, _⟩; omega
      · intro _
        exact ⟨hnp, by show 0 < nr_units np; omega, h2, hlen, hslots, htbl, habm⟩
      · intro h; exact absurd rfl h
      · intro _
        exact ⟨rfl, rfl, Or.inr ⟨he, rfl, rfl⟩⟩
      · intro _ _ h; omega
    · have he2 : p.curr_page_ofs + 1 = np.nr_pages_per_block := by omega
      obtain ⟨ret, bai1, bab1, hgab, hret, hiff, hl1, hok1, hco, hnew⟩ :=
        get_active_blocks_spec np p.bai p.ac_bab habm hlen
      have hrun := hC he he2 ret bai1 bab1 hgab
      rcases hret with h0 | h0
      · subst h0
        simp only [if_true] at hrun
        refine ⟨0, _, _, r, b, hrun, hr, hb, hnf, rfl, hbch, hbchip, Or.inl rfl, ?_, ?_, ?_,
          rfl, hco, ?_, ?_⟩
        · constructor
          · intro h; exact absurd rfl h
          · rintro ⟨_, _, u, hu, hfl⟩
            exact absurd hfl (hiff.1 rfl u hu)
        · intro _
          exact rollover_ok np p hg' hok' bai1 bab1 hl1 hok1 hco (hnew rfl)
        · intro h; exact absurd rfl h
        · intro h; exact absurd ⟨he, he2⟩ h
        · intro _ _ _
          exact ⟨rfl, rfl, hnew rfl⟩
      · subst h0
        simp only [Nat.one_ne_zero, if_false] at hrun
        refine ⟨1, _, _, r, b, hrun, hr, hb, hnf, rfl, hbch, hbchip, Or.inr rfl, ?_, ?_, ?_,
          rfl, hco, ?_, ?_⟩
        · constructor
          · intro _
            refine ⟨he, he2, ?_⟩
            by_contra hne
            have : ∀ u, u < nr_units np → free_list p.bai u ≠ [] := by
              intro u hu hfl
              exact hne ⟨u, hu, hfl⟩
            have := hiff.2 this
            omega
          · intro _; omega
        · intro h; omega
        · intro _; rfl
        · intro h; exact absurd ⟨he, he2⟩ h
        · intro h; omega

/-! ## The state after `create` -/

theorem coords_inj (K B r r1 : Nat)
    (h : (r / B / K, r / B % K, r % B) = (r1 / B / K, r1 / B % K, r1 % B)) : r = r1 := by
  simp only [Prod.mk.injEq] at h
  obtain ⟨h1, h2, h3⟩ := h
  have hq : r / B = r1 / B := by
    rw [← Nat.div_add_mod (r / B) K, ← Nat.div_add_mod (r1 / B) K, h1, h2]
  rw [← Nat.div_add_mod r B, ← Nat.div_add_mod r1 B, hq, h3]

theorem abm_create_free_list (np : nand_params_t) (u : Nat) (hu : u < nr_units np) :
    free_list (bdbm_abm_create np) u =
      (List.range np.nr_blocks_per_chip).map fun b => u * np.nr_blocks_per_chip + b := by
  unfold nr_units at hu
  simp [free_list, bdbm_abm_create, List.getD_eq_getElem?_getD, List.getElem?_map,
    List.getElem?_range hu]

theorem abm_create_coords (np : nand_params_t) :
    abm_coords (bdbm_abm_create np) =
      (List.range (nr_units np * np.nr_blocks_per_chip)).map fun r =>
        (r / np.nr_blocks_per_chip / np.nr_chips_per_channel,
         r / np.nr_blocks_per_chip % np.nr_chips_per_channel,
         r % np.nr_blocks_per_chip) := by
  simp [abm_coords, bdbm_abm_create, nr_units, blk_coords, Function.comp_def]

theorem abm_create_ok (np : nand_params_t) : abm_ok np (bdbm_abm_create np) := by
  refine ⟨rfl, by simp [bdbm_abm_create, nr_units], ?_, ?_, ?_⟩
  · intro u hu r hr
    rw [abm_create_free_list np u hu, List.mem_map] at hr
    obtain ⟨b, hb, hrb⟩ := hr
    rw [List.mem_range] at hb
    have hlt : r < nr_units np * np.nr_blocks_per_chip := by
      rw [← hrb]; exact mul_add_lt _ _ _ _ hu hb
    have hdiv : r / np.nr_blocks_per_chip = u := by
      rw [← hrb, Nat.mul_comm, Nat.mul_add_div (by omega), Nat.div_eq_of_lt hb]; rfl
    have hK : 0 < np.nr_chips_per_channel := by
      unfold nr_units at hu
      rcases Nat.eq_zero_or_pos np.nr_chips_per_channel with h | h
      · rw [h, Nat.mul_zero] at hu; omega
      · exact h
    refine ⟨(r / np.nr_blocks_per_chip / np.nr_chips_per_channel,
         r / np.nr_blocks_per_chip % np.nr_chips_per_channel,
         r % np.nr_blocks_per_chip), ?_, ?_, ?_⟩
    · rw [abm_create_coords, List.getElem?_map, List.getElem?_range hlt]; rfl
    · simp only [hdiv]
      exact abm_unit_div_mod np u
    · simp only [hdiv]
      exact Nat.mod_lt _ hK
  · intro u hu
    rw [abm_create_free_list np u hu]
    apply List.Nodup.map _ (List.nodup_range _)
    intro a b hab
    simp only at hab
    omega
  · rw [abm_create_coords]
    apply List.Nodup.map _ (List.nodup_range _)
    intro a b hab
    exact coords_inj _ _ a b hab

/-- The state produced by a successful `create`: it is well formed, the cursor
is at unit 0 and page 0, and the slot of every unit holds the block that was
at the head of the free list of that unit in the new ABM. -/
theorem create_ok (np : nand_params_t) (hg : geometry_ok np) (s0 : bdbm_page_ftl_private)
    (h : bdbm_page_ftl_create np = some s0) :
    alloc_ok np s0 ∧ s0.curr_puid = 0 ∧ s0.curr_page_ofs = 0 ∧
    abm_coords s0.bai = abm_coords (bdbm_abm_create np) ∧
    ∀ u, u < nr_units np →
      ∃ r, (free_list (bdbm_abm_create np) u).head? = some r ∧ s0.ac_bab[u]? = some (some r) ∧
        free_list s0.bai u = (free_list (bdbm_abm_create np) u).tail := by
  have hN : u64 (np.nr_chips_per_channel * np.nr_channels) = nr_units np := by
    rw [Nat.mul_comm]; exact u64_of_lt hg.2.2.2.1
  obtain ⟨ret, bai1, bab1, hgab, hret, hiff, hl1, hok1, hco, hnew⟩ :=
    get_active_blocks_spec np (bdbm_abm_create np) (List.replicate (nr_units np) none)
      (abm_create_ok np) (by simp)
  unfold bdbm_page_ftl_create __bdbm_page_ftl_create_active_blocks at h
  simp only [hN, hgab] at h
  rcases hret with h0 | h0
  · subst h0
    simp only [Option.some.injEq] at h
    subst h
    have hfresh : alloc_ok np
        { bai := bai1, ptr_mapping_table := __bdbm_page_ftl_create_mapping_table np,
          nr_punits := nr_units np, curr_puid := 0, curr_page_ofs := 0, ac_bab := bab1,
          gc_bab := List.replicate (nr_units np) none } := by
      obtain ⟨hC, hK, hP, hN1, hP64⟩ := hg
      have hNpos : 0 < nr_units np := Nat.mul_pos hC hK
      refine ⟨rfl, hNpos, hP, hl1, ?_, by simp [__bdbm_page_ftl_create_mapping_table], hok1⟩
      intro u hu
      obtain ⟨r, hhead, hslot, _⟩ := hnew rfl u hu
      have hmem := mem_of_head? hhead
      obtain ⟨c, hc, hcu, hck⟩ := (abm_create_ok np).2.2.1 u hu r hmem
      refine ⟨r, c, hslot, ?_, hcu, hck, ?_⟩
      · show (abm_coords bai1)[r]? = some c
        rw [hco]; exact hc
      · intro v hv hin
        obtain ⟨_, _, _, htail⟩ := hnew rfl v hv
        have hin1 : r ∈ (free_list (bdbm_abm_create np) v).tail := by
          have : r ∈ free_list bai1 v := hin
          rwa [htail] at this
        have hin2 := List.mem_of_mem_tail hin1
        have huv := free_list_unit np _ (abm_create_ok np) u v r hu hv hmem hin2
        subst huv
        exact not_mem_tail_of_head? hhead ((abm_create_ok np).2.2.2.1 u hu) hin1
    exact ⟨hfresh, rfl, rfl, hco, hnew rfl⟩
  · subst h0
    simp at h

/-! ## Failure of `get_free_ppa` -/

theorem empty_unit_iff (np : nand_params_t) (bai : bdbm_abm_info_t)
    (hK : 0 < np.nr_chips_per_channel) :
    (∃ u, u < nr_units np ∧ free_list bai u = []) ↔
    ∃ ch chip, ch < np.nr_channels ∧ chip < np.nr_chips_per_channel ∧
      free_list bai (abm_unit np ch chip) = [] := by
  constructor
  · rintro ⟨u, hu, hfl⟩
    refine ⟨u / np.nr_chips_per_channel, u % np.nr_chips_per_channel, ?_, Nat.mod_lt _ hK, ?_⟩
    · exact (Nat.div_lt_iff_lt_mul hK).2 hu
    · rw [abm_unit_div_mod]; exact hfl
  · rintro ⟨ch, chip, hch, hchip, hfl⟩
    exact ⟨_, mul_add_lt _ _ _ _ hch hchip, hfl⟩

/-- C9: on a well-formed state `get_free_ppa` returns, and its code is non-zero
exactly when the cursor is on the last page of the last unit and the free list
of some (channel, chip) is empty. -/
theorem get_free_ppa_fails_iff (np : nand_params_t) (p : bdbm_page_ftl_private)
    (lpa : Nat) (ppa : bdbm_phyaddr_t) (hg : geometry_ok np) (hok : alloc_ok np p) :
    ∃ ret p1 out, bdbm_page_ftl_get_free_ppa np p lpa ppa = some (ret, p1, out) ∧
      (ret ≠ 0 ↔
        p.curr_puid = p.nr_punits - 1 ∧ p.curr_page_ofs = np.nr_pages_per_block - 1 ∧
        ∃ ch chip, ch < np.nr_channels ∧ chip < np.nr_chips_per_channel ∧
          free_list p.bai (abm_unit np ch chip) = []) := by
  obtain ⟨ret, p1, out, _, _, hrun, _, _, _, _, _, _, _, hiff, _⟩ :=
    get_free_ppa_step np p lpa ppa hg hok
  refine ⟨ret, p1, out, hrun, ?_⟩
  rw [hiff, empty_unit_iff np p.bai hg.2.1]
  have h1 := hok.1
  have h2 := hok.2.1
  have h3 := hok.2.2.1
  have h4 := hg.2.2.1
  constructor
  · rintro ⟨a, b, c⟩
    exact ⟨by omega, by omega, c⟩
  · rintro ⟨a, b, c⟩
    exact ⟨by omega, by omega, c⟩

/-- C9 at the one-block geometry: the only block is active, the cursor is on
the last page of the last unit and the free list is empty. -/
theorem get_free_ppa_fails_iff_witness :
    geometry_ok T1_np ∧ alloc_ok T1_np T1_fresh ∧
    ∃ ret p1 out, bdbm_page_ftl_get_free_ppa T1_np T1_fresh 0 zero_ppa = some (ret, p1, out) ∧
      (ret ≠ 0 ↔
        T1_fresh.curr_puid = T1_fresh.nr_punits - 1 ∧
        T1_fresh.curr_page_ofs = T1_np.nr_pages_per_block - 1 ∧
        ∃ ch chip, ch < T1_np.nr_channels ∧ chip < T1_np.nr_chips_per_channel ∧
          free_list T1_fresh.bai (abm_unit T1_np ch chip) = []) :=
  ⟨by decide, (create_ok T1_np (by decide) T1_fresh (by decide)).1,
    get_free_ppa_fails_iff T1_np T1_fresh 0 zero_ppa (by decide)
      (create_ok T1_np (by decide) T1_fresh (by decide)).1⟩

/-- C10 (failing input): in scenario S4 the eighth `get_free_ppa` finds no free
block and returns 1; it leaves `curr_page_ofs` equal to `nr_pages_per_block`
and a NULL pointer in `ac_bab`, and the next call aborts. -/
theorem get_free_ppa_failure_breaks_cursor :
    (alloc_n S4_np 7 S4_fresh).map (fun x => x.1) = some [0, 0, 0, 0, 0, 0, 0] ∧
    (S4_last_page.curr_puid, S4_last_page.curr_page_ofs) = (0, 1) ∧
    ∃ p1 out, bdbm_page_ftl_get_free_ppa S4_np S4_last_page 0 zero_ppa = some (1, p1, out) ∧
      p1.curr_page_ofs = S4_np.nr_pages_per_block ∧
      p1.ac_bab = [none] ∧
      bdbm_page_ftl_get_free_ppa S4_np p1 0 zero_ppa = none := by
  refine ⟨by decide, by decide, ?_⟩
  have h : ∃ x, bdbm_page_ftl_get_free_ppa S4_np S4_last_page 0 zero_ppa = some x ∧
      x.1 = 1 ∧ x.2.1.curr_page_ofs = S4_np.nr_pages_per_block ∧ x.2.1.ac_bab = [none] ∧
      bdbm_page_ftl_get_free_ppa S4_np x.2.1 0 zero_ppa = none := by
    refine ⟨(bdbm_page_ftl_get_free_ppa S4_np S4_last_page 0 zero_ppa).get (by decide),
      by simp, by decide, by decide, by decide, by decide⟩
  obtain ⟨⟨ret, p1, out⟩, hx, h1, h2, h3, h4⟩ := h
  simp only at h1 h2 h3 h4
  subst h1
  exact ⟨p1, out, hx, h2, h3, h4⟩

/-! ## Lookups, maps and trims leave the allocator alone -/

theorem get_ppa_state (np : nand_params_t) (p : bdbm_page_ftl_private) (lpa : Nat)
    (ppa : bdbm_phyaddr_t) (hlen : p.ptr_mapping_table.length = np.nr_pages_per_ssd) :
    ∃ ret out, bdbm_page_ftl_get_ppa np p lpa ppa = some (ret, p, out) := by
  unfold bdbm_page_ftl_get_ppa
  by_cases hr : lpa ≥ np.nr_pages_per_ssd
  · exact ⟨1, ppa, by simp [hr]⟩
  · obtain ⟨me, hme⟩ := getElem?_of_lt p.ptr_mapping_table lpa (by omega)
    by_cases hv : me.status = PFTL_PAGE_VALID
    · obtain ⟨out, h, _⟩ := get_ppa_valid np p lpa ppa me (by omega) hme hv
      unfold bdbm_page_ftl_get_ppa at h
      exact ⟨0, out, h⟩
    · refine ⟨1, { channel_no := 0, chip_no := 0, block_no := 0, page_no := 0, punit_id := 0 }, ?_⟩
      simp only [hr, if_false, hme, hv, ne_eq, not_false_eq_true, if_true]

/-- The allocator invariant depends on the cursor, the active blocks, the free
lists, the coordinates of the blocks and the length of the table only. -/
theorem alloc_ok_of_frame (np : nand_params_t) (p p1 : bdbm_page_ftl_private)
    (hok : alloc_ok np p) (h1 : p1.nr_punits = p.nr_punits) (h2 : p1.curr_puid = p.curr_puid)
    (h3 : p1.curr_page_ofs = p.curr_page_ofs) (h4 : p1.ac_bab = p.ac_bab)
    (h5 : p1.bai.np = p.bai.np) (h6 : p1.bai.list_free = p.bai.list_free)
    (h7 : abm_coords p1.bai = abm_coords p.bai)
    (h8 : p1.ptr_mapping_table.length = p.ptr_mapping_table.length) : alloc_ok np p1 := by
  obtain ⟨a1, a2, a3, a4, a5, a6, a7⟩ := hok
  refine ⟨by omega, by omega, by omega, by rw [h4]; exact a4, ?_, by omega,
    abm_ok_of_frame np p.bai p1.bai h5 h6 h7 a7⟩
  intro u hu
  obtain ⟨r, c, b1, b2, b3, b4, b5⟩ := a5 u hu
  refine ⟨r, c, by rw [h4]; exact b1, by rw [h7]; exact b2, b3, b4, ?_⟩
  intro v hv
  unfold free_list
  rw [h6]
  exact b5 v hv

/-- A lookup, a map or a trim on a well-formed state returns and changes
neither the cursor, nor the active blocks, nor the free lists, nor the
coordinates of the blocks. -/
theorem other_step_frame (np : nand_params_t) (p : bdbm_page_ftl_private) (op : ftl_op)
    (hop : is_alloc op = false) (hlen : p.ptr_mapping_table.length = np.nr_pages_per_ssd) :
    ∃ ret p1 out, ftl_step np p op = some (ret, p1, out) ∧
      p1.nr_punits = p.nr_punits ∧ p1.curr_puid = p.curr_puid ∧
      p1.curr_page_ofs = p.curr_page_ofs ∧ p1.ac_bab = p.ac_bab ∧
      p1.bai.np = p.bai.np ∧ p1.bai.list_free = p.bai.list_free ∧
      abm_coords p1.bai = abm_coords p.bai ∧
      p1.ptr_mapping_table.length = p.ptr_mapping_table.length := by
  cases op with
  | get_free_ppa l => simp [is_alloc] at hop
  | get_ppa l =>
    obtain ⟨ret, out, h⟩ := get_ppa_state np p l zero_ppa hlen
    exact ⟨ret, p, some out, by simp only [ftl_step, h, Option.map_some'],
      rfl, rfl, rfl, rfl, rfl, rfl, rfl, rfl⟩
  | map_lpa_to_ppa l x =>
    rcases Nat.lt_or_ge l np.nr_pages_per_ssd with hl | hl
    · obtain ⟨me, hme⟩ := getElem?_of_lt p.ptr_mapping_table l (by omega)
      have hmap := map_lpa_to_ppa_in_range np p l x me hl hme
      have hfr : ∀ bai1 : bdbm_abm_info_t,
          bai1 = (if me.status = PFTL_PAGE_VALID then
                    bdbm_abm_invalidate_page p.bai me.phyaddr.channel_no me.phyaddr.chip_no
                      me.phyaddr.block_no me.phyaddr.page_no
                  else p.bai) →
          bai1.np = p.bai.np ∧ bai1.list_free = p.bai.list_free ∧
            abm_coords bai1 = abm_coords p.bai := by
        intro bai1 h
        subst h
        split
        · exact abm_invalidate_page_frame _ _ _ _ _
        · exact ⟨rfl, rfl, rfl⟩
      obtain ⟨g1, g2, g3⟩ := hfr _ rfl
      generalize hq : ({ p with
          bai := (if me.status = PFTL_PAGE_VALID then
                    bdbm_abm_invalidate_page p.bai me.phyaddr.channel_no me.phyaddr.chip_no
                      me.phyaddr.block_no me.phyaddr.page_no
                  else p.bai),
          ptr_mapping_table := p.ptr_mapping_table.set l
            { status := PFTL_PAGE_VALID,
              phyaddr := { me.phyaddr with channel_no := x.channel_no, chip_no := x.chip_no,
                                           block_no := x.block_no, page_no := x.page_no } } }
        : bdbm_page_ftl_private) = q at hmap
      refine ⟨0, q, none, by simp only [ftl_step, hmap, Option.map_some'], ?_, ?_, ?_, ?_, ?_, ?_,
        ?_, ?_⟩
      · rw [← hq]
      · rw [← hq]
      · rw [← hq]
      · rw [← hq]
      · rw [← hq]; exact g1
      · rw [← hq]; exact g2
      · rw [← hq]; exact g3
      · rw [← hq]; simp
    · have hmap := map_lpa_to_ppa_out_of_range np p l x hl
      exact ⟨1, p, none, by simp only [ftl_step, hmap, Option.map_some'],
        rfl, rfl, rfl, rfl, rfl, rfl, rfl, rfl⟩
  | invalidate_lpa l len =>
    obtain ⟨ret, p1, hinv, hl1, _, _, _, _, hbai, h1, h2, h3, h4, _⟩ :=
      invalidate_lpa_general np p l len hlen
    obtain ⟨g1, g2, g3⟩ := abm_invalidate_pages_frame
      (valid_ppas p.ptr_mapping_table l (if ret = 0 then u64 (l + len) - l else 0)) p.bai
    refine ⟨ret, p1, none, by simp only [ftl_step, hinv, Option.map_some'],
      h4, h1, h2, h3, ?_, ?_, ?_, hl1⟩
    · rw [hbai]; exact g1
    · rw [hbai]; exact g2
    · rw [hbai]; exact g3

/-! ## Round-robin order -/

theorem nr_allocs_cons (op : ftl_op) (ops : List ftl_op) :
    nr_allocs (op :: ops) = (if is_alloc op = true then 1 else 0) + nr_allocs ops := by
  unfold nr_allocs
  by_cases h : is_alloc op = true
  · simp [List.filter_cons, h]; omega
  · simp [List.filter_cons, h]

/-- While fewer than `N * P` addresses have been handed out, every call of a
sequence returns, the active blocks stay those of the start, and the cursor
counts the allocations. -/
theorem run_keeps (np : nand_params_t) (hg : geometry_ok np) :
    ∀ (ops : List ftl_op) (p : bdbm_page_ftl_private), alloc_ok np p →
      p.curr_page_ofs * nr_units np + p.curr_puid + nr_allocs ops
        < np.nr_pages_per_block * nr_units np →
      ∃ p1, ftl_run np p ops = some p1 ∧ alloc_ok np p1 ∧ p1.ac_bab = p.ac_bab ∧
        abm_coords p1.bai = abm_coords p.bai ∧
        p1.curr_page_ofs * nr_units np + p1.curr_puid
          = p.curr_page_ofs * nr_units np + p.curr_puid + nr_allocs ops := by
  intro ops
  induction ops with
  | nil =>
    intro p hok _
    exact ⟨p, rfl, hok, rfl, rfl, by simp [nr_allocs]⟩
  | cons op ops ih =>
    intro p hok hcnt
    rw [nr_allocs_cons] at hcnt ⊢
    by_cases hop : is_alloc op = true
    · simp only [hop, if_true] at hcnt ⊢
      cases op with
      | get_free_ppa l =>
        obtain ⟨ret, q, out, r, b, hrun, _, _, _, _, _, _, hret, hiff, hq, _, _, hco, hnr, _⟩ :=
          get_free_ppa_step np p l zero_ppa hg hok
        have hnot : ¬ (p.curr_puid + 1 = nr_units np ∧
            p.curr_page_ofs + 1 = np.nr_pages_per_block) := by
          rintro ⟨h1, h2⟩
          rw [← h2, Nat.add_mul, ← h1] at hcnt
          omega
        have hret0 : ret = 0 := by
          by_contra hne
          exact hnot ⟨(hiff.1 hne).1, (hiff.1 hne).2.1⟩
        obtain ⟨hbai, hbab, hcur⟩ := hnr hnot
        have hcount : q.curr_page_ofs * nr_units np + q.curr_puid
            = p.curr_page_ofs * nr_units np + p.curr_puid + 1 := by
          rcases hcur with ⟨c1, c2⟩ | ⟨c0, c1, c2⟩
          · rw [c1, c2]; omega
          · rw [c1, c2, Nat.add_mul]; omega
        obtain ⟨p1, hrun1, hok1, hbab1, hco1, hcnt1⟩ := ih q (hq hret0) (by omega)
        refine ⟨p1, ?_, hok1, hbab1.trans hbab, hco1.trans hco, by omega⟩
        simp only [ftl_run, ftl_step, hrun, Option.map_some']
        exact hrun1
      | get_ppa l => simp [is_alloc] at hop
      | map_lpa_to_ppa l x => simp [is_alloc] at hop
      | invalidate_lpa l len => simp [is_alloc] at hop
    · have hop' : is_alloc op = false := by simpa using hop
      have hz : (if is_alloc op = true then 1 else 0) = 0 := by simp [hop']
      rw [hz] at hcnt ⊢
      obtain ⟨ret, q, out, hrun, h1, h2, h3, h4, h5, h6, h7, h8⟩ :=
        other_step_frame np p op hop' hok.2.2.2.2.2.1
      have hokq := alloc_ok_of_frame np p q hok h1 h2 h3 h4 h5 h6 h7 h8
      obtain ⟨p1, hrun1, hok1, hbab1, hco1, hcnt1⟩ := ih q hokq (by rw [h2, h3]; omega)
      refine ⟨p1, ?_, hok1, hbab1.trans h4, hco1.trans h7, by rw [hcnt1, h2, h3]; omega⟩
      simp only [ftl_run, hrun]
      exact hrun1

/-- C7: on a fresh FTL, after any sequence of calls that holds `k < n * P`
allocations, the next `get_free_ppa` returns channel `(k mod n) mod C`, chip
`(k mod n) div C`, page `k div n`, unit `k mod n = chip * C + channel`, and the
block committed as active for that (channel, chip) by `create`. -/
theorem round_robin_order (np : nand_params_t) (s0 : bdbm_page_ftl_private)
    (ops : List ftl_op) (lpa : Nat) (ppa : bdbm_phyaddr_t) (hg : geometry_ok np)
    (hc : bdbm_page_ftl_create np = some s0)
    (hk : nr_allocs ops < nr_units np * np.nr_pages_per_block) :
    ∃ s ret s1 out r b, ftl_run np s0 ops = some s ∧
      bdbm_page_ftl_get_free_ppa np s lpa ppa = some (ret, s1, out) ∧
      out.channel_no = nr_allocs ops % nr_units np % np.nr_channels ∧
      out.chip_no = nr_allocs ops % nr_units np / np.nr_channels ∧
      out.page_no = nr_allocs ops / nr_units np ∧
      out.punit_id = nr_allocs ops % nr_units np ∧
      out.punit_id = out.chip_no * np.nr_channels + out.channel_no ∧
      bdbm_abm_get_free_block_prepare (bdbm_abm_create np) out.channel_no out.chip_no = some r ∧
      s0.ac_bab[abm_unit np out.channel_no out.chip_no]? = some (some r) ∧
      s0.bai.blocks[r]? = some b ∧ b.channel_no = out.channel_no ∧
      b.chip_no = out.chip_no ∧ b.block_no = out.block_no := by
  obtain ⟨hok0, hpu0, hofs0, hco0, hnew0⟩ := create_ok np hg s0 hc
  obtain ⟨s, hrun, hok, hbab, hco, hcnt⟩ := run_keeps np hg ops s0 hok0
    (by rw [hpu0, hofs0, Nat.mul_comm np.nr_pages_per_block]; omega)
  rw [hpu0, hofs0] at hcnt
  simp only [Nat.zero_mul, Nat.zero_add] at hcnt
  have hpu := hok.2.1
  have hNpos : 0 < nr_units np := by omega
  have hmod : nr_allocs ops % nr_units np = s.curr_puid := by
    rw [← hcnt, Nat.add_comm, Nat.add_mul_mod_self_right, Nat.mod_eq_of_lt hpu]
  have hdiv : nr_allocs ops / nr_units np = s.curr_page_ofs := by
    rw [← hcnt, Nat.add_comm, Nat.add_mul_div_right _ _ hNpos, Nat.div_eq_of_lt hpu,
      Nat.zero_add]
  obtain ⟨ret, s1, out, r, b, hget, hslot, hb, _, hout, hbch, hbchip, _⟩ :=
    get_free_ppa_step np s lpa ppa hg hok
  obtain ⟨husl, _⟩ := slot_lt np s.curr_puid hg.1 hpu
  obtain ⟨x, hhead, hsx, _⟩ := hnew0 _ husl
  have hxr : x = r := by
    rw [← hbab, hslot] at hsx
    simpa using hsx.symm
  subst hxr
  have hcb : (abm_coords s0.bai)[x]? = some (blk_coords b) := by
    rw [← hco]
    unfold abm_coords
    rw [List.getElem?_map, hb]; rfl
  obtain ⟨b0, hb0, hbc0⟩ := coords_block s0.bai x _ hcb
  simp only [blk_coords, Prod.mk.injEq] at hbc0
  subst hout
  refine ⟨s, ret, s1, _, x, b0, hrun, hget, ?_, ?_, ?_, ?_, ?_, ?_, ?_, hb0, ?_, ?_, ?_⟩
  · simp only [hmod]
  · simp only [hmod]
  · simp only [hdiv]
  · simp only [hmod]
  · exact (Nat.div_add_mod' _ _).symm
  · exact hhead
  · exact hsx
  · simpa using hbc0.1.trans hbch
  · simpa using hbc0.2.1.trans hbchip
  · simpa using hbc0.2.2

/-- C7 at scenario S1: the sixth allocation, after five allocations mixed with a
lookup, two maps and a trim, is page 1 of unit 1, that is channel 1 and chip 0. -/
theorem round_robin_order_witness :
    geometry_ok S1_np ∧ bdbm_page_ftl_create S1_np = some S1_fresh ∧
    nr_allocs S1_ops < nr_units S1_np * S1_np.nr_pages_per_block ∧
    ∃ s ret s1 out, ftl_run S1_np S1_fresh S1_ops = some s ∧
      bdbm_page_ftl_get_free_ppa S1_np s 5 zero_ppa = some (ret, s1, out) ∧
      out.channel_no = 1 ∧ out.chip_no = 0 ∧ out.page_no = 1 ∧ out.punit_id = 1 := by
  refine ⟨by decide, by decide, by decide, ?_⟩
  obtain ⟨s, ret, s1, out, _, _, hrun, hget, h1, h2, h3, h4, _⟩ :=
    round_robin_order S1_np S1_fresh S1_ops 5 zero_ppa (by decide) (by decide) (by decide)
  refine ⟨s, ret, s1, out, hrun, hget, ?_, ?_, ?_, ?_⟩
  · rw [h1]; decide
  · rw [h2]; decide
  · rw [h3]; decide
  · rw [h4]; decide

/-! ## No address is handed out twice -/

theorem invalidate_lpa_loop_cursor (n : Nat) : ∀ (start : Nat) (p p1 : bdbm_page_ftl_private),
    invalidate_lpa_loop n start p = some p1 → p1.curr_page_ofs = p.curr_page_ofs := by
  induction n with
  | zero =>
    intro start p p1 h
    simp only [invalidate_lpa_loop, Option.some.injEq] at h
    rw [← h]
  | succ n ih =>
    intro start p p1 h
    simp only [invalidate_lpa_loop] at h
    cases hb : invalidate_lpa_body p start with
    | none => rw [hb] at h; cases h
    | some q =>
      rw [hb] at h
      have hq : q.curr_page_ofs = p.curr_page_ofs := by
        unfold invalidate_lpa_body at hb
        cases hme : p.ptr_mapping_table[start]? with
        | none => rw [hme] at hb; cases hb
        | some me =>
          rw [hme] at hb
          simp only at hb
          split at hb
          · simp only [Option.some.injEq] at hb
            rw [← hb]
          · simp only [Option.some.injEq] at hb
            rw [← hb]
      rw [ih (start + 1) q p1 h, hq]

/-- A lookup, a map or a trim never moves the page offset of the cursor. -/
theorem other_step_cursor (np : nand_params_t) (p : bdbm_page_ftl_private) (op : ftl_op)
    (hop : is_alloc op = false) (x : Nat × bdbm_page_ftl_private × Option bdbm_phyaddr_t)
    (h : ftl_step np p op = some x) : x.2.1.curr_page_ofs = p.curr_page_ofs := by
  cases op with
  | get_free_ppa l => simp [is_alloc] at hop
  | get_ppa l =>
    simp only [ftl_step, Option.map_eq_some'] at h
    obtain ⟨y, hy, hxy⟩ := h
    subst hxy
    unfold bdbm_page_ftl_get_ppa at hy
    split at hy
    · simp only [Option.some.injEq] at hy; rw [← hy]
    · split at hy
      · cases hy
      · split at hy
        · simp only [Option.some.injEq] at hy; rw [← hy]
        · simp only [Option.some.injEq] at hy; rw [← hy]
  | map_lpa_to_ppa l a =>
    simp only [ftl_step, Option.map_eq_some'] at h
    obtain ⟨y, hy, hxy⟩ := h
    subst hxy
    unfold bdbm_page_ftl_map_lpa_to_ppa at hy
    split at hy
    · simp only [Option.some.injEq] at hy; rw [← hy]
    · split at hy
      · cases hy
      · simp only [Option.some.injEq] at hy; rw [← hy]
  | invalidate_lpa l len =>
    simp only [ftl_step, Option.map_eq_some'] at h
    obtain ⟨y, hy, hxy⟩ := h
    subst hxy
    unfold bdbm_page_ftl_invalidate_lpa at hy
    split at hy
    · simp only [Option.some.injEq] at hy; rw [← hy]
    · split at hy
      · cases hy
      · rename_i q hq
        simp only [Option.some.injEq] at hy
        rw [← hy]
        exact invalidate_lpa_loop_cursor _ _ _ _ hq

/-- With the page offset at or beyond the block size every `get_free_ppa` aborts. -/
theorem get_free_ppa_stuck (np : nand_params_t) (p : bdbm_page_ftl_private) (lpa : Nat)
    (ppa : bdbm_phyaddr_t) (h : np.nr_pages_per_block ≤ p.curr_page_ofs) :
    bdbm_page_ftl_get_free_ppa np p lpa ppa = none := by
  unfold bdbm_page_ftl_get_free_ppa
  by_cases hC : np.nr_channels = 0
  · simp only [hC, if_true]
  · simp only [hC, if_false]
    cases p.ac_bab[u64 (p.curr_puid % np.nr_channels * np.nr_chips_per_channel
        + p.curr_puid / np.nr_channels)]? with
    | none => rfl
    | some o =>
      cases o with
      | none => rfl
      | some r =>
        simp only
        cases p.bai.blocks[r]? with
        | none => rfl
        | some b =>
          simp only
          rw [if_pos (Or.inr (Or.inr h))]

/-- After a failed allocation no further address is handed out. -/
theorem alloc_trace_stuck (np : nand_params_t) : ∀ (ops : List ftl_op)
    (p : bdbm_page_ftl_private), np.nr_pages_per_block ≤ p.curr_page_ofs →
    alloc_trace np p ops = [] := by
  intro ops
  induction ops with
  | nil => intro p _; rfl
  | cons op ops ih =>
    intro p h
    by_cases hop : is_alloc op = true
    · cases op with
      | get_free_ppa l =>
        simp only [alloc_trace, ftl_step, get_free_ppa_stuck np p l zero_ppa h, Option.map_none']
      | get_ppa l => simp [is_alloc] at hop
      | map_lpa_to_ppa l x => simp [is_alloc] at hop
      | invalidate_lpa l len => simp [is_alloc] at hop
    · have hop' : is_alloc op = false := by simpa using hop
      cases hst : ftl_step np p op with
      | none => simp only [alloc_trace, hst]
      | some x =>
        obtain ⟨ret, q, out⟩ := x
        have hq := other_step_cursor np p op hop' _ hst
        have hih := ih q (by rw [hq]; exact h)
        cases op with
        | get_free_ppa l => simp [is_alloc] at hop
        | get_ppa l => simp only [alloc_trace, hst, hih]
        | map_lpa_to_ppa l a => simp only [alloc_trace, hst, hih]
        | invalidate_lpa l len => simp only [alloc_trace, hst, hih]

theorem nodup_getElem?_inj {α : Type} (l : List α) (hnd : l.Nodup) (i j : Nat) (x : α)
    (hi : l[i]? = some x) (hj : l[j]? = some x) : i = j := by
  obtain ⟨hil, hix⟩ := List.getElem?_eq_some.1 hi
  obtain ⟨hjl, hjx⟩ := List.getElem?_eq_some.1 hj
  exact (List.Nodup.getElem_inj_iff hnd).1 (hix.trans hjx.symm)

/-- A successful allocation hands out an address that was not handed out
before and keeps the record of the addresses handed out. -/
theorem hist_ok_alloc (np : nand_params_t) (p q : bdbm_page_ftl_private) (lpa : Nat)
    (ppa out : bdbm_phyaddr_t) (H : List (Nat × Nat × Nat × Nat))
    (hg : geometry_ok np) (hok : alloc_ok np p) (hH : hist_ok np p H)
    (hrun : bdbm_page_ftl_get_free_ppa np p lpa ppa = some (0, q, out)) :
    ppa_tuple out ∉ H ∧ hist_ok np q (ppa_tuple out :: H) := by
  obtain ⟨ret, q1, out1, r, b, hrun1, hslot, hb, hnf, hout, hbch, hbchip, _, _, _, _, _, hco,
    hnr, hro⟩ := get_free_ppa_step np p lpa ppa hg hok
  rw [hrun] at hrun1
  simp only [Option.some.injEq, Prod.mk.injEq] at hrun1
  obtain ⟨hr0, hq1, ho1⟩ := hrun1
  subst hr0 hq1 ho1
  have hpu := hok.2.1
  obtain ⟨husl, hchip⟩ := slot_lt np p.curr_puid hg.1 hpu
  have hch : p.curr_puid % np.nr_channels < np.nr_channels := Nat.mod_lt _ hg.1
  have hpid : p.curr_puid / np.nr_channels * np.nr_channels + p.curr_puid % np.nr_channels
      = p.curr_puid := Nat.div_add_mod' _ _
  have htup : ppa_tuple out = (p.curr_puid % np.nr_channels, p.curr_puid / np.nr_channels,
      b.block_no, p.curr_page_ofs) := by
    rw [hout]; rfl
  have hcb : (abm_coords p.bai)[r]? = some (p.curr_puid % np.nr_channels,
      p.curr_puid / np.nr_channels, b.block_no) := by
    unfold abm_coords
    rw [List.getElem?_map, hb]
    simp only [Option.map_some', blk_coords, hbch, hbchip, hout]
  have hnew : ppa_tuple out ∉ H := by
    intro hin
    obtain ⟨_, _, r1, hc1, _, hs1⟩ := hH _ hin
    rw [htup] at hc1 hs1
    simp only at hc1 hs1
    have hrr := nodup_getElem?_inj _ hok.2.2.2.2.2.2.2.2.2.2 r1 r _ hc1 hcb
    subst hrr
    have := hs1 hslot
    omega
  have hmid : ∀ a ∈ ppa_tuple out :: H, a.1 < np.nr_channels ∧
      a.2.1 < np.nr_chips_per_channel ∧
      ∃ ra, (abm_coords p.bai)[ra]? = some (a.1, a.2.1, a.2.2.1) ∧
        (∀ v, v < nr_units np → ra ∉ free_list p.bai v) ∧
        (p.ac_bab[abm_unit np a.1 a.2.1]? = some (some ra) →
          a.2.2.2 < p.curr_page_ofs ∨
          (a.2.2.2 = p.curr_page_ofs ∧ a.2.1 * np.nr_channels + a.1 < p.curr_puid + 1)) := by
    intro a ha
    rcases List.mem_cons.1 ha with heq | hin
    · subst heq
      rw [htup]
      refine ⟨hch, hchip, r, hcb, hnf, fun _ => Or.inr ⟨rfl, ?_⟩⟩
      simp only
      omega
    · obtain ⟨h1, h2, ra, h3, h4, h5⟩ := hH a hin
      refine ⟨h1, h2, ra, h3, h4, fun hs => ?_⟩
      rcases h5 hs with h | ⟨h, h'⟩
      · exact Or.inl h
      · exact Or.inr ⟨h, by omega⟩
  refine ⟨hnew, ?_⟩
  intro a ha
  obtain ⟨h1, h2, ra, h3, h4, h5⟩ := hmid a ha
  refine ⟨h1, h2, ra, by rw [hco]; exact h3, ?_, ?_⟩
  · by_cases hroll : p.curr_puid + 1 = nr_units np ∧
        p.curr_page_ofs + 1 = np.nr_pages_per_block
    · obtain ⟨_, _, hheads⟩ := hro rfl hroll.1 hroll.2
      intro v hv hin
      obtain ⟨_, _, _, htail⟩ := hheads v hv
      rw [htail] at hin
      exact h4 v hv (List.mem_of_mem_tail hin)
    · obtain ⟨hbai, _, _⟩ := hnr hroll
      rw [hbai]; exact h4
  · intro hs
    by_cases hroll : p.curr_puid + 1 = nr_units np ∧
        p.curr_page_ofs + 1 = np.nr_pages_per_block
    · obtain ⟨_, _, hheads⟩ := hro rfl hroll.1 hroll.2
      have hv : abm_unit np a.1 a.2.1 < nr_units np := mul_add_lt _ _ _ _ h1 h2
      obtain ⟨x, hhead, hsx, _⟩ := hheads _ hv
      rw [hs] at hsx
      simp only [Option.some.injEq] at hsx
      subst hsx
      exact absurd (mem_of_head? hhead) (h4 _ hv)
    · obtain ⟨_, hbab, hcur⟩ := hnr hroll
      rw [hbab] at hs
      rcases hcur with ⟨c1, c2⟩ | ⟨_, c1, c2⟩
      · rw [c1, c2]; exact h5 hs
      · rw [c1, c2]
        rcases h5 hs with h | ⟨h, _⟩
        · exact Or.inl (by omega)
        · exact Or.inl (by omega)

/-- The addresses handed out from a well-formed state are pairwise distinct
and distinct from the addresses handed out before. -/
theorem alloc_trace_fresh (np : nand_params_t) (hg : geometry_ok np) :
    ∀ (ops : List ftl_op) (p : bdbm_page_ftl_private) (H : List (Nat × Nat × Nat × Nat)),
      alloc_ok np p → hist_ok np p H →
      (alloc_trace np p ops).Nodup ∧ ∀ a ∈ alloc_trace np p ops, a ∉ H := by
  intro ops
  induction ops with
  | nil =>
    intro p H _ _
    exact ⟨List.nodup_nil, fun a ha => by simp [alloc_trace] at ha⟩
  | cons op ops ih =>
    intro p H hok hH
    by_cases hop : is_alloc op = true
    · cases op with
      | get_free_ppa l =>
        obtain ⟨ret, q, out, _, _, hrun, _, _, _, _, _, _, hret, _, hq, hfail, _⟩ :=
          get_free_ppa_step np p l zero_ppa hg hok
        rcases hret with h0 | h1
        · subst h0
          obtain ⟨hnew, hH1⟩ := hist_ok_alloc np p q l zero_ppa out H hg hok hH hrun
          obtain ⟨hnd, hnot⟩ := ih q (ppa_tuple out :: H) (hq rfl) hH1
          have htr : alloc_trace np p (ftl_op.get_free_ppa l :: ops)
              = ppa_tuple out :: alloc_trace np q ops := by
            simp only [alloc_trace, ftl_step, hrun, Option.map_some', if_true]
          rw [htr]
          refine ⟨List.nodup_cons.2 ⟨?_, hnd⟩, ?_⟩
          · intro hin
            exact hnot _ hin (List.mem_cons_self _ _)
          · intro a ha
            rcases List.mem_cons.1 ha with heq | hin
            · subst heq; exact hnew
            · exact fun hH' => hnot a hin (List.mem_cons_of_mem _ hH')
        · subst h1
          have hst := alloc_trace_stuck np ops q (by rw [hfail (by omega)])
          have htr : alloc_trace np p (ftl_op.get_free_ppa l :: ops) = [] := by
            simp only [alloc_trace, ftl_step, hrun, Option.map_some', Nat.one_ne_zero, if_false,
              hst]
          rw [htr]
          exact ⟨List.nodup_nil, fun a ha => by simp at ha⟩
      | get_ppa l => simp [is_alloc] at hop
      | map_lpa_to_ppa l x => simp [is_alloc] at hop
      | invalidate_lpa l len => simp [is_alloc] at hop
    · have hop' : is_alloc op = false := by simpa using hop
      obtain ⟨ret, q, out, hrun, h1, h2, h3, h4, h5, h6, h7, h8⟩ :=
        other_step_frame np p op hop' hok.2.2.2.2.2.1
      have hokq := alloc_ok_of_frame np p q hok h1 h2 h3 h4 h5 h6 h7 h8
      have hHq : hist_ok np q H := by
        intro a ha
        obtain ⟨g1, g2, ra, g3, g4, g5⟩ := hH a ha
        refine ⟨g1, g2, ra, by rw [h7]; exact g3, ?_, ?_⟩
        · intro v hv
          unfold free_list
          rw [h6]
          exact g4 v hv
        · rw [h4, h2, h3]; exact g5
      have htr : alloc_trace np p (op :: ops) = alloc_trace np q ops := by
        cases op with
        | get_free_ppa l => simp [is_alloc] at hop
        | get_ppa l => simp only [alloc_trace, hrun]
        | map_lpa_to_ppa l a => simp only [alloc_trace, hrun]
        | invalidate_lpa l len => simp only [alloc_trace, hrun]
      rw [htr]
      exact ih q H hokq hHq

/-- C8: from a freshly created FTL, in every sequence of `get_free_ppa`,
`get_ppa`, `map_lpa_to_ppa` and `invalidate_lpa` calls, the (channel, chip,
block, page) tuples returned by the successful `get_free_ppa` calls are
pairwise distinct. -/
theorem no_double_allocation (np : nand_params_t) (s0 : bdbm_page_ftl_private)
    (ops : List ftl_op) (hg : geometry_ok np) (hc : bdbm_page_ftl_create np = some s0) :
    (alloc_trace np s0 ops).Nodup := by
  have hok := (create_ok np hg s0 hc).1
  have hH : hist_ok np s0 [] := fun a ha => by simp at ha
  exact (alloc_trace_fresh np hg ops s0 [] hok hH).1

/-- C8 at scenario S4: the seven successful allocations among nine calls of
`get_free_ppa` mixed with maps return seven distinct addresses. -/
theorem no_double_allocation_witness :
    geometry_ok S4_np ∧ bdbm_page_ftl_create S4_np = some S4_fresh ∧
    (alloc_trace S4_np S4_fresh S4_ops).length = 7 ∧
    (alloc_trace S4_np S4_fresh S4_ops).Nodup :=
  ⟨by decide, by decide, by decide,
    no_double_allocation S4_np S4_fresh S4_ops (by decide) (by decide)⟩

/-! ## The trigger of garbage collection -/

/-- The test of `is_gc_needed` in closed form: for a total of at least one
block and a product `nr_free_blks * 100` that fits in 64 bits, the function
returns 1 exactly when the integer quotient `nr_free_blks * 100 / nr_total_blks`
is at most 1, that is when `nr_free_blks * 100 < 2 * nr_total_blks`, and 0
otherwise. -/
theorem is_gc_needed_spec (nr_total_blks nr_free_blks : Nat) (ht : 1 ≤ nr_total_blks)
    (hf : nr_free_blks * 100 < 2 ^ 64) :
    (bdbm_page_ftl_is_gc_needed nr_total_blks nr_free_blks = some 1 ↔
      nr_free_blks * 100 < 2 * nr_total_blks) ∧
    (bdbm_page_ftl_is_gc_needed nr_total_blks nr_free_blks = some 0 ↔
      2 * nr_total_blks ≤ nr_free_blks * 100) := by
  have h0 : ¬ nr_total_blks = 0 := by omega
  have hq : nr_free_blks * 100 / nr_total_blks ≤ 1 ↔ nr_free_blks * 100 < 2 * nr_total_blks := by
    rw [← Nat.lt_succ_iff, Nat.div_lt_iff_lt_mul (by omega)]
  unfold bdbm_page_ftl_is_gc_needed
  rw [u64_of_lt hf]
  simp only [h0, if_false]
  by_cases h : nr_free_blks * 100 / nr_total_blks ≤ 1
  · have h2 := hq.1 h
    simp only [h, if_true, true_iff]
    exact ⟨h2, by constructor <;> intro h3 <;> first | cases h3 | omega⟩
  · have h2 : ¬ nr_free_blks * 100 < 2 * nr_total_blks := fun h3 => h (hq.2 h3)
    simp only [h, if_false]
    constructor
    · constructor
      · intro h3; cases h3
      · intro h3; exact absurd h3 h2
    · simp only [true_iff]; omega

/-- C14 (failing input): with 1 free block of 60 the quotient `100 / 60` is 1,
so `is_gc_needed` returns 1, although the free blocks are not less than 1% of
the total (`1 * 100 < 60` is false, and so is `1 * 100 <= 60`). -/
theorem is_gc_needed_above_one_percent :
    bdbm_page_ftl_is_gc_needed 60 1 = some 1 ∧ ¬ (1 * 100 < 60) ∧ ¬ (1 * 100 ≤ 60) := by
  decide

/-! ## Greedy victim selection -/

/-- C20 (failing input): the dirty list holds block 1 with one invalid page and
then block 2 with three; the active block 0 has none.  The comparison reads the
count of the active block, so the first block stays the victim although block 2
has more invalid pages. -/
theorem victim_selection_greedy_not_maximal :
    __bdbm_page_ftl_victim_selection_greedy V_np V_state 0 0 = some (some 1) ∧
    bdbm_abm_dirty_blocks V_state.bai 0 0 = [1, 2] ∧
    V_state.ac_bab[0]? = some (some 0) ∧
    (V_state.bai.blocks[1]?).map (fun b => b.nr_invalid_pages) = some 1 ∧
    (V_state.bai.blocks[2]?).map (fun b => b.nr_invalid_pages) = some 3 := by
  decide

/-! ## The page status table of the ABM under the facade operations -/

/-- The call `invalidate_page` keeps every block descriptor in place with its
state, and changes no `pst` entry other than a VALID one. -/
theorem abm_invalidate_page_blocks (bai : bdbm_abm_info_t) (ch chip blk pg r : Nat)
    (b : bdbm_abm_block_t) (hb : bai.blocks[r]? = some b) :
    ∃ b1 : bdbm_abm_block_t,
      (bdbm_abm_invalidate_page bai ch chip blk pg).blocks[r]? = some b1 ∧
      b1.state = b.state ∧
      ∀ j : Nat, b.pst[j]? ≠ some bdbm_abm_page_state.VALID → b1.pst[j]? = b.pst[j]? := by
  unfold bdbm_abm_invalidate_page
  cases bdbm_abm_get_block bai ch chip blk with
  | none => exact ⟨b, hb, rfl, fun _ _ => rfl⟩
  | some r0 =>
    simp only
    cases hb0 : bai.blocks[r0]? with
    | none => exact ⟨b, hb, rfl, fun _ _ => rfl⟩
    | some b0 =>
      simp only
      split
      · rename_i hcond
        by_cases hr : r0 = r
        · subst hr
          rw [hb] at hb0
          cases hb0
          have hlt : r0 < bai.blocks.length := by
            rcases Nat.lt_or_ge r0 bai.blocks.length with h | h
            · exact h
            · rw [List.getElem?_eq_none h] at hb; cases hb
          refine ⟨_, List.getElem?_set_self hlt, rfl, ?_⟩
          intro j hj
          by_cases hjp : pg = j
          · subst hjp
            exact absurd hcond.2 hj
          · exact List.getElem?_set_ne hjp
        · refine ⟨b, ?_, rfl, fun _ _ => rfl⟩
          show (bai.blocks.set r0 _)[r]? = some b
          rw [List.getElem?_set_ne hr]
          exact hb
      · exact ⟨b, hb, rfl, fun _ _ => rfl⟩

theorem commit_blocks (bai : bdbm_abm_info_t) (r r1 : Nat) (b1 : bdbm_abm_block_t)
    (hb : bai.blocks[r1]? = some b1) :
    (bdbm_abm_get_free_block_commit bai r).blocks.length = bai.blocks.length ∧
    ∃ b2 : bdbm_abm_block_t, (bdbm_abm_get_free_block_commit bai r).blocks[r1]? = some b2 ∧
      (b1.state = bdbm_abm_blk_state.ACTIVE → b2.state = bdbm_abm_blk_state.ACTIVE) ∧
      (r1 = r → b2.state = bdbm_abm_blk_state.ACTIVE) ∧ b2.pst = b1.pst := by
  unfold bdbm_abm_get_free_block_commit
  cases hr : bai.blocks[r]? with
  | none =>
    refine ⟨rfl, b1, hb, fun h => h, ?_, rfl⟩
    intro h; subst h; rw [hr] at hb; cases hb
  | some b =>
    simp only [List.length_set, true_and]
    by_cases h : r = r1
    · subst h
      rw [hb] at hr
      cases hr
      have hlt : r < bai.blocks.length := by
        rcases Nat.lt_or_ge r bai.blocks.length with h | h
        · exact h
        · rw [List.getElem?_eq_none h] at hb; cases hb
      exact ⟨_, List.getElem?_set_self hlt, fun _ => rfl, fun _ => rfl, rfl⟩
    · refine ⟨b1, ?_, fun h => h, fun h1 => absurd h1.symm h, rfl⟩
      rw [List.getElem?_set_ne h]
      exact hb

/-- The loops of `__bdbm_page_ftl_get_active_blocks` move no block out of
ACTIVE, and after a return of 0 every slot filled holds a block in state ACTIVE. -/
theorem get_active_blocks_loop_states :
    ∀ (l : List (Nat × Nat)) (bai : bdbm_abm_info_t) (bab : List (Option Nat)) (pos ret : Nat)
      (bai1 : bdbm_abm_info_t) (bab1 : List (Option Nat)),
    get_active_blocks_loop bai bab pos l = some (ret, bai1, bab1) →
    bai1.blocks.length = bai.blocks.length ∧
    (∀ (r : Nat) (b : bdbm_abm_block_t), bai.blocks[r]? = some b →
      ∃ b1 : bdbm_abm_block_t, bai1.blocks[r]? = some b1 ∧ b1.pst = b.pst ∧
        (b.state = bdbm_abm_blk_state.ACTIVE → b1.state = bdbm_abm_blk_state.ACTIVE)) ∧
    (∀ u, u < pos → bab1[u]? = bab[u]?) ∧
    (ret = 0 → ∀ u r, pos ≤ u → u < pos + l.length → bab1[u]? = some (some r) →
      r < bai.blocks.length →
      ∃ b1 : bdbm_abm_block_t, bai1.blocks[r]? = some b1 ∧
        b1.state = bdbm_abm_blk_state.ACTIVE) := by
  intro l
  induction l with
  | nil =>
    intro bai bab pos ret bai1 bab1 h
    simp only [get_active_blocks_loop, Option.some.injEq, Prod.mk.injEq] at h
    obtain ⟨h1, h2, h3⟩ := h
    subst h1 h2 h3
    refine ⟨rfl, fun r b hb => ⟨b, hb, rfl, fun h => h⟩, fun _ _ => rfl, ?_⟩
    intro _ u r h1 h2
    simp at h2
    omega
  | cons ij rest ih =>
    intro bai bab pos ret bai1 bab1 h
    obtain ⟨i, j⟩ := ij
    simp only [get_active_blocks_loop] at h
    split at h
    · rename_i hpos
      split at h
      · rename_i r hprep
        obtain ⟨hl, hmono, hlow, hslots⟩ := ih _ _ _ _ _ _ h
        have hcl : (bdbm_abm_get_free_block_commit bai r).blocks.length = bai.blocks.length := by
          unfold bdbm_abm_get_free_block_commit
          cases bai.blocks[r]? with
          | none => rfl
          | some b => simp
        refine ⟨hl.trans hcl, ?_, ?_, ?_⟩
        · intro r1 b1 hb1
          obtain ⟨_, b2, hb2, hact, _, hpst⟩ := commit_blocks bai r r1 b1 hb1
          obtain ⟨b3, hb3, hpst3, hact3⟩ := hmono r1 b2 hb2
          exact ⟨b3, hb3, hpst3.trans hpst, fun h => hact3 (hact h)⟩
        · intro u hu
          rw [hlow u (by omega)]
          exact List.getElem?_set_ne (by omega)
        · intro h0 u x h1 h2 hx hxl
          rcases Nat.eq_or_lt_of_le h1 with heq | hgt
          · subst heq
            rw [hlow pos (by omega), List.getElem?_set_self hpos] at hx
            simp only [Option.some.injEq] at hx
            subst hx
            obtain ⟨b0, hb0⟩ := getElem?_of_lt bai.blocks r hxl
            obtain ⟨_, b2, hb2, _, hact, _⟩ := commit_blocks bai r r b0 hb0
            obtain ⟨b3, hb3, _, hact3⟩ := hmono r b2 hb2
            exact ⟨b3, hb3, hact3 (hact rfl)⟩
          · exact hslots h0 u x (by omega) (by simp at h2; omega) hx (by omega)
      · simp only [Option.some.injEq, Prod.mk.injEq] at h
        obtain ⟨h1, h2, h3⟩ := h
        subst h1 h2 h3
        refine ⟨rfl, fun r b hb => ⟨b, hb, rfl, fun h => h⟩, ?_, ?_⟩
        · intro u hu
          exact List.getElem?_set_ne (by omega)
        · intro h; cases h
    · cases h

/-- A block pointer with coordinates lies inside the block array. -/
theorem coords_lt (bai : bdbm_abm_info_t) (r : Nat) (c : Nat × Nat × Nat)
    (h : (abm_coords bai)[r]? = some c) : r < bai.blocks.length := by
  obtain ⟨b, hb, _⟩ := coords_block bai r c h
  rcases Nat.lt_or_ge r bai.blocks.length with h1 | h1
  · exact h1
  · rw [List.getElem?_eq_none h1] at hb; cases hb

theorem punit_pairs_length (np : nand_params_t) : (punit_pairs np).length = nr_units np := by
  rw [punit_pairs_eq, List.length_map, List.length_range]

/-- After a successful `create` every slot of `ac_bab` holds an ACTIVE block. -/
theorem create_slots_active (np : nand_params_t) (hg : geometry_ok np)
    (s0 : bdbm_page_ftl_private) (h : bdbm_page_ftl_create np = some s0) :
    slots_active np s0 := by
  obtain ⟨hok, _, _, hco, hnew⟩ := create_ok np hg s0 h
  have hN : u64 (np.nr_chips_per_channel * np.nr_channels) = nr_units np := by
    rw [Nat.mul_comm]; exact u64_of_lt hg.2.2.2.1
  unfold bdbm_page_ftl_create __bdbm_page_ftl_create_active_blocks at h
  simp only [hN] at h
  cases hgab : __bdbm_page_ftl_get_active_blocks np (bdbm_abm_create np)
      (List.replicate (nr_units np) none) with
  | none => rw [hgab] at h; simp at h
  | some x =>
    obtain ⟨ret, bai1, bab1⟩ := x
    rw [hgab] at h
    by_cases h0 : ret = 0
    · subst h0
      simp only [Option.some.injEq] at h
      subst h
      obtain ⟨hl, _, _, hslots⟩ := get_active_blocks_loop_states _ _ _ _ _ _ _ hgab
      intro u hu
      obtain ⟨r, hhead, hsl, _⟩ := hnew u hu
      obtain ⟨c, hc, _⟩ := (abm_create_ok np).2.2.1 u hu r (mem_of_head? hhead)
      obtain ⟨b1, hb1, hact⟩ := hslots rfl u r (Nat.zero_le _)
        (by rw [punit_pairs_length]; omega) hsl (coords_lt _ r c hc)
      exact ⟨r, b1, hsl, hb1, hact⟩
    · cases ret with
      | zero => exact absurd rfl h0
      | succ n => simp at h

/-! ## No two logical pages share a physical page -/

/-- A trim turns no entry VALID and changes no entry that stays VALID. -/
theorem invalidate_lpa_entries (np : nand_params_t) (p p1 : bdbm_page_ftl_private)
    (lpa len ret : Nat) (hlen : p.ptr_mapping_table.length = np.nr_pages_per_ssd)
    (hrun : bdbm_page_ftl_invalidate_lpa np p lpa len = some (ret, p1)) :
    ∀ (i : Nat) (m : bdbm_page_mapping_entry), p1.ptr_mapping_table[i]? = some m →
      m.status = PFTL_PAGE_VALID → p.ptr_mapping_table[i]? = some m := by
  unfold bdbm_page_ftl_invalidate_lpa at hrun
  have hu := u64_le (lpa + len)
  by_cases hr : u64 (lpa + len) > np.nr_pages_per_ssd
  · simp only [hr, if_true, Option.some.injEq, Prod.mk.injEq] at hrun
    rw [← hrun.2]
    exact fun i m h _ => h
  · simp only [hr, if_false] at hrun
    rcases Nat.eq_zero_or_pos (u64 (lpa + len) - lpa) with hz | hpos
    · rw [hz] at hrun
      simp only [invalidate_lpa_loop, Option.some.injEq, Prod.mk.injEq] at hrun
      rw [← hrun.2]
      exact fun i m h _ => h
    · obtain ⟨q, hq, _, hout, hin, _⟩ :=
        invalidate_lpa_loop_spec (u64 (lpa + len) - lpa) lpa p (by omega)
      rw [hq] at hrun
      simp only [Option.some.injEq, Prod.mk.injEq] at hrun
      rw [← hrun.2]
      intro i m hm hv
      by_cases hi : lpa ≤ i ∧ i < lpa + (u64 (lpa + len) - lpa)
      · obtain ⟨m0, hm0⟩ := getElem?_of_lt p.ptr_mapping_table i (by omega)
        rw [hin i m0 hi.1 hi.2 hm0] at hm
        simp only [Option.some.injEq] at hm
        by_cases hv0 : m0.status = PFTL_PAGE_VALID
        · rw [if_pos hv0] at hm
          rw [← hm] at hv
          simp [PFTL_PAGE_INVALID, PFTL_PAGE_VALID] at hv
        · rw [if_neg hv0] at hm
          rw [← hm]; exact hm0
      · rw [hout i (by omega)] at hm
        exact hm

/-- The record of the addresses handed out depends on the cursor, the active
blocks, the free lists and the coordinates of the blocks only. -/
theorem hist_ok_of_frame (np : nand_params_t) (p p1 : bdbm_page_ftl_private)
    (H : List (Nat × Nat × Nat × Nat)) (hH : hist_ok np p H)
    (h2 : p1.curr_puid = p.curr_puid) (h3 : p1.curr_page_ofs = p.curr_page_ofs)
    (h4 : p1.ac_bab = p.ac_bab) (h6 : p1.bai.list_free = p.bai.list_free)
    (h7 : abm_coords p1.bai = abm_coords p.bai) : hist_ok np p1 H := by
  intro a ha
  obtain ⟨g1, g2, ra, g3, g4, g5⟩ := hH a ha
  refine ⟨g1, g2, ra, by rw [h7]; exact g3, ?_, ?_⟩
  · intro v hv
    unfold free_list
    rw [h6]
    exact g4 v hv
  · rw [h4, h2, h3]; exact g5

/-- One host write keeps the allocator, the record of the addresses handed out
and the mapping table consistent. -/
theorem ftl_write_ok (np : nand_params_t) (p p1 : bdbm_page_ftl_private) (lpa : Nat)
    (H : List (Nat × Nat × Nat × Nat)) (hg : geometry_ok np) (hok : alloc_ok np p)
    (hH : hist_ok np p H) (hM : mapping_ok p H) (hrun : ftl_write np p lpa = some p1) :
    ∃ a, alloc_ok np p1 ∧ hist_ok np p1 (a :: H) ∧ mapping_ok p1 (a :: H) := by
  obtain ⟨ret, q, out, _, _, hget, _, _, _, _, _, _, hret, _, hq, _, htbl, _⟩ :=
    get_free_ppa_step np p lpa zero_ppa hg hok
  unfold ftl_write at hrun
  rw [hget] at hrun
  rcases hret with h0 | h1
  · subst h0
    simp only [Option.map_eq_some'] at hrun
    obtain ⟨x, hmap, hx⟩ := hrun
    obtain ⟨hnew, hH1⟩ := hist_ok_alloc np p q lpa zero_ppa out H hg hok hH hget
    have hokq := hq rfl
    have hlenq : q.ptr_mapping_table.length = np.nr_pages_per_ssd := hokq.2.2.2.2.2.1
    have hMq : mapping_ok q H := by
      unfold mapping_ok
      rw [htbl]
      exact hM
    refine ⟨ppa_tuple out, ?_⟩
    rcases Nat.lt_or_ge lpa np.nr_pages_per_ssd with hl | hl
    · obtain ⟨me, hme⟩ := getElem?_of_lt q.ptr_mapping_table lpa (by omega)
      have hm := map_lpa_to_ppa_in_range np q lpa out me hl hme
      have hfr : ∀ bai1 : bdbm_abm_info_t,
          bai1 = (if me.status = PFTL_PAGE_VALID then
                    bdbm_abm_invalidate_page q.bai me.phyaddr.channel_no me.phyaddr.chip_no
                      me.phyaddr.block_no me.phyaddr.page_no
                  else q.bai) →
          bai1.np = q.bai.np ∧ bai1.list_free = q.bai.list_free ∧
            abm_coords bai1 = abm_coords q.bai := by
        intro bai1 h
        subst h
        split
        · exact abm_invalidate_page_frame _ _ _ _ _
        · exact ⟨rfl, rfl, rfl⟩
      obtain ⟨g1, g2, g3⟩ := hfr _ rfl
      generalize hs : ({ q with
          bai := (if me.status = PFTL_PAGE_VALID then
                    bdbm_abm_invalidate_page q.bai me.phyaddr.channel_no me.phyaddr.chip_no
                      me.phyaddr.block_no me.phyaddr.page_no
                  else q.bai),
          ptr_mapping_table := q.ptr_mapping_table.set lpa
            { status := PFTL_PAGE_VALID,
              phyaddr := { me.phyaddr with channel_no := out.channel_no,
                                           chip_no := out.chip_no,
                                           block_no := out.block_no,
                                           page_no := out.page_no } } }
        : bdbm_page_ftl_private) = s at hm
      rw [hmap] at hm
      simp only [Option.some.injEq] at hm
      have hxs : p1 = s := by rw [← hx, hm]
      subst hxs
      have e1 : p1.nr_punits = q.nr_punits := by rw [← hs]
      have e2 : p1.curr_puid = q.curr_puid := by rw [← hs]
      have e3 : p1.curr_page_ofs = q.curr_page_ofs := by rw [← hs]
      have e4 : p1.ac_bab = q.ac_bab := by rw [← hs]
      have e5 : p1.bai.np = q.bai.np := by rw [← hs]; exact g1
      have e6 : p1.bai.list_free = q.bai.list_free := by rw [← hs]; exact g2
      have e7 : abm_coords p1.bai = abm_coords q.bai := by rw [← hs]; exact g3
      have e8 : p1.ptr_mapping_table.length = q.ptr_mapping_table.length := by
        rw [← hs]; simp
      have eat : p1.ptr_mapping_table[lpa]? = some
          { status := PFTL_PAGE_VALID,
            phyaddr := { me.phyaddr with channel_no := out.channel_no,
                                         chip_no := out.chip_no,
                                         block_no := out.block_no,
                                         page_no := out.page_no } } := by
        rw [← hs]; exact List.getElem?_set_self (by omega)
      have ene : ∀ l, l ≠ lpa → p1.ptr_mapping_table[l]? = q.ptr_mapping_table[l]? := by
        intro l hne
        rw [← hs]; exact List.getElem?_set_ne (Ne.symm hne)
      refine ⟨alloc_ok_of_frame np q p1 hokq e1 e2 e3 e4 e5 e6 e7 e8,
        hist_ok_of_frame np q p1 _ hH1 e2 e3 e4 e6 e7, ?_, ?_⟩
      · intro l m hm1 hv
        by_cases hll : l = lpa
        · subst hll
          rw [eat] at hm1
          simp only [Option.some.injEq] at hm1
          rw [← hm1]
          exact List.mem_cons_self _ _
        · rw [ene l hll] at hm1
          exact List.mem_cons_of_mem _ (hMq.1 l m hm1 hv)
      · intro l1 l2 m1 m2 hne hm1 hm2 hv1 hv2
        by_cases h1 : l1 = lpa
        · subst h1
          rw [eat] at hm1
          simp only [Option.some.injEq] at hm1
          rw [ene l2 (Ne.symm hne)] at hm2
          have hin := hMq.1 l2 m2 hm2 hv2
          intro heq
          rw [← hm1] at heq
          exact hnew (by rw [show ppa_tuple out = ppa_tuple m2.phyaddr from heq]; exact hin)
        · by_cases h2 : l2 = lpa
          · subst h2
            rw [eat] at hm2
            simp only [Option.some.injEq] at hm2
            rw [ene l1 h1] at hm1
            have hin := hMq.1 l1 m1 hm1 hv1
            intro heq
            rw [← hm2] at heq
            exact hnew (by rw [show ppa_tuple out = ppa_tuple m1.phyaddr from heq.symm]; exact hin)
          · rw [ene l1 h1] at hm1
            rw [ene l2 h2] at hm2
            exact hMq.2 l1 l2 m1 m2 hne hm1 hm2 hv1 hv2
    · have hm := map_lpa_to_ppa_out_of_range np q lpa out hl
      rw [hmap] at hm
      simp only [Option.some.injEq] at hm
      have hxs : p1 = q := by rw [← hx, hm]
      subst hxs
      refine ⟨hokq, hH1, ?_, hMq.2⟩
      intro l m hm1 hv
      exact List.mem_cons_of_mem _ (hMq.1 l m hm1 hv)
  · subst h1
    simp at hrun

/-- A sequence of host requests keeps the mapping table consistent. -/
theorem host_run_ok (np : nand_params_t) (hg : geometry_ok np) :
    ∀ (ops : List host_op) (p p1 : bdbm_page_ftl_private) (H : List (Nat × Nat × Nat × Nat)),
      alloc_ok np p → hist_ok np p H → mapping_ok p H → host_run np p ops = some p1 →
      ∃ H1, alloc_ok np p1 ∧ hist_ok np p1 H1 ∧ mapping_ok p1 H1 := by
  intro ops
  induction ops with
  | nil =>
    intro p p1 H hok hH hM hrun
    simp only [host_run, Option.some.injEq] at hrun
    subst hrun
    exact ⟨H, hok, hH, hM⟩
  | cons op ops ih =>
    intro p p1 H hok hH hM hrun
    cases op with
    | write lpa =>
      simp only [host_run] at hrun
      cases hw : ftl_write np p lpa with
      | none => rw [hw] at hrun; cases hrun
      | some q =>
        rw [hw] at hrun
        obtain ⟨a, hokq, hHq, hMq⟩ := ftl_write_ok np p q lpa H hg hok hH hM hw
        exact ih q p1 (a :: H) hokq hHq hMq hrun
    | trim lpa len =>
      simp only [host_run] at hrun
      cases hi : bdbm_page_ftl_invalidate_lpa np p lpa len with
      | none => rw [hi] at hrun; cases hrun
      | some x =>
        obtain ⟨ret, q⟩ := x
        rw [hi] at hrun
        have hlen := hok.2.2.2.2.2.1
        obtain ⟨ret1, q1, hinv, hl1, _, _, _, _, hbai, h1, h2, h3, h4, _⟩ :=
          invalidate_lpa_general np p lpa len hlen
        rw [hi] at hinv
        simp only [Option.some.injEq, Prod.mk.injEq] at hinv
        obtain ⟨hr, hqq⟩ := hinv
        subst hr hqq
        obtain ⟨g1, g2, g3⟩ := abm_invalidate_pages_frame
          (valid_ppas p.ptr_mapping_table lpa (if ret = 0 then u64 (lpa + len) - lpa else 0)) p.bai
        rw [← hbai] at g1 g2 g3
        have hokq := alloc_ok_of_frame np p q hok h4 h1 h2 h3 g1 g2 g3 hl1
        have hHq := hist_ok_of_frame np p q H hH h1 h2 h3 g2 g3
        have hent := invalidate_lpa_entries np p q lpa len ret hlen hi
        have hMq : mapping_ok q H := by
          constructor
          · intro l m hm hv
            exact hM.1 l m (hent l m hm hv) hv
          · intro l1 l2 m1 m2 hne hm1 hm2 hv1 hv2
            exact hM.2 l1 l2 m1 m2 hne (hent l1 m1 hm1 hv1) (hent l2 m2 hm2 hv2) hv1 hv2
        exact ih q p1 H hokq hHq hMq hrun

/-- C13: from a freshly created FTL, after any sequence of writes (a successful
`get_free_ppa` followed by `map_lpa_to_ppa` to the address returned) and
`invalidate_lpa` calls, no two distinct logical pages with status VALID hold
the same (channel, chip, block, page). -/
theorem mapping_injective (np : nand_params_t) (s0 s : bdbm_page_ftl_private)
    (ops : List host_op) (hg : geometry_ok np) (hc : bdbm_page_ftl_create np = some s0)
    (hrun : host_run np s0 ops = some s) :
    ∀ (l1 l2 : Nat) (m1 m2 : bdbm_page_mapping_entry), l1 ≠ l2 →
      s.ptr_mapping_table[l1]? = some m1 → s.ptr_mapping_table[l2]? = some m2 →
      m1.status = PFTL_PAGE_VALID → m2.status = PFTL_PAGE_VALID →
      ppa_tuple m1.phyaddr ≠ ppa_tuple m2.phyaddr := by
  have hok := (create_ok np hg s0 hc).1
  have hH : hist_ok np s0 [] := fun a ha => by simp at ha
  have hM : mapping_ok s0 [] := by
    have htbl : s0.ptr_mapping_table = __bdbm_page_ftl_create_mapping_table np := by
      unfold bdbm_page_ftl_create at hc
      split at hc
      · cases hc
      · simp only [Option.some.injEq] at hc
        rw [← hc]
    have hnv : ∀ (l : Nat) (m : bdbm_page_mapping_entry), s0.ptr_mapping_table[l]? = some m →
        m.status ≠ PFTL_PAGE_VALID := by
      intro l m hm
      rw [htbl] at hm
      unfold __bdbm_page_ftl_create_mapping_table at hm
      rw [List.getElem?_replicate] at hm
      split at hm
      · simp only [Option.some.injEq] at hm
        rw [← hm]
        simp [fresh_mapping_entry, PFTL_PAGE_NOT_ALLOCATED, PFTL_PAGE_VALID]
      · cases hm
    exact ⟨fun l m hm hv => absurd hv (hnv l m hm),
      fun l1 l2 m1 m2 _ hm1 _ hv1 _ => absurd hv1 (hnv l1 m1 hm1)⟩
  obtain ⟨H1, _, _, hM1⟩ := host_run_ok np hg ops s0 s [] hok hH hM hrun
  exact hM1.2

/-- C13 at scenario S1: after eight writes, a trim and two more writes, the
pages 0 and 3 are VALID at different physical pages. -/
theorem mapping_injective_witness :
    geometry_ok S1_np ∧ bdbm_page_ftl_create S1_np = some S1_fresh ∧
    host_run S1_np S1_fresh S1_host_ops = some S1_host_state ∧
    ∀ (m1 m2 : bdbm_page_mapping_entry),
      S1_host_state.ptr_mapping_table[0]? = some m1 →
      S1_host_state.ptr_mapping_table[3]? = some m2 →
      m1.status = PFTL_PAGE_VALID → m2.status = PFTL_PAGE_VALID →
      ppa_tuple m1.phyaddr ≠ ppa_tuple m2.phyaddr :=
  ⟨by decide, by decide, by decide,
    fun m1 m2 => mapping_injective S1_np S1_fresh S1_host_state S1_host_ops (by decide)
      (by decide) (by decide) 0 3 m1 m2 (by decide)⟩

/-! ## Loading the mapping file -/

/-- The loop of `bdbm_page_ftl_load` over the entries `s .. s + n - 1`: an
entry with a record in the file becomes that record, status byte included, and
a status byte outside the known values is reported. -/
theorem load_mapping_loop_spec (file : List bdbm_page_mapping_entry) :
    ∀ (n s pos : Nat) (me : List bdbm_page_mapping_entry) (msgs : List Nat),
      pos = min s file.length → s + n ≤ me.length →
      ∃ me1 msgs1, load_mapping_loop file (List.range' s n) pos me msgs = some (me1, msgs1) ∧
        me1.length = me.length ∧
        (∀ i, i < s ∨ s + n ≤ i → me1[i]? = me[i]?) ∧
        (∀ (i : Nat) (old : bdbm_page_mapping_entry), s ≤ i → i < s + n → me[i]? = some old →
          me1[i]? = some ((file[i]?).getD old)) ∧
        (∀ x, x ∈ msgs → x ∈ msgs1) ∧
        (∀ (i : Nat) (r : bdbm_page_mapping_entry), s ≤ i → i < s + n → file[i]? = some r →
          snapshot_status_known r.status = false → r.status ∈ msgs1) := by
  intro n
  induction n with
  | zero =>
    intro s pos me msgs _ _
    refine ⟨me, msgs, rfl, rfl, fun _ _ => rfl, ?_, fun _ h => h, ?_⟩
    · intro i old h1 h2; omega
    · intro i r h1 h2; omega
  | succ n ih =>
    intro s pos me msgs hpos hlen
    obtain ⟨old, hold⟩ := getElem?_of_lt me s (by omega)
    have hfile : file[pos]? = file[s]? := by
      rcases Nat.lt_or_ge s file.length with h | h
      · rw [hpos, Nat.min_eq_left (Nat.le_of_lt h)]
      · rw [hpos, Nat.min_eq_right h, List.getElem?_eq_none (Nat.le_refl _),
          List.getElem?_eq_none h]
    have hpos1 : (if pos < file.length then pos + 1 else pos) = min (s + 1) file.length := by
      rcases Nat.lt_or_ge s file.length with h | h
      · rw [hpos, Nat.min_eq_left (Nat.le_of_lt h), if_pos h, Nat.min_eq_left h]
      · rw [hpos, Nat.min_eq_right h, if_neg (Nat.lt_irrefl _), Nat.min_eq_right (by omega)]
    obtain ⟨me1, msgs1, hrun, hl, hout, hin, hm, hrep⟩ :=
      ih (s + 1) (if pos < file.length then pos + 1 else pos)
        (me.set s ((file[s]?).getD old))
        (if snapshot_status_known ((file[s]?).getD old).status then msgs
          else msgs ++ [((file[s]?).getD old).status]) hpos1
        (by rw [List.length_set]; omega)
    refine ⟨me1, msgs1, ?_, ?_, ?_, ?_, ?_, ?_⟩
    · rw [List.range'_succ]
      simp only [load_mapping_loop, hold, hfile]
      exact hrun
    · rw [hl, List.length_set]
    · intro i hi
      rw [hout i (by omega), List.getElem?_set_ne (by omega)]
    · intro i old1 h1 h2 ho
      rcases Nat.eq_or_lt_of_le h1 with h | h
      · subst h
        rw [hold] at ho
        cases ho
        rw [hout s (by omega), List.getElem?_set_self (by omega)]
      · exact hin i old1 (by omega) (by omega) (by rw [List.getElem?_set_ne (by omega)]; exact ho)
    · intro x hx
      apply hm
      split
      · exact hx
      · exact List.mem_append_left _ hx
    · intro i r h1 h2 hr hk
      rcases Nat.eq_or_lt_of_le h1 with h | h
      · subst h
        apply hm
        rw [hr]
        simp only [Option.getD_some, hk, Bool.false_eq_true, if_false]
        exact List.mem_append_right _ (List.mem_singleton.mpr rfl)
      · exact hrep i r (by omega) (by omega) hr hk

/-- The loop of `__bdbm_page_ftl_get_active_blocks` returns when the array has
a slot for every pair. -/
theorem get_active_blocks_loop_total :
    ∀ (l : List (Nat × Nat)) (bai : bdbm_abm_info_t) (bab : List (Option Nat)) (pos : Nat),
      pos + l.length ≤ bab.length →
      ∃ ret bai1 bab1, get_active_blocks_loop bai bab pos l = some (ret, bai1, bab1) ∧
        (ret = 0 ∨ ret = 1) := by
  intro l
  induction l with
  | nil =>
    intro bai bab pos _
    exact ⟨0, bai, bab, rfl, Or.inl rfl⟩
  | cons x l ih =>
    intro bai bab pos h
    obtain ⟨i, j⟩ := x
    simp only [List.length_cons] at h
    have hp : pos < bab.length := by omega
    simp only [get_active_blocks_loop, hp, if_true]
    cases hprep : bdbm_abm_get_free_block_prepare bai i j with
    | none => exact ⟨1, bai, bab.set pos none, rfl, Or.inr rfl⟩
    | some r =>
      exact ih (bdbm_abm_get_free_block_commit bai r) (bab.set pos (some r)) (pos + 1)
        (by rw [List.length_set]; omega)

/-- C19 (amended): when the ABM file loads and the mapping file opens, `load`
returns, with a code fixed by the re-priming of the allocator alone; every
entry that has a record in the file holds that record afterwards, with the
status byte as stored, and a status byte outside the four known values is
reported by a message and kept. -/
theorem load_keeps_status (np : nand_params_t) (p : bdbm_page_ftl_private)
    (abm_file : Option (List bdbm_abm_record)) (file : List bdbm_page_mapping_entry)
    (hlen : p.ptr_mapping_table.length = np.nr_pages_per_ssd)
    (hbab : p.ac_bab.length = nr_units np)
    (habm : (bdbm_abm_load p.bai abm_file).1 = 0) :
    ∃ ret p1 msgs r bai2 bab,
      bdbm_page_ftl_load np p abm_file (some file) = some (ret, p1, msgs) ∧
      __bdbm_page_ftl_get_active_blocks np (bdbm_abm_load p.bai abm_file).2 p.ac_bab
        = some (r, bai2, bab) ∧
      ret = (if r ≠ 0 then 1 else 0) ∧
      ∀ (i : Nat) (e : bdbm_page_mapping_entry), i < np.nr_pages_per_ssd → file[i]? = some e →
        p1.ptr_mapping_table[i]? = some e ∧
        (snapshot_status_known e.status = false → e.status ∈ msgs) := by
  obtain ⟨me1, msgs1, hrun, _, _, hin, _, hrep⟩ :=
    load_mapping_loop_spec file np.nr_pages_per_ssd 0 0 p.ptr_mapping_table []
      (by simp) (by omega)
  rw [← List.range_eq_range'] at hrun
  obtain ⟨r, bai2, bab, hgab, _⟩ :=
    get_active_blocks_loop_total (punit_pairs np) (bdbm_abm_load p.bai abm_file).2 p.ac_bab 0
      (by rw [punit_pairs_length]; omega)
  have hentries : ∀ (i : Nat) (e : bdbm_page_mapping_entry), i < np.nr_pages_per_ssd →
      file[i]? = some e →
      me1[i]? = some e ∧ (snapshot_status_known e.status = false → e.status ∈ msgs1) := by
    intro i e hi he
    obtain ⟨old, hold⟩ := getElem?_of_lt p.ptr_mapping_table i (by omega)
    refine ⟨?_, fun hk => hrep i e (Nat.zero_le _) (by omega) he hk⟩
    rw [hin i old (Nat.zero_le _) (by omega) hold, he]
    rfl
  by_cases hr : r = 0
  · refine ⟨0, { bai := bai2, ptr_mapping_table := me1, nr_punits := p.nr_punits,
                   curr_puid := 0, curr_page_ofs := 0, ac_bab := bab, gc_bab := p.gc_bab },
      msgs1, r, bai2, bab, ?_, hgab, by simp [hr], hentries⟩
    unfold bdbm_page_ftl_load
    simp only [habm, ne_eq, not_true_eq_false, if_false, hrun]
    unfold __bdbm_page_ftl_get_active_blocks
    simp only [hgab, hr, not_true_eq_false, if_false]
  · refine ⟨1, { bai := bai2, ptr_mapping_table := me1, nr_punits := p.nr_punits,
                   curr_puid := p.curr_puid, curr_page_ofs := p.curr_page_ofs, ac_bab := bab,
                   gc_bab := p.gc_bab },
      msgs1, r, bai2, bab, ?_, hgab, by simp [hr], hentries⟩
    unfold bdbm_page_ftl_load
    simp only [habm, ne_eq, not_true_eq_false, if_false, hrun]
    unfold __bdbm_page_ftl_get_active_blocks
    simp only [hgab, hr, not_false_eq_true, if_true]

/-- C19 (amended), at the mapping file of scenario S1 with the status byte 7 in
entry 0: the entry holds the record with status 7 after the load. -/
theorem load_keeps_status_witness :
    ∃ ret p1 msgs,
      bdbm_page_ftl_load S1_np S1_fresh S1_stored.2.2.2 (some S1_corrupt_file)
        = some (ret, p1, msgs) ∧
      p1.ptr_mapping_table[0]? = some { status := 7, phyaddr := mk_ppa 0 0 0 0 } ∧
      7 ∈ msgs := by
  obtain ⟨ret, p1, msgs, _, _, _, hrun, _, _, hent⟩ :=
    load_keeps_status S1_np S1_fresh S1_stored.2.2.2 S1_corrupt_file (by decide) (by decide)
      (by decide)
  obtain ⟨h1, h2⟩ := hent 0 { status := 7, phyaddr := mk_ppa 0 0 0 0 } (by decide) (by decide)
  exact ⟨ret, p1, msgs, hrun, h1, h2 (by decide)⟩

/-- C19 (counterexample): the stored status byte of entry 0 is 7, outside the
known values; the load returns 0 and entry 0 has status 7 in memory, not
NOT_ALLOCATED. -/
theorem S1_corrupt_status_kept :
    (S1_corrupt_file[0]?).map (fun e => e.status) = some 7 ∧
    snapshot_status_known 7 = false ∧
    bdbm_page_ftl_load S1_np S1_fresh S1_stored.2.2.2 (some S1_corrupt_file)
      = some S1_corrupt_loaded ∧
    S1_corrupt_loaded.1 = 0 ∧
    (S1_corrupt_loaded.2.1.ptr_mapping_table[0]?).map (fun e => e.status) = some 7 ∧
    PFTL_PAGE_NOT_ALLOCATED ≠ 7 ∧
    S1_corrupt_loaded.2.2 = [7] := by
  decide

/-! ## Store followed by load -/

/-- One pass of the loop of `bdbm_page_ftl_store` on a well-formed state: the
ABM is touched through `invalidate_page` only, and the cursor moves on. -/
theorem store_loop_step (np : nand_params_t) (p : bdbm_page_ftl_private) (fuel : Nat)
    (hg : geometry_ok np) (hok : alloc_ok np p) :
    ∃ bai1 : bdbm_abm_info_t, bai1.np = p.bai.np ∧ bai1.list_free = p.bai.list_free ∧
      abm_coords bai1 = abm_coords p.bai ∧
      store_loop np (fuel + 1) p =
        if p.curr_puid + 1 = nr_units np then
          if p.curr_page_ofs + 1 = np.nr_pages_per_block then
            some { p with bai := bai1, curr_puid := 0, curr_page_ofs := 0 }
          else store_loop np fuel { p with bai := bai1, curr_puid := 0,
                                           curr_page_ofs := p.curr_page_ofs + 1 }
        else store_loop np fuel { p with bai := bai1, curr_puid := p.curr_puid + 1 } := by
  obtain ⟨hC, hK, hP, hN, hP64⟩ := hg
  have hpu := hok.2.1
  have hofs := hok.2.2.1
  obtain ⟨r, b, hr, hb, hbch, hbchip, _⟩ :=
    active_block_at np p ⟨hC, hK, hP, hN, hP64⟩ hok p.curr_puid hpu
  obtain ⟨hslot, _⟩ := slot_lt np p.curr_puid hC hpu
  have hu1 : u64 (p.curr_puid % np.nr_channels * np.nr_chips_per_channel
      + p.curr_puid / np.nr_channels)
      = abm_unit np (p.curr_puid % np.nr_channels) (p.curr_puid / np.nr_channels) :=
    u64_of_lt (by unfold abm_unit at hslot; omega)
  have hu2 : u64 (p.curr_puid + 1) = p.curr_puid + 1 := u64_of_lt (by omega)
  have hu3 : u64 (p.curr_page_ofs + 1) = p.curr_page_ofs + 1 := u64_of_lt (by omega)
  have hC0 : ¬ np.nr_channels = 0 := by omega
  have hbug : ¬ (b.channel_no ≠ p.curr_puid % np.nr_channels ∨
      b.chip_no ≠ p.curr_puid / np.nr_channels) := by
    rw [hbch, hbchip]; simp
  refine ⟨bdbm_abm_invalidate_page p.bai b.channel_no b.chip_no b.block_no p.curr_page_ofs,
    (abm_invalidate_page_frame _ _ _ _ _).1, (abm_invalidate_page_frame _ _ _ _ _).2.1,
    (abm_invalidate_page_frame _ _ _ _ _).2.2, ?_⟩
  rw [store_loop]
  simp only [hC0, if_false, hu1, hr, hb, hbug, hu2, hu3, hok.1]

/-- The loop of `bdbm_page_ftl_store` returns on a well-formed state when the
fuel covers the pages left in the active blocks; it leaves the mapping table,
`ac_bab`, the free lists and the coordinates of the blocks as they were. -/
theorem store_loop_spec (np : nand_params_t) (hg : geometry_ok np) :
    ∀ (fuel k : Nat) (p : bdbm_page_ftl_private), alloc_ok np p →
      p.curr_page_ofs + k + 1 = np.nr_pages_per_block →
      k * nr_units np + (nr_units np - p.curr_puid) ≤ fuel →
      ∃ p1, store_loop np fuel p = some p1 ∧
        p1.ptr_mapping_table = p.ptr_mapping_table ∧ p1.ac_bab = p.ac_bab ∧
        p1.curr_puid = 0 ∧ p1.curr_page_ofs = 0 ∧ p1.nr_punits = p.nr_punits ∧
        p1.bai.np = p.bai.np ∧ p1.bai.list_free = p.bai.list_free ∧
        abm_coords p1.bai = abm_coords p.bai := by
  intro fuel
  induction fuel with
  | zero =>
    intro k p hok _ hf
    have := hok.2.1
    omega
  | succ fuel ih =>
    intro k p hok hk hf
    obtain ⟨bai1, e5, e6, e7, hstep⟩ := store_loop_step np p fuel hg hok
    have hokb : alloc_ok np { p with bai := bai1 } :=
      alloc_ok_of_frame np p { p with bai := bai1 } hok rfl rfl rfl rfl e5 e6 e7 rfl
    obtain ⟨a1, a2, a3, a4, a5, a6, a7⟩ := hokb
    rw [hstep]
    by_cases h1 : p.curr_puid + 1 = nr_units np
    · rw [if_pos h1]
      by_cases h2 : p.curr_page_ofs + 1 = np.nr_pages_per_block
      · rw [if_pos h2]
        exact ⟨_, rfl, rfl, rfl, rfl, rfl, rfl, e5, e6, e7⟩
      · rw [if_neg h2]
        cases k with
        | zero => omega
        | succ k =>
          rw [Nat.succ_mul] at hf
          have hok2 : alloc_ok np
              { p with bai := bai1, curr_puid := 0, curr_page_ofs := p.curr_page_ofs + 1 } :=
            ⟨a1, by show 0 < nr_units np; omega,
              by show p.curr_page_ofs + 1 < np.nr_pages_per_block; omega, a4, a5, a6, a7⟩
          obtain ⟨p1, hrun, g1, g2, g3, g4, g5, g6, g7, g8⟩ :=
            ih k _ hok2 (by show p.curr_page_ofs + 1 + k + 1 = np.nr_pages_per_block; omega)
              (by show k * nr_units np + (nr_units np - 0) ≤ fuel; omega)
          exact ⟨p1, hrun, g1, g2, g3, g4, g5, g6.trans e5, g7.trans e6, g8.trans e7⟩
    · rw [if_neg h1]
      have hpu := hok.2.1
      have hok2 : alloc_ok np { p with bai := bai1, curr_puid := p.curr_puid + 1 } :=
        ⟨a1, by show p.curr_puid + 1 < nr_units np; omega, a3, a4, a5, a6, a7⟩
      obtain ⟨p1, hrun, g1, g2, g3, g4, g5, g6, g7, g8⟩ :=
        ih k _ hok2 hk
          (by show k * nr_units np + (nr_units np - (p.curr_puid + 1)) ≤ fuel; omega)
      exact ⟨p1, hrun, g1, g2, g3, g4, g5, g6.trans e5, g7.trans e6, g8.trans e7⟩

/-- The descriptors read back from the ABM file keep their coordinates. -/
theorem abm_load_blocks_coords :
    ∀ (bs : List bdbm_abm_block_t) (rs : List bdbm_abm_record),
      (abm_load_blocks bs rs).map blk_coords = bs.map blk_coords := by
  intro bs
  induction bs with
  | nil => intro rs; cases rs <;> rfl
  | cons b bs ih =>
    intro rs
    cases rs with
    | nil => rfl
    | cons r rs =>
      simp only [abm_load_blocks, List.map_cons, ih rs]
      rfl

/-- A loaded ABM whose descriptors are laid out as by `bdbm_abm_create` meets
the contract of the allocator, and every block on a free list is FREE. -/
theorem abm_load_ok (np : nand_params_t) (bai bai1 : bdbm_abm_info_t)
    (file : Option (List bdbm_abm_record)) (hnp : bai.np = np)
    (hco : abm_coords bai = abm_coords (bdbm_abm_create np))
    (hload : bdbm_abm_load bai file = (0, bai1)) :
    abm_ok np bai1 ∧
    ∀ u, u < nr_units np → ∀ r ∈ free_list bai1 u,
      ∃ b : bdbm_abm_block_t, bai1.blocks[r]? = some b ∧ b.state = bdbm_abm_blk_state.FREE := by
  unfold bdbm_abm_load at hload
  cases file with
  | none => simp at hload
  | some recs =>
    simp only at hload
    by_cases hl : recs.length ≠ bai.blocks.length
    · rw [if_pos hl] at hload
      simp at hload
    · rw [if_neg hl] at hload
      simp only [Prod.mk.injEq, true_and] at hload
      have hco1 : abm_coords bai1 = abm_coords (bdbm_abm_create np) := by
        rw [← hco, ← hload]
        exact abm_load_blocks_coords bai.blocks recs
      have hfl : ∀ u, u < nr_units np → free_list bai1 u =
          (free_list (bdbm_abm_create np) u).filter fun r =>
            decide ((bai1.blocks[r]?).map (fun b => b.state) = some bdbm_abm_blk_state.FREE) := by
        intro u hu
        rw [abm_create_free_list np u hu, ← hload]
        unfold nr_units at hu
        simp [free_list, abm_lists_of_state, hnp, List.getD_eq_getElem?_getD, List.getElem?_map,
          List.getElem?_range hu]
      obtain ⟨_, _, c3, c4, c5⟩ := abm_create_ok np
      refine ⟨⟨by rw [← hload]; exact hnp, ?_, ?_, ?_, by rw [hco1]; exact c5⟩, ?_⟩
      · rw [← hload]
        simp [abm_lists_of_state, hnp, nr_units]
      · intro u hu r hr
        rw [hfl u hu] at hr
        rw [hco1]
        exact c3 u hu r (List.mem_of_mem_filter hr)
      · intro u hu
        rw [hfl u hu]
        exact (c4 u hu).filter _
      · intro u hu r hr
        rw [hfl u hu, List.mem_filter] at hr
        have h := of_decide_eq_true hr.2
        cases hb : bai1.blocks[r]? with
        | none => rw [hb] at h; cases h
        | some b =>
          rw [hb] at h
          exact ⟨b, rfl, by simpa using h⟩

/-- The mapping table of a freshly created FTL has no VALID entry. -/
theorem create_mapping_ok (np : nand_params_t) (s0 : bdbm_page_ftl_private)
    (hc : bdbm_page_ftl_create np = some s0) : mapping_ok s0 [] := by
  have htbl : s0.ptr_mapping_table = __bdbm_page_ftl_create_mapping_table np := by
    unfold bdbm_page_ftl_create at hc
    split at hc
    · cases hc
    · simp only [Option.some.injEq] at hc
      rw [← hc]
  have hnv : ∀ (l : Nat) (m : bdbm_page_mapping_entry), s0.ptr_mapping_table[l]? = some m →
      m.status ≠ PFTL_PAGE_VALID := by
    intro l m hm
    rw [htbl] at hm
    unfold __bdbm_page_ftl_create_mapping_table at hm
    rw [List.getElem?_replicate] at hm
    split at hm
    · simp only [Option.some.injEq] at hm
      rw [← hm]
      simp [fresh_mapping_entry, PFTL_PAGE_NOT_ALLOCATED, PFTL_PAGE_VALID]
    · cases hm
  exact ⟨fun l m hm hv => absurd hv (hnv l m hm),
    fun l1 l2 m1 m2 _ hm1 _ hv1 _ => absurd hv1 (hnv l1 m1 hm1)⟩

/-- C18: on a well-formed state and with fuel for the pages left in the active
blocks, `store` returns 0 and changes no mapping entry; the load of the two
files it wrote into an FTL laid out for the same geometry returns, and when it
returns 0 the mapping table is the stored one, `get_ppa` gives the same code
and address for every LPA as before the store, the cursor is (0,0) and every
slot of `ac_bab` holds a block that is FREE in the loaded ABM. -/
theorem store_load_round_trip (np : nand_params_t) (p q : bdbm_page_ftl_private) (fuel : Nat)
    (hg : geometry_ok np) (hok : alloc_ok np p)
    (hfuel : nr_units np * np.nr_pages_per_block ≤ fuel)
    (hq1 : q.ptr_mapping_table.length = np.nr_pages_per_ssd)
    (hq2 : q.ac_bab.length = nr_units np) (hq3 : q.bai.np = np)
    (hq4 : abm_coords q.bai = abm_coords (bdbm_abm_create np)) :
    ∃ p1 mfile afile,
      bdbm_page_ftl_store np p fuel true true = some (0, p1, some mfile, some afile) ∧
      p1.ptr_mapping_table = p.ptr_mapping_table ∧
      ∃ ret q1 msgs,
        bdbm_page_ftl_load np q (some afile) (some mfile) = some (ret, q1, msgs) ∧
        (ret = 0 →
          q1.ptr_mapping_table = p.ptr_mapping_table ∧
          (∀ (lpa : Nat) (ppa : bdbm_phyaddr_t),
            (bdbm_page_ftl_get_ppa np q1 lpa ppa).map (fun x => (x.1, x.2.2))
              = (bdbm_page_ftl_get_ppa np p lpa ppa).map (fun x => (x.1, x.2.2))) ∧
          q1.curr_puid = 0 ∧ q1.curr_page_ofs = 0 ∧
          ∀ u, u < nr_units np →
            ∃ (r : Nat) (b : bdbm_abm_block_t), q1.ac_bab[u]? = some (some r) ∧
              (bdbm_abm_load q.bai (some afile)).2.blocks[r]? = some b ∧
              b.state = bdbm_abm_blk_state.FREE) := by
  have hlen := hok.2.2.2.2.2.1
  have hofs := hok.2.2.1
  have hbound : (np.nr_pages_per_block - 1 - p.curr_page_ofs) * nr_units np
      + (nr_units np - p.curr_puid) ≤ fuel := by
    have h1 : (np.nr_pages_per_block - 1 - p.curr_page_ofs + 1) * nr_units np
        ≤ np.nr_pages_per_block * nr_units np := Nat.mul_le_mul_right _ (by omega)
    rw [Nat.succ_mul] at h1
    rw [Nat.mul_comm] at hfuel
    omega
  obtain ⟨p1, hloop, htbl, _, _, _, _, _, _, _⟩ :=
    store_loop_spec np hg fuel (np.nr_pages_per_block - 1 - p.curr_page_ofs) p hok
      (by omega) hbound
  have htake : p1.ptr_mapping_table.take np.nr_pages_per_ssd = p.ptr_mapping_table := by
    rw [htbl, ← hlen, List.take_length]
  have hstore : bdbm_page_ftl_store np p fuel true true
      = some (0, p1, some p.ptr_mapping_table, some (p1.bai.blocks.map abm_record_of)) := by
    unfold bdbm_page_ftl_store
    have hnl : ¬ p1.ptr_mapping_table.length < np.nr_pages_per_ssd := by
      rw [htbl]; omega
    simp only [hloop, hnl, if_false, htake, bdbm_abm_store, if_true]
    simp
  refine ⟨p1, p.ptr_mapping_table, p1.bai.blocks.map abm_record_of, hstore, htbl, ?_⟩
  generalize p1.bai.blocks.map abm_record_of = recs
  obtain ⟨me1, msgs1, hrun, hl1, _, hin, _, _⟩ :=
    load_mapping_loop_spec p.ptr_mapping_table np.nr_pages_per_ssd 0 0 q.ptr_mapping_table []
      (by simp) (by omega)
  rw [← List.range_eq_range'] at hrun
  have hme1 : me1 = p.ptr_mapping_table := by
    apply List.ext_getElem?
    intro i
    rcases Nat.lt_or_ge i np.nr_pages_per_ssd with hi | hi
    · obtain ⟨old, hold⟩ := getElem?_of_lt q.ptr_mapping_table i (by omega)
      obtain ⟨e, he⟩ := getElem?_of_lt p.ptr_mapping_table i (by omega)
      rw [hin i old (Nat.zero_le _) (by omega) hold, he]
      rfl
    · rw [List.getElem?_eq_none (by omega), List.getElem?_eq_none (by omega)]
  subst hme1
  by_cases habm : (bdbm_abm_load q.bai (some recs)).1 = 0
  · obtain ⟨haok, hfree⟩ := abm_load_ok np q.bai (bdbm_abm_load q.bai (some recs)).2 (some recs)
      hq3 hq4 (by rw [← habm])
    obtain ⟨ret, bai2, bab, hgab, _, _, _, _, _, hnew⟩ :=
      get_active_blocks_spec np (bdbm_abm_load q.bai (some recs)).2 q.ac_bab haok hq2
    by_cases hr : ret = 0
    · refine ⟨0, { bai := bai2, ptr_mapping_table := p.ptr_mapping_table, nr_punits := q.nr_punits,
                   curr_puid := 0, curr_page_ofs := 0, ac_bab := bab, gc_bab := q.gc_bab },
        msgs1, ?_, ?_⟩
      · unfold bdbm_page_ftl_load
        simp only [habm, ne_eq, not_true_eq_false, if_false, hrun, hgab, hr]
      · intro _
        refine ⟨rfl, ?_, rfl, rfl, ?_⟩
        · intro lpa ppa
          unfold bdbm_page_ftl_get_ppa
          by_cases hlpa : lpa ≥ np.nr_pages_per_ssd
          · simp only [hlpa, if_true, Option.map_some']
          · simp only [hlpa, if_false]
            cases p.ptr_mapping_table[lpa]? with
            | none => rfl
            | some e =>
              by_cases hv : e.status = PFTL_PAGE_VALID <;> simp [hv]
        · intro u hu
          obtain ⟨x, hx, hbx, _⟩ := hnew hr u hu
          obtain ⟨b, hb, hs⟩ := hfree u hu x (mem_of_head? hx)
          exact ⟨x, b, hbx, hb, hs⟩
    · refine ⟨1, { bai := bai2, ptr_mapping_table := p.ptr_mapping_table, nr_punits := q.nr_punits,
                   curr_puid := q.curr_puid, curr_page_ofs := q.curr_page_ofs, ac_bab := bab,
                   gc_bab := q.gc_bab },
        msgs1, ?_, fun h => by cases h⟩
      unfold bdbm_page_ftl_load
      simp only [habm, ne_eq, not_true_eq_false, if_false, hrun, hgab, hr, not_false_eq_true,
        if_true]
  · refine ⟨1, { q with bai := (bdbm_abm_load q.bai (some recs)).2 }, [], ?_, fun h => by cases h⟩
    unfold bdbm_page_ftl_load
    simp only [habm, ne_eq, not_false_eq_true, if_true]

/-- C18 at scenario S1: the pages 0..7 are written, the state is stored and the
files are loaded into a freshly created FTL; the load returns 0 and every
lookup gives the same code and address as before the store. -/
theorem store_load_round_trip_witness :
    geometry_ok S1_np ∧
    bdbm_page_ftl_store S1_np S1_written 16 true true = some S1_stored ∧
    bdbm_page_ftl_load S1_np S1_fresh S1_stored.2.2.2 S1_stored.2.2.1 = some S1_loaded ∧
    S1_stored.1 = 0 ∧ S1_loaded.1 = 0 ∧
    S1_loaded.2.1.ptr_mapping_table = S1_written.ptr_mapping_table ∧
    ∀ (lpa : Nat) (ppa : bdbm_phyaddr_t),
      (bdbm_page_ftl_get_ppa S1_np S1_loaded.2.1 lpa ppa).map (fun x => (x.1, x.2.2))
        = (bdbm_page_ftl_get_ppa S1_np S1_written lpa ppa).map (fun x => (x.1, x.2.2)) := by
  have hfresh := create_ok S1_np (by decide) S1_fresh (by decide)
  have hH : hist_ok S1_np S1_fresh [] := fun a ha => by simp at ha
  have hM := create_mapping_ok S1_np S1_fresh (by decide)
  obtain ⟨_, hokw, _, _⟩ := host_run_ok S1_np (by decide)
    [host_op.write 0, host_op.write 1, host_op.write 2, host_op.write 3, host_op.write 4,
     host_op.write 5, host_op.write 6, host_op.write 7] S1_fresh S1_written [] hfresh.1 hH hM
    (by decide)
  obtain ⟨p1, mfile, afile, hstore, _, ret, q1, msgs, hload, hres⟩ :=
    store_load_round_trip S1_np S1_written S1_fresh 16 (by decide) hokw (by decide) (by decide)
      (by decide) (by decide) (by decide)
  have hs : bdbm_page_ftl_store S1_np S1_written 16 true true = some S1_stored := by decide
  have hl : bdbm_page_ftl_load S1_np S1_fresh S1_stored.2.2.2 S1_stored.2.2.1
      = some S1_loaded := by decide
  rw [hs] at hstore
  simp only [Option.some.injEq] at hstore
  rw [hstore] at hl
  rw [hl] at hload
  simp only [Option.some.injEq] at hload
  have hret : ret = 0 := by
    have : S1_loaded.1 = 0 := by decide
    rw [hload] at this
    exact this
  obtain ⟨h1, h2, _⟩ := hres hret
  have hq : S1_loaded.2.1 = q1 := by rw [hload]
  refine ⟨by decide, hs, by decide, by decide, by decide, ?_, ?_⟩
  · rw [hq]; exact h1
  · rw [hq]; exact h2

/-! ## A GC pass without a victim for every unit -/

/-- The loop of the greedy victim selection returns when the active block and
the blocks of the dirty list are descriptors of the ABM; on a list that holds
only the active block it keeps the victim it started with. -/
theorem victim_loop_total (np : nand_params_t) (bai : bdbm_abm_info_t) (ar : Nat)
    (har : ar < bai.blocks.length) :
    ∀ (l : List Nat) (v : Option Nat), (∀ b ∈ l, b < bai.blocks.length) →
      (∀ vr, v = some vr → vr < bai.blocks.length) →
      ∃ res, victim_selection_greedy_loop np bai (some ar) v l = some res ∧
        (∀ vr, res = some vr → vr < bai.blocks.length) ∧
        ((∀ b ∈ l, b = ar) → res = v) := by
  intro l
  induction l with
  | nil =>
    intro v _ hv
    exact ⟨v, rfl, hv, fun _ => rfl⟩
  | cons b rest ih =>
    intro v hl hv
    have hrest : ∀ x ∈ rest, x < bai.blocks.length := fun x hx => hl x (List.mem_cons_of_mem _ hx)
    have hb : b < bai.blocks.length := hl b (List.mem_cons_self _ _)
    by_cases hab : (some ar : Option Nat) = some b
    · obtain ⟨res, hrun, h1, h2⟩ := ih v hrest hv
      refine ⟨res, ?_, h1, fun h => h2 (fun x hx => h x (List.mem_cons_of_mem _ hx))⟩
      simp only [victim_selection_greedy_loop, hab, if_true] at hrun ⊢
      exact hrun
    · have hne : b ≠ ar := fun h => hab (by rw [h])
      have hall : ¬ (∀ x ∈ b :: rest, x = ar) := fun h => hne (h b (List.mem_cons_self _ _))
      obtain ⟨bb, hbb⟩ := getElem?_of_lt bai.blocks b hb
      obtain ⟨ab, hab2⟩ := getElem?_of_lt bai.blocks ar har
      by_cases hfull : bb.nr_invalid_pages = np.nr_pages_per_block
      · refine ⟨some b, ?_, ?_, fun h => absurd h hall⟩
        · simp only [victim_selection_greedy_loop, hab, if_false, hbb, hfull, if_true]
        · intro vr h; cases h; exact hb
      · cases v with
        | none =>
          obtain ⟨res, hrun, h1, _⟩ := ih (some b) hrest (fun vr h => by cases h; exact hb)
          refine ⟨res, ?_, h1, fun h => absurd h hall⟩
          simp only [victim_selection_greedy_loop, hab, if_false, hbb, hfull]
          exact hrun
        | some vr =>
          obtain ⟨vb, hvb⟩ := getElem?_of_lt bai.blocks vr (hv vr rfl)
          by_cases hcmp : ab.nr_invalid_pages > vb.nr_invalid_pages
          · obtain ⟨res, hrun, h1, _⟩ := ih (some b) hrest (fun x h => by cases h; exact hb)
            refine ⟨res, ?_, h1, fun h => absurd h hall⟩
            simp only [victim_selection_greedy_loop, hab, if_false, hbb, hfull, Option.some_bind,
              hab2, hvb, hcmp, if_true]
            exact hrun
          · obtain ⟨res, hrun, h1, _⟩ := ih (some vr) hrest hv
            refine ⟨res, ?_, h1, fun h => absurd h hall⟩
            simp only [victim_selection_greedy_loop, hab, if_false, hbb, hfull, Option.some_bind,
              hab2, hvb, hcmp]
            exact hrun

/-- The greedy victim selection returns on a well-formed state; for a unit
whose dirty list holds nothing but its active block it returns NULL. -/
theorem victim_selection_total (np : nand_params_t) (p : bdbm_page_ftl_private)
    (hg : geometry_ok np) (hok : alloc_ok np p) (hd : dirty_ptrs_ok p.bai)
    (i j : Nat) (hi : i < np.nr_channels) (hj : j < np.nr_chips_per_channel) :
    ∃ res, __bdbm_page_ftl_victim_selection_greedy np p i j = some res ∧
      ((∀ b ∈ bdbm_abm_dirty_blocks p.bai i j,
          p.ac_bab[abm_unit np i j]? = some (some b)) → res = none) := by
  have hu : abm_unit np i j < nr_units np := mul_add_lt _ _ _ _ hi hj
  obtain ⟨r, c, hr, hc, _, _, _⟩ := hok.2.2.2.2.1 _ hu
  have hrl := coords_lt p.bai r c hc
  have hu64 : u64 (i * np.nr_chips_per_channel + j) = abm_unit np i j :=
    u64_of_lt (by unfold abm_unit at hu; have := hg.2.2.2.1; omega)
  obtain ⟨res, hrun, _, hnone⟩ := victim_loop_total np p.bai r hrl
    (bdbm_abm_dirty_blocks p.bai i j) none (fun b hb => hd i j b hb) (fun vr h => by cases h)
  refine ⟨res, ?_, ?_⟩
  · unfold __bdbm_page_ftl_victim_selection_greedy
    simp only [hu64, hr]
    exact hrun
  · intro h
    apply hnone
    intro b hb
    have := h b hb
    rw [hr] at this
    simp only [Option.some.injEq] at this
    exact this.symm

/-- The victim loops return when every selection returns and the array has
room; the count grows by at most one per pair, and by less than the number of
pairs when a selection returns NULL. -/
theorem gc_select_victims_spec (np : nand_params_t) (p : bdbm_page_ftl_private) :
    ∀ (l : List (Nat × Nat)) (bab : List (Option Nat)) (n : Nat),
      (∀ x ∈ l, ∃ res, __bdbm_page_ftl_victim_selection_greedy np p x.1 x.2 = some res) →
      n + l.length ≤ bab.length →
      ∃ bab1 n1, gc_select_victims np p l bab n = some (bab1, n1) ∧
        bab1.length = bab.length ∧ n1 ≤ n + l.length ∧
        ((∃ x ∈ l, __bdbm_page_ftl_victim_selection_greedy np p x.1 x.2 = some none) →
          n1 < n + l.length) := by
  intro l
  induction l with
  | nil =>
    intro bab n _ _
    exact ⟨bab, n, rfl, rfl, Nat.le_refl _, fun h => by obtain ⟨x, hx, _⟩ := h; cases hx⟩
  | cons x rest ih =>
    intro bab n hsel hlen
    obtain ⟨i, j⟩ := x
    simp only [List.length_cons] at hlen ⊢
    have hrest : ∀ y ∈ rest, ∃ res,
        __bdbm_page_ftl_victim_selection_greedy np p y.1 y.2 = some res :=
      fun y hy => hsel y (List.mem_cons_of_mem _ hy)
    obtain ⟨res, hres⟩ := hsel (i, j) (List.mem_cons_self _ _)
    simp only at hres
    cases res with
    | none =>
      obtain ⟨bab1, n1, hrun, hl1, hle, _⟩ := ih bab n hrest (by omega)
      refine ⟨bab1, n1, ?_, hl1, by omega, fun _ => by omega⟩
      simp only [gc_select_victims, hres]
      exact hrun
    | some b =>
      obtain ⟨bab1, n1, hrun, hl1, hle, hlt⟩ :=
        ih (bab.set n (some b)) (n + 1) hrest (by rw [List.length_set]; omega)
      have hn : n < bab.length := by omega
      refine ⟨bab1, n1, ?_, by rw [hl1, List.length_set], by omega, ?_⟩
      · simp only [gc_select_victims, hres, hn, if_true]
        exact hrun
      · intro h
        obtain ⟨y, hy, hyn⟩ := h
        rcases List.mem_cons.mp hy with h1 | h1
        · subst h1
          simp only at hyn
          rw [hres] at hyn
          cases hyn
        · have := hlt ⟨y, h1, hyn⟩
          omega

/-- C16: on a well-formed state, when the dirty list of some parallel unit is
empty or holds only that unit's active block, `do_gc` returns 0 with no event
(no flush, no request, no ABM call), with the request pool as it was, and with
a private state that differs from the one before in `gc_bab` alone: the mapping
table, the ABM with the state of every block, the cursor and `ac_bab` are
unchanged. -/
theorem do_gc_no_victim (np : nand_params_t) (llm : llm_inf_t) (p : bdbm_page_ftl_private)
    (hlm : List bdbm_llm_req_t) (hg : geometry_ok np) (hok : alloc_ok np p)
    (hd : dirty_ptrs_ok p.bai) (hgc : nr_units np ≤ p.gc_bab.length)
    (i j : Nat) (hi : i < np.nr_channels) (hj : j < np.nr_chips_per_channel)
    (hempty : ∀ b ∈ bdbm_abm_dirty_blocks p.bai i j,
      p.ac_bab[abm_unit np i j]? = some (some b)) :
    ∃ bab, bdbm_page_ftl_do_gc np llm p hlm = some (0, { p with gc_bab := bab }, hlm, []) := by
  have hN : u64 (np.nr_channels * np.nr_chips_per_channel) = nr_units np :=
    u64_of_lt hg.2.2.2.1
  have hsel : ∀ x ∈ punit_pairs np, ∃ res,
      __bdbm_page_ftl_victim_selection_greedy np p x.1 x.2 = some res := by
    intro x hx
    rw [punit_pairs_eq, List.mem_map] at hx
    obtain ⟨u, hu, hxu⟩ := hx
    rw [List.mem_range] at hu
    have hK : 0 < np.nr_chips_per_channel := hg.2.1
    have h1 : u / np.nr_chips_per_channel < np.nr_channels :=
      (Nat.div_lt_iff_lt_mul hK).2 hu
    have h2 : u % np.nr_chips_per_channel < np.nr_chips_per_channel := Nat.mod_lt _ hK
    obtain ⟨res, hres, _⟩ := victim_selection_total np p hg hok hd _ _ h1 h2
    rw [← hxu]
    exact ⟨res, hres⟩
  have hmem : (i, j) ∈ punit_pairs np := by
    unfold punit_pairs
    rw [List.mem_flatMap]
    exact ⟨i, List.mem_range.mpr hi, List.mem_map.mpr ⟨j, List.mem_range.mpr hj, rfl⟩⟩
  obtain ⟨res, hres, hnone⟩ := victim_selection_total np p hg hok hd i j hi hj
  have hres0 : __bdbm_page_ftl_victim_selection_greedy np p i j = some none := by
    rw [hres, hnone hempty]
  obtain ⟨bab1, n1, hrun, _, _, hlt⟩ := gc_select_victims_spec np p (punit_pairs np)
    (List.replicate (nr_units np) none ++ p.gc_bab.drop (nr_units np)) 0 hsel
    (by rw [punit_pairs_length, List.length_append, List.length_replicate]; omega)
  have hn1 : n1 < nr_units np := by
    have := hlt ⟨(i, j), hmem, hres0⟩
    rw [punit_pairs_length] at this
    omega
  refine ⟨bab1, ?_⟩
  have hnl : ¬ p.gc_bab.length < nr_units np := by omega
  unfold bdbm_page_ftl_do_gc gc_victims
  simp only [hN, hnl, if_false, hrun, hn1, if_true]

/-- C16 at the freshly created FTL of scenario S1, where every dirty list is
empty. -/
theorem do_gc_no_victim_witness :
    geometry_ok S1_np ∧ nr_units S1_np ≤ S1_fresh.gc_bab.length ∧
    bdbm_abm_dirty_blocks S1_fresh.bai 0 0 = [] ∧
    ∃ bab, bdbm_page_ftl_do_gc S1_np llm_ok S1_fresh (fresh_llm_reqs 16)
      = some (0, { S1_fresh with gc_bab := bab }, fresh_llm_reqs 16, []) :=
  ⟨by decide, by decide, by decide,
    do_gc_no_victim S1_np llm_ok S1_fresh (fresh_llm_reqs 16) (by decide)
      (create_ok S1_np (by decide) S1_fresh (by decide)).1
      (fun i j b hb => by
        have h : bdbm_abm_dirty_blocks S1_fresh.bai i j = [] := by
          unfold bdbm_abm_dirty_blocks
          rcases Nat.lt_or_ge (abm_unit S1_fresh.bai.np i j) 4 with h | h
          · interval_cases hu : abm_unit S1_fresh.bai.np i j <;> rfl
          · rw [List.getD_eq_default _ _ (by simpa using h)]
        rw [h] at hb; cases hb)
      (by decide) 0 0 (by decide) (by decide)
      (fun b hb => by
        have h : bdbm_abm_dirty_blocks S1_fresh.bai 0 0 = [] := by decide
        rw [h] at hb; cases hb)⟩

/-! ## The loops of a GC pass -/

/-- The call `erase_block` keeps the coordinates of every block and the
geometry of the ABM. -/
theorem abm_erase_block_coords (bai : bdbm_abm_info_t) (ch chip blk is_bad : Nat) :
    abm_coords (bdbm_abm_erase_block bai ch chip blk is_bad) = abm_coords bai ∧
    (bdbm_abm_erase_block bai ch chip blk is_bad).np = bai.np := by
  unfold bdbm_abm_erase_block
  cases bdbm_abm_get_block bai ch chip blk with
  | none => exact ⟨rfl, rfl⟩
  | some r =>
    simp only
    cases hb : bai.blocks[r]? with
    | none => exact ⟨rfl, rfl⟩
    | some b =>
      simp only
      have hset : ∀ b1 : bdbm_abm_block_t, blk_coords b1 = blk_coords b →
          (bai.blocks.set r b1).map blk_coords = bai.blocks.map blk_coords := by
        intro b1 h1
        rw [List.map_set, h1]
        apply List.ext_getElem?
        intro i
        by_cases hi : r = i
        · subst hi
          rcases Nat.lt_or_ge r bai.blocks.length with hl | hl
          · rw [List.getElem?_set_self (by simpa using hl), List.getElem?_map, hb]; rfl
          · rw [List.getElem?_eq_none (by simpa using hl), List.getElem?_eq_none (by simpa using hl)]
        · rw [List.getElem?_set_ne hi]
      split
      · exact ⟨hset _ rfl, rfl⟩
      · exact ⟨hset _ rfl, rfl⟩

/-- A batch sent to the device: the events are the requests of the pool in
index order, and each request gets its completion code and, for a GC read, its
OOB word; nothing else changes. -/
theorem gc_send_spec (llm : llm_inf_t) (t : bdbm_req_type) :
    ∀ (n s : Nat) (hlm : List bdbm_llm_req_t) (ev : List gc_event)
      (hlm1 : List bdbm_llm_req_t) (ev1 : List gc_event),
      gc_send llm t (List.range' s n) hlm ev = some (hlm1, ev1) →
      hlm1.length = hlm.length ∧
      ev1 = ev ++ (List.range' s n).filterMap (sent_event llm t hlm) ∧
      (∀ i, i < s ∨ s + n ≤ i → hlm1[i]? = hlm[i]?) ∧
      (∀ i, s ≤ i → i < s + n → ∃ r : bdbm_llm_req_t, hlm[i]? = some r ∧
        hlm1[i]? = some { r with ret := llm.done_ret t i,
                                 ptr_oob := if t = bdbm_req_type.REQTYPE_GC_READ then llm.oob i
                                            else r.ptr_oob }) := by
  intro n
  induction n with
  | zero =>
    intro s hlm ev hlm1 ev1 h
    simp only [List.range'_zero, gc_send, Option.some.injEq, Prod.mk.injEq] at h
    obtain ⟨h1, h2⟩ := h
    subst h1 h2
    exact ⟨rfl, by simp, fun _ _ => rfl, fun i h1 h2 => by omega⟩
  | succ n ih =>
    intro s hlm ev hlm1 ev1 h
    rw [List.range'_succ] at h
    simp only [gc_send] at h
    cases hr : hlm[s]? with
    | none => rw [hr] at h; cases h
    | some r =>
      rw [hr] at h
      simp only at h
      obtain ⟨g1, g2, g3, g4⟩ := ih (s + 1) _ _ hlm1 ev1 h
      have hsl : s < hlm.length := by
        rcases Nat.lt_or_ge s hlm.length with h1 | h1
        · exact h1
        · rw [List.getElem?_eq_none h1] at hr; cases hr
      refine ⟨by rw [g1, List.length_set], ?_, ?_, ?_⟩
      · rw [g2, List.range'_succ, List.filterMap_cons]
        have hs : sent_event llm t hlm s = some (gc_event.make_req r (llm.done_ret t s)) := by
          simp [sent_event, hr]
        rw [hs, List.append_assoc]
        congr 1
        simp only [List.singleton_append, List.cons.injEq, true_and]
        apply List.filterMap_congr
        intro i hi
        rw [List.mem_range'_1] at hi
        unfold sent_event
        rw [List.getElem?_set_ne (by omega)]
      · intro i hi
        rw [g3 i (by omega), List.getElem?_set_ne (by omega)]
      · intro i h1 h2
        rcases Nat.eq_or_lt_of_le h1 with h3 | h3
        · subst h3
          refine ⟨r, hr, ?_⟩
          rw [g3 s (by omega), List.getElem?_set_self hsl]
        · obtain ⟨r2, hr2, hr3⟩ := g4 i (by omega) (by omega)
          rw [List.getElem?_set_ne (by omega)] at hr2
          exact ⟨r2, hr2, hr3⟩

/-- The loop that builds the erase requests: request `i` is addressed through
`phyaddr_w` to victim `gc_bab[i]`; nothing else changes. -/
theorem gc_build_erases_spec (p : bdbm_page_ftl_private) :
    ∀ (n s : Nat) (hlm hlm1 : List bdbm_llm_req_t),
      gc_build_erases p (List.range' s n) hlm = some hlm1 →
      hlm1.length = hlm.length ∧
      (∀ i, i < s ∨ s + n ≤ i → hlm1[i]? = hlm[i]?) ∧
      (∀ i, s ≤ i → i < s + n →
        ∃ (v : Nat) (b : bdbm_abm_block_t) (r r1 : bdbm_llm_req_t),
          p.gc_bab[i]? = some (some v) ∧ p.bai.blocks[v]? = some b ∧ hlm[i]? = some r ∧
          hlm1[i]? = some r1 ∧ r1.req_type = bdbm_req_type.REQTYPE_GC_ERASE ∧
          req_phyaddr r1 = some r1.phyaddr_w ∧
          (r1.phyaddr_w.channel_no, r1.phyaddr_w.chip_no, r1.phyaddr_w.block_no) = blk_coords b ∧
          r1.phyaddr_r = r.phyaddr_r ∧ r1.ptr_oob = r.ptr_oob) := by
  intro n
  induction n with
  | zero =>
    intro s hlm hlm1 h
    simp only [List.range'_zero, gc_build_erases, Option.some.injEq] at h
    subst h
    exact ⟨rfl, fun _ _ => rfl, fun i h1 h2 => by omega⟩
  | succ n ih =>
    intro s hlm hlm1 h
    rw [List.range'_succ] at h
    simp only [gc_build_erases] at h
    cases hv : p.gc_bab[s]? with
    | none => rw [hv] at h; cases h
    | some ov =>
      cases ov with
      | none => rw [hv] at h; cases h
      | some v =>
        rw [hv] at h
        simp only at h
        cases hb : p.bai.blocks[v]? with
        | none => rw [hb] at h; simp at h
        | some b =>
          cases hr : hlm[s]? with
          | none => rw [hb, hr] at h; simp at h
          | some r =>
            rw [hb, hr] at h
            simp only at h
            obtain ⟨g1, g2, g3⟩ := ih (s + 1) _ hlm1 h
            have hsl : s < hlm.length := by
              rcases Nat.lt_or_ge s hlm.length with h1 | h1
              · exact h1
              · rw [List.getElem?_eq_none h1] at hr; cases hr
            refine ⟨by rw [g1, List.length_set], ?_, ?_⟩
            · intro i hi
              rw [g2 i (by omega), List.getElem?_set_ne (by omega)]
            · intro i h1 h2
              rcases Nat.eq_or_lt_of_le h1 with h3 | h3
              · subst h3
                refine ⟨v, b, r,
                  { r with req_type := bdbm_req_type.REQTYPE_GC_ERASE, lpa := 2 ^ 64 - 1,
                           phyaddr := phyaddr_ptr.w,
                           phyaddr_w := { r.phyaddr_w with channel_no := b.channel_no,
                                                           chip_no := b.chip_no,
                                                           block_no := b.block_no, page_no := 0 },
                           ret := 0 },
                  hv, hb, hr, ?_, rfl, rfl, rfl, rfl, rfl⟩
                rw [g2 s (by omega), List.getElem?_set_self hsl]
              · obtain ⟨v2, b2, r2, r3, e1, e2, e3, e4⟩ := g3 i (by omega) (by omega)
                rw [List.getElem?_set_ne (by omega)] at e3
                exact ⟨v2, b2, r2, r3, e1, e2, e3, e4⟩

/-- The loop that calls `bdbm_abm_erase_block`: the events are the calls for
the victims `gc_bab[i]` in index order, with the flag of request `i`; the
private state changes in the ABM only, and the blocks keep their coordinates. -/
theorem gc_erase_blocks_spec (hlm : List bdbm_llm_req_t) :
    ∀ (n s : Nat) (p p1 : bdbm_page_ftl_private) (ev ev1 : List gc_event),
      gc_erase_blocks hlm (List.range' s n) p ev = some (p1, ev1) →
      ev1 = ev ++ (List.range' s n).filterMap (call_event p.gc_bab (abm_coords p.bai) hlm) ∧
      abm_coords p1.bai = abm_coords p.bai ∧ p1.bai.np = p.bai.np ∧
      p1.ptr_mapping_table = p.ptr_mapping_table ∧ p1.gc_bab = p.gc_bab ∧
      p1.ac_bab = p.ac_bab ∧ p1.curr_puid = p.curr_puid ∧
      p1.curr_page_ofs = p.curr_page_ofs ∧ p1.nr_punits = p.nr_punits := by
  intro n
  induction n with
  | zero =>
    intro s p p1 ev ev1 h
    simp only [List.range'_zero, gc_erase_blocks, Option.some.injEq, Prod.mk.injEq] at h
    obtain ⟨h1, h2⟩ := h
    subst h1 h2
    exact ⟨by simp, rfl, rfl, rfl, rfl, rfl, rfl, rfl, rfl⟩
  | succ n ih =>
    intro s p p1 ev ev1 h
    rw [List.range'_succ] at h
    simp only [gc_erase_blocks] at h
    cases hv : p.gc_bab[s]? with
    | none => rw [hv] at h; cases h
    | some ov =>
      cases ov with
      | none => rw [hv] at h; cases h
      | some v =>
        rw [hv] at h
        simp only at h
        cases hb : p.bai.blocks[v]? with
        | none => rw [hb] at h; simp at h
        | some b =>
          cases hr : hlm[s]? with
          | none => rw [hb, hr] at h; simp at h
          | some r =>
            rw [hb, hr] at h
            simp only at h
            obtain ⟨g1, g2, g3, g4, g5, g6, g7, g8, g9⟩ := ih (s + 1) _ p1 _ ev1 h
            obtain ⟨c1, c2⟩ := abm_erase_block_coords p.bai b.channel_no b.chip_no b.block_no
              (if r.ret ≠ 0 then 1 else 0)
            refine ⟨?_, g2.trans c1, g3.trans c2, g4, g5, g6, g7, g8, g9⟩
            rw [g1, List.range'_succ, List.filterMap_cons]
            have hc : (abm_coords p.bai)[v]? = some (blk_coords b) := by
              unfold abm_coords
              rw [List.getElem?_map, hb]; rfl
            have hs : call_event p.gc_bab (abm_coords p.bai) hlm s
                = some (gc_event.erase_block b.channel_no b.chip_no b.block_no
                    (if r.ret ≠ 0 then 1 else 0)) := by
              simp only [call_event, hv, hr, hc, Option.map_some']
              rfl
            rw [hs, List.append_assoc]
            simp only [List.singleton_append]
            rw [c1]

/-- The inner loop of the read phase over the pages `s .. s + m - 1` of a
victim: the requests from `n` on are GC reads through `phyaddr_r`, every page
whose `pst` entry is not INVALID has a request, and the rest of the pool is as
it was. -/
theorem gc_build_reads_block_spec (b : bdbm_abm_block_t) :
    ∀ (m s : Nat) (hlm : List bdbm_llm_req_t) (n : Nat) (hlm1 : List bdbm_llm_req_t) (n1 : Nat),
      gc_build_reads_block b (List.range' s m) hlm n = some (hlm1, n1) →
      hlm1.length = hlm.length ∧ n ≤ n1 ∧
      (∀ i, i < n ∨ n1 ≤ i → hlm1[i]? = hlm[i]?) ∧
      (∀ i, n ≤ i → i < n1 → ∃ r1 : bdbm_llm_req_t, hlm1[i]? = some r1 ∧
        r1.req_type = bdbm_req_type.REQTYPE_GC_READ ∧ r1.phyaddr = phyaddr_ptr.r ∧
        ∃ j, ppa_tuple r1.phyaddr_r = (b.channel_no, b.chip_no, b.block_no, j)) ∧
      (∀ (j : Nat) (st : bdbm_abm_page_state), s ≤ j → j < s + m → b.pst[j]? = some st →
        st ≠ bdbm_abm_page_state.INVALID →
        ∃ (i : Nat) (r1 : bdbm_llm_req_t), n ≤ i ∧ i < n1 ∧ hlm1[i]? = some r1 ∧
          ppa_tuple r1.phyaddr_r = (b.channel_no, b.chip_no, b.block_no, j)) := by
  intro m
  induction m with
  | zero =>
    intro s hlm n hlm1 n1 h
    simp only [List.range'_zero, gc_build_reads_block, Option.some.injEq, Prod.mk.injEq] at h
    obtain ⟨h1, h2⟩ := h
    subst h1 h2
    exact ⟨rfl, Nat.le_refl _, fun _ _ => rfl, fun i h1 h2 => by omega,
      fun j st h1 h2 => by omega⟩
  | succ m ih =>
    intro s hlm n hlm1 n1 h
    rw [List.range'_succ] at h
    simp only [gc_build_reads_block] at h
    cases hst : b.pst[s]? with
    | none => rw [hst] at h; cases h
    | some st0 =>
      rw [hst] at h
      simp only at h
      by_cases hinv : st0 ≠ bdbm_abm_page_state.INVALID
      · rw [if_pos hinv] at h
        cases hr : hlm[n]? with
        | none => rw [hr] at h; cases h
        | some r =>
          rw [hr] at h
          simp only at h
          have hnl : n < hlm.length := by
            rcases Nat.lt_or_ge n hlm.length with h1 | h1
            · exact h1
            · rw [List.getElem?_eq_none h1] at hr; cases hr
          obtain ⟨g1, g2, g3, g4, g5⟩ := ih (s + 1) _ (n + 1) hlm1 n1 h
          have hn : hlm1[n]? = some
              { r with req_type := bdbm_req_type.REQTYPE_GC_READ, lpa := 2 ^ 64 - 1,
                       phyaddr := phyaddr_ptr.r,
                       phyaddr_r := { r.phyaddr_r with channel_no := b.channel_no,
                                                       chip_no := b.chip_no,
                                                       block_no := b.block_no, page_no := s },
                       ret := 0 } := by
            rw [g3 n (by omega), List.getElem?_set_self hnl]
          refine ⟨by rw [g1, List.length_set], by omega, ?_, ?_, ?_⟩
          · intro i hi
            rw [g3 i (by omega), List.getElem?_set_ne (by omega)]
          · intro i h1 h2
            rcases Nat.eq_or_lt_of_le h1 with h3 | h3
            · subst h3
              exact ⟨_, hn, rfl, rfl, s, rfl⟩
            · exact g4 i (by omega) h2
          · intro j st h1 h2 hj hne
            rcases Nat.eq_or_lt_of_le h1 with h3 | h3
            · subst h3
              exact ⟨n, _, Nat.le_refl _, by omega, hn, rfl⟩
            · obtain ⟨i, r1, e1, e2, e3, e4⟩ := g5 j st (by omega) (by omega) hj hne
              exact ⟨i, r1, by omega, e2, e3, e4⟩
      · rw [if_neg hinv] at h
        obtain ⟨g1, g2, g3, g4, g5⟩ := ih (s + 1) hlm n hlm1 n1 h
        refine ⟨g1, g2, g3, g4, ?_⟩
        intro j st h1 h2 hj hne
        rcases Nat.eq_or_lt_of_le h1 with h3 | h3
        · subst h3
          rw [hst] at hj
          cases hj
          exact absurd hne hinv
        · exact g5 j st (by omega) (by omega) hj hne

/-- The outer loop of the read phase over the victims `gc_bab[s .. s + m - 1]`,
none of which is NULL: the requests from `n` on are GC reads through
`phyaddr_r`, and every page of a victim whose `pst` entry is not INVALID has a
request. -/
theorem gc_build_reads_spec (np : nand_params_t) (p : bdbm_page_ftl_private) :
    ∀ (m s : Nat) (hlm : List bdbm_llm_req_t) (n : Nat) (hlm1 : List bdbm_llm_req_t) (n1 : Nat),
      gc_build_reads np p (List.range' s m) hlm n = some (hlm1, n1) →
      hlm1.length = hlm.length ∧ n ≤ n1 ∧
      (∀ i, i < n ∨ n1 ≤ i → hlm1[i]? = hlm[i]?) ∧
      (∀ i, n ≤ i → i < n1 → ∃ r1 : bdbm_llm_req_t, hlm1[i]? = some r1 ∧
        r1.req_type = bdbm_req_type.REQTYPE_GC_READ ∧ r1.phyaddr = phyaddr_ptr.r ∧
        ∃ (k v j : Nat) (b : bdbm_abm_block_t), s ≤ k ∧ k < s + m ∧
          p.gc_bab[k]? = some (some v) ∧ p.bai.blocks[v]? = some b ∧
          ppa_tuple r1.phyaddr_r = (b.channel_no, b.chip_no, b.block_no, j)) ∧
      ((∀ k, s ≤ k → k < s + m → ∃ v, p.gc_bab[k]? = some (some v)) →
        ∀ (k v j : Nat) (b : bdbm_abm_block_t) (st : bdbm_abm_page_state),
          s ≤ k → k < s + m → p.gc_bab[k]? = some (some v) → p.bai.blocks[v]? = some b →
          j < np.nr_pages_per_block → b.pst[j]? = some st → st ≠ bdbm_abm_page_state.INVALID →
          ∃ (i : Nat) (r1 : bdbm_llm_req_t), n ≤ i ∧ i < n1 ∧ hlm1[i]? = some r1 ∧
            ppa_tuple r1.phyaddr_r = (b.channel_no, b.chip_no, b.block_no, j)) := by
  intro m
  induction m with
  | zero =>
    intro s hlm n hlm1 n1 h
    simp only [List.range'_zero, gc_build_reads, Option.some.injEq, Prod.mk.injEq] at h
    obtain ⟨h1, h2⟩ := h
    subst h1 h2
    exact ⟨rfl, Nat.le_refl _, fun _ _ => rfl, fun i h1 h2 => by omega,
      fun _ k v j b st h1 h2 => by omega⟩
  | succ m ih =>
    intro s hlm n hlm1 n1 h
    rw [List.range'_succ] at h
    simp only [gc_build_reads] at h
    cases hv : p.gc_bab[s]? with
    | none => rw [hv] at h; cases h
    | some ov =>
      cases ov with
      | none =>
        rw [hv] at h
        simp only [Option.some.injEq, Prod.mk.injEq] at h
        obtain ⟨h1, h2⟩ := h
        subst h1 h2
        refine ⟨rfl, Nat.le_refl _, fun _ _ => rfl, fun i h1 h2 => by omega, ?_⟩
        intro hall
        obtain ⟨v, hv2⟩ := hall s (Nat.le_refl _) (by omega)
        rw [hv] at hv2
        cases hv2
      | some v =>
        rw [hv] at h
        simp only at h
        cases hb : p.bai.blocks[v]? with
        | none => rw [hb] at h; cases h
        | some b =>
          rw [hb] at h
          simp only at h
          cases hblk : gc_build_reads_block b (List.range np.nr_pages_per_block) hlm n with
          | none => rw [hblk] at h; cases h
          | some x =>
            obtain ⟨hlm2, n2⟩ := x
            rw [hblk] at h
            simp only at h
            rw [List.range_eq_range'] at hblk
            obtain ⟨b1, b2, b3, b4, b5⟩ := gc_build_reads_block_spec b _ 0 hlm n hlm2 n2 hblk
            obtain ⟨g1, g2, g3, g4, g5⟩ := ih (s + 1) hlm2 n2 hlm1 n1 h
            refine ⟨g1.trans b1, by omega, ?_, ?_, ?_⟩
            · intro i hi
              rw [g3 i (by omega), b3 i (by omega)]
            · intro i h1 h2
              rcases Nat.lt_or_ge i n2 with h3 | h3
              · obtain ⟨r1, e1, e2, e3, j, e4⟩ := b4 i h1 h3
                exact ⟨r1, by rw [g3 i (Or.inl h3)]; exact e1, e2, e3, s, v, j, b,
                  Nat.le_refl _, by omega, hv, hb, e4⟩
              · obtain ⟨r1, e1, e2, e3, k, v1, j, b1, e4, e5, e6⟩ := g4 i h3 h2
                exact ⟨r1, e1, e2, e3, k, v1, j, b1, by omega, by omega, e6⟩
            · intro hall k v1 j bb st h1 h2 hk hbb hj hst hne
              rcases Nat.eq_or_lt_of_le h1 with h3 | h3
              · subst h3
                rw [hv] at hk
                simp only [Option.some.injEq] at hk
                subst hk
                rw [hb] at hbb
                simp only [Option.some.injEq] at hbb
                subst hbb
                obtain ⟨i, r1, e1, e2, e3, e4⟩ := b5 j st (Nat.zero_le _) (by omega) hst hne
                exact ⟨i, r1, e1, by omega, by rw [g3 i (Or.inl e2)]; exact e3, e4⟩
              · obtain ⟨i, r1, e1, e2, e3, e4⟩ :=
                  g5 (fun k h1 h2 => hall k (by omega) (by omega)) k v1 j bb st (by omega)
                    (by omega) hk hbb hj hst hne
                exact ⟨i, r1, by omega, e2, e3, e4⟩

/-- The call `get_free_ppa` leaves `gc_bab` as it is. -/
theorem get_free_ppa_gc_bab (np : nand_params_t) (p p1 : bdbm_page_ftl_private) (lpa ret : Nat)
    (ppa out : bdbm_phyaddr_t)
    (h : bdbm_page_ftl_get_free_ppa np p lpa ppa = some (ret, p1, out)) :
    p1.gc_bab = p.gc_bab := by
  unfold bdbm_page_ftl_get_free_ppa at h
  by_cases hC : np.nr_channels = 0
  · simp [hC] at h
  · simp only [hC, if_false] at h
    cases hs : p.ac_bab[u64 (p.curr_puid % np.nr_channels * np.nr_chips_per_channel
        + p.curr_puid / np.nr_channels)]? with
    | none => rw [hs] at h; cases h
    | some o =>
      cases o with
      | none => rw [hs] at h; cases h
      | some r =>
        rw [hs] at h
        simp only at h
        cases hb : p.bai.blocks[r]? with
        | none => rw [hb] at h; cases h
        | some b =>
          rw [hb] at h
          simp only at h
          split at h
          · cases h
          · split at h
            · split at h
              · split at h
                · cases h
                · split at h
                  · simp only [Option.some.injEq, Prod.mk.injEq] at h
                    rw [← h.2.1]
                  · simp only [Option.some.injEq, Prod.mk.injEq] at h
                    rw [← h.2.1]
              · simp only [Option.some.injEq, Prod.mk.injEq] at h
                rw [← h.2.1]
            · simp only [Option.some.injEq, Prod.mk.injEq] at h
              rw [← h.2.1]

/-- One request of the write phase on a well-formed state in which the blocks
`V` are neither active nor free: the LPA is mapped to the address handed out,
which lies in a block outside `V`; no other entry changes. -/
theorem gc_write_step (np : nand_params_t) (p p1 p2 : bdbm_page_ftl_private) (lpa : Nat)
    (a out : bdbm_phyaddr_t) (V : List Nat) (hg : geometry_ok np) (hok : alloc_ok np p)
    (hV : victims_out np p V)
    (hget : bdbm_page_ftl_get_free_ppa np p lpa a = some (0, p1, out))
    (hmap : bdbm_page_ftl_map_lpa_to_ppa np p1 lpa out = some (0, p2)) :
    alloc_ok np p2 ∧ victims_out np p2 V ∧ abm_coords p2.bai = abm_coords p.bai ∧
    p2.gc_bab = p.gc_bab ∧
    (∃ m : bdbm_page_mapping_entry, p2.ptr_mapping_table[lpa]? = some m ∧
      m.status = PFTL_PAGE_VALID ∧ ppa_tuple m.phyaddr = ppa_tuple out) ∧
    (∀ l, l ≠ lpa → p2.ptr_mapping_table[l]? = p.ptr_mapping_table[l]?) ∧
    (∃ rb, (abm_coords p.bai)[rb]? = some (out.channel_no, out.chip_no, out.block_no) ∧
      rb ∉ V) := by
  obtain ⟨ret, q, out1, r, b, hrun1, hslot, hb, _, hout, hbch, hbchip, _, _, hq, _, htbl, hco,
    hnr, hro⟩ := get_free_ppa_step np p lpa a hg hok
  rw [hget] at hrun1
  simp only [Option.some.injEq, Prod.mk.injEq] at hrun1
  obtain ⟨hr0, hq1, ho1⟩ := hrun1
  subst hr0 hq1 ho1
  have hokq := hq rfl
  have hgb := get_free_ppa_gc_bab np p p1 lpa 0 a out hget
  obtain ⟨husl, _⟩ := slot_lt np p.curr_puid hg.1 hok.2.1
  -- the block of the address handed out
  have hrb : ∃ rb, (abm_coords p.bai)[rb]? = some (out.channel_no, out.chip_no, out.block_no) ∧
      rb ∉ V := by
    refine ⟨r, ?_, ?_⟩
    · unfold abm_coords
      rw [List.getElem?_map, hb, hout]
      simp only [Option.map_some', blk_coords]
      rw [hbch, hbchip, hout]
    · intro hv
      exact (hV r hv _ husl).1 hslot
  -- the victims after the allocation
  have hVq : victims_out np p1 V := by
    intro v hv u hu
    by_cases hroll : p.curr_puid + 1 = nr_units np ∧ p.curr_page_ofs + 1 = np.nr_pages_per_block
    · obtain ⟨_, _, hnew⟩ := hro rfl hroll.1 hroll.2
      obtain ⟨x, hx, hbx, hfl⟩ := hnew u hu
      have hvf := (hV v hv u hu).2
      refine ⟨?_, ?_⟩
      · rw [hbx]
        intro h
        simp only [Option.some.injEq] at h
        subst h
        exact hvf (mem_of_head? hx)
      · rw [hfl]
        exact fun h => hvf (List.mem_of_mem_tail h)
    · obtain ⟨h1, h2, _⟩ := hnr hroll
      rw [h1, h2]
      exact hV v hv u hu
  -- the mapping
  rcases Nat.lt_or_ge lpa np.nr_pages_per_ssd with hl | hl
  · have hlenq : p1.ptr_mapping_table.length = np.nr_pages_per_ssd := hokq.2.2.2.2.2.1
    obtain ⟨me, hme⟩ := getElem?_of_lt p1.ptr_mapping_table lpa (by omega)
    have hm := map_lpa_to_ppa_in_range np p1 lpa out me hl hme
    have hfr : ∀ bai1 : bdbm_abm_info_t,
        bai1 = (if me.status = PFTL_PAGE_VALID then
                  bdbm_abm_invalidate_page p1.bai me.phyaddr.channel_no me.phyaddr.chip_no
                    me.phyaddr.block_no me.phyaddr.page_no
                else p1.bai) →
        bai1.np = p1.bai.np ∧ bai1.list_free = p1.bai.list_free ∧
          abm_coords bai1 = abm_coords p1.bai := by
      intro bai1 h
      subst h
      split
      · exact abm_invalidate_page_frame _ _ _ _ _
      · exact ⟨rfl, rfl, rfl⟩
    obtain ⟨g1, g2, g3⟩ := hfr _ rfl
    generalize hs : ({ p1 with
        bai := (if me.status = PFTL_PAGE_VALID then
                  bdbm_abm_invalidate_page p1.bai me.phyaddr.channel_no me.phyaddr.chip_no
                    me.phyaddr.block_no me.phyaddr.page_no
                else p1.bai),
        ptr_mapping_table := p1.ptr_mapping_table.set lpa
          { status := PFTL_PAGE_VALID,
            phyaddr := { me.phyaddr with channel_no := out.channel_no,
                                         chip_no := out.chip_no,
                                         block_no := out.block_no,
                                         page_no := out.page_no } } }
      : bdbm_page_ftl_private) = s at hm
    rw [hmap] at hm
    simp only [Option.some.injEq, Prod.mk.injEq, true_and] at hm
    subst hm
    have e1 : p2.nr_punits = p1.nr_punits := by rw [← hs]
    have e2 : p2.curr_puid = p1.curr_puid := by rw [← hs]
    have e3 : p2.curr_page_ofs = p1.curr_page_ofs := by rw [← hs]
    have e4 : p2.ac_bab = p1.ac_bab := by rw [← hs]
    have e5 : p2.bai.np = p1.bai.np := by rw [← hs]; exact g1
    have e6 : p2.bai.list_free = p1.bai.list_free := by rw [← hs]; exact g2
    have e7 : abm_coords p2.bai = abm_coords p1.bai := by rw [← hs]; exact g3
    have e8 : p2.ptr_mapping_table.length = p1.ptr_mapping_table.length := by
      rw [← hs]; simp
    have e9 : p2.gc_bab = p1.gc_bab := by rw [← hs]
    refine ⟨alloc_ok_of_frame np p1 p2 hokq e1 e2 e3 e4 e5 e6 e7 e8, ?_, e7.trans hco,
      e9.trans hgb, ?_, ?_, hrb⟩
    · intro v hv u hu
      unfold free_list
      rw [e4, e6]
      exact hVq v hv u hu
    · refine ⟨{ status := PFTL_PAGE_VALID,
                phyaddr := { me.phyaddr with channel_no := out.channel_no,
                                             chip_no := out.chip_no,
                                             block_no := out.block_no,
                                             page_no := out.page_no } }, ?_, rfl, rfl⟩
      rw [← hs]
      exact List.getElem?_set_self (by omega)
    · intro l hne
      rw [← hs, ← htbl]
      exact List.getElem?_set_ne (Ne.symm hne)
  · have hm := map_lpa_to_ppa_out_of_range np p1 lpa out hl
    rw [hmap] at hm
    simp at hm

/-- A store through the pointer `phyaddr` of a request that is not NULL. -/
theorem req_set_phyaddr_spec (r : bdbm_llm_req_t) (a out : bdbm_phyaddr_t)
    (h : req_phyaddr r = some a) :
    req_phyaddr (req_set_phyaddr r out) = some out ∧
    (req_set_phyaddr r out).req_type = r.req_type ∧ (req_set_phyaddr r out).lpa = r.lpa ∧
    (req_set_phyaddr r out).ptr_oob = r.ptr_oob := by
  unfold req_phyaddr req_set_phyaddr at *
  cases hp : r.phyaddr with
  | null => rw [hp] at h; cases h
  | r => simp [hp]
  | w => simp [hp]

/-- The write phase over the requests `s .. s + n - 1` on a well-formed state
in which the blocks `V` are neither active nor free: every LPA found in the OOB
word of a request is VALID afterwards, at an address that was handed out for
it and lies in a block outside `V`; no other entry of the mapping table
changes. -/
theorem gc_build_writes_spec (np : nand_params_t) (hg : geometry_ok np) (V : List Nat) :
    ∀ (n s : Nat) (p : bdbm_page_ftl_private) (hlm : List bdbm_llm_req_t)
      (p1 : bdbm_page_ftl_private) (hlm1 : List bdbm_llm_req_t),
      gc_build_writes np (List.range' s n) p hlm = some (p1, hlm1) →
      alloc_ok np p → victims_out np p V →
      alloc_ok np p1 ∧ victims_out np p1 V ∧ abm_coords p1.bai = abm_coords p.bai ∧
      p1.gc_bab = p.gc_bab ∧ hlm1.length = hlm.length ∧
      (∀ i, i < s ∨ s + n ≤ i → hlm1[i]? = hlm[i]?) ∧
      (∀ i, s ≤ i → i < s + n → ∃ r r1 : bdbm_llm_req_t, hlm[i]? = some r ∧
        hlm1[i]? = some r1 ∧ r1.req_type = bdbm_req_type.REQTYPE_GC_WRITE ∧
        r1.lpa = r.ptr_oob ∧ r1.ptr_oob = r.ptr_oob) ∧
      (∀ l, (∀ (i : Nat) (r : bdbm_llm_req_t), s ≤ i → i < s + n → hlm[i]? = some r →
          r.ptr_oob ≠ l) → p1.ptr_mapping_table[l]? = p.ptr_mapping_table[l]?) ∧
      (∀ l, (∃ (i : Nat) (r : bdbm_llm_req_t), s ≤ i ∧ i < s + n ∧ hlm[i]? = some r ∧
          r.ptr_oob = l) →
        ∃ (m : bdbm_page_mapping_entry) (rb : Nat), p1.ptr_mapping_table[l]? = some m ∧
          m.status = PFTL_PAGE_VALID ∧
          (abm_coords p.bai)[rb]?
            = some (m.phyaddr.channel_no, m.phyaddr.chip_no, m.phyaddr.block_no) ∧
          rb ∉ V ∧
          ∃ (i : Nat) (r1 : bdbm_llm_req_t) (a : bdbm_phyaddr_t), s ≤ i ∧ i < s + n ∧
            hlm1[i]? = some r1 ∧ r1.lpa = l ∧ req_phyaddr r1 = some a ∧
            ppa_tuple a = ppa_tuple m.phyaddr) := by
  intro n
  induction n with
  | zero =>
    intro s p hlm p1 hlm1 h hok hV
    simp only [List.range'_zero, gc_build_writes, Option.some.injEq, Prod.mk.injEq] at h
    obtain ⟨h1, h2⟩ := h
    subst h1 h2
    refine ⟨hok, hV, rfl, rfl, rfl, fun _ _ => rfl, fun i h1 h2 => by omega, fun _ _ => rfl, ?_⟩
    intro l hl
    obtain ⟨i, _, h1, h2, _⟩ := hl
    omega
  | succ n ih =>
    intro s p hlm p1 hlm1 h hok hV
    rw [List.range'_succ] at h
    simp only [gc_build_writes] at h
    cases hr : hlm[s]? with
    | none => rw [hr] at h; cases h
    | some r =>
      rw [hr] at h
      simp only at h
      cases ha : req_phyaddr { r with req_type := bdbm_req_type.REQTYPE_GC_WRITE,
                                      lpa := r.ptr_oob } with
      | none => rw [ha] at h; cases h
      | some a =>
        rw [ha] at h
        simp only at h
        cases hget : bdbm_page_ftl_get_free_ppa np p r.ptr_oob a with
        | none => rw [hget] at h; cases h
        | some x =>
          obtain ⟨ret, q, out⟩ := x
          rw [hget] at h
          simp only at h
          by_cases hret : ret ≠ 0
          · rw [if_pos hret] at h; cases h
          · rw [if_neg hret] at h
            have hret0 : ret = 0 := by omega
            subst hret0
            cases hmap : bdbm_page_ftl_map_lpa_to_ppa np q r.ptr_oob out with
            | none => rw [hmap] at h; cases h
            | some y =>
              obtain ⟨ret2, q2⟩ := y
              rw [hmap] at h
              simp only at h
              by_cases hret2 : ret2 ≠ 0
              · rw [if_pos hret2] at h; cases h
              · rw [if_neg hret2] at h
                have hret20 : ret2 = 0 := by omega
                subst hret20
                obtain ⟨w1, w2, w3, w4, w5, w6, w7⟩ :=
                  gc_write_step np p q q2 r.ptr_oob a out V hg hok hV hget hmap
                obtain ⟨g1, g2, g3, g4, g5, g6, g7, g8, g9⟩ := ih (s + 1) q2 _ p1 hlm1 h w1 w2
                obtain ⟨f1, f2, f3, f4⟩ := req_set_phyaddr_spec _ a out ha
                have hsl : s < hlm.length := by
                  rcases Nat.lt_or_ge s hlm.length with h1 | h1
                  · exact h1
                  · rw [List.getElem?_eq_none h1] at hr; cases hr
                have hs1 : hlm1[s]? = some (req_set_phyaddr
                    { r with req_type := bdbm_req_type.REQTYPE_GC_WRITE, lpa := r.ptr_oob }
                    out) := by
                  rw [g6 s (by omega), List.getElem?_set_self hsl]
                refine ⟨g1, g2, g3.trans w3, g4.trans w4, by rw [g5, List.length_set], ?_, ?_,
                  ?_, ?_⟩
                · intro i hi
                  rw [g6 i (by omega), List.getElem?_set_ne (by omega)]
                · intro i h1 h2
                  rcases Nat.eq_or_lt_of_le h1 with h3 | h3
                  · subst h3
                    exact ⟨r, _, hr, hs1, f2, f3, f4⟩
                  · obtain ⟨r2, r3, e1, e2⟩ := g7 i (by omega) (by omega)
                    rw [List.getElem?_set_ne (by omega)] at e1
                    exact ⟨r2, r3, e1, e2⟩
                · intro l hl
                  have hne : l ≠ r.ptr_oob := fun h => hl s r (Nat.le_refl _) (by omega) hr h.symm
                  rw [g8 l ?_, w6 l hne]
                  intro i r2 h1 h2 hi
                  rw [List.getElem?_set_ne (by omega)] at hi
                  exact hl i r2 (by omega) (by omega) hi
                · intro l hl
                  by_cases hlater : ∃ (i : Nat) (r2 : bdbm_llm_req_t), s + 1 ≤ i ∧
                      i < s + 1 + n ∧ hlm[i]? = some r2 ∧ r2.ptr_oob = l
                  · obtain ⟨i, r2, h1, h2, h3, h4⟩ := hlater
                    obtain ⟨m, rb, e1, e2, e3, e4, i2, r3, a2, e5, e6, e7⟩ :=
                      g9 l ⟨i, r2, h1, h2, by rw [List.getElem?_set_ne (by omega)]; exact h3, h4⟩
                    rw [w3] at e3
                    exact ⟨m, rb, e1, e2, e3, e4, i2, r3, a2, by omega, by omega, e7⟩
                  · obtain ⟨i, r2, h1, h2, h3, h4⟩ := hl
                    have his : i = s := by
                      rcases Nat.eq_or_lt_of_le h1 with h5 | h5
                      · exact h5.symm
                      · exact absurd ⟨i, r2, by omega, by omega, h3, h4⟩ hlater
                    subst his
                    rw [hr] at h3
                    simp only [Option.some.injEq] at h3
                    subst h3
                    subst h4
                    obtain ⟨m, hm1, hm2, hm3⟩ := w5
                    obtain ⟨rb, hrb1, hrb2⟩ := w7
                    have hkeep : p1.ptr_mapping_table[r.ptr_oob]? = q2.ptr_mapping_table[r.ptr_oob]? := by
                      apply g8
                      intro i2 r3 h5 h6 h7 h8
                      rw [List.getElem?_set_ne (by omega)] at h7
                      exact hlater ⟨i2, r3, h5, h6, h7, h8⟩
                    have htup : (m.phyaddr.channel_no, m.phyaddr.chip_no, m.phyaddr.block_no)
                        = (out.channel_no, out.chip_no, out.block_no) := by
                      unfold ppa_tuple at hm3
                      simp only [Prod.mk.injEq] at hm3 ⊢
                      exact ⟨hm3.1, hm3.2.1, hm3.2.2.1⟩
                    refine ⟨m, rb, by rw [hkeep]; exact hm1, hm2, by rw [htup]; exact hrb1, hrb2,
                      i, _, out, Nat.le_refl _, by omega, hs1, f3, f1, hm3.symm⟩

/-- The write phase turns the requests `s .. s + n - 1` into GC writes and
leaves the rest of the pool as it was. -/
theorem gc_build_writes_reqs (np : nand_params_t) :
    ∀ (n s : Nat) (p : bdbm_page_ftl_private) (hlm : List bdbm_llm_req_t)
      (p1 : bdbm_page_ftl_private) (hlm1 : List bdbm_llm_req_t),
      gc_build_writes np (List.range' s n) p hlm = some (p1, hlm1) →
      hlm1.length = hlm.length ∧
      (∀ i, s ≤ i → i < s + n → ∃ r1 : bdbm_llm_req_t, hlm1[i]? = some r1 ∧
        r1.req_type = bdbm_req_type.REQTYPE_GC_WRITE) := by
  intro n
  induction n with
  | zero =>
    intro s p hlm p1 hlm1 h
    simp only [List.range'_zero, gc_build_writes, Option.some.injEq, Prod.mk.injEq] at h
    rw [← h.2]
    exact ⟨rfl, fun i h1 h2 => by omega⟩
  | succ n ih =>
    intro s p hlm p1 hlm1 h
    have hframe : ∀ (m t : Nat) (q : bdbm_page_ftl_private) (l : List bdbm_llm_req_t)
        (q1 : bdbm_page_ftl_private) (l1 : List bdbm_llm_req_t),
        gc_build_writes np (List.range' t m) q l = some (q1, l1) →
        ∀ i, i < t → l1[i]? = l[i]? := by
      intro m
      induction m with
      | zero =>
        intro t q l q1 l1 h i _
        simp only [List.range'_zero, gc_build_writes, Option.some.injEq, Prod.mk.injEq] at h
        rw [← h.2]
      | succ m ihm =>
        intro t q l q1 l1 h i hi
        rw [List.range'_succ] at h
        simp only [gc_build_writes] at h
        split at h
        · cases h
        · split at h
          · cases h
          · split at h
            · cases h
            · split at h
              · cases h
              · split at h
                · cases h
                · split at h
                  · cases h
                  · rw [ihm (t + 1) _ _ q1 l1 h i (by omega), List.getElem?_set_ne (by omega)]
    rw [List.range'_succ] at h
    simp only [gc_build_writes] at h
    cases hr : hlm[s]? with
    | none => rw [hr] at h; cases h
    | some r =>
      rw [hr] at h
      simp only at h
      cases ha : req_phyaddr { r with req_type := bdbm_req_type.REQTYPE_GC_WRITE,
                                      lpa := r.ptr_oob } with
      | none => rw [ha] at h; cases h
      | some a =>
        rw [ha] at h
        simp only at h
        split at h
        · cases h
        · split at h
          · cases h
          · split at h
            · cases h
            · split at h
              · cases h
              · obtain ⟨g1, g2⟩ := ih (s + 1) _ _ p1 hlm1 h
                obtain ⟨_, f2, _, _⟩ := req_set_phyaddr_spec _ a (by assumption) ha
                have hsl : s < hlm.length := by
                  rcases Nat.lt_or_ge s hlm.length with h1 | h1
                  · exact h1
                  · rw [List.getElem?_eq_none h1] at hr; cases hr
                refine ⟨by rw [g1, List.length_set], ?_⟩
                intro i h1 h2
                rcases Nat.eq_or_lt_of_le h1 with h3 | h3
                · subst h3
                  refine ⟨_, ?_, f2⟩
                  rw [hframe n (s + 1) _ _ p1 hlm1 h s (by omega), List.getElem?_set_self hsl]
                · exact g2 i (by omega) (by omega)

/-- A batch of requests none of which is a GC erase adds no erase request and
no call of `erase_block` to the events. -/
theorem gc_send_no_erase (llm : llm_inf_t) (t : bdbm_req_type) (n : Nat)
    (hlm hlm1 : List bdbm_llm_req_t) (ev ev1 : List gc_event)
    (h : gc_send llm t (List.range n) hlm ev = some (hlm1, ev1))
    (ht : ∀ i, i < n → ∃ r : bdbm_llm_req_t, hlm[i]? = some r ∧
      r.req_type ≠ bdbm_req_type.REQTYPE_GC_ERASE) :
    erase_requests ev1 = erase_requests ev ∧ erase_calls ev1 = erase_calls ev := by
  rw [List.range_eq_range'] at h
  obtain ⟨_, hev, _, _⟩ := gc_send_spec llm t n 0 hlm ev hlm1 ev1 h
  rw [hev]
  unfold erase_requests erase_calls
  rw [List.filterMap_append, List.filterMap_append, List.filterMap_filterMap,
    List.filterMap_filterMap]
  have h1 : (List.range' 0 n).filterMap
      (fun i => (sent_event llm t hlm i).bind event_erase_request) = [] := by
    rw [List.filterMap_eq_nil_iff]
    intro i hi
    rw [List.mem_range'_1] at hi
    obtain ⟨r, hr, hne⟩ := ht i (by omega)
    simp [sent_event, hr, event_erase_request, hne]
  have h2 : (List.range' 0 n).filterMap
      (fun i => (sent_event llm t hlm i).bind event_erase_call) = [] := by
    rw [List.filterMap_eq_nil_iff]
    intro i hi
    rw [List.mem_range'_1] at hi
    obtain ⟨r, hr, _⟩ := ht i (by omega)
    simp [sent_event, hr, event_erase_call]
  rw [h1, h2, List.append_nil, List.append_nil]
  exact ⟨rfl, rfl⟩

/-- The erase requests are sent and the ABM is told the outcome: the calls of
`erase_block` are, in order, the blocks of the erase requests, each with the
bad flag of the code its request completed with. -/
theorem erase_pairing (llm : llm_inf_t) (p p1 : bdbm_page_ftl_private) (n : Nat)
    (hlm1 hlm2 : List bdbm_llm_req_t) (ev ev2 ev3 : List gc_event)
    (hbuilt : ∀ i, i < n → ∃ (v : Nat) (b : bdbm_abm_block_t) (r1 : bdbm_llm_req_t),
      p.gc_bab[i]? = some (some v) ∧ p.bai.blocks[v]? = some b ∧ hlm1[i]? = some r1 ∧
      r1.req_type = bdbm_req_type.REQTYPE_GC_ERASE ∧ req_phyaddr r1 = some r1.phyaddr_w ∧
      (r1.phyaddr_w.channel_no, r1.phyaddr_w.chip_no, r1.phyaddr_w.block_no) = blk_coords b)
    (hsend : gc_send llm bdbm_req_type.REQTYPE_GC_ERASE (List.range n) hlm1 ev
      = some (hlm2, ev2))
    (hcalls : gc_erase_blocks hlm2 (List.range n) p ev2 = some (p1, ev3)) :
    ∃ L, erase_requests ev3 = erase_requests ev ++ L ∧
      erase_calls ev3 = erase_calls ev ++ L.map bad_flag := by
  rw [List.range_eq_range'] at hsend hcalls
  obtain ⟨_, hev2, _, hret⟩ := gc_send_spec llm _ n 0 hlm1 ev hlm2 ev2 hsend
  obtain ⟨hev3, _⟩ := gc_erase_blocks_spec hlm2 n 0 p p1 ev2 ev3 hcalls
  refine ⟨(List.range' 0 n).filterMap
    (fun i => (sent_event llm bdbm_req_type.REQTYPE_GC_ERASE hlm1 i).bind event_erase_request),
    ?_, ?_⟩
  · rw [hev3, hev2]
    unfold erase_requests
    rw [List.filterMap_append, List.filterMap_append, List.filterMap_filterMap,
      List.filterMap_filterMap]
    have h0 : (List.range' 0 n).filterMap
        (fun i => (call_event p.gc_bab (abm_coords p.bai) hlm2 i).bind event_erase_request)
        = [] := by
      rw [List.filterMap_eq_nil_iff]
      intro i hi
      rw [List.mem_range'_1] at hi
      obtain ⟨v, b, r1, e1, e2, e3, _⟩ := hbuilt i (by omega)
      obtain ⟨r2, e4, e5⟩ := hret i (by omega) (by omega)
      have hc : (abm_coords p.bai)[v]? = some (blk_coords b) := by
        unfold abm_coords
        rw [List.getElem?_map, e2]; rfl
      simp [call_event, e1, e5, hc, event_erase_request]
    rw [h0, List.append_nil]
  · rw [hev3, hev2]
    unfold erase_calls
    rw [List.filterMap_append, List.filterMap_append, List.filterMap_filterMap,
      List.filterMap_filterMap, List.map_filterMap]
    have h0 : (List.range' 0 n).filterMap
        (fun i => (sent_event llm bdbm_req_type.REQTYPE_GC_ERASE hlm1 i).bind event_erase_call)
        = [] := by
      rw [List.filterMap_eq_nil_iff]
      intro i hi
      rw [List.mem_range'_1] at hi
      obtain ⟨v, b, r1, e1, e2, e3, _⟩ := hbuilt i (by omega)
      simp [sent_event, e3, event_erase_call]
    rw [h0, List.append_nil]
    congr 1
    apply List.filterMap_congr
    intro i hi
    rw [List.mem_range'_1] at hi
    obtain ⟨v, b, r1, e1, e2, e3, e4, e5, e6⟩ := hbuilt i (by omega)
    obtain ⟨r2, e7, e8⟩ := hret i (by omega) (by omega)
    rw [e3] at e7
    simp only [Option.some.injEq] at e7
    subst e7
    have hc : (abm_coords p.bai)[v]? = some (blk_coords b) := by
      unfold abm_coords
      rw [List.getElem?_map, e2]; rfl
    unfold blk_coords at e6
    simp only [Prod.mk.injEq] at e6
    simp [call_event, e1, e8, hc, event_erase_call, sent_event, e3, event_erase_request, e4, e5,
      bad_flag, e6, blk_coords]

/-- The loop that calls `bdbm_abm_erase_block` returns only when every slot
`gc_bab[i]` it visits holds a block. -/
theorem gc_erase_blocks_slots (hlm : List bdbm_llm_req_t) :
    ∀ (n s : Nat) (p p1 : bdbm_page_ftl_private) (ev ev1 : List gc_event),
      gc_erase_blocks hlm (List.range' s n) p ev = some (p1, ev1) →
      ∀ i, s ≤ i → i < s + n → ∃ v, p.gc_bab[i]? = some (some v) := by
  intro n
  induction n with
  | zero => intro s p p1 ev ev1 _ i h1 h2; omega
  | succ n ih =>
    intro s p p1 ev ev1 h i h1 h2
    rw [List.range'_succ] at h
    simp only [gc_erase_blocks] at h
    cases hv : p.gc_bab[s]? with
    | none => rw [hv] at h; cases h
    | some ov =>
      cases ov with
      | none => rw [hv] at h; cases h
      | some v =>
        rw [hv] at h
        simp only at h
        cases hb : p.bai.blocks[v]? with
        | none => rw [hb] at h; simp at h
        | some b =>
          cases hr : hlm[s]? with
          | none => rw [hb, hr] at h; simp at h
          | some r =>
            rw [hb, hr] at h
            simp only at h
            rcases Nat.eq_or_lt_of_le h1 with h3 | h3
            · subst h3; exact ⟨v, hv⟩
            · exact ih (s + 1) _ p1 _ ev1 h i (by omega) (by omega)

/-- The part of a GC pass from the label `erase_blks` on pairs every call of
`erase_block` with its erase request. -/
theorem gc_erase_phase_pairing (llm : llm_inf_t) (p p1 : bdbm_page_ftl_private)
    (hlm hlm1 : List bdbm_llm_req_t) (ev ev1 : List gc_event) (n : Nat)
    (h : gc_erase_phase llm p hlm ev n = some (p1, hlm1, ev1)) :
    ∃ L, erase_requests ev1 = erase_requests ev ++ L ∧
      erase_calls ev1 = erase_calls ev ++ L.map bad_flag := by
  unfold gc_erase_phase at h
  cases hb : gc_build_erases p (List.range n) hlm with
  | none => rw [hb] at h; cases h
  | some hlm2 =>
    rw [hb] at h
    simp only at h
    cases hs : gc_send llm bdbm_req_type.REQTYPE_GC_ERASE (List.range n) hlm2 ev with
    | none => rw [hs] at h; cases h
    | some x =>
      obtain ⟨hlm3, ev2⟩ := x
      rw [hs] at h
      simp only at h
      cases hc : gc_erase_blocks hlm3 (List.range n) p ev2 with
      | none => rw [hc] at h; cases h
      | some y =>
        obtain ⟨p2, ev3⟩ := y
        rw [hc] at h
        simp only [Option.some.injEq, Prod.mk.injEq] at h
        obtain ⟨_, _, h3⟩ := h
        subst h3
        rw [List.range_eq_range'] at hb
        obtain ⟨_, _, hbuilt⟩ := gc_build_erases_spec p n 0 hlm hlm2 hb
        apply erase_pairing llm p p2 n hlm2 hlm3 ev ev2 ev3 _ hs hc
        intro i hi
        obtain ⟨v, b, r, r1, e1, e2, _, e4, e5, e6, e7, _⟩ := hbuilt i (Nat.zero_le _) (by omega)
        exact ⟨v, b, r1, e1, e2, e4, e5, e6, e7⟩

/-- The part of a GC pass between the flush and the label `erase_blks` sends
no erase request and calls no `erase_block`, when the requests it starts from
are GC reads. -/
theorem gc_move_phase_no_erase (np : nand_params_t) (llm : llm_inf_t)
    (p p1 : bdbm_page_ftl_private) (hlm hlm1 : List bdbm_llm_req_t) (ev ev1 : List gc_event)
    (n : Nat) (h : gc_move_phase np llm p hlm ev n = some (p1, hlm1, ev1))
    (hreads : ∀ i, i < n → ∃ r : bdbm_llm_req_t, hlm[i]? = some r ∧
      r.req_type = bdbm_req_type.REQTYPE_GC_READ) :
    erase_requests ev1 = erase_requests ev ∧ erase_calls ev1 = erase_calls ev := by
  unfold gc_move_phase at h
  by_cases hn : n = 0
  · rw [if_pos hn] at h
    simp only [Option.some.injEq, Prod.mk.injEq] at h
    rw [← h.2.2]
    exact ⟨rfl, rfl⟩
  · rw [if_neg hn] at h
    cases hs : gc_send llm bdbm_req_type.REQTYPE_GC_READ (List.range n) hlm ev with
    | none => rw [hs] at h; cases h
    | some x =>
      obtain ⟨hlm2, ev2⟩ := x
      rw [hs] at h
      simp only at h
      cases hw : gc_build_writes np (List.range n) p hlm2 with
      | none => rw [hw] at h; cases h
      | some y =>
        obtain ⟨p2, hlm3⟩ := y
        rw [hw] at h
        simp only at h
        cases hs2 : gc_send llm bdbm_req_type.REQTYPE_GC_WRITE (List.range n) hlm3 ev2 with
        | none => rw [hs2] at h; cases h
        | some z =>
          obtain ⟨hlm4, ev3⟩ := z
          rw [hs2] at h
          simp only [Option.some.injEq, Prod.mk.injEq] at h
          obtain ⟨_, _, h3⟩ := h
          subst h3
          obtain ⟨a1, a2⟩ := gc_send_no_erase llm _ n hlm hlm2 ev ev2 hs (by
            intro i hi
            obtain ⟨r, hr, ht⟩ := hreads i hi
            exact ⟨r, hr, by rw [ht]; decide⟩)
          rw [List.range_eq_range'] at hw
          obtain ⟨_, hwr⟩ := gc_build_writes_reqs np n 0 p hlm2 p2 hlm3 hw
          obtain ⟨b1, b2⟩ := gc_send_no_erase llm _ n hlm3 hlm4 ev2 ev3 hs2 (by
            intro i hi
            obtain ⟨r, hr, ht⟩ := hwr i (Nat.zero_le _) (by omega)
            exact ⟨r, hr, by rw [ht]; decide⟩)
          exact ⟨b1.trans a1, b2.trans a2⟩

/-- The first loops of a round of the bad-block scan change `gc_bab` only, and
a slot of `gc_bab` that they touch holds the block that the request of the same
index is addressed to. -/
theorem scan_build_erases_spec (np : nand_params_t) (block_no : Nat) :
    ∀ (l : List (Nat × Nat)) (p : bdbm_page_ftl_private) (hlm : List bdbm_llm_req_t)
      (p1 : bdbm_page_ftl_private) (hlm1 : List bdbm_llm_req_t),
      scan_build_erases np block_no l p hlm = some (p1, hlm1) →
      p1.bai = p.bai ∧ p1.nr_punits = p.nr_punits ∧
      ∀ x : Nat, (p1.gc_bab[x]? = p.gc_bab[x]? ∧ hlm1[x]? = hlm[x]?) ∨
        ∃ (v : Nat) (b : bdbm_abm_block_t) (r1 : bdbm_llm_req_t),
          p1.gc_bab[x]? = some (some v) ∧ p.bai.blocks[v]? = some b ∧ hlm1[x]? = some r1 ∧
          r1.req_type = bdbm_req_type.REQTYPE_GC_ERASE ∧ req_phyaddr r1 = some r1.phyaddr_w ∧
          (r1.phyaddr_w.channel_no, r1.phyaddr_w.chip_no, r1.phyaddr_w.block_no)
            = blk_coords b := by
  intro l
  induction l with
  | nil =>
    intro p hlm p1 hlm1 h
    simp only [scan_build_erases, Option.some.injEq, Prod.mk.injEq] at h
    obtain ⟨h1, h2⟩ := h
    subst h1 h2
    exact ⟨rfl, rfl, fun x => Or.inl ⟨rfl, rfl⟩⟩
  | cons y rest ih =>
    intro p hlm p1 hlm1 h
    obtain ⟨i, j⟩ := y
    simp only [scan_build_erases] at h
    cases hv : bdbm_abm_get_block p.bai i j block_no with
    | none => rw [hv] at h; cases h
    | some v =>
      rw [hv] at h
      simp only at h
      by_cases hlt : u64 (i * np.nr_chips_per_channel + j) < p.gc_bab.length
      · rw [if_pos hlt] at h
        cases hb : p.bai.blocks[v]? with
        | none => rw [hb] at h; simp at h
        | some b =>
          cases hr : hlm[u64 (i * np.nr_chips_per_channel + j)]? with
          | none => rw [hb, hr] at h; simp at h
          | some r =>
            rw [hb, hr] at h
            simp only at h
            obtain ⟨g1, g2, g3⟩ := ih _ _ p1 hlm1 h
            have hrl : u64 (i * np.nr_chips_per_channel + j) < hlm.length := by
              rcases Nat.lt_or_ge (u64 (i * np.nr_chips_per_channel + j)) hlm.length with h1 | h1
              · exact h1
              · rw [List.getElem?_eq_none h1] at hr; cases hr
            refine ⟨g1, g2, ?_⟩
            intro x
            rcases g3 x with ⟨e1, e2⟩ | ⟨v2, b2, r2, e1, e2, e3⟩
            · by_cases hx : u64 (i * np.nr_chips_per_channel + j) = x
              · right
                subst hx
                refine ⟨v, b,
                  { r with req_type := bdbm_req_type.REQTYPE_GC_ERASE, lpa := 2 ^ 64 - 1,
                           phyaddr := phyaddr_ptr.w,
                           phyaddr_w := { r.phyaddr_w with channel_no := b.channel_no,
                                                           chip_no := b.chip_no,
                                                           block_no := b.block_no,
                                                           page_no := 0 },
                           ret := 0 }, ?_, hb, ?_, rfl, rfl, rfl⟩
                · rw [e1]; exact List.getElem?_set_self hlt
                · rw [e2]; exact List.getElem?_set_self hrl
              · left
                exact ⟨by rw [e1]; exact List.getElem?_set_ne hx,
                  by rw [e2]; exact List.getElem?_set_ne hx⟩
            · right
              exact ⟨v2, b2, r2, e1, e2, e3⟩
      · rw [if_neg hlt] at h; cases h

/-- C17: in a GC pass and in a round of the bad-block scan, the calls of ABM
`erase_block` are, in order and one for one, the blocks that the erase requests
were addressed to, and the bad flag of a call is 1 when the request of the same
index completed with a non-zero `ret` and 0 when it completed with 0. -/
theorem erase_calls_match_requests (np : nand_params_t) (llm : llm_inf_t)
    (p : bdbm_page_ftl_private) (hlm : List bdbm_llm_req_t) :
    (∀ (ret : Nat) (p1 : bdbm_page_ftl_private) (hlm1 : List bdbm_llm_req_t)
        (ev : List gc_event),
      bdbm_page_ftl_do_gc np llm p hlm = some (ret, p1, hlm1, ev) →
      erase_calls ev = (erase_requests ev).map bad_flag) ∧
    (∀ (block_no : Nat) (p1 : bdbm_page_ftl_private) (hlm1 : List bdbm_llm_req_t)
        (ev : List gc_event),
      __bdbm_page_badblock_scan_eraseblks np llm p hlm block_no = some (p1, hlm1, ev) →
      erase_calls ev = (erase_requests ev).map bad_flag) := by
  constructor
  · intro ret p1 hlm1 ev h
    unfold bdbm_page_ftl_do_gc at h
    cases hv : gc_victims np p with
    | none => rw [hv] at h; cases h
    | some x =>
      obtain ⟨bab, n⟩ := x
      rw [hv] at h
      simp only at h
      by_cases hn : n < u64 (np.nr_channels * np.nr_chips_per_channel)
      · rw [if_pos hn] at h
        simp only [Option.some.injEq, Prod.mk.injEq] at h
        rw [← h.2.2.2]
        rfl
      · rw [if_neg hn] at h
        cases hrd : gc_build_reads np { p with gc_bab := bab } (List.range n) hlm 0 with
        | none => rw [hrd] at h; cases h
        | some y =>
          obtain ⟨hlm2, nr⟩ := y
          rw [hrd] at h
          simp only at h
          cases hmv : gc_move_phase np llm { p with gc_bab := bab } hlm2 [gc_event.flush] nr with
          | none => rw [hmv] at h; cases h
          | some z =>
            obtain ⟨p2, hlm3, ev2⟩ := z
            rw [hmv] at h
            simp only at h
            cases her : gc_erase_phase llm p2 hlm3 ev2 n with
            | none => rw [her] at h; cases h
            | some w =>
              obtain ⟨p3, hlm4, ev3⟩ := w
              rw [her] at h
              simp only [Option.some.injEq, Prod.mk.injEq] at h
              obtain ⟨_, _, _, h4⟩ := h
              subst h4
              rw [List.range_eq_range'] at hrd
              obtain ⟨_, _, _, hreads, _⟩ := gc_build_reads_spec np _ n 0 hlm 0 hlm2 nr hrd
              obtain ⟨a1, a2⟩ := gc_move_phase_no_erase np llm _ p2 hlm2 hlm3 _ ev2 nr hmv (by
                intro i hi
                obtain ⟨r, hr, ht, _⟩ := hreads i (Nat.zero_le _) hi
                exact ⟨r, hr, ht⟩)
              obtain ⟨L, b1, b2⟩ := gc_erase_phase_pairing llm p2 p3 hlm3 hlm4 ev2 ev3 n her
              rw [b1, b2, a1, a2]
              simp [erase_requests, erase_calls, event_erase_request, event_erase_call]
  · intro block_no p1 hlm1 ev h
    unfold __bdbm_page_badblock_scan_eraseblks at h
    by_cases hlen : p.gc_bab.length < p.nr_punits
    · rw [if_pos hlen] at h; cases h
    · rw [if_neg hlen] at h
      simp only at h
      cases hb : scan_build_erases np block_no (punit_pairs np)
          { p with gc_bab := List.replicate p.nr_punits none ++ p.gc_bab.drop p.nr_punits }
          hlm with
      | none => rw [hb] at h; cases h
      | some x =>
        obtain ⟨p2, hlm2⟩ := x
        rw [hb] at h
        simp only at h
        cases hs : gc_send llm bdbm_req_type.REQTYPE_GC_ERASE (List.range p.nr_punits) hlm2 []
          with
        | none => rw [hs] at h; cases h
        | some y =>
          obtain ⟨hlm3, ev2⟩ := y
          rw [hs] at h
          simp only at h
          cases hc : gc_erase_blocks hlm3 (List.range p.nr_punits) p2 ev2 with
          | none => rw [hc] at h; cases h
          | some z =>
            obtain ⟨p3, ev3⟩ := z
            rw [hc] at h
            simp only [Option.some.injEq, Prod.mk.injEq] at h
            obtain ⟨_, _, h3⟩ := h
            subst h3
            obtain ⟨hbai, _, hbuilt⟩ := scan_build_erases_spec np block_no _ _ hlm p2 hlm2 hb
            have hslots := gc_erase_blocks_slots hlm3 p.nr_punits 0 p2 p3 ev2 ev3
              (by rw [← List.range_eq_range']; exact hc)
            obtain ⟨L, b1, b2⟩ := erase_pairing llm p2 p3 p.nr_punits hlm2 hlm3 [] ev2 ev3 (by
              intro i hi
              rcases hbuilt i with ⟨e1, _⟩ | ⟨v, b, r1, e1, e2, e3⟩
              · obtain ⟨v, hv⟩ := hslots i (Nat.zero_le _) (by omega)
                rw [hv] at e1
                simp only at e1
                rw [List.getElem?_append_left (by rw [List.length_replicate]; exact hi),
                  List.getElem?_replicate, if_pos hi] at e1
                cases e1
              · exact ⟨v, b, r1, e1, by rw [hbai]; exact e2, e3⟩) hs hc
            rw [b1, b2]
            simp [erase_requests, erase_calls]

/-- C17 at the pass and at the scan round on `G_state`: two erase requests
each, the second of which fails, and the calls of `erase_block` carry the flags
0 and 1 for the same blocks. -/
theorem erase_calls_match_requests_witness :
    bdbm_page_ftl_do_gc G_np G_llm G_state (fresh_llm_reqs 4) = some G_gc ∧
    erase_requests G_gc.2.2.2 = [(0, 0, 0, 0), (1, 0, 0, 1)] ∧
    erase_calls G_gc.2.2.2 = (erase_requests G_gc.2.2.2).map bad_flag ∧
    __bdbm_page_badblock_scan_eraseblks G_np G_llm G_state (fresh_llm_reqs 4) 2
      = some G_scan ∧
    erase_requests G_scan.2.2 = [(0, 0, 2, 0), (1, 0, 2, 1)] ∧
    erase_calls G_scan.2.2 = (erase_requests G_scan.2.2).map bad_flag :=
  ⟨by decide, by decide,
    (erase_calls_match_requests G_np G_llm G_state (fresh_llm_reqs 4)).1
      G_gc.1 G_gc.2.1 G_gc.2.2.1 G_gc.2.2.2 (by decide),
    by decide, by decide,
    (erase_calls_match_requests G_np G_llm G_state (fresh_llm_reqs 4)).2
      2 G_scan.1 G_scan.2.1 G_scan.2.2 (by decide)⟩

/-! ## The victims of a GC pass -/

/-- A block is among the victims exactly when one of the first `n` slots of
`gc_bab` holds it. -/
theorem mem_gc_victim_list (gc_bab : List (Option Nat)) (n v : Nat) :
    v ∈ gc_victim_list gc_bab n ↔ ∃ k, k < n ∧ gc_bab[k]? = some (some v) := by
  unfold gc_victim_list
  rw [List.mem_filterMap]
  constructor
  · rintro ⟨a, ha, hav⟩
    simp only [id] at hav
    subst hav
    obtain ⟨k, hk⟩ := List.mem_iff_getElem?.1 ha
    rw [List.getElem?_take] at hk
    split at hk
    · exact ⟨k, by assumption, hk⟩
    · cases hk
  · rintro ⟨k, hk, hv⟩
    refine ⟨some v, ?_, rfl⟩
    apply List.mem_iff_getElem?.2
    exact ⟨k, by rw [List.getElem?_take, if_pos hk]; exact hv⟩

/-- The victim found by the loop of the greedy selection is the victim it
started with or a block of the dirty list other than the active block. -/
theorem victim_loop_mem (np : nand_params_t) (bai : bdbm_abm_info_t) (a : Option Nat) :
    ∀ (l : List Nat) (v : Option Nat) (x : Nat),
      victim_selection_greedy_loop np bai a v l = some (some x) →
      v = some x ∨ (x ∈ l ∧ a ≠ some x) := by
  intro l
  induction l with
  | nil =>
    intro v x h
    simp only [victim_selection_greedy_loop, Option.some.injEq] at h
    exact Or.inl h
  | cons b rest ih =>
    intro v x h
    have hstep : ∀ v1 : Option Nat, victim_selection_greedy_loop np bai a v1 rest = some (some x) →
        (v1 = v ∨ (v1 = some b ∧ a ≠ some b)) → v = some x ∨ (x ∈ b :: rest ∧ a ≠ some x) := by
      intro v1 h1 hv1
      rcases ih v1 x h1 with h2 | ⟨h2, h3⟩
      · rcases hv1 with h4 | ⟨h4, h5⟩
        · left; rw [← h4]; exact h2
        · right
          rw [h4] at h2
          simp only [Option.some.injEq] at h2
          subst h2
          exact ⟨List.mem_cons_self _ _, h5⟩
      · right; exact ⟨List.mem_cons_of_mem _ h2, h3⟩
    simp only [victim_selection_greedy_loop] at h
    by_cases hab : a = some b
    · rw [if_pos hab] at h
      exact hstep v h (Or.inl rfl)
    · rw [if_neg hab] at h
      cases hbb : bai.blocks[b]? with
      | none => rw [hbb] at h; cases h
      | some bb =>
        rw [hbb] at h
        simp only at h
        by_cases hfull : bb.nr_invalid_pages = np.nr_pages_per_block
        · rw [if_pos hfull] at h
          simp only [Option.some.injEq] at h
          subst h
          exact Or.inr ⟨List.mem_cons_self _ _, hab⟩
        · rw [if_neg hfull] at h
          cases v with
          | none =>
            simp only at h
            exact hstep (some b) h (Or.inr ⟨rfl, hab⟩)
          | some vr =>
            simp only at h
            split at h
            · split at h
              · exact hstep (some b) h (Or.inr ⟨rfl, hab⟩)
              · exact hstep (some vr) h (Or.inl rfl)
            · cases h

/-- The victim loops, when they find a victim for every pair: slot `n + k` of
`gc_bab` holds the victim selected for the `k`-th pair. -/
theorem gc_select_victims_full (np : nand_params_t) (p : bdbm_page_ftl_private) :
    ∀ (l : List (Nat × Nat)) (bab : List (Option Nat)) (n : Nat) (bab1 : List (Option Nat))
      (n1 : Nat), gc_select_victims np p l bab n = some (bab1, n1) →
      n1 ≤ n + l.length ∧ (∀ k, k < n → bab1[k]? = bab[k]?) ∧
      (n1 = n + l.length → ∀ k, k < l.length →
        ∃ (v : Nat) (x : Nat × Nat), bab1[n + k]? = some (some v) ∧ l[k]? = some x ∧
          __bdbm_page_ftl_victim_selection_greedy np p x.1 x.2 = some (some v)) := by
  intro l
  induction l with
  | nil =>
    intro bab n bab1 n1 h
    simp only [gc_select_victims, Option.some.injEq, Prod.mk.injEq] at h
    obtain ⟨h1, h2⟩ := h
    subst h1 h2
    exact ⟨Nat.le_refl _, fun _ _ => rfl, fun _ k hk => by simp at hk⟩
  | cons y rest ih =>
    intro bab n bab1 n1 h
    obtain ⟨i, j⟩ := y
    simp only [gc_select_victims] at h
    cases hsel : __bdbm_page_ftl_victim_selection_greedy np p i j with
    | none => rw [hsel] at h; cases h
    | some res =>
      cases res with
      | none =>
        rw [hsel] at h
        simp only at h
        obtain ⟨g1, g2, _⟩ := ih bab n bab1 n1 h
        simp only [List.length_cons]
        exact ⟨by omega, g2, fun hn => by omega⟩
      | some b =>
        rw [hsel] at h
        simp only at h
        by_cases hlt : n < bab.length
        · rw [if_pos hlt] at h
          obtain ⟨g1, g2, g3⟩ := ih _ (n + 1) bab1 n1 h
          simp only [List.length_cons]
          refine ⟨by omega, ?_, ?_⟩
          · intro k hk
            rw [g2 k (by omega), List.getElem?_set_ne (by omega)]
          · intro hn k hk
            cases k with
            | zero =>
              refine ⟨b, (i, j), ?_, by simp, hsel⟩
              rw [Nat.add_zero, g2 n (by omega), List.getElem?_set_self hlt]
            | succ k =>
              obtain ⟨v, x, e1, e2, e3⟩ := g3 (by omega) k (by omega)
              refine ⟨v, x, ?_, ?_, e3⟩
              · rw [← e1]; congr 1; omega
              · rw [List.getElem?_cons_succ]; exact e2
        · rw [if_neg hlt] at h; cases h

/-- On a well-formed state with a victim for every unit, no victim is an
active block or on a free list, and the first `nr_punits` slots of `gc_bab`
hold blocks. -/
theorem gc_victims_out (np : nand_params_t) (p : bdbm_page_ftl_private)
    (bab : List (Option Nat)) (hg : geometry_ok np) (hok : alloc_ok np p)
    (hd : dirty_ok np p.bai) (hv : gc_victims np p = some (bab, nr_units np)) :
    victims_out np p (gc_victim_list bab (nr_units np)) ∧
    (∀ k, k < nr_units np → ∃ v, bab[k]? = some (some v)) ∧
    (∀ v, v ∈ gc_victim_list bab (nr_units np) → v < p.bai.blocks.length) := by
  have hN : u64 (np.nr_channels * np.nr_chips_per_channel) = nr_units np :=
    u64_of_lt hg.2.2.2.1
  unfold gc_victims at hv
  simp only [hN] at hv
  split at hv
  · cases hv
  · obtain ⟨_, _, hfull⟩ := gc_select_victims_full np p _ _ 0 bab _ hv
    have hall := hfull (by rw [punit_pairs_length]; omega)
    have hK : 0 < np.nr_chips_per_channel := hg.2.1
    have hvict : ∀ k, k < nr_units np → ∃ v, bab[k]? = some (some v) ∧
        __bdbm_page_ftl_victim_selection_greedy np p (k / np.nr_chips_per_channel)
          (k % np.nr_chips_per_channel) = some (some v) := by
      intro k hk
      obtain ⟨v, x, e1, e2, e3⟩ := hall k (by rw [punit_pairs_length]; exact hk)
      rw [punit_pairs_eq, List.getElem?_map, List.getElem?_range hk] at e2
      simp only [Option.map_some', Option.some.injEq] at e2
      rw [← e2] at e3
      rw [Nat.zero_add] at e1
      exact ⟨v, e1, e3⟩
    have hfacts : ∀ v, v ∈ gc_victim_list bab (nr_units np) →
        ∃ k c, k < nr_units np ∧ (abm_coords p.bai)[v]? = some c ∧
          abm_unit np c.1 c.2.1 = k ∧ c.2.1 < np.nr_chips_per_channel ∧
          p.ac_bab[k]? ≠ some (some v) ∧ ∀ u, u < nr_units np → v ∉ free_list p.bai u := by
      intro v hvm
      obtain ⟨k, hk, hbk⟩ := (mem_gc_victim_list bab _ v).1 hvm
      obtain ⟨v1, e1, e2⟩ := hvict k hk
      rw [hbk] at e1
      simp only [Option.some.injEq] at e1
      subst e1
      have hi : k / np.nr_chips_per_channel < np.nr_channels :=
        (Nat.div_lt_iff_lt_mul hK).2 hk
      have hj : k % np.nr_chips_per_channel < np.nr_chips_per_channel := Nat.mod_lt _ hK
      have hunit : abm_unit np (k / np.nr_chips_per_channel) (k % np.nr_chips_per_channel) = k := by
        unfold abm_unit
        exact Nat.div_add_mod' k np.nr_chips_per_channel
      have hu64 : u64 (k / np.nr_chips_per_channel * np.nr_chips_per_channel
          + k % np.nr_chips_per_channel) = k := by
        rw [Nat.div_add_mod' k np.nr_chips_per_channel]
        exact u64_of_lt (by have := hg.2.2.2.1; omega)
      unfold __bdbm_page_ftl_victim_selection_greedy at e2
      rw [hu64] at e2
      cases ha : p.ac_bab[k]? with
      | none => rw [ha] at e2; cases e2
      | some a =>
        rw [ha] at e2
        simp only at e2
        rcases victim_loop_mem np p.bai a _ none v e2 with h1 | ⟨h1, h2⟩
        · cases h1
        · obtain ⟨c, c1, c2, c3, c4⟩ := hd _ _ v hi hj h1
          refine ⟨k, c, hk, c1, by rw [c2, c3]; exact hunit, by rw [c3]; exact hj, ?_, c4⟩
          intro h
          rw [ha] at h
          simp only [Option.some.injEq] at h
          exact h2 h
    refine ⟨?_, fun k hk => ?_, fun v hvm => ?_⟩
    · intro v hvm u hu
      obtain ⟨k, c, hk, hc, hcu, _, hne, hnf⟩ := hfacts v hvm
      refine ⟨?_, hnf u hu⟩
      intro hslot
      obtain ⟨r, c1, hr, hc1, hcu1, _, _⟩ := hok.2.2.2.2.1 u hu
      rw [hr] at hslot
      simp only [Option.some.injEq] at hslot
      subst hslot
      rw [hc] at hc1
      simp only [Option.some.injEq] at hc1
      subst hc1
      rw [hcu] at hcu1
      subst hcu1
      exact hne hr
    · obtain ⟨v, e1, _⟩ := hvict k hk
      exact ⟨v, e1⟩
    · obtain ⟨_, c, _, hc, _⟩ := hfacts v hvm
      exact coords_lt p.bai v c hc

/-! ## A GC pass that moves the live pages -/

/-- The part of a pass between the flush and the label `erase_blks`, on a
well-formed state in which the blocks `V` are neither active nor free: every
LPA that a GC read returned is VALID afterwards at an address that a GC write
request carries and that lies in a block outside `V`; no other entry of the
mapping table changes; the events so far are kept. -/
theorem gc_move_phase_spec (np : nand_params_t) (hg : geometry_ok np) (llm : llm_inf_t)
    (V : List Nat) (p p1 : bdbm_page_ftl_private) (hlm hlm1 : List bdbm_llm_req_t)
    (ev ev1 : List gc_event) (n : Nat)
    (h : gc_move_phase np llm p hlm ev n = some (p1, hlm1, ev1))
    (hok : alloc_ok np p) (hV : victims_out np p V) :
    abm_coords p1.bai = abm_coords p.bai ∧ p1.gc_bab = p.gc_bab ∧
    (∀ e, e ∈ ev → e ∈ ev1) ∧
    (∀ l, (∀ i, i < n → llm.oob i ≠ l) → p1.ptr_mapping_table[l]? = p.ptr_mapping_table[l]?) ∧
    (∀ l, (∃ i, i < n ∧ llm.oob i = l) →
      ∃ (m : bdbm_page_mapping_entry) (rb : Nat), p1.ptr_mapping_table[l]? = some m ∧
        m.status = PFTL_PAGE_VALID ∧
        (abm_coords p.bai)[rb]?
          = some (m.phyaddr.channel_no, m.phyaddr.chip_no, m.phyaddr.block_no) ∧
        rb ∉ V ∧
        ∃ (r : bdbm_llm_req_t) (c : Nat) (a : bdbm_phyaddr_t), gc_event.make_req r c ∈ ev1 ∧
          r.req_type = bdbm_req_type.REQTYPE_GC_WRITE ∧ r.lpa = l ∧ req_phyaddr r = some a ∧
          ppa_tuple a = ppa_tuple m.phyaddr) := by
  unfold gc_move_phase at h
  by_cases hn : n = 0
  · rw [if_pos hn] at h
    simp only [Option.some.injEq, Prod.mk.injEq] at h
    obtain ⟨h1, _, h3⟩ := h
    subst h1 h3
    refine ⟨rfl, rfl, fun e he => he, fun _ _ => rfl, ?_⟩
    intro l hl
    obtain ⟨i, hi, _⟩ := hl
    omega
  · rw [if_neg hn] at h
    cases hs : gc_send llm bdbm_req_type.REQTYPE_GC_READ (List.range n) hlm ev with
    | none => rw [hs] at h; cases h
    | some x =>
      obtain ⟨hlm2, ev2⟩ := x
      rw [hs] at h
      simp only at h
      cases hw : gc_build_writes np (List.range n) p hlm2 with
      | none => rw [hw] at h; cases h
      | some y =>
        obtain ⟨p2, hlm3⟩ := y
        rw [hw] at h
        simp only at h
        cases hs2 : gc_send llm bdbm_req_type.REQTYPE_GC_WRITE (List.range n) hlm3 ev2 with
        | none => rw [hs2] at h; cases h
        | some z =>
          obtain ⟨hlm4, ev3⟩ := z
          rw [hs2] at h
          simp only [Option.some.injEq, Prod.mk.injEq] at h
          obtain ⟨h1, _, h3⟩ := h
          subst h1 h3
          rw [List.range_eq_range'] at hs hw hs2
          obtain ⟨_, hev2, _, hoob⟩ := gc_send_spec llm _ n 0 hlm ev hlm2 ev2 hs
          obtain ⟨_, _, w3, w4, _, _, _, w8, w9⟩ :=
            gc_build_writes_spec np hg V n 0 p hlm2 p2 hlm3 hw hok hV
          obtain ⟨_, hev3, _, _⟩ := gc_send_spec llm _ n 0 hlm3 ev2 hlm4 ev3 hs2
          have hword : ∀ (i : Nat) (r : bdbm_llm_req_t), i < n → hlm2[i]? = some r →
              r.ptr_oob = llm.oob i := by
            intro i r hi hr
            obtain ⟨r0, _, e2⟩ := hoob i (Nat.zero_le _) (by omega)
            rw [hr] at e2
            simp only [Option.some.injEq] at e2
            rw [e2]
            simp
          refine ⟨w3, w4, ?_, ?_, ?_⟩
          · intro e he
            rw [hev3, hev2]
            exact List.mem_append_left _ (List.mem_append_left _ he)
          · intro l hl
            apply w8
            intro i r _ h2 hr
            rw [hword i r (by omega) hr]
            exact hl i (by omega)
          · intro l hl
            obtain ⟨i, hi, hil⟩ := hl
            obtain ⟨r0, _, e2⟩ := hoob i (Nat.zero_le _) (by omega)
            obtain ⟨m, rb, e3, e4, e5, e6, i2, r1, a, e7, e8, e9, e10, e11, e12⟩ :=
              w9 l ⟨i, _, Nat.zero_le _, by omega, e2, by simpa using hil⟩
            refine ⟨m, rb, e3, e4, e5, e6, r1, llm.done_ret bdbm_req_type.REQTYPE_GC_WRITE i2, a,
              ?_, ?_, e10, e11, e12⟩
            · rw [hev3]
              apply List.mem_append_right
              rw [List.mem_filterMap]
              exact ⟨i2, by rw [List.mem_range'_1]; omega, by simp [sent_event, e9]⟩
            · have := gc_build_writes_reqs np n 0 p hlm2 p2 hlm3 hw
              obtain ⟨r2, f1, f2⟩ := this.2 i2 e7 e8
              rw [e9] at f1
              simp only [Option.some.injEq] at f1
              rw [f1]; exact f2

/-- The part of a pass from the label `erase_blks` on leaves the mapping table
and `gc_bab` as they are and adds, as calls of `erase_block`, only calls on the
blocks in the first `n` slots of `gc_bab`. -/
theorem gc_erase_phase_spec (llm : llm_inf_t) (p p1 : bdbm_page_ftl_private)
    (hlm hlm1 : List bdbm_llm_req_t) (ev ev1 : List gc_event) (n : Nat)
    (h : gc_erase_phase llm p hlm ev n = some (p1, hlm1, ev1)) :
    p1.ptr_mapping_table = p.ptr_mapping_table ∧ p1.gc_bab = p.gc_bab ∧
    abm_coords p1.bai = abm_coords p.bai ∧
    (∀ e, e ∈ ev → e ∈ ev1) ∧
    (∀ x, x ∈ erase_calls ev1 → x ∈ erase_calls ev ∨
      ∃ (k v : Nat), k < n ∧ p.gc_bab[k]? = some (some v) ∧
        (abm_coords p.bai)[v]? = some (x.1, x.2.1, x.2.2.1)) := by
  unfold gc_erase_phase at h
  cases hb : gc_build_erases p (List.range n) hlm with
  | none => rw [hb] at h; cases h
  | some hlm2 =>
    rw [hb] at h
    simp only at h
    cases hs : gc_send llm bdbm_req_type.REQTYPE_GC_ERASE (List.range n) hlm2 ev with
    | none => rw [hs] at h; cases h
    | some x =>
      obtain ⟨hlm3, ev2⟩ := x
      rw [hs] at h
      simp only at h
      cases hc : gc_erase_blocks hlm3 (List.range n) p ev2 with
      | none => rw [hc] at h; cases h
      | some y =>
        obtain ⟨p2, ev3⟩ := y
        rw [hc] at h
        simp only [Option.some.injEq, Prod.mk.injEq] at h
        obtain ⟨h1, _, h3⟩ := h
        subst h1 h3
        rw [List.range_eq_range'] at hs hc
        obtain ⟨_, hev2, _, _⟩ := gc_send_spec llm _ n 0 hlm2 ev hlm3 ev2 hs
        obtain ⟨hev3, c2, _, c4, c5, _⟩ := gc_erase_blocks_spec hlm3 n 0 p p2 ev2 ev3 hc
        refine ⟨c4, c5, c2, ?_, ?_⟩
        · intro e he
          rw [hev3, hev2]
          exact List.mem_append_left _ (List.mem_append_left _ he)
        · intro x hx
          rw [hev3, hev2] at hx
          unfold erase_calls at hx ⊢
          rw [List.filterMap_append, List.filterMap_append, List.mem_append, List.mem_append]
            at hx
          rcases hx with (hx | hx) | hx
          · exact Or.inl hx
          · rw [List.mem_filterMap] at hx
            obtain ⟨e, he, hex⟩ := hx
            rw [List.mem_filterMap] at he
            obtain ⟨i, _, hie⟩ := he
            unfold sent_event at hie
            cases hr : hlm2[i]? with
            | none => rw [hr] at hie; cases hie
            | some r =>
              rw [hr] at hie
              simp only [Option.map_some', Option.some.injEq] at hie
              rw [← hie] at hex
              simp [event_erase_call] at hex
          · right
            rw [List.mem_filterMap] at hx
            obtain ⟨e, he, hex⟩ := hx
            rw [List.mem_filterMap] at he
            obtain ⟨i, hi, hie⟩ := he
            rw [List.mem_range'_1] at hi
            unfold call_event at hie
            split at hie
            · rename_i v r hv hr
              cases hcv : (abm_coords p.bai)[v]? with
              | none => rw [hcv] at hie; cases hie
              | some c =>
                rw [hcv] at hie
                simp only [Option.map_some', Option.some.injEq] at hie
                rw [← hie] at hex
                simp only [event_erase_call, Option.some.injEq] at hex
                rw [← hex]
                exact ⟨i, v, by omega, hv, hcv⟩
            · cases hie

/-- C15: a GC pass on a well-formed state that finds a victim for every unit,
where every GC read returns in its OOB word the LPA that is VALID-mapped to the
page read, returns 0 and loses no live page.  Every LPA that was VALID before
the pass is VALID after it; if its address lay in a victim block, a GC write
request of the pass carries this LPA and its new address; if it lay elsewhere,
the entry is unchanged.  After the pass no VALID entry refers to a block on
which `erase_block` was called. -/
theorem do_gc_keeps_live_pages (np : nand_params_t) (llm : llm_inf_t)
    (p p1 : bdbm_page_ftl_private) (hlm hlm1 hlmf : List bdbm_llm_req_t)
    (bab : List (Option Nat)) (nr ret : Nat) (ev : List gc_event)
    (hg : geometry_ok np) (hok : alloc_ok np p) (hd : dirty_ok np p.bai)
    (hinj : ∀ (l1 l2 : Nat) (m1 m2 : bdbm_page_mapping_entry),
      p.ptr_mapping_table[l1]? = some m1 → p.ptr_mapping_table[l2]? = some m2 →
      m1.status = PFTL_PAGE_VALID → m2.status = PFTL_PAGE_VALID →
      ppa_tuple m1.phyaddr = ppa_tuple m2.phyaddr → l1 = l2)
    (hv : gc_victims np p = some (bab, nr_units np))
    (hreads : gc_build_reads np { p with gc_bab := bab } (List.range (nr_units np)) hlm 0
      = some (hlm1, nr))
    (hoob : ∀ (i : Nat) (r : bdbm_llm_req_t), i < nr → hlm1[i]? = some r →
      ∃ m : bdbm_page_mapping_entry, p.ptr_mapping_table[llm.oob i]? = some m ∧
        m.status = PFTL_PAGE_VALID ∧ ppa_tuple m.phyaddr = ppa_tuple r.phyaddr_r)
    (hpst : ∀ (l k v : Nat) (m : bdbm_page_mapping_entry) (b : bdbm_abm_block_t),
      p.ptr_mapping_table[l]? = some m → m.status = PFTL_PAGE_VALID → k < nr_units np →
      bab[k]? = some (some v) → p.bai.blocks[v]? = some b →
      blk_coords b = (m.phyaddr.channel_no, m.phyaddr.chip_no, m.phyaddr.block_no) →
      m.phyaddr.page_no < np.nr_pages_per_block ∧
      ∃ st, b.pst[m.phyaddr.page_no]? = some st ∧ st ≠ bdbm_abm_page_state.INVALID)
    (hrun : bdbm_page_ftl_do_gc np llm p hlm = some (ret, p1, hlmf, ev)) :
    ret = 0 ∧
    (∀ (l : Nat) (m : bdbm_page_mapping_entry), p.ptr_mapping_table[l]? = some m →
      m.status = PFTL_PAGE_VALID →
      ∃ m1 : bdbm_page_mapping_entry, p1.ptr_mapping_table[l]? = some m1 ∧
        m1.status = PFTL_PAGE_VALID ∧
        (in_victim p.bai bab (nr_units np) m →
          ∃ (r : bdbm_llm_req_t) (c : Nat) (a : bdbm_phyaddr_t),
            gc_event.make_req r c ∈ ev ∧ r.req_type = bdbm_req_type.REQTYPE_GC_WRITE ∧
            r.lpa = l ∧ req_phyaddr r = some a ∧ ppa_tuple a = ppa_tuple m1.phyaddr) ∧
        (¬ in_victim p.bai bab (nr_units np) m → m1 = m)) ∧
    (∀ (l : Nat) (m1 : bdbm_page_mapping_entry), p1.ptr_mapping_table[l]? = some m1 →
      m1.status = PFTL_PAGE_VALID → ∀ x, x ∈ erase_calls ev →
      (m1.phyaddr.channel_no, m1.phyaddr.chip_no, m1.phyaddr.block_no)
        ≠ (x.1, x.2.1, x.2.2.1)) := by
  have hN : u64 (np.nr_channels * np.nr_chips_per_channel) = nr_units np :=
    u64_of_lt hg.2.2.2.1
  obtain ⟨hVout, hslots, _⟩ := gc_victims_out np p bab hg hok hd hv
  have hok0 : alloc_ok np { p with gc_bab := bab } :=
    alloc_ok_of_frame np p _ hok rfl rfl rfl rfl rfl rfl rfl rfl
  have hV0 : victims_out np { p with gc_bab := bab } (gc_victim_list bab (nr_units np)) :=
    hVout
  have hnd : (abm_coords p.bai).Nodup := hok.2.2.2.2.2.2.2.2.2.2
  -- the run
  unfold bdbm_page_ftl_do_gc at hrun
  rw [hv] at hrun
  simp only [hN, Nat.lt_irrefl, if_false, hreads] at hrun
  cases hmv : gc_move_phase np llm { p with gc_bab := bab } hlm1 [gc_event.flush] nr with
  | none => rw [hmv] at hrun; cases hrun
  | some z =>
    obtain ⟨p2, hlm2, ev2⟩ := z
    rw [hmv] at hrun
    simp only at hrun
    cases her : gc_erase_phase llm p2 hlm2 ev2 (nr_units np) with
    | none => rw [her] at hrun; cases hrun
    | some w =>
      obtain ⟨p3, hlm3, ev3⟩ := w
      rw [her] at hrun
      simp only [Option.some.injEq, Prod.mk.injEq] at hrun
      obtain ⟨hr0, hp3, _, hev⟩ := hrun
      subst hr0 hp3 hev
      rw [List.range_eq_range'] at hreads
      obtain ⟨_, _, _, hsound, hcomplete⟩ :=
        gc_build_reads_spec np { p with gc_bab := bab } (nr_units np) 0 hlm 0 hlm1 nr hreads
      obtain ⟨m1c, m2g, m3e, m4, m5⟩ :=
        gc_move_phase_spec np hg llm (gc_victim_list bab (nr_units np)) _ p2 hlm1 hlm2 _ ev2 nr
          hmv hok0 hV0
      obtain ⟨e1t, _, _, e4e, e5c⟩ := gc_erase_phase_spec llm p2 p3 hlm2 hlm3 ev2 ev3 _ her
      obtain ⟨_, n2⟩ := gc_move_phase_no_erase np llm _ p2 hlm1 hlm2 _ ev2 nr hmv (by
        intro i hi
        obtain ⟨r, hr, ht, _⟩ := hsound i (Nat.zero_le _) hi
        exact ⟨r, hr, ht⟩)
      -- an LPA returned by a read is live in a victim block
      have htouched : ∀ i, i < nr → ∃ m : bdbm_page_mapping_entry,
          p.ptr_mapping_table[llm.oob i]? = some m ∧ m.status = PFTL_PAGE_VALID ∧
          in_victim p.bai bab (nr_units np) m := by
        intro i hi
        obtain ⟨r, hr, _, _, k, v, j, b, _, hk, hbk, hb, htup⟩ := hsound i (Nat.zero_le _) hi
        obtain ⟨m, hm, hmv1, hmt⟩ := hoob i r hi hr
        refine ⟨m, hm, hmv1, k, v, b, by omega, hbk, hb, ?_⟩
        rw [htup] at hmt
        unfold ppa_tuple at hmt
        simp only [Prod.mk.injEq] at hmt
        unfold blk_coords
        rw [hmt.1, hmt.2.1, hmt.2.2.1]
      -- a live page of a victim block is read
      have hread : ∀ (l : Nat) (m : bdbm_page_mapping_entry), p.ptr_mapping_table[l]? = some m →
          m.status = PFTL_PAGE_VALID → in_victim p.bai bab (nr_units np) m →
          ∃ i, i < nr ∧ llm.oob i = l := by
        intro l m hm hmv1 hin
        obtain ⟨k, v, b, hk, hbk, hb, hbc⟩ := hin
        obtain ⟨hpg, st, hst, hne⟩ := hpst l k v m b hm hmv1 hk hbk hb hbc
        obtain ⟨i, r1, _, hi, hr1, htup⟩ :=
          hcomplete (fun k _ hk => hslots k (by omega)) k v m.phyaddr.page_no b st
            (Nat.zero_le _) (by omega) hbk hb hpg hst hne
        obtain ⟨m2, hm2, hmv2, hmt2⟩ := hoob i r1 hi hr1
        refine ⟨i, hi, ?_⟩
        apply hinj _ _ m2 m hm2 hm hmv2 hmv1
        rw [hmt2, htup]
        unfold blk_coords at hbc
        unfold ppa_tuple
        simp only [Prod.mk.injEq] at hbc ⊢
        exact ⟨hbc.1, hbc.2.1, hbc.2.2, trivial⟩
      refine ⟨rfl, ?_, ?_⟩
      · intro l m hm hmv1
        by_cases ht : ∃ i, i < nr ∧ llm.oob i = l
        · obtain ⟨m1, rb, a1, a2, _, _, r, c, a, a5, a6, a7, a8, a9⟩ := m5 l ht
          refine ⟨m1, by rw [e1t]; exact a1, a2, fun _ => ⟨r, c, a, e4e _ a5, a6, a7, a8, a9⟩, ?_⟩
          intro hnin
          obtain ⟨i, hi, hil⟩ := ht
          obtain ⟨m2, hm2, _, hin2⟩ := htouched i hi
          rw [hil, hm] at hm2
          simp only [Option.some.injEq] at hm2
          subst hm2
          exact absurd hin2 hnin
        · have hkeep := m4 l (fun i hi h => ht ⟨i, hi, h⟩)
          refine ⟨m, by rw [e1t, hkeep]; exact hm, hmv1, ?_, fun _ => rfl⟩
          intro hin
          exact absurd (hread l m hm hmv1 hin) ht
      · intro l m1 hm1 hmv1 x hx heq
        rcases e5c x hx with hx2 | ⟨k, v, hk, hbk, hcv⟩
        · rw [n2] at hx2
          simp [erase_calls, event_erase_call] at hx2
        · rw [m2g] at hbk
          simp only at hbk
          rw [m1c] at hcv
          have hvV : v ∈ gc_victim_list bab (nr_units np) :=
            (mem_gc_victim_list bab _ v).2 ⟨k, hk, hbk⟩
          rw [e1t] at hm1
          by_cases ht : ∃ i, i < nr ∧ llm.oob i = l
          · obtain ⟨m1', rb, a1, _, a3, a4, _⟩ := m5 l ht
            rw [hm1] at a1
            simp only [Option.some.injEq] at a1
            subst a1
            rw [heq] at a3
            have := nodup_getElem?_inj (abm_coords p.bai) hnd rb v _ a3 hcv
            subst this
            exact a4 hvV
          · have hkeep := m4 l (fun i hi h => ht ⟨i, hi, h⟩)
            rw [hkeep] at hm1
            obtain ⟨b, hb, hbc⟩ := coords_block p.bai v _ hcv
            exact ht (hread l m1 hm1 hmv1 ⟨k, v, b, hk, hbk, hb, by rw [hbc, heq]⟩)

/-- The state `G_state` is well formed. -/
theorem G_state_alloc_ok : alloc_ok G_np G_state := by
  refine ⟨by decide, by decide, by decide, by decide, ?_, by decide, by decide, by decide, ?_,
    ?_, by decide⟩
  · intro u hu
    have hu2 : u < 2 := hu
    interval_cases u
    · refine ⟨1, (0, 0, 1), by decide, by decide, by decide, by decide, ?_⟩
      intro v hv
      have hv2 : v < 2 := hv
      interval_cases v <;> decide
    · refine ⟨4, (1, 0, 1), by decide, by decide, by decide, by decide, ?_⟩
      intro v hv
      have hv2 : v < 2 := hv
      interval_cases v <;> decide
  · intro u hu r hr
    have hu2 : u < 2 := hu
    interval_cases u
    · have h : r = 2 := by simpa [free_list, G_state] using hr
      subst h
      exact ⟨(0, 0, 2), by decide, by decide, by decide⟩
    · have h : r = 5 := by simpa [free_list, G_state] using hr
      subst h
      exact ⟨(1, 0, 2), by decide, by decide, by decide⟩
  · intro u hu
    have hu2 : u < 2 := hu
    interval_cases u <;> decide

/-- The dirty lists of `G_state` hold blocks of their units that are not free. -/
theorem G_state_dirty_ok : dirty_ok G_np G_state.bai := by
  intro i j b hi hj hb
  have hi2 : i < 2 := hi
  have hj1 : j < 1 := hj
  interval_cases i <;> interval_cases j
  · have h : b = 0 := by simpa [bdbm_abm_dirty_blocks, G_state, abm_unit, G_np] using hb
    subst h
    refine ⟨(0, 0, 0), by decide, rfl, rfl, ?_⟩
    intro u hu
    have hu2 : u < 2 := hu
    interval_cases u <;> decide
  · have h : b = 3 := by simpa [bdbm_abm_dirty_blocks, G_state, abm_unit, G_np] using hb
    subst h
    refine ⟨(1, 0, 0), by decide, rfl, rfl, ?_⟩
    intro u hu
    have hu2 : u < 2 := hu
    interval_cases u <;> decide

/-- The VALID entries of the mapping table of `G_state`. -/
theorem G_state_valid_entries (l : Nat) (m : bdbm_page_mapping_entry)
    (hm : G_state.ptr_mapping_table[l]? = some m) (hv : m.status = PFTL_PAGE_VALID) :
    (l = 3 ∧ m = valid_entry 0 0 1 0) ∨ (l = 4 ∧ m = valid_entry 1 0 1 0) ∨
    (l = 5 ∧ m = valid_entry 0 0 0 0) ∨ (l = 7 ∧ m = valid_entry 1 0 0 1) := by
  have hl : l < 12 := by
    rcases Nat.lt_or_ge l 12 with h | h
    · exact h
    · rw [List.getElem?_eq_none (by
        have : G_state.ptr_mapping_table.length = 12 := by decide
        omega)] at hm
      cases hm
  interval_cases l
  all_goals first
    | (have h : G_state.ptr_mapping_table[3]? = some (valid_entry 0 0 1 0) := by decide
       rw [h] at hm; simp only [Option.some.injEq] at hm; exact Or.inl ⟨rfl, hm.symm⟩)
    | (have h : G_state.ptr_mapping_table[4]? = some (valid_entry 1 0 1 0) := by decide
       rw [h] at hm; simp only [Option.some.injEq] at hm
       exact Or.inr (Or.inl ⟨rfl, hm.symm⟩))
    | (have h : G_state.ptr_mapping_table[5]? = some (valid_entry 0 0 0 0) := by decide
       rw [h] at hm; simp only [Option.some.injEq] at hm
       exact Or.inr (Or.inr (Or.inl ⟨rfl, hm.symm⟩)))
    | (have h : G_state.ptr_mapping_table[7]? = some (valid_entry 1 0 0 1) := by decide
       rw [h] at hm; simp only [Option.some.injEq] at hm
       exact Or.inr (Or.inr (Or.inr ⟨rfl, hm.symm⟩)))
    | (exfalso
       have h : ∀ e, e ∈ [G_state.ptr_mapping_table[0]?, G_state.ptr_mapping_table[1]?,
           G_state.ptr_mapping_table[2]?, G_state.ptr_mapping_table[6]?,
           G_state.ptr_mapping_table[8]?, G_state.ptr_mapping_table[9]?,
           G_state.ptr_mapping_table[10]?, G_state.ptr_mapping_table[11]?] →
           e = some fresh_mapping_entry := by decide
       have h2 := h _ (by simp [hm] : some m ∈ _)
       simp only [Option.some.injEq] at h2
       rw [h2] at hv
       simp [fresh_mapping_entry, PFTL_PAGE_NOT_ALLOCATED, PFTL_PAGE_VALID] at hv)

/-- C15 at the pass on `G_state`: LPA 5, which lived in the victim block of
unit 0, is VALID after the pass and a GC write request carries it with its new
address. -/
theorem do_gc_keeps_live_pages_witness :
    geometry_ok G_np ∧ gc_victims G_np G_state = some ([some 0, some 3], nr_units G_np) ∧
    bdbm_page_ftl_do_gc G_np G_llm G_state (fresh_llm_reqs 4) = some G_gc ∧
    G_state.ptr_mapping_table[5]? = some (valid_entry 0 0 0 0) ∧
    ∃ m1 : bdbm_page_mapping_entry, G_gc.2.1.ptr_mapping_table[5]? = some m1 ∧
      m1.status = PFTL_PAGE_VALID ∧
      ∃ (r : bdbm_llm_req_t) (c : Nat) (a : bdbm_phyaddr_t),
        gc_event.make_req r c ∈ G_gc.2.2.2 ∧
        r.req_type = bdbm_req_type.REQTYPE_GC_WRITE ∧ r.lpa = 5 ∧ req_phyaddr r = some a ∧
        ppa_tuple a = ppa_tuple m1.phyaddr := by
  have hinj : ∀ (l1 l2 : Nat) (m1 m2 : bdbm_page_mapping_entry),
      G_state.ptr_mapping_table[l1]? = some m1 → G_state.ptr_mapping_table[l2]? = some m2 →
      m1.status = PFTL_PAGE_VALID → m2.status = PFTL_PAGE_VALID →
      ppa_tuple m1.phyaddr = ppa_tuple m2.phyaddr → l1 = l2 := by
    intro l1 l2 m1 m2 h1 h2 v1 v2 ht
    rcases G_state_valid_entries l1 m1 h1 v1 with ⟨a, b⟩ | ⟨a, b⟩ | ⟨a, b⟩ | ⟨a, b⟩ <;>
      rcases G_state_valid_entries l2 m2 h2 v2 with ⟨c, d⟩ | ⟨c, d⟩ | ⟨c, d⟩ | ⟨c, d⟩ <;>
      subst a b c d <;> first | rfl | (exfalso; revert ht; decide)
  have hreads : gc_build_reads G_np { G_state with gc_bab := [some 0, some 3] }
      (List.range (nr_units G_np)) (fresh_llm_reqs 4) 0 = some (G_reads.1, G_reads.2) := by
    decide
  have hoob : ∀ (i : Nat) (r : bdbm_llm_req_t), i < G_reads.2 → G_reads.1[i]? = some r →
      ∃ m : bdbm_page_mapping_entry, G_state.ptr_mapping_table[G_llm.oob i]? = some m ∧
        m.status = PFTL_PAGE_VALID ∧ ppa_tuple m.phyaddr = ppa_tuple r.phyaddr_r := by
    intro i r hi hr
    have hi2 : i < 2 := hi
    interval_cases i
    · have h : G_reads.1[0]? = some
          { req_type := bdbm_req_type.REQTYPE_GC_READ, lpa := 2 ^ 64 - 1,
            phyaddr := phyaddr_ptr.r, phyaddr_r := mk_ppa 0 0 0 0, phyaddr_w := zero_ppa,
            ret := 0, ptr_oob := 0 } := by decide
      rw [h] at hr
      simp only [Option.some.injEq] at hr
      subst hr
      exact ⟨valid_entry 0 0 0 0, by decide, by decide, by decide⟩
    · have h : G_reads.1[1]? = some
          { req_type := bdbm_req_type.REQTYPE_GC_READ, lpa := 2 ^ 64 - 1,
            phyaddr := phyaddr_ptr.r, phyaddr_r := mk_ppa 1 0 0 1, phyaddr_w := zero_ppa,
            ret := 0, ptr_oob := 0 } := by decide
      rw [h] at hr
      simp only [Option.some.injEq] at hr
      subst hr
      exact ⟨valid_entry 1 0 0 1, by decide, by decide, by decide⟩
  have hpst : ∀ (l k v : Nat) (m : bdbm_page_mapping_entry) (b : bdbm_abm_block_t),
      G_state.ptr_mapping_table[l]? = some m → m.status = PFTL_PAGE_VALID →
      k < nr_units G_np → ([some 0, some 3] : List (Option Nat))[k]? = some (some v) →
      G_state.bai.blocks[v]? = some b →
      blk_coords b = (m.phyaddr.channel_no, m.phyaddr.chip_no, m.phyaddr.block_no) →
      m.phyaddr.page_no < G_np.nr_pages_per_block ∧
      ∃ st, b.pst[m.phyaddr.page_no]? = some st ∧ st ≠ bdbm_abm_page_state.INVALID := by
    intro l k v m b hm hv hk hbk hb hbc
    have hk2 : k < 2 := hk
    interval_cases k
    · simp only [List.getElem?_cons_zero, Option.some.injEq] at hbk
      subst hbk
      have h : G_state.bai.blocks[0]? = some (G_block 0 0 bdbm_abm_blk_state.DIRTY
          [bdbm_abm_page_state.VALID, bdbm_abm_page_state.INVALID] 1 1) := by decide
      rw [h] at hb
      simp only [Option.some.injEq] at hb
      subst hb
      rcases G_state_valid_entries l m hm hv with ⟨_, d⟩ | ⟨_, d⟩ | ⟨_, d⟩ | ⟨_, d⟩ <;>
        subst d <;> first | (exfalso; revert hbc; decide)
                           | exact ⟨by decide, bdbm_abm_page_state.VALID, by decide, by decide⟩
    · simp only [List.getElem?_cons_succ, List.getElem?_cons_zero, Option.some.injEq] at hbk
      subst hbk
      have h : G_state.bai.blocks[3]? = some (G_block 1 0 bdbm_abm_blk_state.DIRTY
          [bdbm_abm_page_state.INVALID, bdbm_abm_page_state.VALID] 1 1) := by decide
      rw [h] at hb
      simp only [Option.some.injEq] at hb
      subst hb
      rcases G_state_valid_entries l m hm hv with ⟨_, d⟩ | ⟨_, d⟩ | ⟨_, d⟩ | ⟨_, d⟩ <;>
        subst d <;> first | (exfalso; revert hbc; decide)
                           | exact ⟨by decide, bdbm_abm_page_state.VALID, by decide, by decide⟩
  have hrun : bdbm_page_ftl_do_gc G_np G_llm G_state (fresh_llm_reqs 4)
      = some (G_gc.1, G_gc.2.1, G_gc.2.2.1, G_gc.2.2.2) := by decide
  obtain ⟨_, hlive, _⟩ := do_gc_keeps_live_pages G_np G_llm G_state G_gc.2.1 (fresh_llm_reqs 4)
    G_reads.1 G_gc.2.2.1 [some 0, some 3] G_reads.2 G_gc.1 G_gc.2.2.2 (by decide)
    G_state_alloc_ok G_state_dirty_ok hinj (by decide) hreads hoob hpst hrun
  obtain ⟨m1, h1, h2, h3, _⟩ := hlive 5 (valid_entry 0 0 0 0) (by decide) (by decide)
  exact ⟨by decide, by decide, by decide, by decide, m1, h1, h2,
    h3 ⟨0, 0, G_block 0 0 bdbm_abm_blk_state.DIRTY
      [bdbm_abm_page_state.VALID, bdbm_abm_page_state.INVALID] 1 1,
      by decide, by decide, by decide, by decide⟩⟩

/-! ## The slots of the active blocks -/

/-- C26 (amended): after a successful `create`, for every channel `ch < C` and
chip `chip < K` the block prepared and committed for (ch, chip), the head of
the free list of the unit in the created ABM, is stored in
`ac_bab[ch * K + chip]`; its descriptor has channel `ch` and chip `chip` and is
ACTIVE. -/
theorem create_active_block_slots (np : nand_params_t) (s0 : bdbm_page_ftl_private)
    (ch chip : Nat) (hg : geometry_ok np) (hc : bdbm_page_ftl_create np = some s0)
    (hch : ch < np.nr_channels) (hchip : chip < np.nr_chips_per_channel) :
    ∃ (r : Nat) (b : bdbm_abm_block_t),
      bdbm_abm_get_free_block_prepare (bdbm_abm_create np) ch chip = some r ∧
      s0.ac_bab[ch * np.nr_chips_per_channel + chip]? = some (some r) ∧
      s0.bai.blocks[r]? = some b ∧ b.channel_no = ch ∧ b.chip_no = chip ∧
      b.state = bdbm_abm_blk_state.ACTIVE := by
  obtain ⟨hok, _, _, _, hnew⟩ := create_ok np hg s0 hc
  have hu : abm_unit np ch chip < nr_units np := mul_add_lt _ _ _ _ hch hchip
  obtain ⟨r, hhead, hslot, _⟩ := hnew _ hu
  obtain ⟨r1, c, hr1, hc1, hcu, hck, _⟩ := hok.2.2.2.2.1 _ hu
  rw [hslot] at hr1
  simp only [Option.some.injEq] at hr1
  subst hr1
  obtain ⟨h1, h2⟩ := abm_unit_inj np _ _ _ _ hck hchip hcu
  obtain ⟨b, hb, hbc⟩ := coords_block s0.bai r c hc1
  obtain ⟨r2, b2, hr2, hb2, hs2⟩ := create_slots_active np hg s0 hc _ hu
  rw [hslot] at hr2
  simp only [Option.some.injEq] at hr2
  subst hr2
  rw [hb] at hb2
  simp only [Option.some.injEq] at hb2
  subst hb2
  refine ⟨r, b, hhead, hslot, hb, ?_, ?_, hs2⟩
  · rw [← h1, ← hbc]; rfl
  · rw [← h2, ← hbc]; rfl

/-- C26 (amended), at channel 0 and chip 1 of scenario S1 (C = 2, K = 2): the
block is in slot `0 * 2 + 1`. -/
theorem create_active_block_slots_witness :
    geometry_ok S1_np ∧ bdbm_page_ftl_create S1_np = some S1_fresh ∧
    ∃ (r : Nat) (b : bdbm_abm_block_t),
      bdbm_abm_get_free_block_prepare (bdbm_abm_create S1_np) 0 1 = some r ∧
      S1_fresh.ac_bab[0 * S1_np.nr_chips_per_channel + 1]? = some (some r) ∧
      S1_fresh.bai.blocks[r]? = some b ∧ b.channel_no = 0 ∧ b.chip_no = 1 ∧
      b.state = bdbm_abm_blk_state.ACTIVE :=
  ⟨by decide, by decide,
    create_active_block_slots S1_np S1_fresh 0 1 (by decide) (by decide) (by decide)
      (by decide)⟩

/-- C26 (counterexample): in scenario S1 (C = 2, K = 2) the block prepared for
channel 0, chip 1 is block 4; slot `chip * C + ch = 2` of `ac_bab` holds block
8, the block of channel 1, chip 0, and block 4 is in slot `ch * K + chip = 1`. -/
theorem S1_slot_of_channel_0_chip_1 :
    bdbm_abm_get_free_block_prepare (bdbm_abm_create S1_np) 0 1 = some 4 ∧
    S1_fresh.ac_bab[1 * S1_np.nr_channels + 0]? = some (some 8) ∧
    (S1_fresh.bai.blocks[8]?).map (fun b => (b.channel_no, b.chip_no)) = some (1, 0) ∧
    S1_fresh.ac_bab[0 * S1_np.nr_chips_per_channel + 1]? = some (some 4) := by
  decide

/-- C28: for a geometry with at least one channel and chip whose number of
units fits in 64 bits, the slot `(u mod C) * K + (u div C)` that `get_free_ppa`
and `store` read for the cursor `u < C * K` is below `C * K` (also as a 64-bit
value), and `u ↦ (u mod C) * K + (u div C)` is one-to-one and onto on
`[0, C * K)`.  After a successful `__bdbm_page_ftl_get_active_blocks` on an ABM
that meets its contract the block in that slot has channel `u mod C` and chip
`u div C`; so on a well-formed state `get_free_ppa` returns and the loop of
`store` returns: no `bdbm_bug_on` fires. -/
theorem active_block_index_ok (np : nand_params_t) (hg : geometry_ok np) :
    (∀ u, u < nr_units np →
      u % np.nr_channels * np.nr_chips_per_channel + u / np.nr_channels < nr_units np ∧
      u64 (u % np.nr_channels * np.nr_chips_per_channel + u / np.nr_channels)
        = u % np.nr_channels * np.nr_chips_per_channel + u / np.nr_channels) ∧
    (∀ u v, u < nr_units np → v < nr_units np →
      u % np.nr_channels * np.nr_chips_per_channel + u / np.nr_channels
        = v % np.nr_channels * np.nr_chips_per_channel + v / np.nr_channels → u = v) ∧
    (∀ t, t < nr_units np → ∃ u, u < nr_units np ∧
      u % np.nr_channels * np.nr_chips_per_channel + u / np.nr_channels = t) ∧
    (∀ (bai bai1 : bdbm_abm_info_t) (bab bab1 : List (Option Nat)), abm_ok np bai →
      bab.length = nr_units np →
      __bdbm_page_ftl_get_active_blocks np bai bab = some (0, bai1, bab1) →
      ∀ u, u < nr_units np → ∃ (r : Nat) (b : bdbm_abm_block_t),
        bab1[u % np.nr_channels * np.nr_chips_per_channel + u / np.nr_channels]?
          = some (some r) ∧
        bai1.blocks[r]? = some b ∧ b.channel_no = u % np.nr_channels ∧
        b.chip_no = u / np.nr_channels) ∧
    (∀ (p : bdbm_page_ftl_private) (lpa : Nat) (ppa : bdbm_phyaddr_t), alloc_ok np p →
      ∃ res, bdbm_page_ftl_get_free_ppa np p lpa ppa = some res) ∧
    (∀ (p : bdbm_page_ftl_private) (fuel : Nat), alloc_ok np p →
      nr_units np * np.nr_pages_per_block ≤ fuel → ∃ p1, store_loop np fuel p = some p1) := by
  have hC : 0 < np.nr_channels := hg.1
  have hK : 0 < np.nr_chips_per_channel := hg.2.1
  have hslot : ∀ u, u < nr_units np →
      u % np.nr_channels * np.nr_chips_per_channel + u / np.nr_channels < nr_units np ∧
      u / np.nr_channels < np.nr_chips_per_channel := fun u hu => slot_lt np u hC hu
  refine ⟨?_, ?_, ?_, ?_, ?_, ?_⟩
  · intro u hu
    have h := (hslot u hu).1
    exact ⟨h, u64_of_lt (by have := hg.2.2.2.1; omega)⟩
  · intro u v hu hv h
    obtain ⟨h1, h2⟩ := mul_add_inj _ _ _ _ _ (hslot u hu).2 (hslot v hv).2 h
    rw [← Nat.div_add_mod u np.nr_channels, ← Nat.div_add_mod v np.nr_channels, h1, h2]
  · intro t ht
    have ht1 : t / np.nr_chips_per_channel < np.nr_channels :=
      (Nat.div_lt_iff_lt_mul hK).2 ht
    have ht2 : t % np.nr_chips_per_channel < np.nr_chips_per_channel := Nat.mod_lt _ hK
    refine ⟨t % np.nr_chips_per_channel * np.nr_channels + t / np.nr_chips_per_channel, ?_, ?_⟩
    · have := mul_add_lt np.nr_chips_per_channel np.nr_channels _ _ ht2 ht1
      unfold nr_units
      rw [Nat.mul_comm np.nr_channels]
      exact this
    · have e1 : (t % np.nr_chips_per_channel * np.nr_channels + t / np.nr_chips_per_channel)
          % np.nr_channels = t / np.nr_chips_per_channel := by
        rw [Nat.add_comm, Nat.add_mul_mod_self_right, Nat.mod_eq_of_lt ht1]
      have e2 : (t % np.nr_chips_per_channel * np.nr_channels + t / np.nr_chips_per_channel)
          / np.nr_channels = t % np.nr_chips_per_channel := by
        rw [Nat.add_comm, Nat.add_mul_div_right _ _ hC, Nat.div_eq_of_lt ht1, Nat.zero_add]
      rw [e1, e2]
      exact Nat.div_add_mod' t np.nr_chips_per_channel
  · intro bai bai1 bab bab1 hok hlen hrun u hu
    obtain ⟨ret, bai2, bab2, hrun2, _, _, _, _, hco, hnew⟩ :=
      get_active_blocks_spec np bai bab hok hlen
    rw [hrun] at hrun2
    simp only [Option.some.injEq, Prod.mk.injEq] at hrun2
    obtain ⟨hr, hb1, hb2⟩ := hrun2
    subst hr hb1 hb2
    obtain ⟨hs1, hs2⟩ := hslot u hu
    obtain ⟨r, hhead, hr, _⟩ := hnew rfl _ hs1
    obtain ⟨c, hc, hcu, hck⟩ := hok.2.2.1 _ hs1 r (mem_of_head? hhead)
    obtain ⟨h1, h2⟩ := abm_unit_inj np _ _ _ _ hck hs2 hcu
    rw [← hco] at hc
    obtain ⟨b, hb, hbc⟩ := coords_block bai1 r c hc
    refine ⟨r, b, hr, hb, ?_, ?_⟩
    · rw [← h1, ← hbc]; rfl
    · rw [← h2, ← hbc]; rfl
  · intro p lpa ppa hok
    obtain ⟨ret, p1, out, _, _, hget, _⟩ := get_free_ppa_step np p lpa ppa hg hok
    exact ⟨_, hget⟩
  · intro p fuel hok hfuel
    have hofs := hok.2.2.1
    have hbound : (np.nr_pages_per_block - 1 - p.curr_page_ofs) * nr_units np
        + (nr_units np - p.curr_puid) ≤ fuel := by
      have h1 : (np.nr_pages_per_block - 1 - p.curr_page_ofs + 1) * nr_units np
          ≤ np.nr_pages_per_block * nr_units np := Nat.mul_le_mul_right _ (by omega)
      rw [Nat.succ_mul] at h1
      rw [Nat.mul_comm] at hfuel
      omega
    obtain ⟨p1, hloop, _⟩ :=
      store_loop_spec np hg fuel (np.nr_pages_per_block - 1 - p.curr_page_ofs) p hok
        (by omega) hbound
    exact ⟨p1, hloop⟩

/-- C28 at the geometry of scenario S1 (C = 2, K = 2): the cursor 1 reads slot
2, and on the fresh FTL the block in slot 2 has channel 1 and chip 0. -/
theorem active_block_index_ok_witness :
    geometry_ok S1_np ∧
    1 % S1_np.nr_channels * S1_np.nr_chips_per_channel + 1 / S1_np.nr_channels = 2 ∧
    (∀ (lpa : Nat) (ppa : bdbm_phyaddr_t),
      ∃ res, bdbm_page_ftl_get_free_ppa S1_np S1_fresh lpa ppa = some res) :=
  ⟨by decide, by decide, fun lpa ppa =>
    (active_block_index_ok S1_np (by decide)).2.2.2.2.1 S1_fresh lpa ppa
      (create_ok S1_np (by decide) S1_fresh (by decide)).1⟩

/-! ## The indices walked by a trim -/

/-- The `for` loop of `invalidate_lpa` is the fold of its body over the
indices `loop`, `loop + 1`, ..., `loop + n - 1`. -/
theorem invalidate_lpa_loop_eq_fold :
    ∀ (n loop : Nat) (p : bdbm_page_ftl_private),
      invalidate_lpa_loop n loop p
        = (List.range' loop n).foldlM (fun q i => invalidate_lpa_body q i) p := by
  intro n
  induction n with
  | zero => intro loop p; rfl
  | succ n ih =>
    intro loop p
    rw [List.range'_succ, List.foldlM_cons]
    simp only [invalidate_lpa_loop]
    cases invalidate_lpa_body p loop with
    | none => rfl
    | some p1 => exact ih (loop + 1) p1

/-- C29: `invalidate_lpa` walks the mapping table exactly at the indices
`invalidate_lpa_indices`: the call is the range check followed by the fold of
the loop body over them.  For all `lpa` and `len`, also when the 64-bit sum
`lpa + len` wraps, every such index is below `nr_pages_per_ssd`; so on a table
of `nr_pages_per_ssd` entries the call returns, and it leaves every entry at
another index as it was. -/
theorem invalidate_lpa_indices_in_table (np : nand_params_t) (p : bdbm_page_ftl_private)
    (lpa len : Nat) (hlen : p.ptr_mapping_table.length = np.nr_pages_per_ssd) :
    bdbm_page_ftl_invalidate_lpa np p lpa len
      = (if u64 (lpa + len) > np.nr_pages_per_ssd then some (1, p)
         else ((invalidate_lpa_indices np lpa len).foldlM
                (fun q i => invalidate_lpa_body q i) p).map fun p1 => (0, p1)) ∧
    (∀ i, i ∈ invalidate_lpa_indices np lpa len → i < np.nr_pages_per_ssd) ∧
    ∃ ret p1, bdbm_page_ftl_invalidate_lpa np p lpa len = some (ret, p1) ∧
      p1.ptr_mapping_table.length = np.nr_pages_per_ssd ∧
      ∀ i, i ∉ invalidate_lpa_indices np lpa len →
        p1.ptr_mapping_table[i]? = p.ptr_mapping_table[i]? := by
  have hidx : ∀ i, i ∈ invalidate_lpa_indices np lpa len → i < np.nr_pages_per_ssd := by
    intro i hi
    unfold invalidate_lpa_indices at hi
    split at hi
    · cases hi
    · rw [List.mem_range'_1] at hi
      omega
  refine ⟨?_, hidx, ?_⟩
  · unfold bdbm_page_ftl_invalidate_lpa invalidate_lpa_indices
    by_cases hr : u64 (lpa + len) > np.nr_pages_per_ssd
    · simp only [hr, if_true]
    · simp only [hr, if_false]
      rw [invalidate_lpa_loop_eq_fold]
      cases (List.range' lpa (u64 (lpa + len) - lpa)).foldlM
          (fun q i => invalidate_lpa_body q i) p with
      | none => rfl
      | some p1 => rfl
  · unfold bdbm_page_ftl_invalidate_lpa invalidate_lpa_indices
    by_cases hr : u64 (lpa + len) > np.nr_pages_per_ssd
    · simp only [hr, if_true]
      exact ⟨1, p, rfl, hlen, fun _ _ => rfl⟩
    · simp only [hr, if_false]
      rcases Nat.le_total (u64 (lpa + len)) lpa with hle | hle
      · have hz : u64 (lpa + len) - lpa = 0 := by omega
        rw [hz]
        exact ⟨0, p, rfl, hlen, fun _ _ => rfl⟩
      · obtain ⟨p1, hrun, hl1, hout, _⟩ :=
          invalidate_lpa_loop_spec (u64 (lpa + len) - lpa) lpa p (by omega)
        rw [hrun]
        refine ⟨0, p1, rfl, by rw [hl1, hlen], ?_⟩
        intro i hi
        apply hout
        rw [List.mem_range'_1] at hi
        omega

/-- C29 at a wrapping sum on scenario S1: `lpa = 1`, `len = 2^64 - 1`; the
sum wraps to 0, no index is walked and the call returns. -/
theorem invalidate_lpa_indices_in_table_witness :
    S1_written.ptr_mapping_table.length = S1_np.nr_pages_per_ssd ∧
    invalidate_lpa_indices S1_np 1 (2 ^ 64 - 1) = [] ∧
    invalidate_lpa_indices S1_np 2 3 = [2, 3, 4] ∧
    ∀ i, i ∈ invalidate_lpa_indices S1_np 2 3 → i < S1_np.nr_pages_per_ssd :=
  ⟨by decide, by decide, by decide,
    (invalidate_lpa_indices_in_table S1_np S1_written 2 3 (by decide)).2.1⟩

/-! ## Ties and full blocks in the victim selection -/

/-- C21 (failing input): the blocks 1 and 2 of the dirty list have one invalid
page each and the active block 0 has two.  The comparison reads the count of
the active block, which is larger than that of the victim so far, so the
victim is replaced by every later block: the selection returns block 2, the
last of the tied blocks, not block 1, the first. -/
theorem victim_selection_tie_returns_last :
    bdbm_abm_dirty_blocks T_state.bai 0 0 = [1, 2] ∧
    T_state.ac_bab[0]? = some (some 0) ∧
    (T_state.bai.blocks[0]?).map (fun b => b.nr_invalid_pages) = some 2 ∧
    (T_state.bai.blocks[1]?).map (fun b => b.nr_invalid_pages) = some 1 ∧
    (T_state.bai.blocks[2]?).map (fun b => b.nr_invalid_pages) = some 1 ∧
    __bdbm_page_ftl_victim_selection_greedy V_np T_state 0 0 = some (some 2) := by
  decide

/-- The loop of the greedy selection stops at the first block that is not the
active block and has all its pages invalid. -/
theorem victim_loop_first_full (np : nand_params_t) (bai : bdbm_abm_info_t) (ar x : Nat)
    (bx : bdbm_abm_block_t) (post : List Nat) (har : ar < bai.blocks.length) (hx : x ≠ ar)
    (hbx : bai.blocks[x]? = some bx) (hfull : bx.nr_invalid_pages = np.nr_pages_per_block) :
    ∀ (pre : List Nat) (v : Option Nat),
      (∀ b ∈ pre, b = ar ∨ ∃ bb : bdbm_abm_block_t, bai.blocks[b]? = some bb ∧
        bb.nr_invalid_pages ≠ np.nr_pages_per_block) →
      (∀ vr, v = some vr → vr < bai.blocks.length) →
      victim_selection_greedy_loop np bai (some ar) v (pre ++ x :: post) = some (some x) := by
  have hxa : ¬ ((some ar : Option Nat) = some x) := fun h => hx (by cases h; rfl)
  intro pre
  induction pre with
  | nil =>
    intro v _ _
    simp only [List.nil_append, victim_selection_greedy_loop, hxa, if_false, hbx, hfull, if_true]
  | cons b rest ih =>
    intro v hpre hv
    have hrest : ∀ c ∈ rest, c = ar ∨ ∃ bb : bdbm_abm_block_t, bai.blocks[c]? = some bb ∧
        bb.nr_invalid_pages ≠ np.nr_pages_per_block :=
      fun c hc => hpre c (List.mem_cons_of_mem _ hc)
    rw [List.cons_append]
    by_cases hb : b = ar
    · subst hb
      simp only [victim_selection_greedy_loop, if_true]
      exact ih v hrest hv
    · have hab : ¬ ((some ar : Option Nat) = some b) := fun h => hb (by cases h; rfl)
      rcases hpre b (List.mem_cons_self _ _) with hb2 | ⟨bb, hbb, hnf⟩
      · exact absurd hb2 hb
      · have hbl : b < bai.blocks.length := by
          rcases Nat.lt_or_ge b bai.blocks.length with h | h
          · exact h
          · rw [List.getElem?_eq_none h] at hbb; cases hbb
        obtain ⟨ab, hab2⟩ := getElem?_of_lt bai.blocks ar har
        cases v with
        | none =>
          simp only [victim_selection_greedy_loop, hab, if_false, hbb, hnf]
          exact ih (some b) hrest (fun vr h => by cases h; exact hbl)
        | some vr =>
          obtain ⟨vb, hvb⟩ := getElem?_of_lt bai.blocks vr (hv vr rfl)
          by_cases hcmp : ab.nr_invalid_pages > vb.nr_invalid_pages
          · simp only [victim_selection_greedy_loop, hab, if_false, hbb, hnf, Option.some_bind,
              hab2, hvb, hcmp, if_true]
            exact ih (some b) hrest (fun vr h => by cases h; exact hbl)
          · simp only [victim_selection_greedy_loop, hab, if_false, hbb, hnf, Option.some_bind,
              hab2, hvb, hcmp]
            exact ih (some vr) hrest hv

/-- C22: when the dirty list of a unit holds a block other than the active
block with `nr_invalid_pages = nr_pages_per_block`, the greedy selection
returns the first such block in list order. -/
theorem victim_selection_first_full (np : nand_params_t) (p : bdbm_page_ftl_private)
    (i j ar x : Nat) (bx : bdbm_abm_block_t) (pre post : List Nat)
    (hslot : p.ac_bab[u64 (i * np.nr_chips_per_channel + j)]? = some (some ar))
    (har : ar < p.bai.blocks.length)
    (hlist : bdbm_abm_dirty_blocks p.bai i j = pre ++ x :: post)
    (hpre : ∀ b ∈ pre, b = ar ∨ ∃ bb : bdbm_abm_block_t, p.bai.blocks[b]? = some bb ∧
      bb.nr_invalid_pages ≠ np.nr_pages_per_block)
    (hx : x ≠ ar) (hbx : p.bai.blocks[x]? = some bx)
    (hfull : bx.nr_invalid_pages = np.nr_pages_per_block) :
    __bdbm_page_ftl_victim_selection_greedy np p i j = some (some x) := by
  unfold __bdbm_page_ftl_victim_selection_greedy
  rw [hslot, hlist]
  exact victim_loop_first_full np p.bai ar x bx post har hx hbx hfull pre none hpre
    (fun vr h => by cases h)

/-- C22 at a unit whose dirty blocks 1 and 2 are both fully invalid: the first
of them, block 1, is chosen. -/
theorem victim_selection_first_full_witness :
    bdbm_abm_dirty_blocks F_state.bai 0 0 = [] ++ 1 :: [2] ∧
    (F_state.bai.blocks[2]?).map (fun b => b.nr_invalid_pages) = some V_np.nr_pages_per_block ∧
    __bdbm_page_ftl_victim_selection_greedy V_np F_state 0 0 = some (some 1) :=
  ⟨by decide, by decide,
    victim_selection_first_full V_np F_state 0 0 0 1
      { channel_no := 0, chip_no := 0, block_no := 1, state := bdbm_abm_blk_state.DIRTY,
        pst := List.replicate 4 bdbm_abm_page_state.INVALID,
        nr_invalid_pages := 4, nr_valid_pages := 0, erase_count := 0 }
      [] [2] (by decide) (by decide) (by decide) (fun b hb => by cases hb) (by decide)
      (by decide) (by decide)⟩

/-! ## The active block is no victim -/

/-- The loop of the greedy selection ends without a victim only if it started
without one and the list holds nothing but the active block. -/
theorem victim_loop_none (np : nand_params_t) (bai : bdbm_abm_info_t) (a : Option Nat) :
    ∀ (l : List Nat) (v : Option Nat),
      victim_selection_greedy_loop np bai a v l = some none →
      v = none ∧ ∀ b ∈ l, a = some b := by
  intro l
  induction l with
  | nil =>
    intro v h
    simp only [victim_selection_greedy_loop, Option.some.injEq] at h
    exact ⟨h, fun b hb => by cases hb⟩
  | cons b rest ih =>
    intro v h
    simp only [victim_selection_greedy_loop] at h
    by_cases hab : a = some b
    · rw [if_pos hab] at h
      obtain ⟨h1, h2⟩ := ih v h
      refine ⟨h1, fun c hc => ?_⟩
      rcases List.mem_cons.1 hc with h3 | h3
      · rw [h3]; exact hab
      · exact h2 c h3
    · rw [if_neg hab] at h
      cases hbb : bai.blocks[b]? with
      | none => rw [hbb] at h; cases h
      | some bb =>
        rw [hbb] at h
        simp only at h
        by_cases hfull : bb.nr_invalid_pages = np.nr_pages_per_block
        · rw [if_pos hfull] at h
          cases h
        · rw [if_neg hfull] at h
          cases v with
          | none =>
            simp only at h
            exact absurd (ih (some b) h).1 (by simp)
          | some vr =>
            simp only at h
            split at h
            · split at h
              · exact absurd (ih (some b) h).1 (by simp)
              · exact absurd (ih (some vr) h).1 (by simp)
            · cases h

/-- C23: on a well-formed state the greedy selection for (channel, chip)
returns NULL or a block of that unit's dirty list other than
`ac_bab[channel * K + chip]`, and it returns NULL exactly when the list holds
no block other than the active one.  When moreover the dirty lists hold blocks
of their own unit, every call of `erase_block` in a `do_gc` pass is on a block
whose coordinates differ from those of every block that was in `ac_bab` when
the pass started. -/
theorem victim_is_not_active (np : nand_params_t) (p : bdbm_page_ftl_private)
    (hg : geometry_ok np) (hok : alloc_ok np p) (hd : dirty_ok np p.bai) :
    (∀ i j, i < np.nr_channels → j < np.nr_chips_per_channel →
      ∃ res, __bdbm_page_ftl_victim_selection_greedy np p i j = some res ∧
        (∀ x, res = some x → x ∈ bdbm_abm_dirty_blocks p.bai i j ∧
          p.ac_bab[i * np.nr_chips_per_channel + j]? ≠ some (some x)) ∧
        (res = none ↔ ∀ b ∈ bdbm_abm_dirty_blocks p.bai i j,
          p.ac_bab[i * np.nr_chips_per_channel + j]? = some (some b))) ∧
    (∀ (llm : llm_inf_t) (hlm hlmf : List bdbm_llm_req_t) (ret : Nat)
        (p1 : bdbm_page_ftl_private) (ev : List gc_event),
      bdbm_page_ftl_do_gc np llm p hlm = some (ret, p1, hlmf, ev) →
      ∀ x, x ∈ erase_calls ev → ∀ (u r : Nat) (c : Nat × Nat × Nat),
        p.ac_bab[u]? = some (some r) → (abm_coords p.bai)[r]? = some c →
        c ≠ (x.1, x.2.1, x.2.2.1)) := by
  have hN : u64 (np.nr_channels * np.nr_chips_per_channel) = nr_units np :=
    u64_of_lt hg.2.2.2.1
  have hnd : (abm_coords p.bai).Nodup := hok.2.2.2.2.2.2.2.2.2.2
  constructor
  · intro i j hi hj
    have hu : abm_unit np i j < nr_units np := mul_add_lt _ _ _ _ hi hj
    obtain ⟨r, c, hr, hc, _, _, _⟩ := hok.2.2.2.2.1 _ hu
    have hr2 : p.ac_bab[i * np.nr_chips_per_channel + j]? = some (some r) := hr
    have hrl := coords_lt p.bai r c hc
    have hu64 : u64 (i * np.nr_chips_per_channel + j) = i * np.nr_chips_per_channel + j :=
      u64_of_lt (by unfold abm_unit at hu; have := hg.2.2.2.1; omega)
    obtain ⟨res, hrun, _, hnone⟩ := victim_loop_total np p.bai r hrl
      (bdbm_abm_dirty_blocks p.bai i j) none
      (fun b hb => by
        obtain ⟨c1, hc1, _⟩ := hd i j b hi hj hb
        exact coords_lt p.bai b c1 hc1)
      (fun vr h => by cases h)
    have hsel : __bdbm_page_ftl_victim_selection_greedy np p i j = some res := by
      unfold __bdbm_page_ftl_victim_selection_greedy
      simp only [hu64, hr2]
      exact hrun
    refine ⟨res, hsel, ?_, ?_⟩
    · intro x hx
      subst hx
      rcases victim_loop_mem np p.bai (some r) _ none x hrun with h1 | ⟨h1, h2⟩
      · cases h1
      · refine ⟨h1, ?_⟩
        rw [hr2]
        intro h
        simp only [Option.some.injEq] at h
        exact h2 (by rw [h])
    · constructor
      · intro hres
        subst hres
        obtain ⟨_, hall⟩ := victim_loop_none np p.bai (some r) _ none hrun
        intro b hb
        rw [hr2, hall b hb]
      · intro hall
        apply hnone
        intro b hb
        have := hall b hb
        rw [hr2] at this
        simp only [Option.some.injEq] at this
        exact this.symm
  · intro llm hlm hlmf ret p1 ev hrun x hx u r c hur hrc
    unfold bdbm_page_ftl_do_gc at hrun
    cases hv : gc_victims np p with
    | none => rw [hv] at hrun; cases hrun
    | some y =>
      obtain ⟨bab, n⟩ := y
      rw [hv] at hrun
      simp only [hN] at hrun
      by_cases hn : n < nr_units np
      · rw [if_pos hn] at hrun
        simp only [Option.some.injEq, Prod.mk.injEq] at hrun
        rw [← hrun.2.2.2] at hx
        simp [erase_calls] at hx
      · rw [if_neg hn] at hrun
        have hnN : n = nr_units np := by
          have hv2 := hv
          unfold gc_victims at hv2
          simp only [hN] at hv2
          split at hv2
          · cases hv2
          · obtain ⟨h1, _⟩ := gc_select_victims_full np p _ _ 0 bab n hv2
            rw [punit_pairs_length] at h1
            omega
        subst hnN
        obtain ⟨hVout, _, _⟩ := gc_victims_out np p bab hg hok hd hv
        have hok0 : alloc_ok np { p with gc_bab := bab } :=
          alloc_ok_of_frame np p _ hok rfl rfl rfl rfl rfl rfl rfl rfl
        have hV0 : victims_out np { p with gc_bab := bab }
            (gc_victim_list bab (nr_units np)) := hVout
        cases hrd : gc_build_reads np { p with gc_bab := bab } (List.range (nr_units np)) hlm 0
          with
        | none => rw [hrd] at hrun; cases hrun
        | some z =>
          obtain ⟨hlm1, nr⟩ := z
          rw [hrd] at hrun
          simp only at hrun
          cases hmv : gc_move_phase np llm { p with gc_bab := bab } hlm1 [gc_event.flush] nr
            with
          | none => rw [hmv] at hrun; cases hrun
          | some w =>
            obtain ⟨p2, hlm2, ev2⟩ := w
            rw [hmv] at hrun
            simp only at hrun
            cases her : gc_erase_phase llm p2 hlm2 ev2 (nr_units np) with
            | none => rw [her] at hrun; cases hrun
            | some t =>
              obtain ⟨p3, hlm3, ev3⟩ := t
              rw [her] at hrun
              simp only [Option.some.injEq, Prod.mk.injEq] at hrun
              obtain ⟨_, _, _, hev⟩ := hrun
              subst hev
              rw [List.range_eq_range'] at hrd
              obtain ⟨_, _, _, hsound, _⟩ :=
                gc_build_reads_spec np { p with gc_bab := bab } (nr_units np) 0 hlm 0 hlm1 nr hrd
              obtain ⟨m1c, m2g, _⟩ :=
                gc_move_phase_spec np hg llm (gc_victim_list bab (nr_units np)) _ p2 hlm1 hlm2 _
                  ev2 nr hmv hok0 hV0
              obtain ⟨_, _, _, _, e5c⟩ := gc_erase_phase_spec llm p2 p3 hlm2 hlm3 ev2 ev3 _ her
              obtain ⟨_, n2⟩ := gc_move_phase_no_erase np llm _ p2 hlm1 hlm2 _ ev2 nr hmv (by
                intro i hi
                obtain ⟨r1, hr1, ht, _⟩ := hsound i (Nat.zero_le _) hi
                exact ⟨r1, hr1, ht⟩)
              rcases e5c x hx with hx2 | ⟨k, v, hk, hbk, hcv⟩
              · rw [n2] at hx2
                simp [erase_calls, event_erase_call] at hx2
              · rw [m2g] at hbk
                simp only at hbk
                rw [m1c] at hcv
                have hvV : v ∈ gc_victim_list bab (nr_units np) :=
                  (mem_gc_victim_list bab _ v).2 ⟨k, hk, hbk⟩
                have hul : u < nr_units np := by
                  rcases Nat.lt_or_ge u p.ac_bab.length with h | h
                  · rw [hok.2.2.2.1] at h; exact h
                  · rw [List.getElem?_eq_none h] at hur; cases hur
                intro hcx
                rw [hcx] at hrc
                have := nodup_getElem?_inj (abm_coords p.bai) hnd r v _ hrc hcv
                subst this
                exact (hVout r hvV u hul).1 hur

/-- C23 at the pass on `G_state`: the victim of unit 0 is block 0, the active
block is block 1, and no call of `erase_block` of the pass is on the block of a
slot of `ac_bab`. -/
theorem victim_is_not_active_witness :
    geometry_ok G_np ∧
    __bdbm_page_ftl_victim_selection_greedy G_np G_state 0 0 = some (some 0) ∧
    G_state.ac_bab[0]? = some (some 1) ∧
    erase_calls G_gc.2.2.2 = [(0, 0, 0, 0), (1, 0, 0, 1)] ∧
    ∀ x, x ∈ erase_calls G_gc.2.2.2 → ∀ (u r : Nat) (c : Nat × Nat × Nat),
      G_state.ac_bab[u]? = some (some r) → (abm_coords G_state.bai)[r]? = some c →
      c ≠ (x.1, x.2.1, x.2.2.1) :=
  ⟨by decide, by decide, by decide, by decide,
    (victim_is_not_active G_np G_state (by decide) G_state_alloc_ok G_state_dirty_ok).2
      G_llm (fresh_llm_reqs 4) G_gc.2.2.1 G_gc.1 G_gc.2.1 G_gc.2.2.2 (by decide)⟩

/-! ## The read requests of a GC pass -/

/-- The record of the passes does not change what the loop computes. -/
theorem store_loop_calls_fst (np : nand_params_t) :
    ∀ (fuel : Nat) (p : bdbm_page_ftl_private),
      (store_loop_calls np fuel p).map Prod.fst = store_loop np fuel p := by
  intro fuel
  induction fuel with
  | zero => intro p; rfl
  | succ fuel ih =>
    intro p
    rw [store_loop_calls, store_loop]
    by_cases hC : np.nr_channels = 0
    · simp only [hC, if_true, Option.map_none']
    · simp only [hC, if_false]
      cases p.ac_bab[u64 (p.curr_puid % np.nr_channels * np.nr_chips_per_channel
          + p.curr_puid / np.nr_channels)]? with
      | none => rfl
      | some o =>
        cases o with
        | none => rfl
        | some r =>
          simp only
          cases p.bai.blocks[r]? with
          | none => rfl
          | some b =>
            simp only
            split
            · rfl
            · split
              · split
                · rfl
                · rw [Option.map_map, ← ih]; rfl
              · rw [Option.map_map, ← ih]; rfl

/-- One pass of the loop of `bdbm_page_ftl_store` on a well-formed state: it
calls `invalidate_page` on page `curr_page_ofs` of the active block of the unit
of the cursor and moves the cursor on. -/
theorem store_loop_calls_step (np : nand_params_t) (p : bdbm_page_ftl_private) (fuel : Nat)
    (hg : geometry_ok np) (hok : alloc_ok np p) :
    ∃ (r : Nat) (b : bdbm_abm_block_t),
      p.ac_bab[abm_unit np (p.curr_puid % np.nr_channels) (p.curr_puid / np.nr_channels)]?
        = some (some r) ∧
      p.bai.blocks[r]? = some b ∧ b.channel_no = p.curr_puid % np.nr_channels ∧
      b.chip_no = p.curr_puid / np.nr_channels ∧
      store_loop_calls np (fuel + 1) p =
        if p.curr_puid + 1 = nr_units np then
          if p.curr_page_ofs + 1 = np.nr_pages_per_block then
            some ({ p with bai := bdbm_abm_invalidate_page p.bai b.channel_no b.chip_no b.block_no p.curr_page_ofs, curr_puid := 0, curr_page_ofs := 0 }, [(b.channel_no, b.chip_no, b.block_no, p.curr_page_ofs)])
          else (store_loop_calls np fuel { p with bai := bdbm_abm_invalidate_page p.bai b.channel_no b.chip_no b.block_no p.curr_page_ofs, curr_puid := 0, curr_page_ofs := p.curr_page_ofs + 1 }).map
            fun x => (x.1, (b.channel_no, b.chip_no, b.block_no, p.curr_page_ofs) :: x.2)
        else (store_loop_calls np fuel { p with bai := bdbm_abm_invalidate_page p.bai b.channel_no b.chip_no b.block_no p.curr_page_ofs, curr_puid := p.curr_puid + 1 }).map
          fun x => (x.1, (b.channel_no, b.chip_no, b.block_no, p.curr_page_ofs) :: x.2) := by
  obtain ⟨hC, hK, hP, hN, hP64⟩ := hg
  have hpu := hok.2.1
  have hofs := hok.2.2.1
  obtain ⟨r, b, hr, hb, hbch, hbchip, _⟩ :=
    active_block_at np p ⟨hC, hK, hP, hN, hP64⟩ hok p.curr_puid hpu
  obtain ⟨hslot, _⟩ := slot_lt np p.curr_puid hC hpu
  have hu1 : u64 (p.curr_puid % np.nr_channels * np.nr_chips_per_channel
      + p.curr_puid / np.nr_channels)
      = abm_unit np (p.curr_puid % np.nr_channels) (p.curr_puid / np.nr_channels) :=
    u64_of_lt (by unfold abm_unit at hslot; omega)
  have hu2 : u64 (p.curr_puid + 1) = p.curr_puid + 1 := u64_of_lt (by omega)
  have hu3 : u64 (p.curr_page_ofs + 1) = p.curr_page_ofs + 1 := u64_of_lt (by omega)
  have hC0 : ¬ np.nr_channels = 0 := by omega
  have hbug : ¬ (b.channel_no ≠ p.curr_puid % np.nr_channels ∨
      b.chip_no ≠ p.curr_puid / np.nr_channels) := by
    rw [hbch, hbchip]; simp
  refine ⟨r, b, hr, hb, hbch, hbchip, ?_⟩
  rw [store_loop_calls]
  simp only [hC0, if_false, hu1, hr, hb, hbug, hu2, hu3, hok.1]

/-- The page and the unit of pass number `t` of a walk that starts at page 0 of
unit 0. -/
theorem pass_index (N ofs puid : Nat) (hpu : puid < N) :
    (ofs * N + puid) / N = ofs ∧ (ofs * N + puid) % N = puid := by
  have hN : 0 < N := by omega
  constructor
  · rw [Nat.add_comm, Nat.add_mul_div_right _ _ hN, Nat.div_eq_of_lt hpu, Nat.zero_add]
  · rw [Nat.add_comm, Nat.add_mul_mod_self_right, Nat.mod_eq_of_lt hpu]

/-- The loop of `bdbm_page_ftl_store` on a well-formed state with `k + 1` pages
left at the cursor: with less fuel than `k * N + (N - curr_puid)` it does not
return; with that much it returns after so many passes, pass `i` calling
`invalidate_page` on page `t / N` of the active block of unit `t % N`, where
`t = curr_page_ofs * N + curr_puid + i`. -/
theorem store_loop_calls_spec (np : nand_params_t) (hg : geometry_ok np) :
    ∀ (fuel k : Nat) (p : bdbm_page_ftl_private), alloc_ok np p →
      p.curr_page_ofs + k + 1 = np.nr_pages_per_block →
      (fuel < k * nr_units np + (nr_units np - p.curr_puid) →
        store_loop_calls np fuel p = none) ∧
      (k * nr_units np + (nr_units np - p.curr_puid) ≤ fuel →
        ∃ p1 calls, store_loop_calls np fuel p = some (p1, calls) ∧
          calls.length = k * nr_units np + (nr_units np - p.curr_puid) ∧
          p1.curr_puid = 0 ∧ p1.curr_page_ofs = 0 ∧
          p1.bai = abm_after_calls p.bai calls ∧
          ∀ (i : Nat) (c : Nat × Nat × Nat × Nat), calls[i]? = some c →
            c.2.2.2 = (p.curr_page_ofs * nr_units np + p.curr_puid + i) / nr_units np ∧
            c.1 = (p.curr_page_ofs * nr_units np + p.curr_puid + i) % nr_units np
                    % np.nr_channels ∧
            c.2.1 = (p.curr_page_ofs * nr_units np + p.curr_puid + i) % nr_units np
                    / np.nr_channels ∧
            ∃ r, p.ac_bab[abm_unit np c.1 c.2.1]? = some (some r) ∧
              (abm_coords p.bai)[r]? = some (c.1, c.2.1, c.2.2.1)) := by
  intro fuel
  induction fuel with
  | zero =>
    intro k p hok _
    have := hok.2.1
    exact ⟨fun _ => rfl, fun hf => by omega⟩
  | succ fuel ih =>
    intro k p hok hk
    have hpu := hok.2.1
    obtain ⟨r, b, hr, hb, hbch, hbchip, hstep⟩ := store_loop_calls_step np p fuel hg hok
    obtain ⟨e5, e6, e7⟩ :=
      abm_invalidate_page_frame p.bai b.channel_no b.chip_no b.block_no p.curr_page_ofs
    have hokb : alloc_ok np { p with bai := bdbm_abm_invalidate_page p.bai b.channel_no b.chip_no b.block_no p.curr_page_ofs } :=
      alloc_ok_of_frame np p _ hok rfl rfl rfl rfl e5 e6 e7 rfl
    obtain ⟨a1, a2, a3, a4, a5, a6, a7⟩ := hokb
    obtain ⟨q1, q2⟩ := pass_index (nr_units np) p.curr_page_ofs p.curr_puid hpu
    have hcoord : (abm_coords p.bai)[r]? = some (b.channel_no, b.chip_no, b.block_no) := by
      unfold abm_coords
      rw [List.getElem?_map, hb]; rfl
    have hhead : (b.channel_no, b.chip_no, b.block_no, p.curr_page_ofs).2.2.2
          = (p.curr_page_ofs * nr_units np + p.curr_puid + 0) / nr_units np ∧
        (b.channel_no, b.chip_no, b.block_no, p.curr_page_ofs).1
          = (p.curr_page_ofs * nr_units np + p.curr_puid + 0) % nr_units np
            % np.nr_channels ∧
        (b.channel_no, b.chip_no, b.block_no, p.curr_page_ofs).2.1
          = (p.curr_page_ofs * nr_units np + p.curr_puid + 0) % nr_units np
            / np.nr_channels ∧
        ∃ r, p.ac_bab[abm_unit np b.channel_no b.chip_no]? = some (some r) ∧
          (abm_coords p.bai)[r]? = some (b.channel_no, b.chip_no, b.block_no) := by
      rw [Nat.add_zero, q1, q2]
      refine ⟨rfl, hbch, hbchip, r, ?_, hcoord⟩
      rw [hbch, hbchip]; exact hr
    rw [hstep]
    by_cases h1 : p.curr_puid + 1 = nr_units np
    · rw [if_pos h1]
      by_cases h2 : p.curr_page_ofs + 1 = np.nr_pages_per_block
      · rw [if_pos h2]
        have hk0 : k = 0 := by omega
        subst hk0
        refine ⟨fun hf => by omega, fun _ => ⟨_, _, rfl, by simp only [List.length_singleton]; omega,
          rfl, rfl, rfl, ?_⟩⟩
        intro i c hc
        cases i with
        | zero =>
          simp only [List.getElem?_cons_zero, Option.some.injEq] at hc
          subst hc
          exact hhead
        | succ i => simp at hc
      · rw [if_neg h2]
        cases k with
        | zero => omega
        | succ k =>
          have hok2 : alloc_ok np
              { p with bai := bdbm_abm_invalidate_page p.bai b.channel_no b.chip_no b.block_no p.curr_page_ofs, curr_puid := 0, curr_page_ofs := p.curr_page_ofs + 1 } :=
            ⟨a1, by show 0 < nr_units np; omega,
              by show p.curr_page_ofs + 1 < np.nr_pages_per_block; omega, a4, a5, a6, a7⟩
          obtain ⟨i1, i2⟩ := ih k _ hok2
            (by show p.curr_page_ofs + 1 + k + 1 = np.nr_pages_per_block; omega)
          simp only [Nat.sub_zero] at i1 i2
          rw [Nat.succ_mul]
          constructor
          · intro hf
            rw [i1 (by omega)]; rfl
          · intro hf
            obtain ⟨p1, calls, hrun, g1, g2, g3, g4, g5⟩ := i2 (by omega)
            rw [hrun]
            refine ⟨p1, _, rfl, by rw [List.length_cons, g1]; omega, g2, g3, ?_, ?_⟩
            · rw [g4]; rfl
            · intro i c hc
              cases i with
              | zero =>
                simp only [List.getElem?_cons_zero, Option.some.injEq] at hc
                subst hc
                exact hhead
              | succ i =>
                rw [List.getElem?_cons_succ] at hc
                obtain ⟨f1, f2, f3, r2, f4, f5⟩ := g5 i c hc
                have ht : (p.curr_page_ofs + 1) * nr_units np + 0 + i
                    = p.curr_page_ofs * nr_units np + p.curr_puid + (i + 1) := by
                  rw [Nat.succ_mul]; omega
                rw [ht] at f1 f2 f3
                refine ⟨f1, f2, f3, r2, f4, ?_⟩
                rw [← e7]; exact f5
    · rw [if_neg h1]
      have hok2 : alloc_ok np { p with bai := bdbm_abm_invalidate_page p.bai b.channel_no b.chip_no b.block_no p.curr_page_ofs, curr_puid := p.curr_puid + 1 } :=
        ⟨a1, by show p.curr_puid + 1 < nr_units np; omega, a3, a4, a5, a6, a7⟩
      obtain ⟨i1, i2⟩ := ih k _ hok2 hk
      constructor
      · intro hf
        rw [i1 (by show fuel < k * nr_units np + (nr_units np - (p.curr_puid + 1)); omega)]; rfl
      · intro hf
        obtain ⟨p1, calls, hrun, g1, g2, g3, g4, g5⟩ :=
          i2 (by show k * nr_units np + (nr_units np - (p.curr_puid + 1)) ≤ fuel; omega)
        rw [hrun]
        refine ⟨p1, _, rfl, ?_, g2, g3, ?_, ?_⟩
        · rw [List.length_cons, g1]
          show k * nr_units np + (nr_units np - (p.curr_puid + 1)) + 1 = _
          omega
        · rw [g4]; rfl
        · intro i c hc
          cases i with
          | zero =>
            simp only [List.getElem?_cons_zero, Option.some.injEq] at hc
            subst hc
            exact hhead
          | succ i =>
            rw [List.getElem?_cons_succ] at hc
            obtain ⟨f1, f2, f3, r2, f4, f5⟩ := g5 i c hc
            have ht : p.curr_page_ofs * nr_units np + (p.curr_puid + 1) + i
                = p.curr_page_ofs * nr_units np + p.curr_puid + (i + 1) := by omega
            refine ⟨ht ▸ f1, ht ▸ f2, ht ▸ f3, r2, f4, ?_⟩
            rw [← e7]; exact f5

/-- More fuel does not change what the loop of `bdbm_page_ftl_store` returns. -/
theorem store_loop_mono (np : nand_params_t) :
    ∀ (fuel : Nat) (p p1 : bdbm_page_ftl_private), store_loop np fuel p = some p1 →
      ∀ m, store_loop np (fuel + m) p = some p1 := by
  intro fuel
  induction fuel with
  | zero => intro p p1 h; cases h
  | succ fuel ih =>
    intro p p1 h m
    rw [show fuel + 1 + m = (fuel + m) + 1 by omega]
    rw [store_loop] at h ⊢
    by_cases hC : np.nr_channels = 0
    · simp only [hC, if_true] at h; cases h
    · simp only [hC, if_false] at h ⊢
      cases hs : p.ac_bab[u64 (p.curr_puid % np.nr_channels * np.nr_chips_per_channel
          + p.curr_puid / np.nr_channels)]? with
      | none => rw [hs] at h; cases h
      | some o =>
        rw [hs] at h
        cases o with
        | none => cases h
        | some r =>
          simp only at h ⊢
          cases hb : p.bai.blocks[r]? with
          | none => rw [hb] at h; cases h
          | some b =>
            rw [hb] at h
            simp only at h ⊢
            split at h
            · cases h
            · rename_i hbug
              rw [if_neg hbug]
              split at h
              · rename_i h1
                rw [if_pos h1]
                split at h
                · rename_i h2
                  rw [if_pos h2]; exact h
                · rename_i h2
                  rw [if_neg h2]; exact ih _ _ h m
              · rename_i h1
                rw [if_neg h1]; exact ih _ _ h m

/-- The state of scenario S1 after eight writes is well formed. -/
theorem S1_written_alloc_ok : alloc_ok S1_np S1_written := by
  have hfresh := create_ok S1_np (by decide) S1_fresh (by decide)
  have hH : hist_ok S1_np S1_fresh [] := fun a ha => by simp at ha
  have hM := create_mapping_ok S1_np S1_fresh (by decide)
  obtain ⟨_, hokw, _, _⟩ := host_run_ok S1_np (by decide)
    [host_op.write 0, host_op.write 1, host_op.write 2, host_op.write 3, host_op.write 4,
     host_op.write 5, host_op.write 6, host_op.write 7] S1_fresh S1_written [] hfresh.1 hH hM
    (by decide)
  exact hokw

/-- C30: on a well-formed state (cursor inside the geometry, an active block for
every unit) the loop of `bdbm_page_ftl_store` makes exactly
`(nr_pages_per_block - curr_page_ofs) * nr_punits - curr_puid` passes: with less
fuel it does not return, with that much or more it returns.  Each pass calls
`invalidate_page` once, on a page at or after the cursor of an active block, no
two passes on the same (block, page), and the loop leaves `curr_puid = 0` and
`curr_page_ofs = 0`. -/
theorem store_loop_iterations (np : nand_params_t) (p : bdbm_page_ftl_private)
    (hg : geometry_ok np) (hok : alloc_ok np p) :
    ∃ (p1 : bdbm_page_ftl_private) (calls : List (Nat × Nat × Nat × Nat)),
      store_loop_calls np
        ((np.nr_pages_per_block - p.curr_page_ofs) * p.nr_punits - p.curr_puid) p
        = some (p1, calls) ∧
      (∀ fuel, fuel < (np.nr_pages_per_block - p.curr_page_ofs) * p.nr_punits - p.curr_puid →
        store_loop np fuel p = none) ∧
      (∀ fuel, (np.nr_pages_per_block - p.curr_page_ofs) * p.nr_punits - p.curr_puid ≤ fuel →
        store_loop np fuel p = some p1) ∧
      calls.length = (np.nr_pages_per_block - p.curr_page_ofs) * p.nr_punits - p.curr_puid ∧
      calls.Nodup ∧
      (∀ c ∈ calls, p.curr_page_ofs ≤ c.2.2.2 ∧ c.2.2.2 < np.nr_pages_per_block ∧
        ∃ r, p.ac_bab[abm_unit np c.1 c.2.1]? = some (some r) ∧
          (abm_coords p.bai)[r]? = some (c.1, c.2.1, c.2.2.1)) ∧
      p1.bai = abm_after_calls p.bai calls ∧
      p1.curr_puid = 0 ∧ p1.curr_page_ofs = 0 := by
  have hN := hok.1
  have hpu := hok.2.1
  have hofs := hok.2.2.1
  have hN0 : 0 < nr_units np := by omega
  obtain ⟨k, hk⟩ : ∃ k, p.curr_page_ofs + k + 1 = np.nr_pages_per_block :=
    ⟨np.nr_pages_per_block - p.curr_page_ofs - 1, by omega⟩
  have hn : (np.nr_pages_per_block - p.curr_page_ofs) * p.nr_punits - p.curr_puid
      = k * nr_units np + (nr_units np - p.curr_puid) := by
    rw [hN, show np.nr_pages_per_block - p.curr_page_ofs = k + 1 by omega, Nat.succ_mul]
    omega
  rw [hn]
  obtain ⟨p1, calls, hrun, g1, g2, g3, g4, g5⟩ :=
    (store_loop_calls_spec np hg _ k p hok hk).2 (Nat.le_refl _)
  have hrun1 : store_loop np (k * nr_units np + (nr_units np - p.curr_puid)) p = some p1 := by
    rw [← store_loop_calls_fst, hrun]; rfl
  have hPN : np.nr_pages_per_block * nr_units np
      = p.curr_page_ofs * nr_units np + k * nr_units np + nr_units np := by
    rw [← hk, Nat.add_mul, Nat.add_mul, Nat.one_mul]
  refine ⟨p1, calls, hrun, ?_, ?_, g1, ?_, ?_, g4, g2, g3⟩
  · intro fuel hf
    rw [← store_loop_calls_fst, (store_loop_calls_spec np hg fuel k p hok hk).1 hf]; rfl
  · intro fuel hf
    obtain ⟨m, hm⟩ := Nat.exists_eq_add_of_le hf
    rw [hm]
    exact store_loop_mono np _ p p1 hrun1 m
  · rw [List.nodup_iff_getElem?_ne_getElem?]
    intro i j hij hj heq
    have hi : i < calls.length := by omega
    have ci : calls[i]? = some calls[i] := List.getElem?_eq_getElem hi
    have cj : calls[j]? = some calls[i] := by rw [← heq]; exact ci
    obtain ⟨a1, a2, a3, _⟩ := g5 i _ ci
    obtain ⟨b1, b2, b3, _⟩ := g5 j _ cj
    have hmod : (p.curr_page_ofs * nr_units np + p.curr_puid + i) % nr_units np
        = (p.curr_page_ofs * nr_units np + p.curr_puid + j) % nr_units np := by
      rw [← Nat.div_add_mod ((p.curr_page_ofs * nr_units np + p.curr_puid + i) % nr_units np)
            np.nr_channels,
          ← Nat.div_add_mod ((p.curr_page_ofs * nr_units np + p.curr_puid + j) % nr_units np)
            np.nr_channels, ← a2, ← a3, ← b2, ← b3]
    have ht : p.curr_page_ofs * nr_units np + p.curr_puid + i
        = p.curr_page_ofs * nr_units np + p.curr_puid + j := by
      rw [← Nat.div_add_mod (p.curr_page_ofs * nr_units np + p.curr_puid + i) (nr_units np),
          ← Nat.div_add_mod (p.curr_page_ofs * nr_units np + p.curr_puid + j) (nr_units np),
          ← a1, ← b1, hmod]
    omega
  · intro c hc
    obtain ⟨i, hi, hci⟩ := List.getElem_of_mem hc
    have ci : calls[i]? = some c := by rw [List.getElem?_eq_getElem hi, hci]
    obtain ⟨a1, _, _, hr⟩ := g5 i c ci
    rw [g1] at hi
    refine ⟨?_, ?_, hr⟩
    · rw [a1, Nat.le_div_iff_mul_le hN0]
      omega
    · rw [a1, Nat.div_lt_iff_lt_mul hN0, hPN]
      omega

/-- C30, on the state of scenario S1 after eight writes (cursor at unit 0 of
page 2, four units, four pages per block): eight passes. -/
theorem store_loop_iterations_witness :
    (S1_np.nr_pages_per_block - S1_written.curr_page_ofs) * S1_written.nr_punits
      - S1_written.curr_puid = 8 ∧
    ∃ (p1 : bdbm_page_ftl_private) (calls : List (Nat × Nat × Nat × Nat)),
      store_loop_calls S1_np
        ((S1_np.nr_pages_per_block - S1_written.curr_page_ofs) * S1_written.nr_punits
          - S1_written.curr_puid) S1_written = some (p1, calls) ∧
      (∀ fuel, fuel < (S1_np.nr_pages_per_block - S1_written.curr_page_ofs)
          * S1_written.nr_punits - S1_written.curr_puid →
        store_loop S1_np fuel S1_written = none) ∧
      (∀ fuel, (S1_np.nr_pages_per_block - S1_written.curr_page_ofs) * S1_written.nr_punits
          - S1_written.curr_puid ≤ fuel →
        store_loop S1_np fuel S1_written = some p1) ∧
      calls.length = (S1_np.nr_pages_per_block - S1_written.curr_page_ofs)
        * S1_written.nr_punits - S1_written.curr_puid ∧
      calls.Nodup ∧
      (∀ c ∈ calls, S1_written.curr_page_ofs ≤ c.2.2.2 ∧ c.2.2.2 < S1_np.nr_pages_per_block ∧
        ∃ r, S1_written.ac_bab[abm_unit S1_np c.1 c.2.1]? = some (some r) ∧
          (abm_coords S1_written.bai)[r]? = some (c.1, c.2.1, c.2.2.1)) ∧
      p1.bai = abm_after_calls S1_written.bai calls ∧
      p1.curr_puid = 0 ∧ p1.curr_page_ofs = 0 :=
  ⟨by decide, store_loop_iterations S1_np S1_written (by decide) S1_written_alloc_ok⟩

/-! ## The `pst` entries after `store` -/

/-- The inner loop of the read phase builds at most one request per page, keeps
the length of the pool, and does not look at the pool beyond the requests it
builds. -/
theorem gc_build_reads_block_pool (b : bdbm_abm_block_t) (extra : List bdbm_llm_req_t) :
    ∀ (js : List Nat) (hlm : List bdbm_llm_req_t) (n : Nat),
      (∀ (hlm1 : List bdbm_llm_req_t) (n1 : Nat),
        gc_build_reads_block b js hlm n = some (hlm1, n1) →
        n1 ≤ n + js.length ∧ hlm1.length = hlm.length) ∧
      (n + js.length ≤ hlm.length →
        gc_build_reads_block b js (hlm ++ extra) n
          = (gc_build_reads_block b js hlm n).map fun x => (x.1 ++ extra, x.2)) := by
  intro js
  induction js with
  | nil =>
    intro hlm n
    refine ⟨?_, fun _ => rfl⟩
    intro hlm1 n1 h
    simp only [gc_build_reads_block, Option.some.injEq, Prod.mk.injEq] at h
    obtain ⟨h1, h2⟩ := h
    subst h1 h2
    exact ⟨Nat.le_add_right _ _, rfl⟩
  | cons j rest ih =>
    intro hlm n
    simp only [gc_build_reads_block, List.length_cons]
    cases hst : b.pst[j]? with
    | none => exact ⟨fun _ _ h => (by cases h), fun _ => rfl⟩
    | some st =>
      simp only
      by_cases hinv : st ≠ bdbm_abm_page_state.INVALID
      · simp only [if_pos hinv]
        constructor
        · intro hlm1 n1 h
          cases hr : hlm[n]? with
          | none => rw [hr] at h; cases h
          | some r =>
            rw [hr] at h
            obtain ⟨g1, g2⟩ := (ih _ (n + 1)).1 hlm1 n1 h
            rw [List.length_set] at g2
            exact ⟨by omega, g2⟩
        · intro hlen
          rw [List.getElem?_append_left (by omega)]
          cases hr : hlm[n]? with
          | none => rfl
          | some r =>
            simp only
            rw [List.set_append_left _ _ (by omega)]
            exact (ih _ (n + 1)).2 (by rw [List.length_set]; omega)
      · simp only [if_neg hinv]
        constructor
        · intro hlm1 n1 h
          obtain ⟨g1, g2⟩ := (ih hlm n).1 hlm1 n1 h
          exact ⟨by omega, g2⟩
        · intro hlen
          exact (ih hlm n).2 (by omega)

/-- The read phase over the slots `is` builds at most `nr_pages_per_block`
requests per slot, keeps the length of the pool, and does not look at the pool
beyond these requests. -/
theorem gc_build_reads_pool (np : nand_params_t) (p : bdbm_page_ftl_private)
    (extra : List bdbm_llm_req_t) :
    ∀ (is : List Nat) (hlm : List bdbm_llm_req_t) (n : Nat),
      (∀ (hlm1 : List bdbm_llm_req_t) (n1 : Nat),
        gc_build_reads np p is hlm n = some (hlm1, n1) →
        n1 ≤ n + is.length * np.nr_pages_per_block ∧ hlm1.length = hlm.length) ∧
      (n + is.length * np.nr_pages_per_block ≤ hlm.length →
        gc_build_reads np p is (hlm ++ extra) n
          = (gc_build_reads np p is hlm n).map fun x => (x.1 ++ extra, x.2)) := by
  intro is
  induction is with
  | nil =>
    intro hlm n
    refine ⟨?_, fun _ => rfl⟩
    intro hlm1 n1 h
    simp only [gc_build_reads, Option.some.injEq, Prod.mk.injEq] at h
    obtain ⟨h1, h2⟩ := h
    subst h1 h2
    exact ⟨Nat.le_add_right _ _, rfl⟩
  | cons i rest ih =>
    intro hlm n
    simp only [gc_build_reads, List.length_cons, Nat.succ_mul]
    cases hs : p.gc_bab[i]? with
    | none => exact ⟨fun _ _ h => (by cases h), fun _ => rfl⟩
    | some o =>
      cases o with
      | none =>
        simp only
        refine ⟨?_, fun _ => rfl⟩
        intro hlm1 n1 h
        simp only [Option.some.injEq, Prod.mk.injEq] at h
        obtain ⟨h1, h2⟩ := h
        subst h1 h2
        exact ⟨Nat.le_add_right _ _, rfl⟩
      | some v =>
        simp only
        cases hb : p.bai.blocks[v]? with
        | none => exact ⟨fun _ _ h => (by cases h), fun _ => rfl⟩
        | some b =>
          simp only
          obtain ⟨b1, b2⟩ :=
            gc_build_reads_block_pool b extra (List.range np.nr_pages_per_block) hlm n
          rw [List.length_range] at b1 b2
          constructor
          · intro hlm1 n1 h
            cases hblk : gc_build_reads_block b (List.range np.nr_pages_per_block) hlm n with
            | none => rw [hblk] at h; cases h
            | some x =>
              rw [hblk] at h
              obtain ⟨c1, c2⟩ := b1 x.1 x.2 hblk
              obtain ⟨g1, g2⟩ := (ih x.1 x.2).1 hlm1 n1 h
              exact ⟨by omega, g2.trans c2⟩
          · intro hlen
            rw [b2 (by omega)]
            cases hblk : gc_build_reads_block b (List.range np.nr_pages_per_block) hlm n with
            | none => rfl
            | some x =>
              obtain ⟨c1, c2⟩ := b1 x.1 x.2 hblk
              simp only [Option.map_some']
              exact (ih x.1 x.2).2 (by omega)

/-- The loop that sends the requests `idxs` keeps the length of the pool and
does not look at the pool beyond the requests it sends. -/
theorem gc_send_pool (llm : llm_inf_t) (t : bdbm_req_type) (extra : List bdbm_llm_req_t) :
    ∀ (idxs : List Nat) (hlm : List bdbm_llm_req_t) (ev : List gc_event),
      (∀ (hlm1 : List bdbm_llm_req_t) (ev1 : List gc_event),
        gc_send llm t idxs hlm ev = some (hlm1, ev1) → hlm1.length = hlm.length) ∧
      ((∀ i ∈ idxs, i < hlm.length) →
        gc_send llm t idxs (hlm ++ extra) ev
          = (gc_send llm t idxs hlm ev).map fun x => (x.1 ++ extra, x.2)) := by
  intro idxs
  induction idxs with
  | nil =>
    intro hlm ev
    refine ⟨?_, fun _ => rfl⟩
    intro hlm1 ev1 h
    simp only [gc_send, Option.some.injEq, Prod.mk.injEq] at h
    rw [← h.1]
  | cons i rest ih =>
    intro hlm ev
    simp only [gc_send]
    constructor
    · intro hlm1 ev1 h
      cases hr : hlm[i]? with
      | none => rw [hr] at h; cases h
      | some r =>
        rw [hr] at h
        have := (ih _ _).1 hlm1 ev1 h
        rw [List.length_set] at this
        exact this
    · intro hidx
      have hi := hidx i (List.mem_cons_self _ _)
      rw [List.getElem?_append_left hi]
      cases hr : hlm[i]? with
      | none => rfl
      | some r =>
        simp only
        rw [List.set_append_left _ _ hi]
        exact (ih _ _).2 (fun i2 hi2 => by
          rw [List.length_set]; exact hidx i2 (List.mem_cons_of_mem _ hi2))

/-- The write phase over the requests `idxs` keeps the length of the pool and
does not look at the pool beyond these requests. -/
theorem gc_build_writes_pool (np : nand_params_t) (extra : List bdbm_llm_req_t) :
    ∀ (idxs : List Nat) (p : bdbm_page_ftl_private) (hlm : List bdbm_llm_req_t),
      (∀ (p1 : bdbm_page_ftl_private) (hlm1 : List bdbm_llm_req_t),
        gc_build_writes np idxs p hlm = some (p1, hlm1) → hlm1.length = hlm.length) ∧
      ((∀ i ∈ idxs, i < hlm.length) →
        gc_build_writes np idxs p (hlm ++ extra)
          = (gc_build_writes np idxs p hlm).map fun x => (x.1, x.2 ++ extra)) := by
  intro idxs
  induction idxs with
  | nil =>
    intro p hlm
    refine ⟨?_, fun _ => rfl⟩
    intro p1 hlm1 h
    simp only [gc_build_writes, Option.some.injEq, Prod.mk.injEq] at h
    rw [← h.2]
  | cons i rest ih =>
    intro p hlm
    simp only [gc_build_writes]
    constructor
    · intro p1 hlm1 h
      cases hr : hlm[i]? with
      | none => rw [hr] at h; cases h
      | some r =>
        rw [hr] at h
        simp only at h
        split at h
        · cases h
        · split at h
          · cases h
          · split at h
            · cases h
            · split at h
              · cases h
              · split at h
                · cases h
                · have := (ih _ _).1 p1 hlm1 h
                  rw [List.length_set] at this
                  exact this
    · intro hidx
      have hi := hidx i (List.mem_cons_self _ _)
      rw [List.getElem?_append_left hi]
      cases hr : hlm[i]? with
      | none => rfl
      | some r =>
        simp only
        split
        · rfl
        · split
          · rfl
          · split
            · rfl
            · split
              · rfl
              · split
                · rfl
                · rw [List.set_append_left _ _ hi]
                  exact (ih _ _).2 (fun i2 hi2 => by
                    rw [List.length_set]; exact hidx i2 (List.mem_cons_of_mem _ hi2))

/-- The loop that builds the erase requests `idxs` keeps the length of the pool
and does not look at the pool beyond these requests. -/
theorem gc_build_erases_pool (p : bdbm_page_ftl_private) (extra : List bdbm_llm_req_t) :
    ∀ (idxs : List Nat) (hlm : List bdbm_llm_req_t),
      (∀ hlm1 : List bdbm_llm_req_t,
        gc_build_erases p idxs hlm = some hlm1 → hlm1.length = hlm.length) ∧
      ((∀ i ∈ idxs, i < hlm.length) →
        gc_build_erases p idxs (hlm ++ extra)
          = (gc_build_erases p idxs hlm).map fun x => x ++ extra) := by
  intro idxs
  induction idxs with
  | nil =>
    intro hlm
    refine ⟨?_, fun _ => rfl⟩
    intro hlm1 h
    simp only [gc_build_erases, Option.some.injEq] at h
    rw [← h]
  | cons i rest ih =>
    intro hlm
    simp only [gc_build_erases]
    cases hs : p.gc_bab[i]? with
    | none => exact ⟨fun _ h => (by cases h), fun _ => rfl⟩
    | some o =>
      cases o with
      | none => exact ⟨fun _ h => (by cases h), fun _ => rfl⟩
      | some v =>
        simp only
        constructor
        · intro hlm1 h
          cases hb : p.bai.blocks[v]? with
          | none => rw [hb] at h; cases h
          | some b =>
            cases hr : hlm[i]? with
            | none => rw [hb, hr] at h; cases h
            | some r =>
              rw [hb, hr] at h
              have := (ih _).1 hlm1 h
              rw [List.length_set] at this
              exact this
        · intro hidx
          have hi := hidx i (List.mem_cons_self _ _)
          rw [List.getElem?_append_left hi]
          cases hb : p.bai.blocks[v]? with
          | none => rfl
          | some b =>
            cases hr : hlm[i]? with
            | none => rfl
            | some r =>
              simp only
              rw [List.set_append_left _ _ hi]
              exact (ih _).2 (fun i2 hi2 => by
                rw [List.length_set]; exact hidx i2 (List.mem_cons_of_mem _ hi2))

/-- The last loop of a pass reads the pool at the requests `idxs` only. -/
theorem gc_erase_blocks_pool (hlm extra : List bdbm_llm_req_t) :
    ∀ (idxs : List Nat) (p : bdbm_page_ftl_private) (ev : List gc_event),
      (∀ i ∈ idxs, i < hlm.length) →
      gc_erase_blocks (hlm ++ extra) idxs p ev = gc_erase_blocks hlm idxs p ev := by
  intro idxs
  induction idxs with
  | nil => intro p ev _; rfl
  | cons i rest ih =>
    intro p ev hidx
    have hi := hidx i (List.mem_cons_self _ _)
    simp only [gc_erase_blocks]
    rw [List.getElem?_append_left hi]
    cases hs : p.gc_bab[i]? with
    | none => rfl
    | some o =>
      cases o with
      | none => rfl
      | some v =>
        simp only
        cases hb : p.bai.blocks[v]? with
        | none => rfl
        | some b =>
          cases hr : hlm[i]? with
          | none => rfl
          | some r =>
            simp only
            exact ih _ _ (fun i2 hi2 => hidx i2 (List.mem_cons_of_mem _ hi2))

/-- The loops over the (channel, chip) pairs of the bad-block scan keep the
length of the pool and do not look at the pool beyond the request of each
pair. -/
theorem scan_build_erases_pool (np : nand_params_t) (block_no : Nat)
    (extra : List bdbm_llm_req_t) :
    ∀ (l : List (Nat × Nat)) (p : bdbm_page_ftl_private) (hlm : List bdbm_llm_req_t),
      (∀ (p1 : bdbm_page_ftl_private) (hlm1 : List bdbm_llm_req_t),
        scan_build_erases np block_no l p hlm = some (p1, hlm1) → hlm1.length = hlm.length) ∧
      ((∀ x ∈ l, u64 (x.1 * np.nr_chips_per_channel + x.2) < hlm.length) →
        scan_build_erases np block_no l p (hlm ++ extra)
          = (scan_build_erases np block_no l p hlm).map fun x => (x.1, x.2 ++ extra)) := by
  intro l
  induction l with
  | nil =>
    intro p hlm
    refine ⟨?_, fun _ => rfl⟩
    intro p1 hlm1 h
    simp only [scan_build_erases, Option.some.injEq, Prod.mk.injEq] at h
    rw [← h.2]
  | cons x rest ih =>
    intro p hlm
    obtain ⟨i, j⟩ := x
    simp only [scan_build_erases]
    cases hv : bdbm_abm_get_block p.bai i j block_no with
    | none => exact ⟨fun _ _ h => (by cases h), fun _ => rfl⟩
    | some v =>
      simp only
      by_cases hs : u64 (i * np.nr_chips_per_channel + j) < p.gc_bab.length
      · simp only [if_pos hs]
        constructor
        · intro p1 hlm1 h
          cases hb : p.bai.blocks[v]? with
          | none => rw [hb] at h; cases h
          | some b =>
            cases hr : hlm[u64 (i * np.nr_chips_per_channel + j)]? with
            | none => rw [hb, hr] at h; cases h
            | some r =>
              rw [hb, hr] at h
              have := (ih _ _).1 p1 hlm1 h
              rw [List.length_set] at this
              exact this
        · intro hidx
          have hi := hidx (i, j) (List.mem_cons_self _ _)
          rw [List.getElem?_append_left hi]
          cases hb : p.bai.blocks[v]? with
          | none => rfl
          | some b =>
            cases hr : hlm[u64 (i * np.nr_chips_per_channel + j)]? with
            | none => rfl
            | some r =>
              simp only
              rw [List.set_append_left _ _ hi]
              exact (ih _ _).2 (fun x2 hx2 => by
                rw [List.length_set]; exact hidx x2 (List.mem_cons_of_mem _ hx2))
      · simp only [if_neg hs]
        exact ⟨fun _ _ h => (by cases h), fun _ => rfl⟩

/-- The victim loops add at most one victim per (channel, chip) pair. -/
theorem gc_select_victims_count (np : nand_params_t) (p : bdbm_page_ftl_private) :
    ∀ (l : List (Nat × Nat)) (bab : List (Option Nat)) (n : Nat) (bab1 : List (Option Nat))
      (n1 : Nat), gc_select_victims np p l bab n = some (bab1, n1) → n1 ≤ n + l.length := by
  intro l
  induction l with
  | nil =>
    intro bab n bab1 n1 h
    simp only [gc_select_victims, Option.some.injEq, Prod.mk.injEq] at h
    rw [← h.2]; exact Nat.le_add_right _ _
  | cons x rest ih =>
    intro bab n bab1 n1 h
    obtain ⟨i, j⟩ := x
    simp only [gc_select_victims] at h
    cases hv : __bdbm_page_ftl_victim_selection_greedy np p i j with
    | none => rw [hv] at h; cases h
    | some o =>
      rw [hv] at h
      cases o with
      | none =>
        have := ih _ _ _ _ h
        rw [List.length_cons]; omega
      | some b =>
        simp only at h
        split at h
        · have := ih _ _ _ _ h
          rw [List.length_cons]; omega
        · cases h

/-- The part of a pass that moves the live pages uses the first `nr` requests
of the pool only. -/
theorem gc_move_phase_pool (np : nand_params_t) (llm : llm_inf_t) (p : bdbm_page_ftl_private)
    (hlm extra : List bdbm_llm_req_t) (ev : List gc_event) (nr : Nat)
    (hnr : nr ≤ hlm.length) :
    (∀ (p1 : bdbm_page_ftl_private) (hlm1 : List bdbm_llm_req_t) (ev1 : List gc_event),
      gc_move_phase np llm p hlm ev nr = some (p1, hlm1, ev1) → hlm1.length = hlm.length) ∧
    gc_move_phase np llm p (hlm ++ extra) ev nr
      = (gc_move_phase np llm p hlm ev nr).map fun x => (x.1, x.2.1 ++ extra, x.2.2) := by
  unfold gc_move_phase
  by_cases h0 : nr = 0
  · simp only [if_pos h0]
    refine ⟨?_, rfl⟩
    intro p1 hlm1 ev1 h
    simp only [Option.some.injEq, Prod.mk.injEq] at h
    rw [← h.2.1]
  · simp only [if_neg h0]
    have hidx : ∀ (l : List bdbm_llm_req_t), l.length = hlm.length →
        ∀ i ∈ List.range nr, i < l.length := by
      intro l hl i hi
      rw [hl]
      exact Nat.lt_of_lt_of_le (List.mem_range.1 hi) hnr
    obtain ⟨s1, s2⟩ := gc_send_pool llm bdbm_req_type.REQTYPE_GC_READ extra (List.range nr) hlm ev
    rw [s2 (hidx hlm rfl)]
    cases hs : gc_send llm bdbm_req_type.REQTYPE_GC_READ (List.range nr) hlm ev with
    | none => exact ⟨fun _ _ _ h => (by cases h), rfl⟩
    | some x =>
      obtain ⟨hlm1, ev1⟩ := x
      have l1 := s1 hlm1 ev1 hs
      simp only [Option.map_some']
      obtain ⟨w1, w2⟩ := gc_build_writes_pool np extra (List.range nr) p hlm1
      rw [w2 (hidx hlm1 l1)]
      cases hw : gc_build_writes np (List.range nr) p hlm1 with
      | none => exact ⟨fun _ _ _ h => (by cases h), rfl⟩
      | some y =>
        obtain ⟨p1, hlm2⟩ := y
        have l2 := (w1 p1 hlm2 hw).trans l1
        simp only [Option.map_some']
        obtain ⟨t1, t2⟩ :=
          gc_send_pool llm bdbm_req_type.REQTYPE_GC_WRITE extra (List.range nr) hlm2 ev1
        rw [t2 (hidx hlm2 l2)]
        cases ht : gc_send llm bdbm_req_type.REQTYPE_GC_WRITE (List.range nr) hlm2 ev1 with
        | none => exact ⟨fun _ _ _ h => (by cases h), rfl⟩
        | some z =>
          obtain ⟨hlm3, ev3⟩ := z
          have l3 := (t1 hlm3 ev3 ht).trans l2
          refine ⟨?_, rfl⟩
          intro p4 hlm4 ev4 h
          simp only [Option.some.injEq, Prod.mk.injEq] at h
          rw [← h.2.1]; exact l3

/-- The part of a pass that erases the victims uses the first `n` requests of
the pool only. -/
theorem gc_erase_phase_pool (llm : llm_inf_t) (p : bdbm_page_ftl_private)
    (hlm extra : List bdbm_llm_req_t) (ev : List gc_event) (n : Nat) (hn : n ≤ hlm.length) :
    gc_erase_phase llm p (hlm ++ extra) ev n
      = (gc_erase_phase llm p hlm ev n).map fun x => (x.1, x.2.1 ++ extra, x.2.2) := by
  unfold gc_erase_phase
  have hidx : ∀ (l : List bdbm_llm_req_t), l.length = hlm.length →
      ∀ i ∈ List.range n, i < l.length := by
    intro l hl i hi
    rw [hl]
    exact Nat.lt_of_lt_of_le (List.mem_range.1 hi) hn
  obtain ⟨b1, b2⟩ := gc_build_erases_pool p extra (List.range n) hlm
  rw [b2 (hidx hlm rfl)]
  cases hb : gc_build_erases p (List.range n) hlm with
  | none => rfl
  | some hlm1 =>
    have l1 := b1 hlm1 hb
    simp only [Option.map_some']
    obtain ⟨s1, s2⟩ :=
      gc_send_pool llm bdbm_req_type.REQTYPE_GC_ERASE extra (List.range n) hlm1 ev
    rw [s2 (hidx hlm1 l1)]
    cases hs : gc_send llm bdbm_req_type.REQTYPE_GC_ERASE (List.range n) hlm1 ev with
    | none => rfl
    | some x =>
      obtain ⟨hlm2, ev2⟩ := x
      have l2 := (s1 hlm2 ev2 hs).trans l1
      simp only [Option.map_some']
      rw [gc_erase_blocks_pool hlm2 extra (List.range n) p ev2 (hidx hlm2 l2)]
      cases gc_erase_blocks hlm2 (List.range n) p ev2 with
      | none => rfl
      | some y => rfl

/-- C27: with a pool of `nr_punits * nr_pages_per_block` requests (and at least
one page per block), a GC pass selects at most `nr_punits` victims and builds at
most `nr_punits * nr_pages_per_block` read/write requests, the pool keeps its
length, and neither `bdbm_page_ftl_do_gc` nor a round of the bad-block scan
looks at or changes anything beyond the pool: with more requests appended to
the pool the result is the same and the appended requests are untouched. -/
theorem gc_pool_never_exceeded (np : nand_params_t) (llm : llm_inf_t)
    (p : bdbm_page_ftl_private) (hlm extra : List bdbm_llm_req_t) (hg : geometry_ok np)
    (hlen : hlm.length = nr_units np * np.nr_pages_per_block) :
    (∀ (bab : List (Option Nat)) (n nr : Nat) (hlm1 : List bdbm_llm_req_t),
      gc_victims np p = some (bab, n) →
      gc_build_reads np { p with gc_bab := bab } (List.range n) hlm 0 = some (hlm1, nr) →
      n ≤ nr_units np ∧ n ≤ nr_units np * np.nr_pages_per_block ∧
      nr ≤ nr_units np * np.nr_pages_per_block ∧
      hlm1.length = nr_units np * np.nr_pages_per_block) ∧
    bdbm_page_ftl_do_gc np llm p (hlm ++ extra)
      = (bdbm_page_ftl_do_gc np llm p hlm).map
          (fun x => (x.1, x.2.1, x.2.2.1 ++ extra, x.2.2.2)) ∧
    (∀ block_no, p.nr_punits = nr_units np →
      __bdbm_page_badblock_scan_eraseblks np llm p (hlm ++ extra) block_no
        = (__bdbm_page_badblock_scan_eraseblks np llm p hlm block_no).map
            (fun x => (x.1, x.2.1 ++ extra, x.2.2))) := by
  obtain ⟨hC, hK, hP, hN, hP64⟩ := hg
  have hNP : nr_units np ≤ nr_units np * np.nr_pages_per_block :=
    Nat.le_mul_of_pos_right _ hP
  have hvict : ∀ (bab : List (Option Nat)) (n : Nat), gc_victims np p = some (bab, n) →
      n ≤ nr_units np := by
    intro bab n hv
    unfold gc_victims at hv
    simp only at hv
    split at hv
    · cases hv
    · have := gc_select_victims_count np p _ _ _ _ _ hv
      rw [punit_pairs_length] at this
      omega
  have hreads : ∀ (bab : List (Option Nat)) (n : Nat), n ≤ nr_units np →
      n * np.nr_pages_per_block ≤ nr_units np * np.nr_pages_per_block :=
    fun _ n hn => Nat.mul_le_mul_right _ hn
  refine ⟨?_, ?_, ?_⟩
  · intro bab n nr hlm1 hv hr
    have hn := hvict bab n hv
    obtain ⟨c1, c2⟩ :=
      (gc_build_reads_pool np { p with gc_bab := bab } extra (List.range n) hlm 0).1 hlm1 nr hr
    rw [List.length_range, Nat.zero_add] at c1
    have := hreads bab n hn
    exact ⟨hn, by omega, by omega, c2.trans hlen⟩
  · unfold bdbm_page_ftl_do_gc
    cases hv : gc_victims np p with
    | none => rfl
    | some x =>
      obtain ⟨bab, n⟩ := x
      have hn := hvict bab n hv
      simp only
      split
      · rfl
      · obtain ⟨r1, r2⟩ :=
          gc_build_reads_pool np { p with gc_bab := bab } extra (List.range n) hlm 0
        have hcap := hreads bab n hn
        rw [r2 (by rw [List.length_range, Nat.zero_add, hlen]; exact hcap)]
        cases hr : gc_build_reads np { p with gc_bab := bab } (List.range n) hlm 0 with
        | none => rfl
        | some y =>
          obtain ⟨hlm1, nr⟩ := y
          obtain ⟨c1, c2⟩ := r1 hlm1 nr hr
          rw [List.length_range, Nat.zero_add] at c1
          simp only [Option.map_some']
          obtain ⟨m1, m2⟩ := gc_move_phase_pool np llm { p with gc_bab := bab } hlm1 extra
            [gc_event.flush] nr (by rw [c2, hlen]; omega)
          rw [m2]
          cases hm : gc_move_phase np llm { p with gc_bab := bab } hlm1 [gc_event.flush] nr with
          | none => rfl
          | some z =>
            obtain ⟨p2, hlm2, ev2⟩ := z
            have l2 := (m1 p2 hlm2 ev2 hm).trans c2
            simp only [Option.map_some']
            rw [gc_erase_phase_pool llm p2 hlm2 extra ev2 n (by rw [l2, hlen]; omega)]
            cases gc_erase_phase llm p2 hlm2 ev2 n with
            | none => rfl
            | some w => rfl
  · intro block_no hpn
    unfold __bdbm_page_badblock_scan_eraseblks
    split
    · rfl
    · simp only
      have hidx : ∀ x ∈ punit_pairs np, u64 (x.1 * np.nr_chips_per_channel + x.2) < hlm.length := by
        intro x hx
        rw [punit_pairs_eq] at hx
        obtain ⟨u, hu, hxu⟩ := List.mem_map.1 hx
        rw [← hxu]
        have hu2 : u < nr_units np := List.mem_range.1 hu
        have e : u / np.nr_chips_per_channel * np.nr_chips_per_channel
            + u % np.nr_chips_per_channel = u := by
          rw [Nat.mul_comm]; exact Nat.div_add_mod u np.nr_chips_per_channel
        simp only
        rw [e, u64_of_lt (by omega), hlen]
        omega
      obtain ⟨b1, b2⟩ := scan_build_erases_pool np block_no extra (punit_pairs np)
        { p with gc_bab := List.replicate p.nr_punits none ++ p.gc_bab.drop p.nr_punits } hlm
      rw [b2 hidx]
      cases hb : scan_build_erases np block_no (punit_pairs np)
          { p with gc_bab := List.replicate p.nr_punits none ++ p.gc_bab.drop p.nr_punits }
          hlm with
      | none => rfl
      | some y =>
        obtain ⟨p1, hlm1⟩ := y
        have l1 := b1 p1 hlm1 hb
        simp only [Option.map_some']
        have hrange : ∀ (l : List bdbm_llm_req_t), l.length = hlm.length →
            ∀ i ∈ List.range p.nr_punits, i < l.length := by
          intro l hl i hi
          rw [hl, hlen]
          have := List.mem_range.1 hi
          omega
        obtain ⟨s1, s2⟩ := gc_send_pool llm bdbm_req_type.REQTYPE_GC_ERASE extra
          (List.range p.nr_punits) hlm1 []
        rw [s2 (hrange hlm1 l1)]
        cases hs : gc_send llm bdbm_req_type.REQTYPE_GC_ERASE (List.range p.nr_punits) hlm1 [] with
        | none => rfl
        | some z =>
          obtain ⟨hlm2, ev2⟩ := z
          have l2 := (s1 hlm2 ev2 hs).trans l1
          simp only [Option.map_some']
          rw [gc_erase_blocks_pool hlm2 extra (List.range p.nr_punits) p1 ev2 (hrange hlm2 l2)]
          cases gc_erase_blocks hlm2 (List.range p.nr_punits) p1 ev2 with
          | none => rfl
          | some w => rfl

/-- C27 on the pass and the scan round on `G_state`, with a pool of
`2 * 2 = 4` requests and one more request appended. -/
theorem gc_pool_never_exceeded_witness :
    (fresh_llm_reqs 4).length = nr_units G_np * G_np.nr_pages_per_block ∧
    bdbm_page_ftl_do_gc G_np G_llm G_state (fresh_llm_reqs 4) = some G_gc ∧
    (∀ (bab : List (Option Nat)) (n nr : Nat) (hlm1 : List bdbm_llm_req_t),
      gc_victims G_np G_state = some (bab, n) →
      gc_build_reads G_np { G_state with gc_bab := bab } (List.range n) (fresh_llm_reqs 4) 0
        = some (hlm1, nr) →
      n ≤ nr_units G_np ∧ n ≤ nr_units G_np * G_np.nr_pages_per_block ∧
      nr ≤ nr_units G_np * G_np.nr_pages_per_block ∧
      hlm1.length = nr_units G_np * G_np.nr_pages_per_block) ∧
    bdbm_page_ftl_do_gc G_np G_llm G_state (fresh_llm_reqs 4 ++ fresh_llm_reqs 1)
      = (bdbm_page_ftl_do_gc G_np G_llm G_state (fresh_llm_reqs 4)).map
          (fun x => (x.1, x.2.1, x.2.2.1 ++ fresh_llm_reqs 1, x.2.2.2)) ∧
    (∀ block_no, G_state.nr_punits = nr_units G_np →
      __bdbm_page_badblock_scan_eraseblks G_np G_llm G_state
          (fresh_llm_reqs 4 ++ fresh_llm_reqs 1) block_no
        = (__bdbm_page_badblock_scan_eraseblks G_np G_llm G_state (fresh_llm_reqs 4)
            block_no).map (fun x => (x.1, x.2.1 ++ fresh_llm_reqs 1, x.2.2))) :=
  ⟨by decide, by decide,
    gc_pool_never_exceeded G_np G_llm G_state (fresh_llm_reqs 4) (fresh_llm_reqs 1) (by decide)
      (by decide)⟩

/-! ## The allocator after `store` -/

/-- The first address handed out by a sequence of calls that holds an
allocation, from a well-formed state whose cursor is not at the last page of
the last unit: the page at the cursor of the active block of the unit of the
cursor. -/
theorem alloc_trace_head (np : nand_params_t) (hg : geometry_ok np) :
    ∀ (ops : List ftl_op) (p : bdbm_page_ftl_private), alloc_ok np p →
      0 < nr_allocs ops →
      ¬ (p.curr_puid + 1 = nr_units np ∧ p.curr_page_ofs + 1 = np.nr_pages_per_block) →
      ∃ (r : Nat) (c : Nat × Nat × Nat),
        p.ac_bab[abm_unit np (p.curr_puid % np.nr_channels) (p.curr_puid / np.nr_channels)]?
          = some (some r) ∧
        (abm_coords p.bai)[r]? = some c ∧
        (alloc_trace np p ops).head?
          = some (p.curr_puid % np.nr_channels, p.curr_puid / np.nr_channels, c.2.2,
              p.curr_page_ofs) := by
  intro ops
  induction ops with
  | nil =>
    intro p _ h _
    simp [nr_allocs] at h
  | cons op ops ih =>
    intro p hok hn hroll
    by_cases hop : is_alloc op = true
    · cases op with
      | get_free_ppa l =>
        obtain ⟨ret, q, out, r, b, hrun, hslot, hb, _, hout, _, _, hret, hiff, _⟩ :=
          get_free_ppa_step np p l zero_ppa hg hok
        have hret0 : ret = 0 := by
          by_contra hne
          exact hroll ⟨(hiff.1 hne).1, (hiff.1 hne).2.1⟩
        subst hret0
        have htr : alloc_trace np p (ftl_op.get_free_ppa l :: ops)
            = ppa_tuple out :: alloc_trace np q ops := by
          simp only [alloc_trace, ftl_step, hrun, Option.map_some', if_true]
        refine ⟨r, blk_coords b, hslot, ?_, ?_⟩
        · unfold abm_coords
          rw [List.getElem?_map, hb]; rfl
        · rw [htr, hout]; rfl
      | get_ppa l => simp [is_alloc] at hop
      | map_lpa_to_ppa l x => simp [is_alloc] at hop
      | invalidate_lpa l len => simp [is_alloc] at hop
    · have hop' : is_alloc op = false := by simpa using hop
      obtain ⟨ret, q, out, hrun, h1, h2, h3, h4, h5, h6, h7, h8⟩ :=
        other_step_frame np p op hop' hok.2.2.2.2.2.1
      have hokq := alloc_ok_of_frame np p q hok h1 h2 h3 h4 h5 h6 h7 h8
      have htr : alloc_trace np p (op :: ops) = alloc_trace np q ops := by
        cases op with
        | get_free_ppa l => simp [is_alloc] at hop
        | get_ppa l => simp only [alloc_trace, hrun]
        | map_lpa_to_ppa l a => simp only [alloc_trace, hrun]
        | invalidate_lpa l len => simp only [alloc_trace, hrun]
      have hn2 : 0 < nr_allocs ops := by
        rw [nr_allocs_cons, if_neg hop] at hn
        omega
      obtain ⟨r, c, g1, g2, g3⟩ := ih q hokq hn2 (by rw [h2, h3]; exact hroll)
      rw [h2, h4] at g1
      rw [h7] at g2
      rw [h2, h3] at g3
      exact ⟨r, c, g1, g2, by rw [htr]; exact g3⟩

/-- C31: on a well-formed state, with fuel for the walk and the mapping file
open, `store` returns with `curr_puid = 0`, `curr_page_ofs = 0` and `ac_bab`
unchanged, whatever the cursor was.  A `get_free_ppa` call made on the state
that `store` leaves writes the address (channel 0, chip 0, block, page 0) of
the block that was the active block of unit 0 before the store; it returns 0
unless the geometry has one unit of one page per block and the unit has no free
block.  If the state before the store was reached, from a well-formed state
with the cursor at (0, 0), by calls that made at least one and fewer than
`N * P` allocations, this address is among the addresses handed out by these
calls. -/
theorem store_rewinds_allocator (np : nand_params_t) (p : bdbm_page_ftl_private) (fuel : Nat)
    (abm_file_ok : Bool) (lpa : Nat) (ppa : bdbm_phyaddr_t)
    (hg : geometry_ok np) (hok : alloc_ok np p)
    (hfuel : nr_units np * np.nr_pages_per_block ≤ fuel) :
    ∃ (ret : Nat) (p1 : bdbm_page_ftl_private) (mfile : Option (List bdbm_page_mapping_entry))
      (afile : Option (List bdbm_abm_record)) (r : Nat) (b : bdbm_abm_block_t) (ret2 : Nat)
      (p2 : bdbm_page_ftl_private) (out : bdbm_phyaddr_t),
      bdbm_page_ftl_store np p fuel true abm_file_ok = some (ret, p1, mfile, afile) ∧
      p1.curr_puid = 0 ∧ p1.curr_page_ofs = 0 ∧ p1.ac_bab = p.ac_bab ∧
      p.ac_bab[0]? = some (some r) ∧ p.bai.blocks[r]? = some b ∧
      b.channel_no = 0 ∧ b.chip_no = 0 ∧
      bdbm_page_ftl_get_free_ppa np p1 lpa ppa = some (ret2, p2, out) ∧
      ppa_tuple out = (0, 0, b.block_no, 0) ∧
      (ret2 ≠ 0 ↔ nr_units np = 1 ∧ np.nr_pages_per_block = 1 ∧ free_list p.bai 0 = []) ∧
      ∀ (p0 : bdbm_page_ftl_private) (ops : List ftl_op), alloc_ok np p0 →
        p0.curr_puid = 0 → p0.curr_page_ofs = 0 → ftl_run np p0 ops = some p →
        0 < nr_allocs ops → nr_allocs ops < nr_units np * np.nr_pages_per_block →
        ppa_tuple out ∈ alloc_trace np p0 ops := by
  have hlen := hok.2.2.2.2.2.1
  have hofs := hok.2.2.1
  have hpu := hok.2.1
  obtain ⟨hC, hK, hP, hN, hP64⟩ := hg
  have hg : geometry_ok np := ⟨hC, hK, hP, hN, hP64⟩
  have hbound : (np.nr_pages_per_block - 1 - p.curr_page_ofs) * nr_units np
      + (nr_units np - p.curr_puid) ≤ fuel := by
    have h1 : (np.nr_pages_per_block - 1 - p.curr_page_ofs + 1) * nr_units np
        ≤ np.nr_pages_per_block * nr_units np := Nat.mul_le_mul_right _ (by omega)
    rw [Nat.succ_mul] at h1
    rw [Nat.mul_comm] at hfuel
    omega
  obtain ⟨p1, hloop, htbl, hbab, hc1, hc2, hnp, e5, e6, e7⟩ :=
    store_loop_spec np hg fuel (np.nr_pages_per_block - 1 - p.curr_page_ofs) p hok
      (by omega) hbound
  have hstore : bdbm_page_ftl_store np p fuel true abm_file_ok
      = some ((bdbm_abm_store p1.bai abm_file_ok).1, p1,
          some (p1.ptr_mapping_table.take np.nr_pages_per_ssd),
          (bdbm_abm_store p1.bai abm_file_ok).2) := by
    unfold bdbm_page_ftl_store
    have hnl : ¬ p1.ptr_mapping_table.length < np.nr_pages_per_ssd := by
      rw [htbl]; omega
    simp only [hloop, hnl, if_false]
    simp
  have hokc : alloc_ok np { p1 with curr_puid := p.curr_puid, curr_page_ofs := p.curr_page_ofs } :=
    alloc_ok_of_frame np p _ hok hnp rfl rfl hbab e5 e6 e7 (by rw [htbl])
  have hok1 : alloc_ok np p1 :=
    ⟨hokc.1, by rw [hc1]; omega, by rw [hc2]; exact hP, hokc.2.2.2⟩
  obtain ⟨ret2, p2, out, r, b1, hget, hslot, hb1, _, hout, hbch, hbchip, _, hiff, _⟩ :=
    get_free_ppa_step np p1 lpa ppa hg hok1
  rw [hc1, hc2] at hout
  rw [hc1] at hslot
  have hz : abm_unit np (0 % np.nr_channels) (0 / np.nr_channels) = 0 := by
    simp [abm_unit]
  rw [hz, hbab] at hslot
  simp only [Nat.zero_mod, Nat.zero_div] at hout
  have hco1 : (abm_coords p.bai)[r]? = some (blk_coords b1) := by
    rw [← e7]
    unfold abm_coords
    rw [List.getElem?_map, hb1]; rfl
  obtain ⟨b, hb, hbc⟩ := coords_block p.bai r _ hco1
  have hbc2 := hbc
  unfold blk_coords at hbc2
  simp only [Prod.mk.injEq] at hbc2
  obtain ⟨k1, k2, k3⟩ := hbc2
  have hch0 : b.channel_no = 0 := by rw [k1, hbch, hout]
  have hchip0 : b.chip_no = 0 := by rw [k2, hbchip, hout]
  have htup : ppa_tuple out = (0, 0, b.block_no, 0) := by
    rw [hout, k3]; rfl
  refine ⟨_, p1, _, _, r, b, ret2, p2, out, hstore, hc1, hc2, hbab, hslot, hb, hch0, hchip0,
    hget, htup, ?_, ?_⟩
  · rw [hiff, hc1, hc2]
    constructor
    · rintro ⟨h1, h2, u, hu, hfl⟩
      have hu0 : u = 0 := by omega
      subst hu0
      refine ⟨by omega, by omega, ?_⟩
      unfold free_list at hfl ⊢
      rw [← e6]; exact hfl
    · rintro ⟨h1, h2, hfl⟩
      refine ⟨by omega, by omega, 0, by omega, ?_⟩
      unfold free_list at hfl ⊢
      rw [e6]; exact hfl
  · intro p0 ops hok0 hp0 ho0 hrun hpos hlt
    obtain ⟨q, hrunq, _, hbabq, hcoq, _⟩ := run_keeps np hg ops p0 hok0
      (by rw [hp0, ho0, Nat.mul_comm np.nr_pages_per_block]; omega)
    rw [hrun] at hrunq
    simp only [Option.some.injEq] at hrunq
    subst hrunq
    have hroll : ¬ (p0.curr_puid + 1 = nr_units np ∧
        p0.curr_page_ofs + 1 = np.nr_pages_per_block) := by
      rintro ⟨h1, h2⟩
      rw [hp0] at h1
      rw [ho0] at h2
      rw [← h1, ← h2] at hlt
      omega
    obtain ⟨r0, c, g1, g2, g3⟩ := alloc_trace_head np hg ops p0 hok0 hpos hroll
    rw [hp0, hz, ← hbabq, hslot] at g1
    simp only [Option.some.injEq] at g1
    subst g1
    rw [← hcoq, hco1] at g2
    simp only [Option.some.injEq] at g2
    subst g2
    rw [hp0, ho0] at g3
    simp only [Nat.zero_mod, Nat.zero_div] at g3
    have hmem := List.mem_of_mem_head? g3
    rw [hout]
    exact hmem

/-- C31 at scenario S1: after eight writes the cursor is at page 2 of unit 0;
`store` rewinds it to (0, 0), and the next `get_free_ppa` returns 0 with the
address (0, 0, 0, 0), which the first write was given and where logical page 0
is still mapped. -/
theorem store_rewinds_allocator_witness :
    S1_written.curr_puid = 0 ∧ S1_written.curr_page_ofs = 2 ∧
    bdbm_page_ftl_store S1_np S1_written 16 true true = some S1_stored ∧
    S1_stored.2.1.curr_puid = 0 ∧ S1_stored.2.1.curr_page_ofs = 0 ∧
    bdbm_page_ftl_get_free_ppa S1_np S1_stored.2.1 8 zero_ppa = some S1_alloc_after_store ∧
    S1_alloc_after_store.1 = 0 ∧ ppa_tuple S1_alloc_after_store.2.2 = (0, 0, 0, 0) ∧
    ftl_run S1_np S1_fresh S1_write_ops = some S1_written ∧
    (0, 0, 0, 0) ∈ alloc_trace S1_np S1_fresh S1_write_ops ∧
    (S1_written.ptr_mapping_table[0]?).map (fun e => (e.status, ppa_tuple e.phyaddr))
      = some (PFTL_PAGE_VALID, (0, 0, 0, 0)) ∧
    ∃ (ret : Nat) (p1 : bdbm_page_ftl_private) (mfile : Option (List bdbm_page_mapping_entry))
      (afile : Option (List bdbm_abm_record)) (r : Nat) (b : bdbm_abm_block_t) (ret2 : Nat)
      (p2 : bdbm_page_ftl_private) (out : bdbm_phyaddr_t),
      bdbm_page_ftl_store S1_np S1_written 16 true true = some (ret, p1, mfile, afile) ∧
      p1.curr_puid = 0 ∧ p1.curr_page_ofs = 0 ∧ p1.ac_bab = S1_written.ac_bab ∧
      S1_written.ac_bab[0]? = some (some r) ∧ S1_written.bai.blocks[r]? = some b ∧
      b.channel_no = 0 ∧ b.chip_no = 0 ∧
      bdbm_page_ftl_get_free_ppa S1_np p1 8 zero_ppa = some (ret2, p2, out) ∧
      ppa_tuple out = (0, 0, b.block_no, 0) ∧
      (ret2 ≠ 0 ↔ nr_units S1_np = 1 ∧ S1_np.nr_pages_per_block = 1 ∧
        free_list S1_written.bai 0 = []) ∧
      ∀ (p0 : bdbm_page_ftl_private) (ops : List ftl_op), alloc_ok S1_np p0 →
        p0.curr_puid = 0 → p0.curr_page_ofs = 0 → ftl_run S1_np p0 ops = some S1_written →
        0 < nr_allocs ops → nr_allocs ops < nr_units S1_np * S1_np.nr_pages_per_block →
        ppa_tuple out ∈ alloc_trace S1_np p0 ops :=
  ⟨by decide, by decide, by decide, by decide, by decide, by decide, by decide, by decide,
    by decide, by decide, by decide,
    store_rewinds_allocator S1_np S1_written 16 true 8 zero_ppa (by decide) S1_written_alloc_ok
      (by decide)⟩

/-! ## Live pages are not INVALID -/

end PageFtl
